import Mathlib

/-!
# ASL compiler: semantic analyzer and code generator

A shallow embedding of the two tree walks of the ASL compiler:

* `Asl.TypeCheck` embeds `practicaCARBALLO/asl/TypeCheckVisitor.cpp`;
* `Asl.CodeGen` embeds `asl/CodeGenVisitor.cpp`.

The parse tree follows the rule contexts of `asl/AslParser.cpp`.  The collaborators
whose sources are not part of the repository snapshot (`common/TypesMgr`,
`common/SymTable`, `common/TreeDecoration`, `common/SemErrors`, `common/code`) are
modelled from the specification; each such definition says so in its doc comment.
-/

namespace Asl

/-! ## Types (`common/TypesMgr`) -/

/-- Modelled from the spec: the type descriptors interned by `common/TypesMgr`
(section 3, "Types").  Interning makes identifier equality structural equality, so a
type is represented by its structure. -/
inductive Ty where
  | error
  | void
  | integer
  | float
  | boolean
  | character
  | array (elem : Ty) (length : Nat)
  | function (params : List Ty) (result : Ty)
  deriving Repr, Inhabited

mutual
/-- Structural comparison of two type descriptors. -/
def Ty.beq : Ty → Ty → Bool
  | .error, .error => true
  | .void, .void => true
  | .integer, .integer => true
  | .float, .float => true
  | .boolean, .boolean => true
  | .character, .character => true
  | .array e n, .array e' n' => Ty.beq e e' && n == n'
  | .function ps r, .function ps' r' => Ty.beqList ps ps' && Ty.beq r r'
  | _, _ => false
/-- Structural comparison of two lists of type descriptors. -/
def Ty.beqList : List Ty → List Ty → Bool
  | [], [] => true
  | a :: as, b :: bs => Ty.beq a b && Ty.beqList as bs
  | _, _ => false
end

namespace TypesMgr

/-- Modelled from the spec: `isErrorTy` of `common/TypesMgr`. -/
def isErrorTy : Ty → Bool
  | .error => true
  | _ => false

/-- Modelled from the spec: `isVoidTy` of `common/TypesMgr`; true on the `Void` variant only. -/
def isVoidTy : Ty → Bool
  | .void => true
  | _ => false

/-- Modelled from the spec: `isIntegerTy` of `common/TypesMgr`. -/
def isIntegerTy : Ty → Bool
  | .integer => true
  | _ => false

/-- Modelled from the spec: `isFloatTy` of `common/TypesMgr`. -/
def isFloatTy : Ty → Bool
  | .float => true
  | _ => false

/-- Modelled from the spec: `isBooleanTy` of `common/TypesMgr`. -/
def isBooleanTy : Ty → Bool
  | .boolean => true
  | _ => false

/-- Modelled from the spec: `isCharacterTy` of `common/TypesMgr`. -/
def isCharacterTy : Ty → Bool
  | .character => true
  | _ => false

/-- Modelled from the spec: `isArrayTy` of `common/TypesMgr`. -/
def isArrayTy : Ty → Bool
  | .array _ _ => true
  | _ => false

/-- Modelled from the spec: `isFunctionTy` of `common/TypesMgr`. -/
def isFunctionTy : Ty → Bool
  | .function _ _ => true
  | _ => false

/-- Modelled from the spec: `isPrimitiveTy` of `common/TypesMgr`;
Primitive = {Integer, Float, Boolean, Character}. -/
def isPrimitiveTy (t : Ty) : Bool :=
  isIntegerTy t || isFloatTy t || isBooleanTy t || isCharacterTy t

/-- Modelled from the spec: `isPrimitiveNonVoidTy` of `common/TypesMgr`;
PrimitiveNonVoid = Primitive. -/
def isPrimitiveNonVoidTy (t : Ty) : Bool := isPrimitiveTy t

/-- Modelled from the spec: `isNumericTy` of `common/TypesMgr`; Numeric = {Integer, Float}. -/
def isNumericTy (t : Ty) : Bool := isIntegerTy t || isFloatTy t

/-- Modelled from the spec: `equalTypes` of `common/TypesMgr` (identifier equality of
interned types, that is structural equality). -/
def equalTypes (a b : Ty) : Bool := Ty.beq a b

/-- Modelled from the spec: `getArraySize` of `common/TypesMgr`; the query is given for
Array types only. -/
def getArraySize : Ty → Option Nat
  | .array _ n => some n
  | _ => none

/-- Modelled from the spec: `getArrayElemType` of `common/TypesMgr`; the query is given
for Array types only. -/
def getArrayElemType : Ty → Option Ty
  | .array e _ => some e
  | _ => none

/-- Modelled from the spec: `getFuncParamsTypes` of `common/TypesMgr`; the query is
given for Function types only. -/
def getFuncParamsTypes : Ty → Option (List Ty)
  | .function ps _ => some ps
  | _ => none

/-- Modelled from the spec: `getFuncReturnType` of `common/TypesMgr`; the query is given
for Function types only. -/
def getFuncReturnType : Ty → Option Ty
  | .function _ r => some r
  | _ => none

/-- Modelled from the spec: `getNumOfParameters` of `common/TypesMgr`; the query is
given for Function types only. -/
def getNumOfParameters : Ty → Option Nat
  | .function ps _ => some ps.length
  | _ => none

/-- Modelled from the spec: `isVoidFunction` of `common/TypesMgr`; a Function type whose
result is Void. -/
def isVoidFunction : Ty → Bool
  | .function _ r => isVoidTy r
  | _ => false

/-- Modelled from the spec: `getSizeOfType` of `common/TypesMgr`
(Primitive = 1, Array = length, Function = 1, Void = 0, Error = 0). -/
def getSizeOfType : Ty → Nat
  | .error => 0
  | .void => 0
  | .array _ n => n
  | _ => 1

/-- Modelled from the spec: `copyableTypes(dst, src)` of `common/TypesMgr`: the types are
equal, or dst is Float and src is Integer, or both are Arrays with equal length and
equal element type. -/
def copyableTypes (dst src : Ty) : Bool :=
  equalTypes dst src || (isFloatTy dst && isIntegerTy src) ||
  (match dst, src with
   | .array e n, .array e' n' => n == n' && equalTypes e e'
   | _, _ => false)

/-- Modelled from the spec: `comparableTypes(a, b, op)` of `common/TypesMgr`.  For `==`
and `!=`: both Primitive and equal, or one Integer and the other Float, or both
Boolean, or both Character; for the order operators: both Numeric. -/
def comparableTypes (a b : Ty) (op : String) : Bool :=
  if op = "==" ∨ op = "!=" then
    (isPrimitiveTy a && isPrimitiveTy b && equalTypes a b) ||
    (isIntegerTy a && isFloatTy b) || (isFloatTy a && isIntegerTy b) ||
    (isBooleanTy a && isBooleanTy b) || (isCharacterTy a && isCharacterTy b)
  else
    isNumericTy a && isNumericTy b

end TypesMgr

/-! ## Symbol table (`common/SymTable`) -/

/-- Modelled from the spec: the kind of a symbol entry of `common/SymTable`. -/
inductive SymClass where
  | variable
  | parameter
  | function
  deriving Repr, DecidableEq, Inhabited

/-- Modelled from the spec: an entry of a scope of `common/SymTable`. -/
structure SymEntry where
  name : String
  cls : SymClass
  ty : Ty
  deriving Repr, Inhabited

/-- Modelled from the spec: a scope of `common/SymTable`, an ordered mapping from
identifiers to entries (insertion order preserved). -/
abbrev Scope := List SymEntry

/-- Modelled from the spec: `common/SymTable`, a stack of scopes (innermost first)
with the current-function type. -/
structure SymTable where
  stack : List Scope
  currentFunctionTy : Ty
  deriving Repr, Inhabited

namespace SymTable

/-- Modelled from the spec: lookup of a name in one scope. -/
def findInScope (sc : Scope) (ident : String) : Option SymEntry :=
  sc.find? (fun en => en.name == ident)

/-- Modelled from the spec: lookup through a list of scopes, innermost first. -/
def findInScopes : List Scope → String → Option SymEntry
  | [], _ => none
  | sc :: rest, ident =>
    match findInScope sc ident with
    | some en => some en
    | none => findInScopes rest ident

/-- Modelled from the spec: `findInStack` of `common/SymTable`; the entry of the
innermost scope that binds the name, or none. -/
def findInStack (S : SymTable) (ident : String) : Option SymEntry :=
  findInScopes S.stack ident

/-- Modelled from the spec: `getType` of `common/SymTable`; defined for bound names. -/
def getType (S : SymTable) (ident : String) : Option Ty :=
  (S.findInStack ident).map (fun en => en.ty)

/-- Modelled from the spec: `isFunctionClass` of `common/SymTable`. -/
def isFunctionClass (S : SymTable) (ident : String) : Bool :=
  match S.findInStack ident with
  | some en => en.cls == SymClass.function
  | none => false

/-- Modelled from the spec: `isLocalVarClass` of `common/SymTable`; the innermost
binding of the name is a Variable entry (not Parameter, not Function). -/
def isLocalVarClass (S : SymTable) (ident : String) : Bool :=
  match S.findInStack ident with
  | some en => en.cls == SymClass.variable
  | none => false

/-- Modelled from the spec: `pushThisScope` of `common/SymTable`; activates a scope
computed by the symbol-collection pass. -/
def pushThisScope (S : SymTable) (sc : Scope) : SymTable :=
  { S with stack := sc :: S.stack }

/-- Modelled from the spec: `popScope` of `common/SymTable`. -/
def popScope (S : SymTable) : SymTable :=
  { S with stack := S.stack.tail }

/-- Modelled from the spec: `setCurrentFunctionTy` of `common/SymTable`. -/
def setCurrentFunctionTy (S : SymTable) (t : Ty) : SymTable :=
  { S with currentFunctionTy := t }

/-- Modelled from the spec: `getCurrentFunctionTy` of `common/SymTable`. -/
def getCurrentFunctionTy (S : SymTable) : Ty := S.currentFunctionTy

end SymTable

/-! ## Parse tree (`asl/AslParser.cpp`) -/

/-- The operator token of an `ArithmeticContext` (`MUL`, `DIV`, `MOD`, `PLUS`, `MIN`). -/
inductive ArithOp where
  | MUL | DIV | MOD | PLUS | MIN
  deriving Repr, DecidableEq, Inhabited

/-- The operator token of a `RelationalContext`. -/
inductive RelOp where
  | EQUAL | NEQ | GT | LT | GTE | LTE
  deriving Repr, DecidableEq, Inhabited

/-- The operator token of a `UnaryContext` (`NOT`, `PLUS`, `MIN`). -/
inductive UnaryOp where
  | NOT | PLUS | MIN
  deriving Repr, DecidableEq, Inhabited

/-- The operator token of a `LogicalContext` (`AND`, `OR`). -/
inductive LogicalOp where
  | AND | OR
  deriving Repr, DecidableEq, Inhabited

/-- The token class of a `ValueContext`. -/
inductive ValueKind where
  | INTVAL | FLOATVAL | BOOLVAL | CHARVAL
  deriving Repr, DecidableEq, Inhabited

/-- The text of a relational operator token (`_literalNames` of the parser). -/
def RelOp.getText : RelOp → String
  | .EQUAL => "=="
  | .NEQ => "!="
  | .GT => ">"
  | .LT => "<"
  | .GTE => ">="
  | .LTE => "<="

/-- The text of an arithmetic operator token. -/
def ArithOp.getText : ArithOp → String
  | .MUL => "*"
  | .DIV => "/"
  | .MOD => "%"
  | .PLUS => "+"
  | .MIN => "-"

/-- The text of a unary operator token. -/
def UnaryOp.getText : UnaryOp → String
  | .NOT => "not"
  | .PLUS => "+"
  | .MIN => "-"

/-- The text of a logical operator token. -/
def LogicalOp.getText : LogicalOp → String
  | .AND => "and"
  | .OR => "or"

/-- The alternatives of rule `expr`; an `ident` child is given by the text of its `ID`. -/
inductive Expr where
  | parenthesis (e : Expr)
  | array (ident : String) (index : Expr)
  | unary (op : UnaryOp) (e : Expr)
  | value (kind : ValueKind) (text : String)
  | callFunc (ident : String) (args : List Expr)
  | exprIdent (ident : String)
  | arithmetic (op : ArithOp) (e0 e1 : Expr)
  | relational (op : RelOp) (e0 e1 : Expr)
  | logical (op : LogicalOp) (e0 e1 : Expr)
  deriving Repr, Inhabited

/-- Rule `left_expr`: `ident ('[' expr ']')?`. -/
structure LeftExpr where
  ident : String
  expr : Option Expr
  deriving Repr, Inhabited

/-- Rule `basic_type`. -/
inductive BasicType where
  | INT | FLOAT | BOOL | CHAR
  deriving Repr, DecidableEq, Inhabited

/-- Rule `type`: `array_type | basic_type`, with `array_type` =
`'array' '[' INTVAL '] of' basic_type`. -/
inductive TypeNode where
  | basic (b : BasicType)
  | array (size : Nat) (b : BasicType)
  deriving Repr, DecidableEq, Inhabited

/-- Modelled from the spec: the type decoration that the symbol-collection pass puts
on a `basic_type` node. -/
def BasicType.toTy : BasicType → Ty
  | .INT => Ty.integer
  | .FLOAT => Ty.float
  | .BOOL => Ty.boolean
  | .CHAR => Ty.character

/-- Modelled from the spec: the type decoration that the symbol-collection pass puts
on a `type` node. -/
def TypeNode.toTy : TypeNode → Ty
  | .basic b => b.toTy
  | .array n b => Ty.array b.toTy n

/-! ## Semantic analyzer (`practicaCARBALLO/asl/TypeCheckVisitor.cpp`) -/

namespace TypeCheck

/-- The alternatives of rule `statement` as the analyzer reads them: it reaches the
children through `left_expr()`, `expr()`, `expr(i)`, `ident()`, `statements()`,
`ASSIGN()` and `RETURN()`; `visitIfStmt` reads one `statements()` child. -/
inductive Stmt where
  | assignStmt (left_expr : LeftExpr) (expr : Expr)
  | ifStmt (expr : Expr) (statements : List Stmt)
  | procCall (ident : String) (args : List Expr)
  | readStmt (left_expr : LeftExpr)
  | writeExpr (expr : Expr)
  | writeString (text : String)
  | whileStmt (expr : Expr) (statements : List Stmt)
  | returnStmt (expr : Option Expr)
  deriving Repr, Inhabited

/-- A parse-tree node or token, as handed to the decoration table and to the error
sink.  A node is identified by the subtree it roots. -/
inductive Node where
  | program
  | statement (s : Stmt)
  | left_expr (l : LeftExpr)
  | expr (e : Expr)
  | ident (id : String)
  | token (text : String)
  deriving Repr, Inhabited

/-- Modelled from the spec: the diagnostics of `common/SemErrors`, one constructor per
reporting method called by the analyzer, with the arguments of the call. -/
inductive SemError where
  | noMainProperlyDeclared (n : Node)
  | incompatibleAssignment (n : Node)
  | booleanRequired (n : Node)
  | isNotCallable (n : Node)
  | numberOfParameters (n : Node)
  | incompatibleParameter (n : Node) (i : Nat) (call : Node)
  | readWriteRequireBasic (n : Node)
  | nonReferenceableExpression (n : Node)
  | nonReferenceableLeftExpr (n : Node)
  | incompatibleReturn (n : Node)
  | nonIntegerIndexInArrayAccess (n : Node)
  | nonArrayInArrayAccess (n : Node)
  | incompatibleOperator (n : Node)
  | isNotFunction (n : Node)
  | undeclaredIdent (n : Node)
  deriving Repr, Inhabited

/-- Modelled from the spec: a write to the side table of `common/TreeDecoration`. -/
inductive Decor where
  | putType (n : Node) (t : Ty)
  | putIsLValue (n : Node) (b : Bool)
  deriving Repr, Inhabited

/-- The effect of visiting an expression, a left expression or an identifier: the two
decorations left on the node, the diagnostics pushed to the sink and the writes to
the decoration table, both in order of emission. -/
structure Attr where
  ty : Ty
  isLValue : Bool
  errors : List SemError
  decor : List Decor
  deriving Repr, Inhabited

/-- The effect of visiting a statement: diagnostics and decoration writes. -/
structure Effect where
  errors : List SemError
  decor : List Decor
  deriving Repr, Inhabited

/-- Embedding of `TypeCheckVisitor::visitIdent`. -/
def visitIdent (S : SymTable) (ident : String) : Attr :=
  match S.findInStack ident with
  | none =>
    { ty := Ty.error, isLValue := true,
      errors := [SemError.undeclaredIdent (Node.token ident)],
      decor := [Decor.putType (Node.ident ident) Ty.error,
                Decor.putIsLValue (Node.ident ident) true] }
  | some en =>
    let t1 := en.ty
    let b := !(S.isFunctionClass ident)
    { ty := t1, isLValue := b, errors := [],
      decor := [Decor.putType (Node.ident ident) t1,
                Decor.putIsLValue (Node.ident ident) b] }

/-- The diagnostics that `TypeCheckVisitor::visitUnary` reports itself, for an operand
of type `t`. -/
def unaryCheck (op : UnaryOp) (operand : Expr) (t : Ty) : List SemError :=
  match op with
  | .NOT =>
    if !(TypesMgr.isErrorTy t) && !(TypesMgr.isBooleanTy t) then
      [SemError.booleanRequired (Node.expr operand)] else []
  | _ =>
    if !(TypesMgr.isErrorTy t) && !(TypesMgr.isNumericTy t) then
      [SemError.incompatibleOperator (Node.token op.getText)] else []

/-- The check and decoration part of `TypeCheckVisitor::visitUnary`, after the operand
has been visited. -/
def unary (ctx : Expr) (op : UnaryOp) (operand : Expr) (a : Attr) : Attr :=
  let t := a.ty
  { ty := t, isLValue := false, errors := a.errors ++ unaryCheck op operand t,
    decor := a.decor ++ [Decor.putType (Node.expr ctx) t,
                         Decor.putIsLValue (Node.expr ctx) false] }

/-- The diagnostics that `TypeCheckVisitor::visitArithmetic` reports itself, for
operands of types `t1` and `t2`. -/
def arithmeticCheck (op : ArithOp) (t1 t2 : Ty) : List SemError :=
  match op with
  | .MOD =>
    if (!(TypesMgr.isErrorTy t1) && !(TypesMgr.isIntegerTy t1)) ||
       (!(TypesMgr.isErrorTy t2) && !(TypesMgr.isIntegerTy t2)) then
      [SemError.incompatibleOperator (Node.token op.getText)] else []
  | _ =>
    if (!(TypesMgr.isErrorTy t1) && !(TypesMgr.isNumericTy t1)) ||
       (!(TypesMgr.isErrorTy t2) && !(TypesMgr.isNumericTy t2)) then
      [SemError.incompatibleOperator (Node.token op.getText)] else []

/-- The check and decoration part of `TypeCheckVisitor::visitArithmetic`, after both
operands have been visited. -/
def arithmetic (ctx : Expr) (op : ArithOp) (a0 a1 : Attr) : Attr :=
  let t1 := a0.ty
  let t2 := a1.ty
  let t :=
    match op with
    | .MOD => Ty.integer
    | _ => if TypesMgr.isFloatTy t1 || TypesMgr.isFloatTy t2 then Ty.float else Ty.integer
  { ty := t, isLValue := false, errors := a0.errors ++ a1.errors ++ arithmeticCheck op t1 t2,
    decor := a0.decor ++ a1.decor ++ [Decor.putType (Node.expr ctx) t,
                                      Decor.putIsLValue (Node.expr ctx) false] }

/-- The diagnostics that `TypeCheckVisitor::visitRelational` reports itself, for
operands of types `t1` and `t2`. -/
def relationalCheck (op : RelOp) (t1 t2 : Ty) : List SemError :=
  let oper := op.getText
  if !(TypesMgr.isErrorTy t1) && !(TypesMgr.isErrorTy t2) &&
     !(TypesMgr.comparableTypes t1 t2 oper) then
    [SemError.incompatibleOperator (Node.token oper)] else []

/-- The check and decoration part of `TypeCheckVisitor::visitRelational`. -/
def relational (ctx : Expr) (op : RelOp) (a0 a1 : Attr) : Attr :=
  let t1 := a0.ty
  let t2 := a1.ty
  { ty := Ty.boolean, isLValue := false,
    errors := a0.errors ++ a1.errors ++ relationalCheck op t1 t2,
    decor := a0.decor ++ a1.decor ++ [Decor.putType (Node.expr ctx) Ty.boolean,
                                      Decor.putIsLValue (Node.expr ctx) false] }

/-- The diagnostics that `TypeCheckVisitor::visitLogical` reports itself, for operands
of types `t1` and `t2`. -/
def logicalCheck (op : LogicalOp) (t1 t2 : Ty) : List SemError :=
  if (!(TypesMgr.isErrorTy t1) && !(TypesMgr.isErrorTy t2)) &&
     (!(TypesMgr.isBooleanTy t1) || !(TypesMgr.isBooleanTy t2)) then
    [SemError.incompatibleOperator (Node.token op.getText)] else []

/-- The check and decoration part of `TypeCheckVisitor::visitLogical`. -/
def logical (ctx : Expr) (op : LogicalOp) (a0 a1 : Attr) : Attr :=
  let t1 := a0.ty
  let t2 := a1.ty
  { ty := Ty.boolean, isLValue := false,
    errors := a0.errors ++ a1.errors ++ logicalCheck op t1 t2,
    decor := a0.decor ++ a1.decor ++ [Decor.putType (Node.expr ctx) Ty.boolean,
                                      Decor.putIsLValue (Node.expr ctx) false] }

/-- Embedding of `TypeCheckVisitor::visitValue`. -/
def visitValue (ctx : Expr) (kind : ValueKind) : Attr :=
  let t :=
    match kind with
    | .INTVAL => Ty.integer
    | .FLOATVAL => Ty.float
    | .CHARVAL => Ty.character
    | .BOOLVAL => Ty.boolean
  { ty := t, isLValue := false, errors := [],
    decor := [Decor.putType (Node.expr ctx) t, Decor.putIsLValue (Node.expr ctx) false] }

/-- The check and decoration part of `TypeCheckVisitor::visitArray`, after the
identifier and the index have been visited.  It fails only where `getArrayElemType`
is not given. -/
def array (ctx : Expr) (index : Expr) (ai a1 : Attr) : Option Attr :=
  let t1 := ai.ty
  let t2 := a1.ty
  let e2 :=
    if !(TypesMgr.isErrorTy t2) && !(TypesMgr.isIntegerTy t2) then
      [SemError.nonIntegerIndexInArrayAccess (Node.expr index)] else []
  let b := ai.isLValue
  let fin := fun (t : Ty) (e1 : List SemError) =>
    ({ ty := t, isLValue := b, errors := ai.errors ++ a1.errors ++ e1 ++ e2,
       decor := ai.decor ++ a1.decor ++ [Decor.putType (Node.expr ctx) t,
                                         Decor.putIsLValue (Node.expr ctx) b] } : Attr)
  if !(TypesMgr.isErrorTy t1) then
    if !(TypesMgr.isArrayTy t1) then
      some (fin Ty.error [SemError.nonArrayInArrayAccess (Node.expr ctx)])
    else
      (TypesMgr.getArrayElemType t1).map (fun t => fin t [])
  else some (fin Ty.error [])

/-- The per-argument check of the parameter loops of `visitCallFunc` and
`visitProcCall`: argument number `i` (from 0) of type `t2` against the declared
parameter type `p`. -/
def paramCheck (call : Node) (arg : Expr) (i : Nat) (p t2 : Ty) : List SemError :=
  if !(TypesMgr.isErrorTy t2) && !(TypesMgr.equalTypes t2 p) then
    if !(TypesMgr.isFloatTy p && TypesMgr.isIntegerTy t2) then
      [SemError.incompatibleParameter (Node.expr arg) (i + 1) call] else []
  else []

mutual
/-- Embedding of the expression visitors of `TypeCheckVisitor` (`visitParenthesis`,
`visitArray`, `visitUnary`, `visitValue`, `visitCallFunc`, `visitExprIdent`,
`visitArithmetic`, `visitRelational`, `visitLogical`).  The result is `none` where
the analyzer applies a `TypesMgr` query outside the types it is given for. -/
def visitExpr (S : SymTable) : Expr → Option Attr
  | .parenthesis e => do
    let a ← visitExpr S e
    pure { ty := a.ty, isLValue := false, errors := a.errors,
           decor := a.decor ++ [Decor.putType (Node.expr (.parenthesis e)) a.ty,
                                Decor.putIsLValue (Node.expr (.parenthesis e)) false] }
  | .array ident index => do
    let ai := visitIdent S ident
    let a1 ← visitExpr S index
    array (.array ident index) index ai a1
  | .unary op e => do
    let a ← visitExpr S e
    pure (unary (.unary op e) op e a)
  | .value kind text => some (visitValue (.value kind text) kind)
  | .callFunc ident args =>
    let ai := visitIdent S ident
    let t1 := ai.ty
    let ctx := Expr.callFunc ident args
    let fin := fun (t : Ty) (errs : List SemError) (dec : List Decor) =>
      ({ ty := t, isLValue := false, errors := ai.errors ++ errs,
         decor := ai.decor ++ dec ++ [Decor.putType (Node.expr ctx) t,
                                      Decor.putIsLValue (Node.expr ctx) false] } : Attr)
    if !(TypesMgr.isErrorTy t1) && !(TypesMgr.isFunctionTy t1) then
      some (fin Ty.error [SemError.isNotCallable (Node.ident ident)] [])
    else do
      let tr ← TypesMgr.getFuncReturnType t1
      let ev := if TypesMgr.isVoidFunction t1 then [SemError.isNotFunction (Node.ident ident)] else []
      let t := if TypesMgr.isVoidFunction t1 then Ty.error else tr
      let sizePar ← TypesMgr.getNumOfParameters t1
      if args.length ≠ sizePar then
        pure (fin t (ev ++ [SemError.numberOfParameters (Node.ident ident)]) [])
      else do
        let lParamsTy ← TypesMgr.getFuncParamsTypes t1
        let r ← visitCallFuncArgs S (Node.expr ctx) 0 lParamsTy args
        pure (fin t (ev ++ r.errors) r.decor)
  | .exprIdent ident =>
    let ai := visitIdent S ident
    some { ty := ai.ty, isLValue := ai.isLValue, errors := ai.errors,
           decor := ai.decor ++ [Decor.putType (Node.expr (.exprIdent ident)) ai.ty,
                                 Decor.putIsLValue (Node.expr (.exprIdent ident)) ai.isLValue] }
  | .arithmetic op e0 e1 => do
    let a0 ← visitExpr S e0
    let a1 ← visitExpr S e1
    pure (arithmetic (.arithmetic op e0 e1) op a0 a1)
  | .relational op e0 e1 => do
    let a0 ← visitExpr S e0
    let a1 ← visitExpr S e1
    pure (relational (.relational op e0 e1) op a0 a1)
  | .logical op e0 e1 => do
    let a0 ← visitExpr S e0
    let a1 ← visitExpr S e1
    pure (logical (.logical op e0 e1) op a0 a1)
/-- The parameter loop of `TypeCheckVisitor::visitCallFunc`: for each declared
parameter type, from index `i`, visit the argument and check it. -/
def visitCallFuncArgs (S : SymTable) (call : Node) (i : Nat) :
    List Ty → List Expr → Option Effect
  | [], _ => some { errors := [], decor := [] }
  | _ :: _, [] => none
  | p :: ps, e :: es => do
    let a ← visitExpr S e
    let r ← visitCallFuncArgs S call (i + 1) ps es
    pure { errors := a.errors ++ paramCheck call e i p a.ty ++ r.errors,
           decor := a.decor ++ r.decor }
end

/-- Embedding of `getTypeDecor` on an expression node: the type that the analyzer
put on the node. -/
def getTypeDecor (S : SymTable) (e : Expr) : Option Ty :=
  (visitExpr S e).map (fun a => a.ty)

/-- Embedding of `TypeCheckVisitor::visitLeft_expr`. -/
def visitLeft_expr (S : SymTable) (ctx : LeftExpr) : Option Attr :=
  let ai := visitIdent S ctx.ident
  let t1 := ai.ty
  let b := ai.isLValue
  let fin := fun (t : Ty) (b : Bool) (errs : List SemError) (dec : List Decor) =>
    ({ ty := t, isLValue := b, errors := ai.errors ++ errs,
       decor := ai.decor ++ dec ++ [Decor.putIsLValue (Node.left_expr ctx) b,
                                    Decor.putType (Node.left_expr ctx) t] } : Attr)
  if !(TypesMgr.isErrorTy t1) then
    match ctx.expr with
    | some index => do
      let a1 ← visitExpr S index
      let t2 := a1.ty
      let bad := !(TypesMgr.isErrorTy t2) && !(TypesMgr.isIntegerTy t2)
      let e2 := if bad then [SemError.nonIntegerIndexInArrayAccess (Node.expr index)] else []
      let b := if bad then false else b
      if !(TypesMgr.isArrayTy t1) then
        pure (fin Ty.error false
          (a1.errors ++ e2 ++ [SemError.nonArrayInArrayAccess (Node.left_expr ctx)]) a1.decor)
      else do
        let tElem ← TypesMgr.getArrayElemType t1
        pure (fin tElem b (a1.errors ++ e2) a1.decor)
    | none => some (fin t1 b [] [])
  else some (fin t1 b [] [])

/-- The visits of `for (i ...) visit(ctx->expr(i))` in `TypeCheckVisitor::visitProcCall`:
the attributes of the arguments, in order. -/
def visitArgs (S : SymTable) : List Expr → Option (List Attr)
  | [] => some []
  | e :: es => do
    let a ← visitExpr S e
    let r ← visitArgs S es
    pure (a :: r)

/-- The parameter loop of `TypeCheckVisitor::visitProcCall`: for each declared
parameter type, from index `i`, check the already visited argument. -/
def procCallChecks (call : Node) (i : Nat) : List Ty → List Expr → List Attr → List SemError
  | p :: ps, e :: es, a :: r => paramCheck call e i p a.ty ++ procCallChecks call (i + 1) ps es r
  | _, _, _ => []

/-- The check part of `TypeCheckVisitor::visitReturnStmt` when an expression is
present, after the expression has been visited. -/
def returnChecks (tFunc tRet : Ty) : List SemError :=
  if !(TypesMgr.isErrorTy tRet) && TypesMgr.equalTypes Ty.void tFunc then
    [SemError.incompatibleReturn (Node.token "return")]
  else if !(TypesMgr.isErrorTy tRet) && !(TypesMgr.isPrimitiveNonVoidTy tRet) then
    [SemError.incompatibleReturn (Node.token "return")]
  else if !(TypesMgr.isErrorTy tRet) && !(TypesMgr.equalTypes tRet tFunc) then
    if !(TypesMgr.equalTypes Ty.float tFunc && TypesMgr.equalTypes Ty.integer tRet) then
      [SemError.incompatibleReturn (Node.token "return")] else []
  else []

mutual
/-- Embedding of the statement visitors of `TypeCheckVisitor` (`visitAssignStmt`,
`visitIfStmt`, `visitProcCall`, `visitReadStmt`, `visitWriteExpr`, `visitWhileStmt`,
`visitReturnStmt`; a write of a string has no visitor of its own and no expression
child). -/
def visitStmt (S : SymTable) : Stmt → Option Effect
  | .assignStmt left_expr expr => do
    let a1 ← visitLeft_expr S left_expr
    let a2 ← visitExpr S expr
    let t1 := a1.ty
    let t2 := a2.ty
    let e1 :=
      if !(TypesMgr.isErrorTy t1) && !(TypesMgr.isErrorTy t2) &&
         !(TypesMgr.copyableTypes t1 t2) then
        [SemError.incompatibleAssignment (Node.token "=")] else []
    let e2 :=
      if !(TypesMgr.isErrorTy t1) && !a1.isLValue then
        [SemError.nonReferenceableLeftExpr (Node.left_expr left_expr)] else []
    pure { errors := a1.errors ++ a2.errors ++ e1 ++ e2, decor := a1.decor ++ a2.decor }
  | .ifStmt expr statements => do
    let a ← visitExpr S expr
    let t1 := a.ty
    let e1 :=
      if !(TypesMgr.isErrorTy t1) && !(TypesMgr.isBooleanTy t1) then
        [SemError.booleanRequired (Node.statement (.ifStmt expr statements))] else []
    let r ← visitStatements S statements
    pure { errors := a.errors ++ e1 ++ r.errors, decor := a.decor ++ r.decor }
  | .procCall ident args =>
    let ai := visitIdent S ident
    let t1 := ai.ty
    let ctx := Node.statement (.procCall ident args)
    if !(TypesMgr.isErrorTy t1) && !(TypesMgr.isFunctionTy t1) then
      some { errors := ai.errors ++ [SemError.isNotCallable (Node.ident ident)],
             decor := ai.decor }
    else if !(TypesMgr.isErrorTy t1) then do
      let as ← visitArgs S args
      let errsArgs := (as.map (fun a => a.errors)).flatten
      let decArgs := (as.map (fun a => a.decor)).flatten
      let sizePar ← TypesMgr.getNumOfParameters t1
      if args.length ≠ sizePar then
        pure { errors := ai.errors ++ errsArgs ++ [SemError.numberOfParameters (Node.ident ident)],
               decor := ai.decor ++ decArgs }
      else do
        let lParamsTy ← TypesMgr.getFuncParamsTypes t1
        pure { errors := ai.errors ++ errsArgs ++ procCallChecks ctx 0 lParamsTy args as,
               decor := ai.decor ++ decArgs }
    else some { errors := ai.errors, decor := ai.decor }
  | .readStmt left_expr => do
    let a ← visitLeft_expr S left_expr
    let t1 := a.ty
    let ctx := Node.statement (.readStmt left_expr)
    let e1 :=
      if !(TypesMgr.isErrorTy t1) && !(TypesMgr.isPrimitiveTy t1) &&
         !(TypesMgr.isFunctionTy t1) then
        [SemError.readWriteRequireBasic ctx] else []
    let e2 :=
      if !(TypesMgr.isErrorTy t1) && !a.isLValue then
        [SemError.nonReferenceableExpression ctx] else []
    pure { errors := a.errors ++ e1 ++ e2, decor := a.decor }
  | .writeExpr expr => do
    let a ← visitExpr S expr
    let t1 := a.ty
    let e1 :=
      if !(TypesMgr.isErrorTy t1) && !(TypesMgr.isPrimitiveTy t1) then
        [SemError.readWriteRequireBasic (Node.statement (.writeExpr expr))] else []
    pure { errors := a.errors ++ e1, decor := a.decor }
  | .writeString _ => some { errors := [], decor := [] }
  | .whileStmt expr statements => do
    let a ← visitExpr S expr
    let t := a.ty
    let e1 :=
      if !(TypesMgr.isErrorTy t) && !(TypesMgr.isBooleanTy t) then
        [SemError.booleanRequired (Node.statement (.whileStmt expr statements))] else []
    let r ← visitStatements S statements
    pure { errors := a.errors ++ e1 ++ r.errors, decor := a.decor ++ r.decor }
  | .returnStmt (some expr) => do
    let tFunc := S.getCurrentFunctionTy
    let a ← visitExpr S expr
    pure { errors := a.errors ++ returnChecks tFunc a.ty, decor := a.decor }
  | .returnStmt none =>
    let tFunc := S.getCurrentFunctionTy
    some { errors :=
             if !(TypesMgr.equalTypes Ty.void tFunc) then
               [SemError.incompatibleReturn (Node.token "return")] else [],
           decor := [] }
/-- Embedding of `TypeCheckVisitor::visitStatements`: the statements in order. -/
def visitStatements (S : SymTable) : List Stmt → Option Effect
  | [] => some { errors := [], decor := [] }
  | s :: ss => do
    let r ← visitStmt S s
    let rs ← visitStatements S ss
    pure { errors := r.errors ++ rs.errors, decor := r.decor ++ rs.decor }
end

end TypeCheck

/-! ## Functions and programs -/

/-- Rule `function` over statements of type `σ`:
`'func' ID '(' parameters? ')' (':' basic_type)? declarations statements 'endfunc'`. -/
structure FunctionNode (σ : Type) where
  ID : String
  parameters : List (String × TypeNode)
  basic_type : Option BasicType
  declarations : List (List String × TypeNode)
  statements : List σ
  deriving Repr, Inhabited

/-- Modelled from the spec: the type that the symbol-collection pass gives to a
function (parameter types in order, declared result type or Void). -/
def FunctionNode.funcTy {σ : Type} (f : FunctionNode σ) : Ty :=
  Ty.function (f.parameters.map (fun p => p.2.toTy))
    (match f.basic_type with
     | some b => b.toTy
     | none => Ty.void)

/-- Modelled from the spec: the scope that the symbol-collection pass attaches to a
function node: its parameters, then its local variables, in source order. -/
def FunctionNode.scope {σ : Type} (f : FunctionNode σ) : Scope :=
  f.parameters.map (fun p => { name := p.1, cls := SymClass.parameter, ty := p.2.toTy }) ++
  (f.declarations.map (fun d =>
    d.1.map (fun v => ({ name := v, cls := SymClass.variable, ty := d.2.toTy } : SymEntry)))).flatten

/-- Modelled from the spec: the global scope that the symbol-collection pass attaches
to the program node: one Function entry per function. -/
def globalScope {σ : Type} (p : List (FunctionNode σ)) : Scope :=
  p.map (fun f => { name := f.ID, cls := SymClass.function, ty := f.funcTy })

/-- Modelled from the spec: `noMainProperlyDeclared` of `common/SymTable`; true iff the
global scope lacks a Function entry `main` with no parameters and Void result. -/
def SymTable.noMainProperlyDeclared (S : SymTable) : Bool :=
  match S.findInStack "main" with
  | some en =>
    !(en.cls == SymClass.function &&
      (match en.ty with
       | .function [] .void => true
       | _ => false))
  | none => true

namespace TypeCheck

/-- Embedding of `TypeCheckVisitor::visitFunction`: the effect of the visit and the
symbol table it leaves. -/
def visitFunction (S : SymTable) (ctx : FunctionNode Stmt) : Option (Effect × SymTable) :=
  let t1 :=
    match ctx.basic_type with
    | some b => b.toTy
    | none => Ty.void
  let S1 := S.setCurrentFunctionTy t1
  let S2 := S1.pushThisScope ctx.scope
  match visitStatements S2 ctx.statements with
  | some r => some (r, S2.popScope)
  | none => none

/-- The loop over the functions of `TypeCheckVisitor::visitProgram`. -/
def visitFunctions (S : SymTable) : List (FunctionNode Stmt) → Option (Effect × SymTable)
  | [] => some ({ errors := [], decor := [] }, S)
  | f :: fs =>
    match visitFunction S f with
    | some (r, S1) =>
      match visitFunctions S1 fs with
      | some (rs, S2) =>
        some ({ errors := r.errors ++ rs.errors, decor := r.decor ++ rs.decor }, S2)
      | none => none
    | none => none

/-- Embedding of `TypeCheckVisitor::visitProgram`. -/
def visitProgram (S : SymTable) (ctx : List (FunctionNode Stmt)) : Option (Effect × SymTable) :=
  let S1 := S.pushThisScope (globalScope ctx)
  match visitFunctions S1 ctx with
  | some (r, S2) =>
    let e := if S2.noMainProperlyDeclared then
      [SemError.noMainProperlyDeclared Node.program] else []
    some ({ errors := r.errors ++ e, decor := r.decor }, S2.popScope)
  | none => none

end TypeCheck

/-! ## Instructions and counters (`common/code`) -/

/-- Modelled from the spec: the t-code instructions of `common/code`, one constructor
per static constructor of class `instruction` used by the generator; operands are
strings.  `PUSH` and `POP` have an optional operand. -/
inductive Instr where
  | LOAD (a1 a2 : String)
  | ILOAD (a1 a2 : String)
  | FLOAD (a1 a2 : String)
  | CHLOAD (a1 a2 : String)
  | LOADX (a1 a2 a3 : String)
  | XLOAD (a1 a2 a3 : String)
  | ALOAD (a1 a2 : String)
  | ADD (a1 a2 a3 : String)
  | SUB (a1 a2 a3 : String)
  | MUL (a1 a2 a3 : String)
  | DIV (a1 a2 a3 : String)
  | FADD (a1 a2 a3 : String)
  | FSUB (a1 a2 a3 : String)
  | FMUL (a1 a2 a3 : String)
  | FDIV (a1 a2 a3 : String)
  | FLOAT (a1 a2 : String)
  | NEG (a1 a2 : String)
  | FNEG (a1 a2 : String)
  | NOT (a1 a2 : String)
  | EQ (a1 a2 a3 : String)
  | LT (a1 a2 a3 : String)
  | LE (a1 a2 a3 : String)
  | FEQ (a1 a2 a3 : String)
  | FLT (a1 a2 a3 : String)
  | FLE (a1 a2 a3 : String)
  | AND (a1 a2 a3 : String)
  | OR (a1 a2 a3 : String)
  | LABEL (a1 : String)
  | UJUMP (a1 : String)
  | FJUMP (a1 a2 : String)
  | READI (a1 : String)
  | READF (a1 : String)
  | READC (a1 : String)
  | WRITEI (a1 : String)
  | WRITEF (a1 : String)
  | WRITEC (a1 : String)
  | WRITELN
  | PUSH (a1 : Option String)
  | CALL (a1 : String)
  | POP (a1 : Option String)
  | RETURN
  deriving Repr, DecidableEq, Inhabited

/-- Modelled from the spec: `instructionList` of `common/code`; lists compose by
concatenation. -/
abbrev instructionList := List Instr

/-- Modelled from the spec: the per-function counters of `common/code` that mint
temporaries, if-labels and while-labels. -/
structure counters where
  TEMP : Nat
  IF : Nat
  WHILE : Nat
  deriving Repr, DecidableEq, Inhabited

namespace counters

/-- Modelled from the spec: `counters::reset` of `common/code`; temporaries are minted
from `%0`. -/
def reset : counters := { TEMP := 0, IF := 0, WHILE := 0 }

/-- Modelled from the spec: `counters::newTEMP` of `common/code`; the numeral of the
next temporary and the advanced counters. -/
def newTEMP (c : counters) : String × counters :=
  (toString c.TEMP, { c with TEMP := c.TEMP + 1 })

/-- Modelled from the spec: `counters::newLabelIF` of `common/code`. -/
def newLabelIF (c : counters) : String × counters :=
  (toString c.IF, { c with IF := c.IF + 1 })

/-- Modelled from the spec: `counters::newLabelWHILE` of `common/code`. -/
def newLabelWHILE (c : counters) : String × counters :=
  (toString c.WHILE, { c with WHILE := c.WHILE + 1 })

end counters

/-- Modelled from the spec: `var` of `common/code`, a local variable with its size. -/
structure var where
  name : String
  size : Nat
  deriving Repr, DecidableEq, Inhabited

/-- Modelled from the spec: `subroutine` of `common/code`: name, parameter names,
local variables and instruction list. -/
structure subroutine where
  name : String
  params : List String
  vars : List var
  instructions : instructionList
  deriving Repr, DecidableEq, Inhabited

/-! ## Code generator (`asl/CodeGenVisitor.cpp`) -/

namespace CodeGen

/-- The alternatives of rule `statement` of `asl/AslParser.cpp`; an `IfStmtContext`
has one `statements` child, or two when `ELSE()` is present. -/
inductive Stmt where
  | assignStmt (left_expr : LeftExpr) (expr : Expr)
  | ifStmt (expr : Expr) (statements0 : List Stmt) (ELSE : Option (List Stmt))
  | whileStmt (expr : Expr) (statements : List Stmt)
  | procCall (ident : String) (args : List Expr)
  | readStmt (left_expr : LeftExpr)
  | writeExpr (expr : Expr)
  | writeString (STRING : String)
  | retStmt (expr : Option Expr)
  deriving Repr, Inhabited

/-- Class `CodeGenVisitor::CodeAttribs`. -/
structure CodeAttribs where
  addr : String
  offs : String
  code : instructionList
  deriving Repr, DecidableEq, Inhabited

/-- Embedding of `CodeGenVisitor::visitIdent`. -/
def visitIdent (ident : String) : CodeAttribs :=
  { addr := ident, offs := "", code := [] }

/-- Embedding of `CodeGenVisitor::visitValue`. -/
def visitValue (kind : ValueKind) (text : String) (c : counters) : CodeAttribs × counters :=
  let temp := "%" ++ c.newTEMP.1
  let c := c.newTEMP.2
  let code :=
    match kind with
    | .INTVAL => [Instr.ILOAD temp text]
    | .FLOATVAL => [Instr.FLOAD temp text]
    | .CHARVAL => [Instr.CHLOAD temp (String.mk ((text.data.drop 1).take (text.length - 2)))]
    | .BOOLVAL => [Instr.LOAD temp (if text = "true" then "1" else "0")]
  ({ addr := temp, offs := "", code := code }, c)

/-- The part of `CodeGenVisitor::visitArray` after the identifier and the index have
been visited. -/
def array (S : SymTable) (codAts codAt1 : CodeAttribs) (c : counters) :
    CodeAttribs × counters :=
  let addr := codAts.addr
  let code := codAts.code
  let addr1 := codAt1.addr
  let code1 := codAt1.code
  let temp := "%" ++ c.newTEMP.1
  let c := c.newTEMP.2
  if S.isLocalVarClass addr then
    ({ addr := temp, offs := "", code := code ++ code1 ++ [Instr.LOADX temp addr addr1] }, c)
  else
    let tempA := "%" ++ c.newTEMP.1
    let c := c.newTEMP.2
    ({ addr := temp, offs := "",
       code := code ++ code1 ++ [Instr.LOAD tempA addr] ++ [Instr.LOADX temp tempA addr1] }, c)

/-- The conversion step of the float branch of `visitArithmetic` and `visitRelational`:
`faddr1`, `faddr2`, the `FLOAT` instruction appended to the code (if any) and the
counters, for operands at `addr1`, `addr2` with type decorations `t1`, `t2`. -/
def floatOperands (t1 t2 : Ty) (addr1 addr2 : String) (c : counters) :
    String × String × instructionList × counters :=
  if TypesMgr.isIntegerTy t1 then
    let faddr1 := "%" ++ c.newTEMP.1
    (faddr1, addr2, [Instr.FLOAT faddr1 addr1], c.newTEMP.2)
  else if TypesMgr.isIntegerTy t2 then
    let faddr2 := "%" ++ c.newTEMP.1
    (addr1, faddr2, [Instr.FLOAT faddr2 addr2], c.newTEMP.2)
  else (addr1, addr2, [], c)

/-- The instructions appended by the integer branch of `visitArithmetic`. -/
def arithmeticInt (op : ArithOp) (temp addr1 addr2 : String) : instructionList :=
  match op with
  | .MUL => [Instr.MUL temp addr1 addr2]
  | .DIV => [Instr.DIV temp addr1 addr2]
  | .MIN => [Instr.SUB temp addr1 addr2]
  | .PLUS => [Instr.ADD temp addr1 addr2]
  | .MOD => [Instr.DIV temp addr1 addr2] ++ [Instr.MUL temp temp addr2] ++
              [Instr.SUB temp addr1 temp]

/-- The instructions appended by the float branch of `visitArithmetic` after the
conversion; the branch has no case for `MOD`. -/
def arithmeticFloat (op : ArithOp) (temp faddr1 faddr2 : String) : instructionList :=
  match op with
  | .MUL => [Instr.FMUL temp faddr1 faddr2]
  | .DIV => [Instr.FDIV temp faddr1 faddr2]
  | .MIN => [Instr.FSUB temp faddr1 faddr2]
  | .PLUS => [Instr.FADD temp faddr1 faddr2]
  | .MOD => []

/-- The part of `CodeGenVisitor::visitArithmetic` after both operands have been
visited; `t1` and `t2` are the type decorations of the operands. -/
def arithmetic (op : ArithOp) (t1 t2 : Ty) (codAt1 codAt2 : CodeAttribs) (c : counters) :
    CodeAttribs × counters :=
  let addr1 := codAt1.addr
  let addr2 := codAt2.addr
  let code := codAt1.code ++ codAt2.code
  let temp := "%" ++ c.newTEMP.1
  let c := c.newTEMP.2
  if !(TypesMgr.isFloatTy t1) && !(TypesMgr.isFloatTy t2) then
    ({ addr := temp, offs := "", code := code ++ arithmeticInt op temp addr1 addr2 }, c)
  else
    let conv := floatOperands t1 t2 addr1 addr2 c
    let faddr1 := conv.1
    let faddr2 := conv.2.1
    let code := code ++ conv.2.2.1
    let c := conv.2.2.2
    ({ addr := temp, offs := "", code := code ++ arithmeticFloat op temp faddr1 faddr2 }, c)

/-- The instructions appended by the branch of `visitRelational` for operands that are
not Float. -/
def relationalInt (op : RelOp) (temp addr1 addr2 : String) : instructionList :=
  match op with
  | .EQUAL => [Instr.EQ temp addr1 addr2]
  | .NEQ => [Instr.EQ temp addr1 addr2] ++ [Instr.NOT temp temp]
  | .LT => [Instr.LT temp addr1 addr2]
  | .LTE => [Instr.LE temp addr1 addr2]
  | .GT => [Instr.LT temp addr2 addr1]
  | .GTE => [Instr.LE temp addr2 addr1]

/-- The instructions appended by the float branch of `visitRelational` after the
conversion. -/
def relationalFloat (op : RelOp) (temp faddr1 faddr2 : String) : instructionList :=
  match op with
  | .EQUAL => [Instr.FEQ temp faddr1 faddr2]
  | .NEQ => [Instr.FEQ temp faddr1 faddr2] ++ [Instr.NOT temp temp]
  | .LT => [Instr.FLT temp faddr1 faddr2]
  | .LTE => [Instr.FLE temp faddr1 faddr2]
  | .GT => [Instr.FLT temp faddr2 faddr1]
  | .GTE => [Instr.FLE temp faddr2 faddr1]

/-- The part of `CodeGenVisitor::visitRelational` after both operands have been
visited; `t1` and `t2` are the type decorations of the operands. -/
def relational (op : RelOp) (t1 t2 : Ty) (codAt1 codAt2 : CodeAttribs) (c : counters) :
    CodeAttribs × counters :=
  let addr1 := codAt1.addr
  let addr2 := codAt2.addr
  let code := codAt1.code ++ codAt2.code
  let temp := "%" ++ c.newTEMP.1
  let c := c.newTEMP.2
  if !(TypesMgr.isFloatTy t1) && !(TypesMgr.isFloatTy t2) then
    ({ addr := temp, offs := "", code := code ++ relationalInt op temp addr1 addr2 }, c)
  else
    let conv := floatOperands t1 t2 addr1 addr2 c
    let faddr1 := conv.1
    let faddr2 := conv.2.1
    let code := code ++ conv.2.2.1
    let c := conv.2.2.2
    ({ addr := temp, offs := "", code := code ++ relationalFloat op temp faddr1 faddr2 }, c)

/-- The part of `CodeGenVisitor::visitUnary` after the operand has been visited; `t1`
is the type decoration of the operand. -/
def unary (op : UnaryOp) (t1 : Ty) (codAt1 : CodeAttribs) (c : counters) :
    CodeAttribs × counters :=
  let addr1 := codAt1.addr
  let code1 := codAt1.code
  let temp := "%" ++ c.newTEMP.1
  let c := c.newTEMP.2
  let code :=
    match op with
    | .NOT => code1 ++ [Instr.NOT temp addr1]
    | .MIN =>
      if !(TypesMgr.isFloatTy t1) then code1 ++ [Instr.NEG temp addr1]
      else code1 ++ [Instr.FNEG temp addr1]
    | .PLUS => code1 ++ [Instr.LOAD temp addr1]
  ({ addr := temp, offs := "", code := code }, c)

/-- The part of `CodeGenVisitor::visitLogical` after both operands have been visited. -/
def logical (op : LogicalOp) (codAt1 codAt2 : CodeAttribs) (c : counters) :
    CodeAttribs × counters :=
  let addr1 := codAt1.addr
  let addr2 := codAt2.addr
  let code := codAt1.code ++ codAt2.code
  let temp := "%" ++ c.newTEMP.1
  let c := c.newTEMP.2
  let code :=
    match op with
    | .AND => code ++ [Instr.AND temp addr1 addr2]
    | .OR => code ++ [Instr.OR temp addr1 addr2]
  ({ addr := temp, offs := "", code := code }, c)

/-- The body of the argument loop of `visitProcCall` and `visitCallFunc` for one
argument already visited: `p` is `param_types[i]`, `te` the type decoration of the
argument. -/
def pushParam (p te : Ty) (codAtpar : CodeAttribs) (c : counters) :
    instructionList × counters :=
  let addrpar := codAtpar.addr
  let codepar := codAtpar.code
  if TypesMgr.isFloatTy p && TypesMgr.isIntegerTy te then
    let tempF := "%" ++ c.newTEMP.1
    (codepar ++ [Instr.FLOAT tempF addrpar] ++ [Instr.PUSH (some tempF)], c.newTEMP.2)
  else if TypesMgr.isArrayTy te then
    let tempA := "%" ++ c.newTEMP.1
    (codepar ++ [Instr.ALOAD tempA addrpar] ++ [Instr.PUSH (some tempA)], c.newTEMP.2)
  else (codepar ++ [Instr.PUSH (some addrpar)], c)

/-- The code of `visitProcCall` and `visitCallFunc` after the arguments: the call,
one `POP` per argument and the `POP` into a fresh temporary.  `t` is the type
decoration of the callee identifier, `args` the code of the argument loop when the
call has arguments. -/
def callCode (name : String) (t : Ty) (code : instructionList) (nargs : Nat)
    (args : instructionList) (c : counters) : CodeAttribs × counters :=
  let code := if !(TypesMgr.isVoidTy t) then code ++ [Instr.PUSH none] else code
  let code := code ++ args ++ [Instr.CALL name] ++ List.replicate nargs (Instr.POP none)
  let temp := "%" ++ c.newTEMP.1
  ({ addr := temp, offs := "", code := code ++ [Instr.POP (some temp)] }, c.newTEMP.2)

mutual
/-- Embedding of the expression visitors of `CodeGenVisitor` (`visitParenthesis`,
`visitArray`, `visitUnary`, `visitValue`, `visitCallFunc`, `visitExprIdent`,
`visitArithmetic`, `visitRelational`, `visitLogical`), threading the counters.  The
result is `none` where a decoration is missing or a query is applied outside the
types it is given for. -/
def visitExpr (S : SymTable) (c : counters) : Expr → Option (CodeAttribs × counters)
  | .parenthesis e => visitExpr S c e
  | .array ident index => do
    let codAts := visitIdent ident
    let r1 ← visitExpr S c index
    pure (array S codAts r1.1 r1.2)
  | .unary op e => do
    let r1 ← visitExpr S c e
    let t1 ← TypeCheck.getTypeDecor S e
    pure (unary op t1 r1.1 r1.2)
  | .value kind text => some (visitValue kind text c)
  | .callFunc ident args => do
    let codAt1 := visitIdent ident
    let t := (TypeCheck.visitIdent S ident).ty
    match args with
    | [] => pure (callCode codAt1.addr t codAt1.code 0 [] c)
    | e :: es => do
      let param_types ← TypesMgr.getFuncParamsTypes t
      let r ← visitParams S param_types 0 c (e :: es)
      pure (callCode codAt1.addr t codAt1.code (e :: es).length r.1 r.2)
  | .exprIdent ident => some (visitIdent ident, c)
  | .arithmetic op e0 e1 => do
    let r1 ← visitExpr S c e0
    let r2 ← visitExpr S r1.2 e1
    let t1 ← TypeCheck.getTypeDecor S e0
    let t2 ← TypeCheck.getTypeDecor S e1
    pure (arithmetic op t1 t2 r1.1 r2.1 r2.2)
  | .relational op e0 e1 => do
    let r1 ← visitExpr S c e0
    let r2 ← visitExpr S r1.2 e1
    let t1 ← TypeCheck.getTypeDecor S e0
    let t2 ← TypeCheck.getTypeDecor S e1
    pure (relational op t1 t2 r1.1 r2.1 r2.2)
  | .logical op e0 e1 => do
    let r1 ← visitExpr S c e0
    let r2 ← visitExpr S r1.2 e1
    pure (logical op r1.1 r2.1 r2.2)
/-- The argument loop `for (auto e : ctx->expr())` of `visitProcCall` and
`visitCallFunc`, from argument number `i`. -/
def visitParams (S : SymTable) (param_types : List Ty) (i : Nat) (c : counters) :
    List Expr → Option (instructionList × counters)
  | [] => some ([], c)
  | e :: es => do
    let r ← visitExpr S c e
    let p ← param_types.get? i
    let te ← TypeCheck.getTypeDecor S e
    let r1 := pushParam p te r.1 r.2
    let rest ← visitParams S param_types (i + 1) r1.2 es
    pure (r1.1 ++ rest.1, rest.2)
end

/-- Embedding of `CodeGenVisitor::visitLeft_expr`. -/
def visitLeft_expr (S : SymTable) (c : counters) (ctx : LeftExpr) :
    Option (CodeAttribs × counters) :=
  let codAts := visitIdent ctx.ident
  let addr := codAts.addr
  let code := codAts.code
  match ctx.expr with
  | some index => do
    let r1 ← visitExpr S c index
    let addr1 := r1.1.addr
    let code1 := r1.1.code
    let c := r1.2
    if S.isLocalVarClass addr then
      pure ({ addr := addr, offs := addr1, code := code ++ code1 }, c)
    else
      let tempA := "%" ++ c.newTEMP.1
      pure ({ addr := tempA, offs := addr1, code := code ++ code1 ++ [Instr.LOAD tempA addr] },
            c.newTEMP.2)
  | none => some (codAts, c)

/-- The part of `CodeGenVisitor::visitAssignStmt` after both sides have been visited:
`t1` is the type decoration of the identifier of the left expression, `t2` that of
the right-hand side. -/
def assign (S : SymTable) (t1 t2 : Ty) (codAtsE1 codAtsE2 : CodeAttribs) (c : counters) :
    Option (instructionList × counters) :=
  let addr1 := codAtsE1.addr
  let offs1 := codAtsE1.offs
  let code1 := codAtsE1.code
  let addr2 := codAtsE2.addr
  let offs2 := codAtsE2.offs
  let code2 := codAtsE2.code
  if TypesMgr.isArrayTy t1 && TypesMgr.isArrayTy t2 then
    let isLocal1 := S.isLocalVarClass addr1
    let isLocal2 := S.isLocalVarClass addr2
    let tempAddr1 := "%" ++ c.newTEMP.1
    let c := c.newTEMP.2
    let tempAddr2 := "%" ++ c.newTEMP.1
    let c := c.newTEMP.2
    let code : instructionList := []
    let code := if !isLocal1 then code ++ [Instr.LOAD tempAddr1 addr1] else code
    let code := if !isLocal2 then code ++ [Instr.LOAD tempAddr2 addr2] else code
    let tempIndex := "%" ++ c.newTEMP.1
    let c := c.newTEMP.2
    let tempIncrem := "%" ++ c.newTEMP.1
    let c := c.newTEMP.2
    let tempSize := "%" ++ c.newTEMP.1
    let c := c.newTEMP.2
    let tempOffset := "%" ++ c.newTEMP.1
    let c := c.newTEMP.2
    let tempOffHld := "%" ++ c.newTEMP.1
    let c := c.newTEMP.2
    let tempCompar := "%" ++ c.newTEMP.1
    let c := c.newTEMP.2
    let tempValue := "%" ++ c.newTEMP.1
    let c := c.newTEMP.2
    let labelWhile := "while" ++ c.newLabelWHILE.1
    let c := c.newLabelWHILE.2
    let labelEndWhile := "end" ++ labelWhile
    match (S.getType addr1).bind TypesMgr.getArraySize with
    | none => none
    | some size =>
      some (code ++
        [Instr.ILOAD tempIndex "0"] ++
        [Instr.ILOAD tempIncrem "1"] ++
        [Instr.ILOAD tempSize (toString size)] ++
        [Instr.ILOAD tempOffset "1"] ++
        [Instr.LABEL labelWhile] ++
        [Instr.LT tempCompar tempIndex tempSize] ++
        [Instr.FJUMP tempCompar labelEndWhile] ++
        [Instr.MUL tempOffHld tempOffset tempIndex] ++
        [Instr.LOADX tempValue (if isLocal2 then addr2 else tempAddr2) tempOffHld] ++
        [Instr.XLOAD (if isLocal1 then addr1 else tempAddr1) tempOffHld tempValue] ++
        [Instr.ADD tempIndex tempIndex tempIncrem] ++
        [Instr.UJUMP labelWhile] ++
        [Instr.LABEL labelEndWhile], c)
  else if TypesMgr.isArrayTy t1 || TypesMgr.isArrayTy t2 then
    if TypesMgr.isArrayTy t1 then
      let c := c.newTEMP.2
      some (code1 ++ code2 ++ [Instr.XLOAD addr1 offs1 addr2], c)
    else if TypesMgr.isArrayTy t2 then
      let temp := "%" ++ c.newTEMP.1
      let c := c.newTEMP.2
      some (code1 ++ code2 ++ [Instr.LOADX temp addr2 offs2] ++ [Instr.LOAD addr1 temp], c)
    else
      let left_temp := "%" ++ c.newTEMP.1
      let c := c.newTEMP.2
      let temp := "%" ++ c.newTEMP.1
      let c := c.newTEMP.2
      some (code1 ++ [Instr.LOADX left_temp addr1 offs1] ++ code2 ++
            [Instr.LOADX temp addr2 offs2] ++ [Instr.LOAD left_temp temp], c)
  else some (code1 ++ code2 ++ [Instr.LOAD addr1 addr2], c)

/-- The part of `CodeGenVisitor::visitReadStmt` after the left expression has been
visited: `tE` is its type decoration, `indexed` tells whether it has an index. -/
def read (tE : Ty) (indexed : Bool) (codAtsE : CodeAttribs) (c : counters) :
    instructionList × counters :=
  let addr1 := codAtsE.addr
  let offs1 := codAtsE.offs
  let code := codAtsE.code
  if indexed then
    let temp := "%" ++ c.newTEMP.1
    let c := c.newTEMP.2
    let code :=
      if TypesMgr.isFloatTy tE then code ++ [Instr.READF temp]
      else if TypesMgr.isCharacterTy tE then code ++ [Instr.READC temp]
      else code ++ [Instr.READI temp]
    (code ++ [Instr.XLOAD addr1 offs1 temp], c)
  else
    let code :=
      if TypesMgr.isFloatTy tE then code ++ [Instr.READF addr1]
      else if TypesMgr.isCharacterTy tE then code ++ [Instr.READC addr1]
      else code ++ [Instr.READI addr1]
    (code, c)

/-- The part of `CodeGenVisitor::visitWriteExpr` after the expression has been
visited: `tid1` is its type decoration. -/
def writeExpr (tid1 : Ty) (codAt1 : CodeAttribs) : instructionList :=
  let addr1 := codAt1.addr
  let code1 := codAt1.code
  if TypesMgr.isFloatTy tid1 then code1 ++ [Instr.WRITEF addr1]
  else if TypesMgr.isCharacterTy tid1 then code1 ++ [Instr.WRITEC addr1]
  else code1 ++ [Instr.WRITEI addr1]

/-- The bytes of the UTF-8 encoding (RFC 3629) of a character: the `std::string` that
`getText()` returns for a token holds a character below 128 as one byte and any other
character as two to four bytes, all of them 128 or more. -/
def charBytes (ch : Char) : List Nat :=
  let n := ch.toNat
  if n < 0x80 then [n]
  else if n < 0x800 then [0xC0 + n / 0x40, 0x80 + n % 0x40]
  else if n < 0x10000 then [0xE0 + n / 0x1000, 0x80 + n / 0x40 % 0x40, 0x80 + n % 0x40]
  else [0xF0 + n / 0x40000, 0x80 + n / 0x1000 % 0x40, 0x80 + n / 0x40 % 0x40,
        0x80 + n % 0x40]

/-- The bytes of a token text: `s.size()` is the length of this list and `s[i]` its
element `i`. -/
def textBytes (s : String) : List Nat :=
  s.data.flatMap charBytes

/-- The operand made of the bytes `bs` (`s.substr(i, 1)` or `s.substr(i, 2)`): each
byte is kept as the character with that code, which for a byte below 128 is the
character that the byte encodes. -/
def bytesText (bs : List Nat) : String :=
  String.mk (bs.map Char.ofNat)

/-- The scanning loop of `CodeGenVisitor::visitWriteString` over the bytes `s` of the
literal, from index `i` with the code emitted so far; one unit of `fuel` is spent per
iteration.  The result is `none` when the fuel runs out, when the assertion
`i < s.size() - 2` fails, or when `s` is read outside its bounds. -/
def writeStringLoop (s : List Nat) (temp : String) :
    Nat → Nat → instructionList → Option instructionList
  | 0, _, _ => none
  | fuel + 1, i, code =>
    if i + 1 < s.length then
      match s.get? i with
      | none => none
      | some ch =>
        if ch ≠ '\\'.toNat then
          writeStringLoop s temp fuel (i + 1)
            (code ++ [Instr.CHLOAD temp (bytesText [ch])] ++ [Instr.WRITEC temp])
        else if i + 2 < s.length then
          match s.get? (i + 1) with
          | none => none
          | some nx =>
            if nx = 'n'.toNat then
              writeStringLoop s temp fuel (i + 2) (code ++ [Instr.WRITELN])
            else if nx = 't'.toNat ∨ nx = '"'.toNat ∨ nx = '\\'.toNat then
              writeStringLoop s temp fuel (i + 2)
                (code ++ [Instr.CHLOAD temp (bytesText [ch, nx])] ++ [Instr.WRITEC temp])
            else
              writeStringLoop s temp fuel (i + 1)
                (code ++ [Instr.CHLOAD temp (bytesText [ch])] ++ [Instr.WRITEC temp])
        else none
    else some code

/-- Embedding of `CodeGenVisitor::visitWriteString`.  The loop runs while
`i < s.size() - 1` and the index grows on every iteration, so the `s.size() + 1` units
of fuel given here never run out, whatever the text. -/
def visitWriteString (STRING : String) (c : counters) : Option (instructionList × counters) :=
  let s := textBytes STRING
  let temp := "%" ++ c.newTEMP.1
  let c := c.newTEMP.2
  (writeStringLoop s temp (s.length + 1) 1 []).map (fun code => (code, c))

mutual
/-- Embedding of the statement visitors of `CodeGenVisitor` (`visitAssignStmt`,
`visitIfStmt`, `visitWhileStmt`, `visitProcCall`, `visitReadStmt`, `visitWriteExpr`,
`visitWriteString`, `visitRetStmt`), threading the counters. -/
def visitStmt (S : SymTable) (c : counters) : Stmt → Option (instructionList × counters)
  | .assignStmt left_expr expr => do
    let r1 ← visitLeft_expr S c left_expr
    let t1 := (TypeCheck.visitIdent S left_expr.ident).ty
    let r2 ← visitExpr S r1.2 expr
    let t2 ← TypeCheck.getTypeDecor S expr
    assign S t1 t2 r1.1 r2.1 r2.2
  | .ifStmt expr statements0 ELSE => do
    let r1 ← visitExpr S c expr
    let addr1 := r1.1.addr
    let code1 := r1.1.code
    let r2 ← visitStatements S r1.2 statements0
    let code2 := r2.1
    let label := "if" ++ r2.2.newLabelIF.1
    let c := r2.2.newLabelIF.2
    let labelEndIf := "end" ++ label
    match ELSE with
    | some statements1 => do
      let r3 ← visitStatements S c statements1
      let code3 := r3.1
      let labelElse := "else" ++ label
      pure (code1 ++ [Instr.FJUMP addr1 labelElse] ++
            code2 ++ [Instr.UJUMP labelEndIf] ++ [Instr.LABEL labelElse] ++
            code3 ++ [Instr.LABEL labelEndIf], r3.2)
    | none =>
      pure (code1 ++ [Instr.FJUMP addr1 labelEndIf] ++
            code2 ++ [Instr.LABEL labelEndIf], c)
  | .whileStmt expr statements => do
    let r1 ← visitExpr S c expr
    let addr1 := r1.1.addr
    let code1 := r1.1.code
    let r2 ← visitStatements S r1.2 statements
    let code2 := r2.1
    let label := "while" ++ r2.2.newLabelWHILE.1
    let c := r2.2.newLabelWHILE.2
    let labelEndWhile := "end" ++ label
    pure ([Instr.LABEL label] ++ code1 ++ [Instr.FJUMP addr1 labelEndWhile] ++
          code2 ++ [Instr.UJUMP label] ++ [Instr.LABEL labelEndWhile], c)
  | .procCall ident args => do
    let name := ident
    let t := (TypeCheck.visitIdent S ident).ty
    match args with
    | [] => pure ((callCode name t [] 0 [] c).1.code, (callCode name t [] 0 [] c).2)
    | e :: es => do
      let param_types ← TypesMgr.getFuncParamsTypes t
      let r ← visitParams S param_types 0 c (e :: es)
      pure ((callCode name t [] (e :: es).length r.1 r.2).1.code,
            (callCode name t [] (e :: es).length r.1 r.2).2)
  | .readStmt left_expr => do
    let r ← visitLeft_expr S c left_expr
    let a ← TypeCheck.visitLeft_expr S left_expr
    pure (read a.ty left_expr.expr.isSome r.1 r.2)
  | .writeExpr expr => do
    let r ← visitExpr S c expr
    let tid1 ← TypeCheck.getTypeDecor S expr
    pure (writeExpr tid1 r.1, r.2)
  | .writeString STRING => visitWriteString STRING c
  | .retStmt (some expr) => do
    let r ← visitExpr S c expr
    pure (r.1.code ++ [Instr.LOAD "_result" r.1.addr], r.2)
  | .retStmt none => some ([], c)
/-- Embedding of `CodeGenVisitor::visitStatements`. -/
def visitStatements (S : SymTable) (c : counters) :
    List Stmt → Option (instructionList × counters)
  | [] => some ([], c)
  | s :: ss => do
    let r ← visitStmt S c s
    let rs ← visitStatements S r.2 ss
    pure (r.1 ++ rs.1, rs.2)
end

/-- Embedding of `CodeGenVisitor::visitParameters`. -/
def visitParameters (ctx : List (String × TypeNode)) : List var :=
  ctx.map (fun p => { name := p.1, size := TypesMgr.getSizeOfType p.2.toTy })

/-- Embedding of `CodeGenVisitor::visitVariable_decl`. -/
def visitVariable_decl (ctx : List String × TypeNode) : List var :=
  let size := TypesMgr.getSizeOfType ctx.2.toTy
  ctx.1.map (fun v => { name := v, size := size })

/-- Embedding of `CodeGenVisitor::visitDeclarations`. -/
def visitDeclarations (ctx : List (List String × TypeNode)) : List var :=
  (ctx.map visitVariable_decl).flatten

/-- Embedding of `CodeGenVisitor::visitFunction`: the subroutine and the symbol table
left by the visit. -/
def visitFunction (S : SymTable) (ctx : FunctionNode Stmt) : Option (subroutine × SymTable) :=
  let S1 := S.pushThisScope ctx.scope
  let c := counters.reset
  let params0 : List String := if ctx.basic_type.isSome then ["_result"] else []
  let params := params0 ++ (visitParameters ctx.parameters).map (fun par => par.name)
  let lvars := visitDeclarations ctx.declarations
  match visitStatements S1 c ctx.statements with
  | some r =>
    some ({ name := ctx.ID, params := params, vars := lvars,
            instructions := r.1 ++ [Instr.RETURN] }, S1.popScope)
  | none => none

/-- The loop over the functions of `CodeGenVisitor::visitProgram`. -/
def visitFunctions (S : SymTable) : List (FunctionNode Stmt) → Option (List subroutine × SymTable)
  | [] => some ([], S)
  | f :: fs =>
    match visitFunction S f with
    | some (subr, S1) =>
      match visitFunctions S1 fs with
      | some (rest, S2) => some (subr :: rest, S2)
      | none => none
    | none => none

/-- Embedding of `CodeGenVisitor::visitProgram`: the subroutines of the program. -/
def visitProgram (S : SymTable) (ctx : List (FunctionNode Stmt)) :
    Option (List subroutine × SymTable) :=
  let S1 := S.pushThisScope (globalScope ctx)
  match visitFunctions S1 ctx with
  | some (my_code, S2) => some (my_code, S2.popScope)
  | none => none

end CodeGen

/-! ## Sample programs -/

/-- Modelled from the spec: the symbol table handed to the two walks by the driver,
with no active scope. -/
def SymTable.init : SymTable := { stack := [], currentFunctionTy := Ty.void }

/-- The functions of `func f(a: int): float return a; endfunc func main() endfunc`
over statements of type `σ`, given the return statement of `f`. -/
def exampleS3 {σ : Type} (ret : σ) : List (FunctionNode σ) :=
  [ { ID := "f", parameters := [("a", TypeNode.basic BasicType.INT)],
      basic_type := some BasicType.FLOAT, declarations := [], statements := [ret] },
    { ID := "main", parameters := [], basic_type := none, declarations := [],
      statements := [] } ]

/-- The function of `func main() var a: int; var b: float; <body> endfunc` over
statements of type `σ`. -/
def exampleIntFloat {σ : Type} (body : List σ) : List (FunctionNode σ) :=
  [ { ID := "main", parameters := [], basic_type := none,
      declarations := [(["a"], TypeNode.basic BasicType.INT),
                       (["b"], TypeNode.basic BasicType.FLOAT)],
      statements := body } ]

/-- The symbol table inside `main` of `exampleIntFloat`: the scope of `main` on top of
the global scope. -/
def exampleIntFloatTable : SymTable :=
  { stack := [[⟨"a", SymClass.variable, Ty.integer⟩, ⟨"b", SymClass.variable, Ty.float⟩],
              [⟨"main", SymClass.function, Ty.function [] Ty.void⟩]],
    currentFunctionTy := Ty.void }

/-- The expression `a + 1`. -/
def exprAPlus1 : Expr :=
  Expr.arithmetic ArithOp.PLUS (Expr.exprIdent "a") (Expr.value ValueKind.INTVAL "1")

/-- The functions of `func p() endfunc func main() <body> endfunc` over statements of
type `σ`. -/
def exampleVoidCall {σ : Type} (body : List σ) : List (FunctionNode σ) :=
  [ { ID := "p", parameters := [], basic_type := none, declarations := [], statements := [] },
    { ID := "main", parameters := [], basic_type := none, declarations := [],
      statements := body } ]

/-- The diagnostics of the analyzer on a program. -/
def TypeCheck.diagnostics (ctx : List (FunctionNode TypeCheck.Stmt)) : Option (List SemError) :=
  (TypeCheck.visitProgram SymTable.init ctx).map (fun r => r.1.errors)

/-- The subroutines of the generator on a program. -/
def CodeGen.subroutines (ctx : List (FunctionNode CodeGen.Stmt)) : Option (List subroutine) :=
  (CodeGen.visitProgram SymTable.init ctx).map (fun r => r.1)

/-- Whether an instruction is a `FLOAT` conversion. -/
def Instr.isFLOAT : Instr → Bool
  | .FLOAT _ _ => true
  | _ => false

/-- Whether an instruction is an `FADD`. -/
def Instr.isFADD : Instr → Bool
  | .FADD _ _ _ => true
  | _ => false

/-- Whether an instruction is a `PUSH`, with or without operand. -/
def Instr.isPUSH : Instr → Bool
  | .PUSH _ => true
  | _ => false

/-- Whether an instruction is a `POP`, with or without operand. -/
def Instr.isPOP : Instr → Bool
  | .POP _ => true
  | _ => false

/-! ## Observations on instruction lists -/

/-- The name of temporary number `n`, as the generator builds it:
`"%" + codeCounters.newTEMP()`. -/
def tempName (n : Nat) : String := "%" ++ toString n

/-- The label placed by an instruction, if it is a `LABEL`. -/
def Instr.label? : Instr → Option String
  | .LABEL l => some l
  | _ => none

/-- The label named by an instruction, if it is a `UJUMP` or an `FJUMP`. -/
def Instr.target? : Instr → Option String
  | .UJUMP l => some l
  | .FJUMP _ l => some l
  | _ => none

/-- The labels placed by the `LABEL` instructions of a list, in order. -/
def labels (code : instructionList) : List String := code.filterMap Instr.label?

/-- The labels named by the jumps of a list, in order. -/
def targets (code : instructionList) : List String := code.filterMap Instr.target?

/-- Modelled from the spec: the operand that an instruction writes, if any (section 3,
"Instructions": the `dst` operand of the data moves, of the arithmetic, conversion,
unary, comparison and logical operations, of the reads and of `POP`).  `XLOAD` writes
an array cell, not its base operand. -/
def Instr.writes : Instr → Option String
  | .LOAD a _ => some a
  | .ILOAD a _ => some a
  | .FLOAD a _ => some a
  | .CHLOAD a _ => some a
  | .LOADX a _ _ => some a
  | .ALOAD a _ => some a
  | .ADD a _ _ => some a
  | .SUB a _ _ => some a
  | .MUL a _ _ => some a
  | .DIV a _ _ => some a
  | .FADD a _ _ => some a
  | .FSUB a _ _ => some a
  | .FMUL a _ _ => some a
  | .FDIV a _ _ => some a
  | .FLOAT a _ => some a
  | .NEG a _ => some a
  | .FNEG a _ => some a
  | .NOT a _ => some a
  | .EQ a _ _ => some a
  | .LT a _ _ => some a
  | .LE a _ _ => some a
  | .FEQ a _ _ => some a
  | .FLT a _ _ => some a
  | .FLE a _ _ => some a
  | .AND a _ _ => some a
  | .OR a _ _ => some a
  | .READI a => some a
  | .READF a => some a
  | .READC a => some a
  | .POP a => a
  | _ => none

/-- The index in a list of the first instruction that writes operand `x` (the length
of the list if there is none). -/
def firstDef (code : instructionList) (x : String) : Nat :=
  (code.map Instr.writes).indexOf (some x)

/-- Whether some instruction of a list writes operand `x`. -/
def isDefined (code : instructionList) (x : String) : Prop :=
  some x ∈ code.map Instr.writes

instance (code : instructionList) (x : String) : Decidable (isDefined code x) :=
  inferInstanceAs (Decidable (some x ∈ code.map Instr.writes))

/-- The value of a decimal digit character. -/
def digitVal (c : Char) : Nat := c.toNat - 48

/-- The number read from a list of decimal digits, after the digits already read. -/
def decodeNat (acc : Nat) (l : List Char) : Nat := l.foldl (fun a c => a * 10 + digitVal c) acc

namespace CodeGen

/-- The cases of the expression visitors of the generator: `P` holds of every result of
`visitExpr` and `Q` of every result of `visitParams` as soon as they are preserved
by each visitor. -/
structure ExprCases (S : SymTable)
    (P : Expr → counters → CodeAttribs × counters → Prop)
    (Q : List Ty → Nat → List Expr → counters → instructionList × counters → Prop) : Prop where
  paren : ∀ e c r, P e c r → P (.parenthesis e) c r
  arr : ∀ ident index c r1, P index c r1 →
    P (.array ident index) c (array S (visitIdent ident) r1.1 r1.2)
  un : ∀ op e c r1 t1, TypeCheck.getTypeDecor S e = some t1 → P e c r1 →
    P (.unary op e) c (unary op t1 r1.1 r1.2)
  val : ∀ kind text c, P (.value kind text) c (visitValue kind text c)
  call0 : ∀ ident c,
    P (.callFunc ident []) c (callCode ident (TypeCheck.visitIdent S ident).ty [] 0 [] c)
  call : ∀ ident args pts c rp, args ≠ [] →
    TypesMgr.getFuncParamsTypes (TypeCheck.visitIdent S ident).ty = some pts →
    visitParams S pts 0 c args = some rp →
    Q pts 0 args c rp →
    P (.callFunc ident args) c
      (callCode ident (TypeCheck.visitIdent S ident).ty [] args.length rp.1 rp.2)
  idt : ∀ ident c, P (.exprIdent ident) c (visitIdent ident, c)
  arith : ∀ op e0 e1 c r1 r2 t1 t2, TypeCheck.getTypeDecor S e0 = some t1 →
    TypeCheck.getTypeDecor S e1 = some t2 → P e0 c r1 → P e1 r1.2 r2 →
    P (.arithmetic op e0 e1) c (arithmetic op t1 t2 r1.1 r2.1 r2.2)
  rel : ∀ op e0 e1 c r1 r2 t1 t2, TypeCheck.getTypeDecor S e0 = some t1 →
    TypeCheck.getTypeDecor S e1 = some t2 → P e0 c r1 → P e1 r1.2 r2 →
    P (.relational op e0 e1) c (relational op t1 t2 r1.1 r2.1 r2.2)
  log : ∀ op e0 e1 c r1 r2, P e0 c r1 → P e1 r1.2 r2 →
    P (.logical op e0 e1) c (logical op r1.1 r2.1 r2.2)
  nil : ∀ pts i c, Q pts i [] c ([], c)
  cons : ∀ pts i e es c r p te rest, P e c r → pts.get? i = some p →
    TypeCheck.getTypeDecor S e = some te →
    Q pts (i + 1) es (pushParam p te r.1 r.2).2 rest →
    Q pts i (e :: es) c ((pushParam p te r.1 r.2).1 ++ rest.1, rest.2)

/-- The cases of the statement visitors of the generator: `P` holds of every result of
`visitStmt` and `Q` of every result of `visitStatements` as soon as they are
preserved by each visitor. -/
structure StmtCases (S : SymTable)
    (P : Stmt → counters → instructionList × counters → Prop)
    (Q : List Stmt → counters → instructionList × counters → Prop) : Prop where
  assign : ∀ l e c r1 r2 t2 r, visitLeft_expr S c l = some r1 →
    visitExpr S r1.2 e = some r2 → TypeCheck.getTypeDecor S e = some t2 →
    CodeGen.assign S (TypeCheck.visitIdent S l.ident).ty t2 r1.1 r2.1 r2.2 = some r →
    P (.assignStmt l e) c r
  ifElse : ∀ e s0 s1 c r1 r2 r3, visitExpr S c e = some r1 → Q s0 r1.2 r2 →
    Q s1 r2.2.newLabelIF.2 r3 →
    P (.ifStmt e s0 (some s1)) c
      (r1.1.code ++ [Instr.FJUMP r1.1.addr ("else" ++ ("if" ++ r2.2.newLabelIF.1))] ++
        r2.1 ++ [Instr.UJUMP ("end" ++ ("if" ++ r2.2.newLabelIF.1))] ++
        [Instr.LABEL ("else" ++ ("if" ++ r2.2.newLabelIF.1))] ++
        r3.1 ++ [Instr.LABEL ("end" ++ ("if" ++ r2.2.newLabelIF.1))], r3.2)
  ifThen : ∀ e s0 c r1 r2, visitExpr S c e = some r1 → Q s0 r1.2 r2 →
    P (.ifStmt e s0 none) c
      (r1.1.code ++ [Instr.FJUMP r1.1.addr ("end" ++ ("if" ++ r2.2.newLabelIF.1))] ++
        r2.1 ++ [Instr.LABEL ("end" ++ ("if" ++ r2.2.newLabelIF.1))], r2.2.newLabelIF.2)
  whileDo : ∀ e s c r1 r2, visitExpr S c e = some r1 → Q s r1.2 r2 →
    P (.whileStmt e s) c
      ([Instr.LABEL ("while" ++ r2.2.newLabelWHILE.1)] ++ r1.1.code ++
        [Instr.FJUMP r1.1.addr ("end" ++ ("while" ++ r2.2.newLabelWHILE.1))] ++
        r2.1 ++ [Instr.UJUMP ("while" ++ r2.2.newLabelWHILE.1)] ++
        [Instr.LABEL ("end" ++ ("while" ++ r2.2.newLabelWHILE.1))], r2.2.newLabelWHILE.2)
  proc0 : ∀ ident c,
    P (.procCall ident []) c
      ((callCode ident (TypeCheck.visitIdent S ident).ty [] 0 [] c).1.code,
       (callCode ident (TypeCheck.visitIdent S ident).ty [] 0 [] c).2)
  proc : ∀ ident args pts c rp, args ≠ [] →
    TypesMgr.getFuncParamsTypes (TypeCheck.visitIdent S ident).ty = some pts →
    visitParams S pts 0 c args = some rp →
    P (.procCall ident args) c
      ((callCode ident (TypeCheck.visitIdent S ident).ty [] args.length rp.1 rp.2).1.code,
       (callCode ident (TypeCheck.visitIdent S ident).ty [] args.length rp.1 rp.2).2)
  read : ∀ l c r a, visitLeft_expr S c l = some r → TypeCheck.visitLeft_expr S l = some a →
    P (.readStmt l) c (CodeGen.read a.ty l.expr.isSome r.1 r.2)
  writeE : ∀ e c r tid1, visitExpr S c e = some r → TypeCheck.getTypeDecor S e = some tid1 →
    P (.writeExpr e) c (CodeGen.writeExpr tid1 r.1, r.2)
  writeS : ∀ s c r, visitWriteString s c = some r → P (.writeString s) c r
  ret : ∀ e c r, visitExpr S c e = some r →
    P (.retStmt (some e)) c (r.1.code ++ [Instr.LOAD "_result" r.1.addr], r.2)
  ret0 : ∀ c, P (.retStmt none) c ([], c)
  nil : ∀ c, Q [] c ([], c)
  cons : ∀ s ss c r rs, P s c r → Q ss r.2 rs → Q (s :: ss) c (r.1 ++ rs.1, rs.2)

end CodeGen

/-- The instruction list has as many `PUSH` as `POP` instructions. -/
def Balanced (code : instructionList) : Prop :=
  code.countP Instr.isPUSH = code.countP Instr.isPOP

/-- No entry of the symbol table has the Void type. -/
def SymTable.noVoid (S : SymTable) : Prop :=
  ∀ sc ∈ S.stack, ∀ en ∈ sc, TypesMgr.isVoidTy en.ty = false

/-- The functions of
`func g(x: float): int return 1; endfunc
 func main() var a: int; a = g(a); g(g(a)); endfunc`. -/
def exampleCalls : List (FunctionNode CodeGen.Stmt) :=
  [ { ID := "g", parameters := [("x", TypeNode.basic BasicType.FLOAT)],
      basic_type := some BasicType.INT, declarations := [],
      statements := [CodeGen.Stmt.retStmt (some (Expr.value ValueKind.INTVAL "1"))] },
    { ID := "main", parameters := [], basic_type := none,
      declarations := [(["a"], TypeNode.basic BasicType.INT)],
      statements :=
        [CodeGen.Stmt.assignStmt ⟨"a", none⟩ (Expr.callFunc "g" [Expr.exprIdent "a"]),
         CodeGen.Stmt.procCall "g" [Expr.callFunc "g" [Expr.exprIdent "a"]]] } ]

/-- The label `l` is one that the generator builds from an if-label numeral minted in
the range from `c.IF` to `c'.IF` or from a while-label numeral minted in the range
from `c.WHILE` to `c'.WHILE`. -/
def LabelIn (c c' : counters) (l : String) : Prop :=
  (∃ k, c.IF ≤ k ∧ k < c'.IF ∧
    (l = "end" ++ ("if" ++ toString k) ∨ l = "else" ++ ("if" ++ toString k))) ∨
  (∃ k, c.WHILE ≤ k ∧ k < c'.WHILE ∧
    (l = "while" ++ toString k ∨ l = "end" ++ ("while" ++ toString k)))

/-- The labels `labs` placed and the labels `targs` named by code generated between the
counter states `c` and `c'`: every placed label is minted in that range, no label is
placed twice, and every named label is placed. -/
def LabelInv (c c' : counters) (labs targs : List String) : Prop :=
  (∀ l ∈ labs, LabelIn c c' l) ∧ labs.Nodup ∧ ∀ l ∈ targs, l ∈ labs

/-- The counter state `c` is not ahead of `c'` in the label counters. -/
def counters.labelsLe (c c' : counters) : Prop := c.IF ≤ c'.IF ∧ c.WHILE ≤ c'.WHILE

/-- Whether an instruction is none of `LABEL`, `UJUMP`, `FJUMP`, `PUSH`, `POP`. -/
def Instr.plain : Instr → Bool
  | .LABEL _ => false
  | .UJUMP _ => false
  | .FJUMP _ _ => false
  | .PUSH _ => false
  | .POP _ => false
  | _ => true

/-- The code `code'` reached with counters `c'` is the code `code` reached with
counters `c` followed by plain instructions, with the label counters unchanged. -/
def Extends (c : counters) (code : instructionList) (c' : counters)
    (code' : instructionList) : Prop :=
  ∃ tail, code' = code ++ tail ∧ (∀ i ∈ tail, i.plain = true) ∧
    c'.IF = c.IF ∧ c'.WHILE = c.WHILE ∧ c.TEMP ≤ c'.TEMP

/-- The function of
`func main() var v, w: array [3] of int; var i: int;
   while i < 3 do if i == 1 then v = w; else i = i + 1; endif endwhile
   if i == 0 then i = 1; endif
 endfunc`. -/
def exampleControl : List (FunctionNode CodeGen.Stmt) :=
  [ { ID := "main", parameters := [], basic_type := none,
      declarations := [(["v", "w"], TypeNode.array 3 BasicType.INT),
                       (["i"], TypeNode.basic BasicType.INT)],
      statements :=
        [CodeGen.Stmt.whileStmt
           (Expr.relational RelOp.LT (Expr.exprIdent "i") (Expr.value ValueKind.INTVAL "3"))
           [CodeGen.Stmt.ifStmt
              (Expr.relational RelOp.EQUAL (Expr.exprIdent "i") (Expr.value ValueKind.INTVAL "1"))
              [CodeGen.Stmt.assignStmt ⟨"v", none⟩ (Expr.exprIdent "w")]
              (some [CodeGen.Stmt.assignStmt ⟨"i", none⟩
                (Expr.arithmetic ArithOp.PLUS (Expr.exprIdent "i")
                  (Expr.value ValueKind.INTVAL "1"))])],
         CodeGen.Stmt.ifStmt
           (Expr.relational RelOp.EQUAL (Expr.exprIdent "i") (Expr.value ValueKind.INTVAL "0"))
           [CodeGen.Stmt.assignStmt ⟨"i", none⟩ (Expr.value ValueKind.INTVAL "1")] none] } ]

/-! ## Observations on decorations -/

namespace TypeCheck

/-- The node on which a decoration write puts a type, if it puts a type. -/
def Decor.typeKey? : Decor → Option Node
  | .putType n _ => some n
  | _ => none

/-- The node on which a decoration write puts an is-l-value flag, if it puts one. -/
def Decor.lvalKey? : Decor → Option Node
  | .putIsLValue n _ => some n
  | _ => none

/-- The nodes that received a type decoration, in order. -/
def typeKeys (d : List Decor) : List Node := d.filterMap Decor.typeKey?

/-- The nodes that received an is-l-value decoration, in order. -/
def lvalKeys (d : List Decor) : List Node := d.filterMap Decor.lvalKey?

mutual
/-- The identifier and expression nodes of an expression, children before parents. -/
def exprNodes : Expr → List Node
  | .parenthesis e => exprNodes e ++ [Node.expr (.parenthesis e)]
  | .array ident index =>
    [Node.ident ident] ++ exprNodes index ++ [Node.expr (.array ident index)]
  | .unary op e => exprNodes e ++ [Node.expr (.unary op e)]
  | .value kind text => [Node.expr (.value kind text)]
  | .callFunc ident args =>
    [Node.ident ident] ++ exprsNodes args ++ [Node.expr (.callFunc ident args)]
  | .exprIdent ident => [Node.ident ident, Node.expr (.exprIdent ident)]
  | .arithmetic op e0 e1 => exprNodes e0 ++ exprNodes e1 ++ [Node.expr (.arithmetic op e0 e1)]
  | .relational op e0 e1 => exprNodes e0 ++ exprNodes e1 ++ [Node.expr (.relational op e0 e1)]
  | .logical op e0 e1 => exprNodes e0 ++ exprNodes e1 ++ [Node.expr (.logical op e0 e1)]
/-- The identifier and expression nodes of a list of expressions. -/
def exprsNodes : List Expr → List Node
  | [] => []
  | e :: es => exprNodes e ++ exprsNodes es
end

/-- The identifier, expression and left-expression nodes of a left expression,
children before parents. -/
def leftExprNodes (l : LeftExpr) : List Node :=
  [Node.ident l.ident] ++
  (match l.expr with
   | some index => exprNodes index
   | none => []) ++ [Node.left_expr l]

mutual
/-- The identifier, expression and left-expression nodes of a statement. -/
def stmtNodes : Stmt → List Node
  | .assignStmt l e => leftExprNodes l ++ exprNodes e
  | .ifStmt e ss => exprNodes e ++ stmtsNodes ss
  | .procCall ident args => [Node.ident ident] ++ exprsNodes args
  | .readStmt l => leftExprNodes l
  | .writeExpr e => exprNodes e
  | .writeString _ => []
  | .whileStmt e ss => exprNodes e ++ stmtsNodes ss
  | .returnStmt (some e) => exprNodes e
  | .returnStmt none => []
/-- The identifier, expression and left-expression nodes of a list of statements. -/
def stmtsNodes : List Stmt → List Node
  | [] => []
  | s :: ss => stmtNodes s ++ stmtsNodes ss
end

/-- The identifier, expression and left-expression nodes of the function bodies of a
program. -/
def programNodes (ctx : List (FunctionNode Stmt)) : List Node :=
  (ctx.map (fun f => stmtsNodes f.statements)).flatten

/-- The decoration writes of `d` put a type and an is-l-value flag on exactly the
nodes `ns`, once each. -/
def Decorates (d : List Decor) (ns : List Node) : Prop :=
  typeKeys d = ns ∧ lvalKeys d = ns

end TypeCheck

/-- No entry of the symbol table has the Error type. -/
def SymTable.noError (S : SymTable) : Prop :=
  ∀ sc ∈ S.stack, ∀ en ∈ sc, TypesMgr.isErrorTy en.ty = false

/-- The functions of
`func g(x: float): int return 1; endfunc
 func main() var a: int; var v: array [2] of int;
   a = g(a); g(g(a)); if v[a] == 1 then read v[0]; endif
 endfunc`, as the analyzer reads them. -/
def exampleCallsTC : List (FunctionNode TypeCheck.Stmt) :=
  [ { ID := "g", parameters := [("x", TypeNode.basic BasicType.FLOAT)],
      basic_type := some BasicType.INT, declarations := [],
      statements := [TypeCheck.Stmt.returnStmt (some (Expr.value ValueKind.INTVAL "1"))] },
    { ID := "main", parameters := [], basic_type := none,
      declarations := [(["a"], TypeNode.basic BasicType.INT),
                       (["v"], TypeNode.array 2 BasicType.INT)],
      statements :=
        [TypeCheck.Stmt.assignStmt ⟨"a", none⟩ (Expr.callFunc "g" [Expr.exprIdent "a"]),
         TypeCheck.Stmt.procCall "g" [Expr.callFunc "g" [Expr.exprIdent "a"]],
         TypeCheck.Stmt.ifStmt
           (Expr.relational RelOp.EQUAL (Expr.array "v" (Expr.exprIdent "a"))
             (Expr.value ValueKind.INTVAL "1"))
           [TypeCheck.Stmt.readStmt ⟨"v", some (Expr.value ValueKind.INTVAL "0")⟩]] } ]

/-! ## Order of the temporaries -/

/-- The list `ws` of written operands (one entry per instruction) writes temporaries
numbered from `lo` to below `hi` only, and each temporary that it writes for the
first time has a number above all temporaries written before. -/
def Ascending (lo hi : Nat) (ws : List (Option String)) : Prop :=
  (∀ n, some (tempName n) ∈ ws → lo ≤ n ∧ n < hi) ∧
  (∀ pre post n, ws = pre ++ some (tempName n) :: post →
    some (tempName n) ∈ pre ∨ ∀ m, some (tempName m) ∈ pre → m < n)

/-- The written operands of an instruction list, one entry per instruction. -/
def writesOf (code : instructionList) : List (Option String) := code.map Instr.writes

/-- Whether an identifier is not of the form of a temporary name: it does not start
with `%`. -/
def notTemp (ident : String) : Bool := ident.data.head? != some '%'

/-- Whether the generator converts an operand of an arithmetic or relational node from
Integer to Float: some operand is decorated Float and some operand Integer. -/
def mixed (t1 t2 : Option Ty) : Bool :=
  match t1, t2 with
  | some t1, some t2 =>
    (TypesMgr.isFloatTy t1 || TypesMgr.isFloatTy t2) &&
    (TypesMgr.isIntegerTy t1 || TypesMgr.isIntegerTy t2)
  | _, _ => false

mutual
/-- Whether an expression has no arithmetic or relational node that mixes an Integer
and a Float operand and no array-indexing node whose base is not
local-variable-class. -/
def exprOrdered (S : SymTable) : Expr → Bool
  | .parenthesis e => exprOrdered S e
  | .array ident index => S.isLocalVarClass ident && exprOrdered S index
  | .unary _ e => exprOrdered S e
  | .value _ _ => true
  | .callFunc _ args => exprsOrdered S args
  | .exprIdent _ => true
  | .arithmetic _ e0 e1 =>
    exprOrdered S e0 && exprOrdered S e1 &&
      !(mixed (TypeCheck.getTypeDecor S e0) (TypeCheck.getTypeDecor S e1))
  | .relational _ e0 e1 =>
    exprOrdered S e0 && exprOrdered S e1 &&
      !(mixed (TypeCheck.getTypeDecor S e0) (TypeCheck.getTypeDecor S e1))
  | .logical _ e0 e1 => exprOrdered S e0 && exprOrdered S e1
/-- Whether every expression of a list is `exprOrdered`. -/
def exprsOrdered (S : SymTable) : List Expr → Bool
  | [] => true
  | e :: es => exprOrdered S e && exprsOrdered S es
end

/-- Whether the identifier of a left expression is not a temporary name and its index,
if any, is `exprOrdered`. -/
def leftOrdered (S : SymTable) (l : LeftExpr) : Bool :=
  notTemp l.ident &&
  (match l.expr with
   | some index => exprOrdered S index
   | none => true)

mutual
/-- Whether a statement of the generator has only `exprOrdered` expressions and
`leftOrdered` left expressions and no whole-array assignment (an assignment in which
the left identifier and the right-hand side are both decorated with an Array
type). -/
def stmtOrdered (S : SymTable) : CodeGen.Stmt → Bool
  | .assignStmt l e =>
    leftOrdered S l && exprOrdered S e &&
      !(TypesMgr.isArrayTy (TypeCheck.visitIdent S l.ident).ty &&
        (match TypeCheck.getTypeDecor S e with
         | some t2 => TypesMgr.isArrayTy t2
         | none => false))
  | .ifStmt e s0 (some s1) => exprOrdered S e && stmtsOrdered S s0 && stmtsOrdered S s1
  | .ifStmt e s0 none => exprOrdered S e && stmtsOrdered S s0
  | .whileStmt e s => exprOrdered S e && stmtsOrdered S s
  | .procCall _ args => exprsOrdered S args
  | .readStmt l => leftOrdered S l
  | .writeExpr e => exprOrdered S e
  | .writeString _ => true
  | .retStmt (some e) => exprOrdered S e
  | .retStmt none => true
/-- Whether every statement of a list is `stmtOrdered`. -/
def stmtsOrdered (S : SymTable) : List CodeGen.Stmt → Bool
  | [] => true
  | s :: ss => stmtOrdered S s && stmtsOrdered S ss
end

/-- Whether the body of function `f` of program `ctx` is `stmtsOrdered` in the symbol
table of the function: the scope of `f` on top of the global scope. -/
def functionOrdered (ctx : List (FunctionNode CodeGen.Stmt)) (f : FunctionNode CodeGen.Stmt) :
    Bool :=
  stmtsOrdered ((SymTable.init.pushThisScope (globalScope ctx)).pushThisScope f.scope)
    f.statements

/-- The expression `a + b`. -/
def exprAPlusB : Expr :=
  Expr.arithmetic ArithOp.PLUS (Expr.exprIdent "a") (Expr.exprIdent "b")

/-- The instructions of `main` of
`func main() var a: int; var b: float; b = a + b; endfunc`. -/
def exampleMixedCode : instructionList :=
  [Instr.FLOAT "%1" "a", Instr.FADD "%0" "%1" "b", Instr.LOAD "b" "%0", Instr.RETURN]

/-- The property of the results of the expression visitors: on an `exprOrdered`
expression the code writes the temporaries minted by the visit in ascending order. -/
def CodeGen.ExprAsc (S : SymTable) (e : Expr) (c : counters)
    (r : CodeGen.CodeAttribs × counters) : Prop :=
  exprOrdered S e = true →
    c.TEMP ≤ r.2.TEMP ∧ Ascending c.TEMP r.2.TEMP (writesOf r.1.code)

/-- The property of the results of the argument loop. -/
def CodeGen.ParamsAsc (S : SymTable) (es : List Expr) (c : counters)
    (r : instructionList × counters) : Prop :=
  exprsOrdered S es = true → c.TEMP ≤ r.2.TEMP ∧ Ascending c.TEMP r.2.TEMP (writesOf r.1)

/-- The property of the results of the statement visitors: on a `stmtOrdered` statement
the code writes the temporaries minted by the visit in ascending order. -/
def CodeGen.StmtAsc (S : SymTable) (s : CodeGen.Stmt) (c : counters)
    (r : instructionList × counters) : Prop :=
  stmtOrdered S s = true → c.TEMP ≤ r.2.TEMP ∧ Ascending c.TEMP r.2.TEMP (writesOf r.1)

/-- The property of the results of `visitStatements`. -/
def CodeGen.StmtsAsc (S : SymTable) (ss : List CodeGen.Stmt) (c : counters)
    (r : instructionList × counters) : Prop :=
  stmtsOrdered S ss = true → c.TEMP ≤ r.2.TEMP ∧ Ascending c.TEMP r.2.TEMP (writesOf r.1)

/-! ## Assignments and functions of the generator -/

/-- The code that the specification gives for a whole-array assignment `dst = src`
(section 4.G, "Assignment", case 5): the base pointers of the arrays that are not
local-variable-class, the four initialisations and the loop.  `k` is the number of the
first temporary, `w` the number of the while-label and `n` the length loaded into
the loop bound. -/
def arrayCopyCode (dstLocal srcLocal : Bool) (dst src : String) (k w n : Nat) :
    instructionList :=
  (if dstLocal then [] else [Instr.LOAD (tempName k) dst]) ++
  (if srcLocal then [] else [Instr.LOAD (tempName (k + 1)) src]) ++
  [Instr.ILOAD (tempName (k + 2)) "0",
   Instr.ILOAD (tempName (k + 3)) "1",
   Instr.ILOAD (tempName (k + 4)) (toString n),
   Instr.ILOAD (tempName (k + 5)) "1",
   Instr.LABEL ("while" ++ toString w),
   Instr.LT (tempName (k + 7)) (tempName (k + 2)) (tempName (k + 4)),
   Instr.FJUMP (tempName (k + 7)) ("end" ++ ("while" ++ toString w)),
   Instr.MUL (tempName (k + 6)) (tempName (k + 5)) (tempName (k + 2)),
   Instr.LOADX (tempName (k + 8)) (if srcLocal then src else tempName (k + 1))
     (tempName (k + 6)),
   Instr.XLOAD (if dstLocal then dst else tempName k) (tempName (k + 6)) (tempName (k + 8)),
   Instr.ADD (tempName (k + 2)) (tempName (k + 2)) (tempName (k + 3)),
   Instr.UJUMP ("while" ++ toString w),
   Instr.LABEL ("end" ++ ("while" ++ toString w))]

/-- The whole-array assignment `dst = src` as a statement of the generator. -/
def arrayAssign (dst src : String) : CodeGen.Stmt :=
  CodeGen.Stmt.assignStmt ⟨dst, none⟩ (Expr.exprIdent src)

/-- The temporary against which the first `LT` of an instruction list compares: the
loop bound of an array copy. -/
def loopBound (code : instructionList) : Option String :=
  code.findSome? (fun i =>
    match i with
    | .LT _ _ b => some b
    | _ => none)

/-- The literal that the first `ILOAD` into operand `t` loads. -/
def loadedLiteral (code : instructionList) (t : String) : Option String :=
  code.findSome? (fun i =>
    match i with
    | .ILOAD d lit => if d = t then some lit else none
    | _ => none)

/-- The literal loaded into the loop-bound temporary of an instruction list. -/
def sizeLiteral (code : instructionList) : Option String :=
  (loopBound code).bind (loadedLiteral code)

/-- The function of
`func main() var v, w: array [3] of int; v = w; endfunc` (scenario S4). -/
def exampleS4 : List (FunctionNode CodeGen.Stmt) :=
  [ { ID := "main", parameters := [], basic_type := none,
      declarations := [(["v", "w"], TypeNode.array 3 BasicType.INT)],
      statements := [arrayAssign "v" "w"] } ]

/-- The symbol table inside `main` of `exampleS4`. -/
def exampleS4Table : SymTable :=
  (SymTable.init.pushThisScope (globalScope exampleS4)).pushThisScope
    [⟨"v", SymClass.variable, Ty.array Ty.integer 3⟩,
     ⟨"w", SymClass.variable, Ty.array Ty.integer 3⟩]

/-- The expression `3 + 4`. -/
def expr3Plus4 : Expr :=
  Expr.arithmetic ArithOp.PLUS (Expr.value ValueKind.INTVAL "3") (Expr.value ValueKind.INTVAL "4")

/-- The function of `func main() var x: int; x = 3 + 4; endfunc` (scenario S1). -/
def exampleS1 : List (FunctionNode CodeGen.Stmt) :=
  [ { ID := "main", parameters := [], basic_type := none,
      declarations := [(["x"], TypeNode.basic BasicType.INT)],
      statements := [CodeGen.Stmt.assignStmt ⟨"x", none⟩ expr3Plus4] } ]

/-- The symbol table inside `main` of `exampleS1`. -/
def exampleS1Table : SymTable :=
  (SymTable.init.pushThisScope (globalScope exampleS1)).pushThisScope
    [⟨"x", SymClass.variable, Ty.integer⟩]

/-- The function of `func g(a: array [5] of int) a[0] = 1; endfunc` (scenario S5). -/
def exampleS5 : List (FunctionNode CodeGen.Stmt) :=
  [ { ID := "g", parameters := [("a", TypeNode.array 5 BasicType.INT)], basic_type := none,
      declarations := [],
      statements :=
        [CodeGen.Stmt.assignStmt ⟨"a", some (Expr.value ValueKind.INTVAL "0")⟩
          (Expr.value ValueKind.INTVAL "1")] } ]

/-- The symbol table inside `g` of `exampleS5`. -/
def exampleS5Table : SymTable :=
  (SymTable.init.pushThisScope (globalScope exampleS5)).pushThisScope
    [⟨"a", SymClass.parameter, Ty.array Ty.integer 5⟩]

/-! ## Sample programs of the analyzer -/

/-- The function of `func main() var x: int; <body> endfunc` over statements of type
`σ`. -/
def exampleIntVar {σ : Type} (body : List σ) : List (FunctionNode σ) :=
  [ { ID := "main", parameters := [], basic_type := none,
      declarations := [(["x"], TypeNode.basic BasicType.INT)], statements := body } ]

/-- The symbol table inside `main` of `exampleIntVar`. -/
def exampleIntVarTable : SymTable :=
  { stack := [[⟨"x", SymClass.variable, Ty.integer⟩],
              [⟨"main", SymClass.function, Ty.function [] Ty.void⟩]],
    currentFunctionTy := Ty.void }

/-- The statement `x = true;` (scenario S2). -/
def stmtS2 : TypeCheck.Stmt :=
  TypeCheck.Stmt.assignStmt ⟨"x", none⟩ (Expr.value ValueKind.BOOLVAL "true")

/-- The statement `x[0] = 1;` (scenario S8). -/
def stmtS8 : TypeCheck.Stmt :=
  TypeCheck.Stmt.assignStmt ⟨"x", some (Expr.value ValueKind.INTVAL "0")⟩
    (Expr.value ValueKind.INTVAL "1")

/-- The statement `if 1 then endif` (scenario S7). -/
def stmtS7 : TypeCheck.Stmt :=
  TypeCheck.Stmt.ifStmt (Expr.value ValueKind.INTVAL "1") []

/-- The function of `func main() if 1 then endif endfunc` (scenario S7). -/
def exampleS7 : List (FunctionNode TypeCheck.Stmt) :=
  [ { ID := "main", parameters := [], basic_type := none, declarations := [],
      statements := [stmtS7] } ]

/-- A symbol table whose current function has result type Float. -/
def exampleFloatResultTable : SymTable :=
  { stack := [[⟨"a", SymClass.parameter, Ty.integer⟩]], currentFunctionTy := Ty.float }

/-! ## Execution of t-code -/

/-- Modelled from the spec: the state of a machine that runs one t-code instruction list
(section 3, "Instructions"): the program counter, the values of the scalar operands
(variables, parameters and temporaries; an operand that holds the address of an array
holds the number of that array), the cells of the arrays by array and offset, the
instructions executed so far and the array writes performed so far as triples (array,
offset, value), both in order of execution. -/
structure Machine where
  pc : Nat
  val : String → Int
  mem : Int → Int → Int
  trace : List Instr
  writes : List (Int × Int × Int)

/-- Modelled from the spec: the arrays that are storage of the running subroutine.  A
local-variable-class array name directly denotes its storage; every other operand holds
an address (glossary, "Local-variable-class"). -/
abbrev Frame := String → Option Int

/-- Modelled from the spec: the array that the base operand of `LOADX` and `XLOAD`
denotes: the storage of the name, or else the address that the operand holds. -/
def Machine.base (frame : Frame) (st : Machine) (b : String) : Int :=
  match frame b with
  | some a => a
  | none => st.val b

/-- Modelled from the spec: the value of an integer literal operand, read in base 10. -/
def literal (lit : String) : Int := (decodeNat 0 lit.data : Nat)

/-- Modelled from the spec: the position of `LABEL l` in an instruction list, if any. -/
def labelIndex : instructionList → String → Option Nat
  | [], _ => none
  | i :: rest, l => if i = Instr.LABEL l then some 0 else (labelIndex rest l).map (· + 1)

/-- Modelled from the spec: the scalar values after operand `d` is given the value `v`. -/
def setVal (val : String → Int) (d : String) (v : Int) : String → Int :=
  fun x => if x = d then v else val x

/-- Modelled from the spec: the array cells after cell `o` of array `a` is given the
value `v`. -/
def setMem (mem : Int → Int → Int) (a o v : Int) : Int → Int → Int :=
  fun a' o' => if a' = a ∧ o' = o then v else mem a' o'

/-- Modelled from the spec: one step of the t-code machine on the instructions of a
whole-array copy (section 3, "Instructions"): `LOAD` is a scalar copy, `ILOAD` loads an
immediate, `LOADX dst base offset` reads an array cell, `XLOAD base offset src` writes
one, `ADD` and `MUL` are the integer operations, `LT` gives 1 or 0, `LABEL` does
nothing, `UJUMP` jumps and `FJUMP cond name` jumps if `cond` is 0.  The result is
`none` past the end of the list, at a jump to a missing label and at any other
instruction. -/
def step (frame : Frame) (code : instructionList) (st : Machine) : Option Machine :=
  match code.get? st.pc with
  | none => none
  | some i =>
    let st' : Machine := { st with pc := st.pc + 1, trace := st.trace ++ [i] }
    match i with
    | .LOAD d s => some { st' with val := setVal st.val d (st.val s) }
    | .ILOAD d lit => some { st' with val := setVal st.val d (literal lit) }
    | .LOADX d b o =>
      some { st' with val := setVal st.val d (st.mem (st.base frame b) (st.val o)) }
    | .XLOAD b o s =>
      some { st' with mem := setMem st.mem (st.base frame b) (st.val o) (st.val s),
                      writes := st.writes ++ [(st.base frame b, st.val o, st.val s)] }
    | .ADD d a b => some { st' with val := setVal st.val d (st.val a + st.val b) }
    | .MUL d a b => some { st' with val := setVal st.val d (st.val a * st.val b) }
    | .LT d a b => some { st' with val := setVal st.val d (if st.val a < st.val b then 1 else 0) }
    | .LABEL _ => some st'
    | .UJUMP l => (labelIndex code l).map (fun k => { st' with pc := k })
    | .FJUMP c l =>
      if st.val c = 0 then (labelIndex code l).map (fun k => { st' with pc := k })
      else some st'
    | _ => none

/-- Modelled from the spec: the state after exactly `k` steps of the machine, if it can
make them. -/
def exec (frame : Frame) (code : instructionList) : Nat → Machine → Option Machine
  | 0, st => some st
  | k + 1, st => (step frame code st).bind (exec frame code k)

/-- Modelled from the spec: the machine at the start of an instruction list, with the
scalar values `val` and the array cells `mem`. -/
def Machine.start (val : String → Int) (mem : Int → Int → Int) : Machine :=
  { pc := 0, val := val, mem := mem, trace := [], writes := [] }

/-- Modelled from the spec: the array that an array identifier denotes when the code of
the assignment starts: its storage when it is local-variable-class, the address it
holds otherwise (section 4.G, "Assignment", case 5). -/
def arrayOf (S : SymTable) (frame : Frame) (val : String → Int) (x : String) : Option Int :=
  if S.isLocalVarClass x then frame x else some (val x)

/-- The instructions of an array copy that run once: the `LOAD`s of the base pointers
and the four initialisations. -/
def arrayCopyInit (dstLocal srcLocal : Bool) (dst src : String) (k n : Nat) : instructionList :=
  (if dstLocal then [] else [Instr.LOAD (tempName k) dst]) ++
  (if srcLocal then [] else [Instr.LOAD (tempName (k + 1)) src]) ++
  [Instr.ILOAD (tempName (k + 2)) "0",
   Instr.ILOAD (tempName (k + 3)) "1",
   Instr.ILOAD (tempName (k + 4)) (toString n),
   Instr.ILOAD (tempName (k + 5)) "1"]

/-- The loop test of an array copy: the loop label, the comparison and the exit jump. -/
def arrayCopyTest (k w : Nat) : instructionList :=
  [Instr.LABEL ("while" ++ toString w),
   Instr.LT (tempName (k + 7)) (tempName (k + 2)) (tempName (k + 4)),
   Instr.FJUMP (tempName (k + 7)) ("end" ++ ("while" ++ toString w))]

/-- The loop body of an array copy: offset, read, write, increment and the jump back. -/
def arrayCopyBody (dstLocal srcLocal : Bool) (dst src : String) (k w : Nat) : instructionList :=
  [Instr.MUL (tempName (k + 6)) (tempName (k + 5)) (tempName (k + 2)),
   Instr.LOADX (tempName (k + 8)) (if srcLocal then src else tempName (k + 1))
     (tempName (k + 6)),
   Instr.XLOAD (if dstLocal then dst else tempName k) (tempName (k + 6)) (tempName (k + 8)),
   Instr.ADD (tempName (k + 2)) (tempName (k + 2)) (tempName (k + 3)),
   Instr.UJUMP ("while" ++ toString w)]

/-- The copy loop of a whole-array assignment sits in `code` from position `p`: the
four initialisations, the loop test, the loop body with base operands `bD` for the
destination and `bS` for the source, and the end label, which is the last
instruction; the two labels are found at their positions. -/
structure CopyLoop (code : instructionList) (p : Nat) (bD bS : String) (k w n : Nat) :
    Prop where
  i0 : code.get? p = some (Instr.ILOAD (tempName (k + 2)) "0")
  i1 : code.get? (p + 1) = some (Instr.ILOAD (tempName (k + 3)) "1")
  i2 : code.get? (p + 2) = some (Instr.ILOAD (tempName (k + 4)) (toString n))
  i3 : code.get? (p + 3) = some (Instr.ILOAD (tempName (k + 5)) "1")
  g0 : code.get? (p + 4) = some (Instr.LABEL ("while" ++ toString w))
  g1 : code.get? (p + 5) =
    some (Instr.LT (tempName (k + 7)) (tempName (k + 2)) (tempName (k + 4)))
  g2 : code.get? (p + 6) =
    some (Instr.FJUMP (tempName (k + 7)) ("end" ++ ("while" ++ toString w)))
  g3 : code.get? (p + 7) =
    some (Instr.MUL (tempName (k + 6)) (tempName (k + 5)) (tempName (k + 2)))
  g4 : code.get? (p + 8) = some (Instr.LOADX (tempName (k + 8)) bS (tempName (k + 6)))
  g5 : code.get? (p + 9) = some (Instr.XLOAD bD (tempName (k + 6)) (tempName (k + 8)))
  g6 : code.get? (p + 10) =
    some (Instr.ADD (tempName (k + 2)) (tempName (k + 2)) (tempName (k + 3)))
  g7 : code.get? (p + 11) = some (Instr.UJUMP ("while" ++ toString w))
  g8 : code.get? (p + 12) = some (Instr.LABEL ("end" ++ ("while" ++ toString w)))
  lw : labelIndex code ("while" ++ toString w) = some (p + 4)
  le : labelIndex code ("end" ++ ("while" ++ toString w)) = some (p + 12)
  len : code.length = p + 13

/-- The loop invariant of the copy loop at the loop label, before iteration `i`: the
index holds `i`, the increment and the stride hold 1, the bound holds `n`, the base
operands denote the arrays `D` and `A`, the source array is as in `mem0`, the first
`i` cells of `D` hold the cells of `A` in `mem0`, and the trace and the writes are
those of `i` iterations after the trace `tr0`. -/
structure CopyInv (frame : Frame) (p : Nat) (bD bS : String) (k n : Nat) (D A : Int)
    (mem0 : Int → Int → Int) (tr0 iter : List Instr) (i : Nat) (st : Machine) : Prop where
  pc : st.pc = p + 4
  idx : st.val (tempName (k + 2)) = i
  inc : st.val (tempName (k + 3)) = 1
  size : st.val (tempName (k + 4)) = n
  stride : st.val (tempName (k + 5)) = 1
  baseD : st.base frame bD = D
  baseS : st.base frame bS = A
  src : ∀ o, st.mem A o = mem0 A o
  dst : ∀ j : Nat, j < i → st.mem D j = mem0 A j
  trace : st.trace = tr0 ++ (List.replicate i iter).flatten
  writes : st.writes = (List.range i).map (fun j => (D, (j : Int), mem0 A j))

/-- A frame for `main` of scenario S4: `v` is array 0 and `w` is array 1. -/
def exampleS4Frame : Frame :=
  fun x => if x = "v" then some 0 else if x = "w" then some 1 else none

/-- Array cells in which cell `o` of array 1 holds `10 + o` and every other cell 0. -/
def exampleS4Mem : Int → Int → Int :=
  fun a o => if a = 1 then 10 + o else 0

/-! ## Calls -/

namespace TypeCheck

/-- The diagnostics of the parameter loops of `visitCallFunc` and `visitProcCall`
argument by argument: entry `j` is what the check of argument number `i + j` reports. -/
def paramChecks (call : Node) (i : Nat) : List Ty → List Expr → List Attr → List (List SemError)
  | p :: ps, e :: es, a :: r => paramCheck call e i p a.ty :: paramChecks call (i + 1) ps es r
  | _, _, _ => []

end TypeCheck

/-- The symbol table inside `main` of
`func g(x: float): int return 1; endfunc
 func p() endfunc
 func main() var a: int; var c: bool; ... endfunc`. -/
def exampleCallTable : SymTable :=
  { stack := [[⟨"a", SymClass.variable, Ty.integer⟩, ⟨"c", SymClass.variable, Ty.boolean⟩],
              [⟨"g", SymClass.function, Ty.function [Ty.float] Ty.integer⟩,
               ⟨"p", SymClass.function, Ty.function [] Ty.void⟩,
               ⟨"main", SymClass.function, Ty.function [] Ty.void⟩]],
    currentFunctionTy := Ty.void }

/-! ## String literals -/

/-- The two instructions that write one byte `b` of a string literal through the
temporary `temp`: `CHLOAD temp, b ; WRITEC temp`. -/
def writeChar (temp : String) (b : Nat) : instructionList :=
  [Instr.CHLOAD temp (CodeGen.bytesText [b]), Instr.WRITEC temp]

/-! ## Properties -/

/-- C1: on `func f(a: int): float return a; endfunc func main() endfunc` the analyzer
reports nothing and the generator gives `f` the parameters `_result, a` and the
instructions `LOAD _result,a ; RETURN`: the return of an Integer from a Float
function is lowered without a `FLOAT` conversion. -/
theorem C1_return_without_conversion :
    TypeCheck.diagnostics (exampleS3 (TypeCheck.Stmt.returnStmt (some (Expr.exprIdent "a"))))
      = some [] ∧
    CodeGen.subroutines (exampleS3 (CodeGen.Stmt.retStmt (some (Expr.exprIdent "a")))) =
      some [ { name := "f", params := ["_result", "a"], vars := [],
               instructions := [Instr.LOAD "_result" "a", Instr.RETURN] },
             { name := "main", params := [], vars := [], instructions := [Instr.RETURN] } ] :=
  ⟨rfl, rfl⟩

/-- C2: on `func main() var a: int; var b: float; b = a; endfunc` the analyzer reports
nothing and the generator emits `LOAD b,a ; RETURN`: the Integer address of the
right-hand side is stored into the Float variable directly, with no `FLOAT`
instruction. -/
theorem C2_assign_without_conversion :
    TypeCheck.diagnostics
      (exampleIntFloat [TypeCheck.Stmt.assignStmt ⟨"b", none⟩ (Expr.exprIdent "a")]) = some [] ∧
    CodeGen.subroutines
      (exampleIntFloat [CodeGen.Stmt.assignStmt ⟨"b", none⟩ (Expr.exprIdent "a")]) =
      some [ { name := "main", params := [], vars := [⟨"a", 1⟩, ⟨"b", 1⟩],
               instructions := [Instr.LOAD "b" "a", Instr.RETURN] } ] :=
  ⟨rfl, rfl⟩

/-- C3, the claim refuted: the instruction list generated for
`func main() var a: int; var b: float; b = a + 1; endfunc` does not contain exactly one
`FLOAT` instruction (it contains none). -/
theorem C3_counterexample :
    ¬ (∃ subr, CodeGen.subroutines
          (exampleIntFloat [CodeGen.Stmt.assignStmt ⟨"b", none⟩ exprAPlus1]) = some [subr] ∧
        subr.instructions.countP Instr.isFLOAT = 1) := by
  rintro ⟨subr, h, hc⟩
  have h2 : CodeGen.subroutines
      (exampleIntFloat [CodeGen.Stmt.assignStmt ⟨"b", none⟩ exprAPlus1]) =
      some [ { name := "main", params := [], vars := [⟨"a", 1⟩, ⟨"b", 1⟩],
               instructions := [Instr.ILOAD "%0" "1", Instr.ADD "%1" "a" "%0",
                                Instr.LOAD "b" "%1", Instr.RETURN] } ] := rfl
  rw [h2] at h
  simp only [Option.some.injEq, List.cons.injEq, and_true] at h
  subst h
  revert hc
  decide

/-- C3, amended: for `func main() var a: int; var b: float; b = a + 1; endfunc` the
addition of the two Integer operands is generated as `ILOAD %0,1 ; ADD %1,a,%0` with
result temporary `%1`; the instruction list of `main` starts with this code, contains
no `FADD`, and ends with a `LOAD` into `b` followed by `RETURN`. -/
theorem C3_int_addition_is_ADD :
    CodeGen.visitExpr exampleIntFloatTable
        counters.reset exprAPlus1 =
      some ({ addr := "%1", offs := "",
              code := [Instr.ILOAD "%0" "1", Instr.ADD "%1" "a" "%0"] },
            { TEMP := 2, IF := 0, WHILE := 0 }) ∧
    ∃ subr mid src,
      CodeGen.subroutines
          (exampleIntFloat [CodeGen.Stmt.assignStmt ⟨"b", none⟩ exprAPlus1]) = some [subr] ∧
      subr.instructions =
        [Instr.ILOAD "%0" "1", Instr.ADD "%1" "a" "%0"] ++ mid ++
          [Instr.LOAD "b" src, Instr.RETURN] ∧
      subr.instructions.countP Instr.isFADD = 0 :=
  ⟨rfl, _, [], "%1", rfl, rfl, rfl⟩

/-- C5: on `func p() endfunc func main() p(); endfunc` the analyzer reports nothing and
the generator emits `PUSH ; CALL p ; POP %0 ; RETURN` for `main`: a call of a function
with Void result still reserves a return slot with an operand-less `PUSH`. -/
theorem C5_void_call_pushes :
    TypeCheck.diagnostics (exampleVoidCall [TypeCheck.Stmt.procCall "p" []]) = some [] ∧
    CodeGen.subroutines (exampleVoidCall [CodeGen.Stmt.procCall "p" []]) =
      some [ { name := "p", params := [], vars := [], instructions := [Instr.RETURN] },
             { name := "main", params := [], vars := [],
               instructions := [Instr.PUSH none, Instr.CALL "p", Instr.POP (some "%0"),
                                Instr.RETURN] } ] :=
  ⟨rfl, rfl⟩

/-! ### Induction over the generator -/

namespace CodeGen

mutual
/-- Induction over the expression visitors of the generator. -/
theorem visitExpr_cases {S : SymTable}
    {P : Expr → counters → CodeAttribs × counters → Prop}
    {Q : List Ty → Nat → List Expr → counters → instructionList × counters → Prop}
    (H : ExprCases S P Q) :
    ∀ (e : Expr) (c : counters) (r : CodeAttribs × counters),
      visitExpr S c e = some r → P e c r
  | .parenthesis e, c, r, h => by
    simp only [visitExpr] at h
    exact H.paren e c r (visitExpr_cases H e c r h)
  | .array ident index, c, r, h => by
    simp only [visitExpr, Option.bind_eq_bind, Option.bind_eq_some, Option.pure_def,
      Option.some.injEq] at h
    obtain ⟨r1, h1, rfl⟩ := h
    exact H.arr ident index c r1 (visitExpr_cases H index c r1 h1)
  | .unary op e, c, r, h => by
    simp only [visitExpr, Option.bind_eq_bind, Option.bind_eq_some, Option.pure_def,
      Option.some.injEq] at h
    obtain ⟨r1, h1, t1, ht1, rfl⟩ := h
    exact H.un op e c r1 t1 ht1 (visitExpr_cases H e c r1 h1)
  | .value kind text, c, r, h => by
    simp only [visitExpr, Option.some.injEq] at h
    subst h
    exact H.val kind text c
  | .callFunc ident [], c, r, h => by
    simp only [visitExpr, Option.bind_eq_bind, Option.bind_eq_some, Option.pure_def,
      Option.some.injEq, visitIdent] at h
    subst h
    exact H.call0 ident c
  | .callFunc ident (a :: as), c, r, h => by
    simp only [visitExpr, Option.bind_eq_bind, Option.bind_eq_some, Option.pure_def,
      Option.some.injEq, visitIdent] at h
    obtain ⟨pts, hp, rp, hr, rfl⟩ := h
    exact H.call ident (a :: as) pts c rp (by simp) hp hr
      (visitParams_cases H (a :: as) pts 0 c rp hr)
  | .exprIdent ident, c, r, h => by
    simp only [visitExpr, Option.some.injEq] at h
    subst h
    exact H.idt ident c
  | .arithmetic op e0 e1, c, r, h => by
    simp only [visitExpr, Option.bind_eq_bind, Option.bind_eq_some, Option.pure_def,
      Option.some.injEq] at h
    obtain ⟨r1, h1, r2, h2, t1, ht1, t2, ht2, rfl⟩ := h
    exact H.arith op e0 e1 c r1 r2 t1 t2 ht1 ht2
      (visitExpr_cases H e0 c r1 h1) (visitExpr_cases H e1 r1.2 r2 h2)
  | .relational op e0 e1, c, r, h => by
    simp only [visitExpr, Option.bind_eq_bind, Option.bind_eq_some, Option.pure_def,
      Option.some.injEq] at h
    obtain ⟨r1, h1, r2, h2, t1, ht1, t2, ht2, rfl⟩ := h
    exact H.rel op e0 e1 c r1 r2 t1 t2 ht1 ht2
      (visitExpr_cases H e0 c r1 h1) (visitExpr_cases H e1 r1.2 r2 h2)
  | .logical op e0 e1, c, r, h => by
    simp only [visitExpr, Option.bind_eq_bind, Option.bind_eq_some, Option.pure_def,
      Option.some.injEq] at h
    obtain ⟨r1, h1, r2, h2, rfl⟩ := h
    exact H.log op e0 e1 c r1 r2
      (visitExpr_cases H e0 c r1 h1) (visitExpr_cases H e1 r1.2 r2 h2)
/-- Induction over the argument loop of the generator. -/
theorem visitParams_cases {S : SymTable}
    {P : Expr → counters → CodeAttribs × counters → Prop}
    {Q : List Ty → Nat → List Expr → counters → instructionList × counters → Prop}
    (H : ExprCases S P Q) :
    ∀ (es : List Expr) (pts : List Ty) (i : Nat) (c : counters) (r : instructionList × counters),
      visitParams S pts i c es = some r → Q pts i es c r
  | [], pts, i, c, r, h => by
    simp only [visitParams, Option.some.injEq] at h
    subst h
    exact H.nil pts i c
  | e :: es, pts, i, c, r, h => by
    simp only [visitParams, Option.bind_eq_bind, Option.bind_eq_some, Option.pure_def,
      Option.some.injEq] at h
    obtain ⟨r1, h1, p, hp, te, hte, rest, hrest, rfl⟩ := h
    exact H.cons pts i e es c r1 p te rest (visitExpr_cases H e c r1 h1) hp hte
      (visitParams_cases H es pts (i + 1) _ rest hrest)
end

mutual
/-- Induction over the statement visitors of the generator. -/
theorem visitStmt_cases {S : SymTable}
    {P : Stmt → counters → instructionList × counters → Prop}
    {Q : List Stmt → counters → instructionList × counters → Prop}
    (H : StmtCases S P Q) :
    ∀ (s : Stmt) (c : counters) (r : instructionList × counters),
      visitStmt S c s = some r → P s c r
  | .assignStmt l e, c, r, h => by
    simp only [visitStmt, Option.bind_eq_bind, Option.bind_eq_some] at h
    obtain ⟨r1, h1, r2, h2, t2, ht2, hr⟩ := h
    exact H.assign l e c r1 r2 t2 r h1 h2 ht2 hr
  | .ifStmt e s0 (some s1), c, r, h => by
    simp only [visitStmt, Option.bind_eq_bind, Option.bind_eq_some, Option.pure_def,
      Option.some.injEq] at h
    obtain ⟨r1, h1, r2, h2, r3, h3, rfl⟩ := h
    exact H.ifElse e s0 s1 c r1 r2 r3 h1 (visitStatements_cases H s0 _ r2 h2)
      (visitStatements_cases H s1 _ r3 h3)
  | .ifStmt e s0 none, c, r, h => by
    simp only [visitStmt, Option.bind_eq_bind, Option.bind_eq_some, Option.pure_def,
      Option.some.injEq] at h
    obtain ⟨r1, h1, r2, h2, rfl⟩ := h
    exact H.ifThen e s0 c r1 r2 h1 (visitStatements_cases H s0 _ r2 h2)
  | .whileStmt e s, c, r, h => by
    simp only [visitStmt, Option.bind_eq_bind, Option.bind_eq_some, Option.pure_def,
      Option.some.injEq] at h
    obtain ⟨r1, h1, r2, h2, rfl⟩ := h
    exact H.whileDo e s c r1 r2 h1 (visitStatements_cases H s _ r2 h2)
  | .procCall ident [], c, r, h => by
    simp only [visitStmt, Option.bind_eq_bind, Option.bind_eq_some, Option.pure_def,
      Option.some.injEq] at h
    subst h
    exact H.proc0 ident c
  | .procCall ident (a :: as), c, r, h => by
    simp only [visitStmt, Option.bind_eq_bind, Option.bind_eq_some, Option.pure_def,
      Option.some.injEq] at h
    obtain ⟨pts, hp, rp, hr, rfl⟩ := h
    exact H.proc ident (a :: as) pts c rp (by simp) hp hr
  | .readStmt l, c, r, h => by
    simp only [visitStmt, Option.bind_eq_bind, Option.bind_eq_some, Option.pure_def,
      Option.some.injEq] at h
    obtain ⟨r1, h1, a, ha, rfl⟩ := h
    exact H.read l c r1 a h1 ha
  | .writeExpr e, c, r, h => by
    simp only [visitStmt, Option.bind_eq_bind, Option.bind_eq_some, Option.pure_def,
      Option.some.injEq] at h
    obtain ⟨r1, h1, t, ht, rfl⟩ := h
    exact H.writeE e c r1 t h1 ht
  | .writeString s, c, r, h => by
    simp only [visitStmt] at h
    exact H.writeS s c r h
  | .retStmt (some e), c, r, h => by
    simp only [visitStmt, Option.bind_eq_bind, Option.bind_eq_some, Option.pure_def,
      Option.some.injEq] at h
    obtain ⟨r1, h1, rfl⟩ := h
    exact H.ret e c r1 h1
  | .retStmt none, c, r, h => by
    simp only [visitStmt, Option.some.injEq] at h
    subst h
    exact H.ret0 c
/-- Induction over the statement lists of the generator. -/
theorem visitStatements_cases {S : SymTable}
    {P : Stmt → counters → instructionList × counters → Prop}
    {Q : List Stmt → counters → instructionList × counters → Prop}
    (H : StmtCases S P Q) :
    ∀ (ss : List Stmt) (c : counters) (r : instructionList × counters),
      visitStatements S c ss = some r → Q ss c r
  | [], c, r, h => by
    simp only [visitStatements, Option.some.injEq] at h
    subst h
    exact H.nil c
  | s :: ss, c, r, h => by
    simp only [visitStatements, Option.bind_eq_bind, Option.bind_eq_some, Option.pure_def,
      Option.some.injEq] at h
    obtain ⟨r1, h1, rs, hrs, rfl⟩ := h
    exact H.cons s ss c r1 rs (visitStmt_cases H s c r1 h1) (visitStatements_cases H ss _ rs hrs)
end

end CodeGen


/-! ### Shape of the code of the expression visitors -/

theorem Instr.plain_isPUSH {i : Instr} (h : i.plain = true) : i.isPUSH = false := by
  cases i <;> simp_all [Instr.plain, Instr.isPUSH]

theorem Instr.plain_isPOP {i : Instr} (h : i.plain = true) : i.isPOP = false := by
  cases i <;> simp_all [Instr.plain, Instr.isPOP]

theorem Instr.plain_label {i : Instr} (h : i.plain = true) : i.label? = none := by
  cases i <;> simp_all [Instr.plain, Instr.label?]

theorem Instr.plain_target {i : Instr} (h : i.plain = true) : i.target? = none := by
  cases i <;> simp_all [Instr.plain, Instr.target?]

theorem filterMap_eq_nil_of_forall {α β : Type} {f : α → Option β} {l : List α}
    (h : ∀ x ∈ l, f x = none) : l.filterMap f = [] := by
  induction l with
  | nil => rfl
  | cons a l ih =>
    simp only [List.mem_cons, forall_eq_or_imp] at h
    simp [List.filterMap_cons, h.1, ih h.2]

theorem countP_eq_zero_of_forall {α : Type} {p : α → Bool} {l : List α}
    (h : ∀ x ∈ l, p x = false) : l.countP p = 0 := by
  induction l with
  | nil => rfl
  | cons a l ih =>
    simp only [List.mem_cons, forall_eq_or_imp] at h
    simp [List.countP_cons, h.1, ih h.2]

theorem Extends.refl (c : counters) (code : instructionList) : Extends c code c code :=
  ⟨[], by simp, by simp, rfl, rfl, le_refl _⟩

theorem Extends.labels {c c' : counters} {code code' : instructionList}
    (h : Extends c code c' code') : labels code' = labels code := by
  obtain ⟨tail, rfl, hp, _⟩ := h
  unfold Asl.labels
  rw [List.filterMap_append, filterMap_eq_nil_of_forall (fun i hi => Instr.plain_label (hp i hi)),
    List.append_nil]

theorem Extends.targets {c c' : counters} {code code' : instructionList}
    (h : Extends c code c' code') : targets code' = targets code := by
  obtain ⟨tail, rfl, hp, _⟩ := h
  unfold Asl.targets
  rw [List.filterMap_append, filterMap_eq_nil_of_forall (fun i hi => Instr.plain_target (hp i hi)),
    List.append_nil]

theorem Extends.balanced {c c' : counters} {code code' : instructionList}
    (h : Extends c code c' code') (hb : Balanced code) : Balanced code' := by
  obtain ⟨tail, rfl, hp, _⟩ := h
  unfold Balanced at *
  rw [List.countP_append, List.countP_append,
    countP_eq_zero_of_forall (fun i hi => Instr.plain_isPUSH (hp i hi)),
    countP_eq_zero_of_forall (fun i hi => Instr.plain_isPOP (hp i hi)), hb]

namespace CodeGen

theorem arithmeticInt_plain (op : ArithOp) (temp a1 a2 : String) :
    ∀ i ∈ arithmeticInt op temp a1 a2, i.plain = true := by
  cases op <;> simp [arithmeticInt, Instr.plain]

theorem arithmeticFloat_plain (op : ArithOp) (temp a1 a2 : String) :
    ∀ i ∈ arithmeticFloat op temp a1 a2, i.plain = true := by
  cases op <;> simp [arithmeticFloat, Instr.plain]

theorem relationalInt_plain (op : RelOp) (temp a1 a2 : String) :
    ∀ i ∈ relationalInt op temp a1 a2, i.plain = true := by
  cases op <;> simp [relationalInt, Instr.plain]

theorem relationalFloat_plain (op : RelOp) (temp a1 a2 : String) :
    ∀ i ∈ relationalFloat op temp a1 a2, i.plain = true := by
  cases op <;> simp [relationalFloat, Instr.plain]

theorem floatOperands_plain (t1 t2 : Ty) (a1 a2 : String) (c : counters) :
    (∀ i ∈ (floatOperands t1 t2 a1 a2 c).2.2.1, i.plain = true) ∧
    (floatOperands t1 t2 a1 a2 c).2.2.2.IF = c.IF ∧
    (floatOperands t1 t2 a1 a2 c).2.2.2.WHILE = c.WHILE ∧
    c.TEMP ≤ (floatOperands t1 t2 a1 a2 c).2.2.2.TEMP := by
  cases h1 : TypesMgr.isIntegerTy t1 <;> cases h2 : TypesMgr.isIntegerTy t2 <;>
    simp [floatOperands, h1, h2, counters.newTEMP, Instr.plain]

theorem array_extends (S : SymTable) (ident : String) (a1 : CodeAttribs) (c : counters) :
    Extends c a1.code (array S (visitIdent ident) a1 c).2
      (array S (visitIdent ident) a1 c).1.code := by
  cases hl : S.isLocalVarClass ident
  · exact ⟨[Instr.LOAD ("%" ++ c.newTEMP.2.newTEMP.1) ident,
            Instr.LOADX ("%" ++ c.newTEMP.1) ("%" ++ c.newTEMP.2.newTEMP.1) a1.addr],
      by simp [array, visitIdent, hl], by simp [Instr.plain],
      by simp [array, visitIdent, hl, counters.newTEMP],
      by simp [array, visitIdent, hl, counters.newTEMP],
      by simp [array, visitIdent, hl, counters.newTEMP]; omega⟩
  · exact ⟨[Instr.LOADX ("%" ++ c.newTEMP.1) ident a1.addr],
      by simp [array, visitIdent, hl], by simp [Instr.plain],
      by simp [array, visitIdent, hl, counters.newTEMP],
      by simp [array, visitIdent, hl, counters.newTEMP],
      by simp [array, visitIdent, hl, counters.newTEMP]⟩

theorem unary_extends (op : UnaryOp) (t1 : Ty) (a1 : CodeAttribs) (c : counters) :
    Extends c a1.code (unary op t1 a1 c).2 (unary op t1 a1 c).1.code := by
  cases hf : TypesMgr.isFloatTy t1 <;> cases op <;>
    exact ⟨_, by simp only [unary, hf]; rfl, by simp [Instr.plain],
      by simp [unary, counters.newTEMP], by simp [unary, counters.newTEMP],
      by simp [unary, counters.newTEMP]⟩

theorem visitValue_extends (kind : ValueKind) (text : String) (c : counters) :
    Extends c [] (visitValue kind text c).2 (visitValue kind text c).1.code := by
  cases kind <;>
    exact ⟨_, by simp only [visitValue, List.nil_append]; rfl, by simp [Instr.plain],
      by simp [visitValue, counters.newTEMP], by simp [visitValue, counters.newTEMP],
      by simp [visitValue, counters.newTEMP]⟩

theorem arithmetic_int {t1 t2 : Ty} (h : (!(TypesMgr.isFloatTy t1) && !(TypesMgr.isFloatTy t2)) = true)
    (op : ArithOp) (a1 a2 : CodeAttribs) (c : counters) :
    arithmetic op t1 t2 a1 a2 c =
      ({ addr := "%" ++ c.newTEMP.1, offs := "",
         code := a1.code ++ a2.code ++ arithmeticInt op ("%" ++ c.newTEMP.1) a1.addr a2.addr },
       c.newTEMP.2) := by
  simp [arithmetic, h]

theorem arithmetic_float {t1 t2 : Ty}
    (h : (!(TypesMgr.isFloatTy t1) && !(TypesMgr.isFloatTy t2)) = false)
    (op : ArithOp) (a1 a2 : CodeAttribs) (c : counters) :
    arithmetic op t1 t2 a1 a2 c =
      ({ addr := "%" ++ c.newTEMP.1, offs := "",
         code := a1.code ++ a2.code ++ (floatOperands t1 t2 a1.addr a2.addr c.newTEMP.2).2.2.1 ++
           arithmeticFloat op ("%" ++ c.newTEMP.1)
             (floatOperands t1 t2 a1.addr a2.addr c.newTEMP.2).1
             (floatOperands t1 t2 a1.addr a2.addr c.newTEMP.2).2.1 },
       (floatOperands t1 t2 a1.addr a2.addr c.newTEMP.2).2.2.2) := by
  simp [arithmetic, h]

theorem arithmetic_extends (op : ArithOp) (t1 t2 : Ty) (a1 a2 : CodeAttribs) (c : counters) :
    Extends c (a1.code ++ a2.code) (arithmetic op t1 t2 a1 a2 c).2
      (arithmetic op t1 t2 a1 a2 c).1.code := by
  cases h : (!(TypesMgr.isFloatTy t1) && !(TypesMgr.isFloatTy t2))
  · obtain ⟨p1, p2, p3, p4⟩ := floatOperands_plain t1 t2 a1.addr a2.addr c.newTEMP.2
    rw [arithmetic_float h]
    refine ⟨(floatOperands t1 t2 a1.addr a2.addr c.newTEMP.2).2.2.1 ++
        arithmeticFloat op ("%" ++ c.newTEMP.1)
          (floatOperands t1 t2 a1.addr a2.addr c.newTEMP.2).1
          (floatOperands t1 t2 a1.addr a2.addr c.newTEMP.2).2.1,
      by simp, ?_, p2, p3, le_trans (by simp [counters.newTEMP]) p4⟩
    intro i hi
    rcases List.mem_append.mp hi with hi | hi
    · exact p1 i hi
    · exact arithmeticFloat_plain _ _ _ _ i hi
  · rw [arithmetic_int h]
    exact ⟨arithmeticInt op ("%" ++ c.newTEMP.1) a1.addr a2.addr, rfl, arithmeticInt_plain _ _ _ _,
      rfl, rfl, by simp [counters.newTEMP]⟩

theorem relational_int {t1 t2 : Ty} (h : (!(TypesMgr.isFloatTy t1) && !(TypesMgr.isFloatTy t2)) = true)
    (op : RelOp) (a1 a2 : CodeAttribs) (c : counters) :
    relational op t1 t2 a1 a2 c =
      ({ addr := "%" ++ c.newTEMP.1, offs := "",
         code := a1.code ++ a2.code ++ relationalInt op ("%" ++ c.newTEMP.1) a1.addr a2.addr },
       c.newTEMP.2) := by
  simp [relational, h]

theorem relational_float {t1 t2 : Ty}
    (h : (!(TypesMgr.isFloatTy t1) && !(TypesMgr.isFloatTy t2)) = false)
    (op : RelOp) (a1 a2 : CodeAttribs) (c : counters) :
    relational op t1 t2 a1 a2 c =
      ({ addr := "%" ++ c.newTEMP.1, offs := "",
         code := a1.code ++ a2.code ++ (floatOperands t1 t2 a1.addr a2.addr c.newTEMP.2).2.2.1 ++
           relationalFloat op ("%" ++ c.newTEMP.1)
             (floatOperands t1 t2 a1.addr a2.addr c.newTEMP.2).1
             (floatOperands t1 t2 a1.addr a2.addr c.newTEMP.2).2.1 },
       (floatOperands t1 t2 a1.addr a2.addr c.newTEMP.2).2.2.2) := by
  simp [relational, h]

theorem relational_extends (op : RelOp) (t1 t2 : Ty) (a1 a2 : CodeAttribs) (c : counters) :
    Extends c (a1.code ++ a2.code) (relational op t1 t2 a1 a2 c).2
      (relational op t1 t2 a1 a2 c).1.code := by
  cases h : (!(TypesMgr.isFloatTy t1) && !(TypesMgr.isFloatTy t2))
  · obtain ⟨p1, p2, p3, p4⟩ := floatOperands_plain t1 t2 a1.addr a2.addr c.newTEMP.2
    rw [relational_float h]
    refine ⟨(floatOperands t1 t2 a1.addr a2.addr c.newTEMP.2).2.2.1 ++
        relationalFloat op ("%" ++ c.newTEMP.1)
          (floatOperands t1 t2 a1.addr a2.addr c.newTEMP.2).1
          (floatOperands t1 t2 a1.addr a2.addr c.newTEMP.2).2.1,
      by simp, ?_, p2, p3, le_trans (by simp [counters.newTEMP]) p4⟩
    intro i hi
    rcases List.mem_append.mp hi with hi | hi
    · exact p1 i hi
    · exact relationalFloat_plain _ _ _ _ i hi
  · rw [relational_int h]
    exact ⟨relationalInt op ("%" ++ c.newTEMP.1) a1.addr a2.addr, rfl, relationalInt_plain _ _ _ _,
      rfl, rfl, by simp [counters.newTEMP]⟩

theorem logical_extends (op : LogicalOp) (a1 a2 : CodeAttribs) (c : counters) :
    Extends c (a1.code ++ a2.code) (logical op a1 a2 c).2 (logical op a1 a2 c).1.code := by
  cases op <;>
    exact ⟨_, by simp only [logical]; rfl, by simp [Instr.plain],
      by simp [logical, counters.newTEMP], by simp [logical, counters.newTEMP],
      by simp [logical, counters.newTEMP]⟩

/-- The code of one argument of a call: the argument's code, plain instructions and
one `PUSH` with operand. -/
theorem pushParam_shape (p te : Ty) (a : CodeAttribs) (c : counters) :
    ∃ tail x, (pushParam p te a c).1 = a.code ++ tail ++ [Instr.PUSH (some x)] ∧
      (∀ i ∈ tail, i.plain = true) ∧ (pushParam p te a c).2.IF = c.IF ∧
      (pushParam p te a c).2.WHILE = c.WHILE ∧ c.TEMP ≤ (pushParam p te a c).2.TEMP := by
  by_cases h1 : (TypesMgr.isFloatTy p && TypesMgr.isIntegerTy te) = true
  · exact ⟨[Instr.FLOAT ("%" ++ c.newTEMP.1) a.addr], _, by simp only [pushParam, h1]; rfl,
      by simp [Instr.plain], by simp [pushParam, h1, counters.newTEMP],
      by simp [pushParam, h1, counters.newTEMP], by simp [pushParam, h1, counters.newTEMP]⟩
  · by_cases h2 : TypesMgr.isArrayTy te = true
    · exact ⟨[Instr.ALOAD ("%" ++ c.newTEMP.1) a.addr], _, by simp only [pushParam, h1, h2]; rfl,
        by simp [Instr.plain], by simp [pushParam, h1, h2, counters.newTEMP],
        by simp [pushParam, h1, h2, counters.newTEMP],
        by simp [pushParam, h1, h2, counters.newTEMP]⟩
    · exact ⟨[], a.addr, by simp only [pushParam, h1, h2]; simp,
        by simp, by simp [pushParam, h1, h2], by simp [pushParam, h1, h2],
        by simp [pushParam, h1, h2]⟩

/-- The code of a call: an operand-less `PUSH` unless the callee's decoration is the
Void type, the code of the arguments, `CALL`, one `POP` per argument and a `POP`
into a fresh temporary. -/
theorem callCode_shape (name : String) (t : Ty) (n : Nat) (args : instructionList)
    (c : counters) :
    (callCode name t [] n args c).1.code =
      (if TypesMgr.isVoidTy t then [] else [Instr.PUSH none]) ++ args ++ [Instr.CALL name] ++
        List.replicate n (Instr.POP none) ++ [Instr.POP (some ("%" ++ c.newTEMP.1))] ∧
    (callCode name t [] n args c).2 = c.newTEMP.2 ∧
    (callCode name t [] n args c).1.addr = "%" ++ c.newTEMP.1 := by
  cases h : TypesMgr.isVoidTy t <;> simp [callCode, h]

end CodeGen

/-! ### Balance of `PUSH` and `POP` -/

theorem SymTable.findInScopes_mem {stack : List Scope} {ident : String} {en : SymEntry}
    (h : SymTable.findInScopes stack ident = some en) : ∃ sc ∈ stack, en ∈ sc := by
  induction stack with
  | nil => simp [SymTable.findInScopes] at h
  | cons sc rest ih =>
    simp only [SymTable.findInScopes] at h
    split at h
    · rename_i en1 h1
      simp only [Option.some.injEq] at h
      subst h
      exact ⟨sc, by simp, List.mem_of_find?_eq_some h1⟩
    · obtain ⟨sc1, hm, he⟩ := ih h
      exact ⟨sc1, by simp [hm], he⟩

theorem TypeCheck.visitIdent_not_void {S : SymTable} (hS : S.noVoid) (ident : String) :
    TypesMgr.isVoidTy (TypeCheck.visitIdent S ident).ty = false := by
  unfold TypeCheck.visitIdent
  split
  · rfl
  · rename_i en h
    obtain ⟨sc, hm, he⟩ := SymTable.findInScopes_mem h
    exact hS sc hm en he

namespace CodeGen

theorem balanced_nil : Balanced [] := rfl

theorem balanced_append {a b : instructionList} (ha : Balanced a) (hb : Balanced b) :
    Balanced (a ++ b) := by
  unfold Balanced at *
  simp only [List.countP_append, ha, hb]

theorem callCode_balanced {name : String} {t : Ty} (ht : TypesMgr.isVoidTy t = false)
    (n : Nat) (args : instructionList) (c : counters)
    (h : args.countP Instr.isPUSH = args.countP Instr.isPOP + n) :
    Balanced (callCode name t [] n args c).1.code := by
  unfold Balanced
  rw [(callCode_shape name t n args c).1]
  simp [ht, List.countP_append, List.countP_replicate, Instr.isPUSH, Instr.isPOP, h]
  omega

theorem exprCases_balanced {S : SymTable} (hS : S.noVoid) :
    ExprCases S (fun _ _ r => Balanced r.1.code)
      (fun _ _ es _ r => r.1.countP Instr.isPUSH = r.1.countP Instr.isPOP + es.length) where
  paren := fun _ _ _ h => h
  arr := fun ident _ _ r1 h => (array_extends S ident r1.1 r1.2).balanced h
  un := fun op _ _ r1 t1 _ h => (unary_extends op t1 r1.1 r1.2).balanced h
  val := fun kind text c => (visitValue_extends kind text c).balanced balanced_nil
  call0 := fun ident c => callCode_balanced (TypeCheck.visitIdent_not_void hS ident) 0 [] c rfl
  call := fun ident args pts c rp _ _ _ h =>
    callCode_balanced (TypeCheck.visitIdent_not_void hS ident) args.length rp.1 rp.2 h
  idt := fun _ _ => rfl
  arith := fun op _ _ _ r1 r2 t1 t2 _ _ h1 h2 =>
    (arithmetic_extends op t1 t2 r1.1 r2.1 r2.2).balanced (balanced_append h1 h2)
  rel := fun op _ _ _ r1 r2 t1 t2 _ _ h1 h2 =>
    (relational_extends op t1 t2 r1.1 r2.1 r2.2).balanced (balanced_append h1 h2)
  log := fun op _ _ _ r1 r2 h1 h2 =>
    (logical_extends op r1.1 r2.1 r2.2).balanced (balanced_append h1 h2)
  nil := fun _ _ _ => rfl
  cons := by
    intro pts i e es c r p te rest h _ _ hrest
    unfold Balanced at h
    obtain ⟨tail, x, hc, hp, _⟩ := pushParam_shape p te r.1 r.2
    simp only [hc, List.countP_append, List.countP_cons, List.countP_nil, Instr.isPUSH,
      Instr.isPOP, countP_eq_zero_of_forall (fun i hi => Instr.plain_isPUSH (hp i hi)),
      countP_eq_zero_of_forall (fun i hi => Instr.plain_isPOP (hp i hi)), h, hrest,
      List.length_cons]
    simp
    omega

end CodeGen

namespace CodeGen

theorem visitLeft_expr_inv {S : SymTable} {c : counters} {l : LeftExpr}
    {r : CodeAttribs × counters} (h : visitLeft_expr S c l = some r) :
    (l.expr = none ∧ r = (visitIdent l.ident, c)) ∨
    (∃ index r1, l.expr = some index ∧ visitExpr S c index = some r1 ∧
      r = if S.isLocalVarClass l.ident then
            ({ addr := l.ident, offs := r1.1.addr, code := r1.1.code }, r1.2)
          else
            ({ addr := "%" ++ r1.2.newTEMP.1, offs := r1.1.addr,
               code := r1.1.code ++ [Instr.LOAD ("%" ++ r1.2.newTEMP.1) l.ident] },
             r1.2.newTEMP.2)) := by
  unfold visitLeft_expr at h
  cases hl : l.expr with
  | none =>
    simp only [hl, Option.some.injEq] at h
    exact Or.inl ⟨rfl, h.symm⟩
  | some index =>
    simp only [hl, Option.bind_eq_bind, Option.bind_eq_some, Option.pure_def, visitIdent,
      List.nil_append] at h
    obtain ⟨r1, h1, h2⟩ := h
    refine Or.inr ⟨index, r1, rfl, h1, ?_⟩
    split at h2 <;> rename_i hc <;> simp only [Option.some.injEq] at h2 <;> simp [hc, ← h2]

theorem writeStringLoop_shape (s : List Nat) (temp : String) :
    ∀ (fuel i : Nat) (code r : instructionList),
      writeStringLoop s temp fuel i code = some r →
      ∃ tail, r = code ++ tail ∧
        ∀ j ∈ tail, (∃ x, j = Instr.CHLOAD temp x) ∨ j = Instr.WRITEC temp ∨ j = Instr.WRITELN
  | 0, i, code, r, h => by simp [writeStringLoop] at h
  | fuel + 1, i, code, r, h => by
    have key : ∀ (X : instructionList) (i' : Nat),
        (∀ j ∈ X, (∃ x, j = Instr.CHLOAD temp x) ∨ j = Instr.WRITEC temp ∨ j = Instr.WRITELN) →
        writeStringLoop s temp fuel i' (code ++ X) = some r →
        ∃ tail, r = code ++ tail ∧
          ∀ j ∈ tail, (∃ x, j = Instr.CHLOAD temp x) ∨ j = Instr.WRITEC temp ∨
            j = Instr.WRITELN := by
      intro X i' hX hr
      obtain ⟨tail, rfl, ht⟩ := writeStringLoop_shape s temp fuel i' _ _ hr
      refine ⟨X ++ tail, by simp, ?_⟩
      intro j hj
      rcases List.mem_append.mp hj with hj | hj
      · exact hX j hj
      · exact ht j hj
    unfold writeStringLoop at h
    split at h
    · split at h
      · simp at h
      · split at h
        · rw [List.append_assoc] at h
          exact key _ _ (by simp) h
        · split at h
          · split at h
            · simp at h
            · split at h
              · exact key _ _ (by simp) h
              · split at h
                · rw [List.append_assoc] at h
                  exact key _ _ (by simp) h
                · rw [List.append_assoc] at h
                  exact key _ _ (by simp) h
          · simp at h
    · simp only [Option.some.injEq] at h
      subst h
      exact ⟨[], by simp, by simp⟩

/-- The code of a write of a string: instructions `CHLOAD t,x`, `WRITEC t` and
`WRITELN` on the one temporary minted for the statement. -/
theorem visitWriteString_shape {s : String} {c : counters} {r : instructionList × counters}
    (h : visitWriteString s c = some r) :
    r.2 = c.newTEMP.2 ∧
    ∀ j ∈ r.1, (∃ x, j = Instr.CHLOAD ("%" ++ c.newTEMP.1) x) ∨
      j = Instr.WRITEC ("%" ++ c.newTEMP.1) ∨ j = Instr.WRITELN := by
  simp only [visitWriteString, Option.map_eq_some'] at h
  obtain ⟨code, hc, rfl⟩ := h
  obtain ⟨tail, rfl, ht⟩ := writeStringLoop_shape _ _ _ _ _ _ hc
  exact ⟨rfl, by simpa using ht⟩

theorem visitWriteString_extends {s : String} {c : counters} {r : instructionList × counters}
    (h : visitWriteString s c = some r) : Extends c [] r.2 r.1 := by
  obtain ⟨h1, h2⟩ := visitWriteString_shape h
  refine ⟨r.1, by simp, ?_, by rw [h1]; rfl, by rw [h1]; rfl, by rw [h1]; simp [counters.newTEMP]⟩
  intro j hj
  rcases h2 j hj with ⟨x, rfl⟩ | rfl | rfl <;> rfl

/-- The code of a left expression extends the code of its index, if any. -/
theorem visitLeft_expr_extends {S : SymTable} {c : counters} {l : LeftExpr}
    {r : CodeAttribs × counters} (h : visitLeft_expr S c l = some r) :
    (l.expr = none ∧ r = (visitIdent l.ident, c)) ∨
    (∃ index r1, l.expr = some index ∧ visitExpr S c index = some r1 ∧
      Extends r1.2 r1.1.code r.2 r.1.code) := by
  rcases visitLeft_expr_inv h with h0 | ⟨index, r1, hl, h1, rfl⟩
  · exact Or.inl h0
  · refine Or.inr ⟨index, r1, hl, h1, ?_⟩
    split
    · exact Extends.refl _ _
    · exact ⟨[_], rfl, by simp [Instr.plain], rfl, rfl, by simp [counters.newTEMP]⟩

theorem assign_balanced {S : SymTable} {t1 t2 : Ty} {a1 a2 : CodeAttribs} {c : counters}
    {r : instructionList × counters} (h : assign S t1 t2 a1 a2 c = some r)
    (h1 : Balanced a1.code) (h2 : Balanced a2.code) : Balanced r.1 := by
  unfold Balanced at *
  cases hA1 : TypesMgr.isArrayTy t1 <;> cases hA2 : TypesMgr.isArrayTy t2 <;>
    simp only [assign, hA1, hA2, Bool.false_and, Bool.and_false, Bool.and_self, Bool.or_false,
      Bool.false_or, Bool.or_true, Bool.true_or, if_true, if_false, Bool.false_eq_true,
      Option.some.injEq] at h
  · subst h; simp [List.countP_append, Instr.isPUSH, Instr.isPOP, h1, h2]
  · subst h; simp [List.countP_append, Instr.isPUSH, Instr.isPOP, h1, h2]
  · subst h; simp [List.countP_append, Instr.isPUSH, Instr.isPOP, h1, h2]
  · split at h
    · simp at h
    · simp only [Option.some.injEq] at h
      subst h
      cases S.isLocalVarClass a1.addr <;> cases S.isLocalVarClass a2.addr <;>
        simp [List.countP_append, Instr.isPUSH, Instr.isPOP]

theorem stmtCases_balanced {S : SymTable} (hS : S.noVoid) :
    StmtCases S (fun _ _ r => Balanced r.1) (fun _ _ r => Balanced r.1) where
  assign := by
    intro l e c r1 r2 t2 r h1 h2 _ hr
    have hb2 : Balanced r2.1.code := visitExpr_cases (exprCases_balanced hS) e _ r2 h2
    have hb1 : Balanced r1.1.code := by
      rcases visitLeft_expr_inv h1 with ⟨_, rfl⟩ | ⟨index, q, _, hq, rfl⟩
      · rfl
      · have := visitExpr_cases (exprCases_balanced hS) index _ q hq
        unfold Balanced at *
        split <;> simp [List.countP_append, Instr.isPUSH, Instr.isPOP, this]
    exact assign_balanced hr hb1 hb2
  ifElse := by
    intro e s0 s1 c r1 r2 r3 h1 h2 h3
    have hb1 : Balanced r1.1.code := visitExpr_cases (exprCases_balanced hS) e _ r1 h1
    unfold Balanced at *
    simp [List.countP_append, Instr.isPUSH, Instr.isPOP, hb1, h2, h3]
  ifThen := by
    intro e s0 c r1 r2 h1 h2
    have hb1 : Balanced r1.1.code := visitExpr_cases (exprCases_balanced hS) e _ r1 h1
    unfold Balanced at *
    simp [List.countP_append, Instr.isPUSH, Instr.isPOP, hb1, h2]
  whileDo := by
    intro e s c r1 r2 h1 h2
    have hb1 : Balanced r1.1.code := visitExpr_cases (exprCases_balanced hS) e _ r1 h1
    unfold Balanced at *
    simp [List.countP_append, Instr.isPUSH, Instr.isPOP, hb1, h2]
  proc0 := fun ident c => callCode_balanced (TypeCheck.visitIdent_not_void hS ident) 0 [] c rfl
  proc := fun ident args pts c rp _ _ hr =>
    callCode_balanced (TypeCheck.visitIdent_not_void hS ident) args.length rp.1 rp.2
      (visitParams_cases (exprCases_balanced hS) args pts 0 c rp hr)
  read := by
    intro l c r a h1 _
    have hb1 : Balanced r.1.code := by
      rcases visitLeft_expr_inv h1 with ⟨_, rfl⟩ | ⟨index, q, _, hq, rfl⟩
      · rfl
      · have := visitExpr_cases (exprCases_balanced hS) index _ q hq
        unfold Balanced at *
        split <;> simp [List.countP_append, Instr.isPUSH, Instr.isPOP, this]
    unfold Balanced at *
    cases hx : l.expr.isSome <;> cases hf : TypesMgr.isFloatTy a.ty <;>
      cases hc : TypesMgr.isCharacterTy a.ty <;>
      simp [read, hf, hc, List.countP_append, Instr.isPUSH, Instr.isPOP, hb1]
  writeE := by
    intro e c r tid1 h1 _
    have hb1 : Balanced r.1.code := visitExpr_cases (exprCases_balanced hS) e _ r h1
    unfold Balanced at *
    cases hf : TypesMgr.isFloatTy tid1 <;> cases hc : TypesMgr.isCharacterTy tid1 <;>
      simp [writeExpr, hf, hc, List.countP_append, Instr.isPUSH, Instr.isPOP, hb1]
  writeS := fun _ _ _ h => (visitWriteString_extends h).balanced balanced_nil
  ret := by
    intro e c r h1
    have hb1 : Balanced r.1.code := visitExpr_cases (exprCases_balanced hS) e _ r h1
    unfold Balanced at *
    simp [List.countP_append, Instr.isPUSH, Instr.isPOP, hb1]
  ret0 := fun _ => rfl
  nil := fun _ => rfl
  cons := fun _ _ _ _ _ h1 h2 => balanced_append h1 h2


theorem popScope_pushThisScope (S : SymTable) (sc : Scope) :
    (S.pushThisScope sc).popScope = S := rfl

theorem visitFunction_inv {S : SymTable} {f : FunctionNode Stmt} {sub : subroutine}
    {S' : SymTable} (h : visitFunction S f = some (sub, S')) :
    S' = S ∧ ∃ r, visitStatements (S.pushThisScope f.scope) counters.reset f.statements = some r ∧
      sub.instructions = r.1 ++ [Instr.RETURN] := by
  unfold visitFunction at h
  cases hr : visitStatements (S.pushThisScope f.scope) counters.reset f.statements with
  | none => simp [hr] at h
  | some r =>
    simp only [hr, Option.some.injEq, Prod.mk.injEq] at h
    obtain ⟨rfl, rfl⟩ := h
    exact ⟨rfl, r, rfl, rfl⟩

theorem visitFunctions_inv {S : SymTable} :
    ∀ {fs : List (FunctionNode Stmt)} {subs : List subroutine} {S' : SymTable},
      visitFunctions S fs = some (subs, S') →
      ∀ s ∈ subs, ∃ f ∈ fs, ∃ r,
        visitStatements (S.pushThisScope f.scope) counters.reset f.statements = some r ∧
        s.instructions = r.1 ++ [Instr.RETURN]
  | [], subs, S', h => by
    simp only [visitFunctions, Option.some.injEq, Prod.mk.injEq] at h
    obtain ⟨rfl, _⟩ := h
    simp
  | f :: fs, subs, S', h => by
    simp only [visitFunctions] at h
    split at h
    · rename_i sub S1 h1
      split at h
      · rename_i rest S2 h2
        simp only [Option.some.injEq, Prod.mk.injEq] at h
        obtain ⟨rfl, rfl⟩ := h
        obtain ⟨rfl, r, hr, hi⟩ := visitFunction_inv h1
        intro s hs
        rcases List.mem_cons.mp hs with rfl | hs
        · exact ⟨f, by simp, r, hr, hi⟩
        · obtain ⟨g, hg, q⟩ := visitFunctions_inv h2 s hs
          exact ⟨g, by simp [hg], q⟩
      · simp at h
    · simp at h

theorem subroutines_inv {ctx : List (FunctionNode Stmt)} {subs : List subroutine}
    (h : subroutines ctx = some subs) :
    ∀ s ∈ subs, ∃ f ∈ ctx, ∃ r,
      visitStatements ((SymTable.init.pushThisScope (globalScope ctx)).pushThisScope f.scope)
        counters.reset f.statements = some r ∧
      s.instructions = r.1 ++ [Instr.RETURN] := by
  unfold subroutines visitProgram at h
  cases h1 : visitFunctions (SymTable.init.pushThisScope (globalScope ctx)) ctx with
  | none => simp [h1] at h
  | some q =>
    obtain ⟨my_code, S2⟩ := q
    simp only [h1, Option.map_some', Option.some.injEq] at h
    subst h
    exact visitFunctions_inv h1

theorem TypeNode_toTy_not_void (t : TypeNode) : TypesMgr.isVoidTy t.toTy = false := by
  cases t with
  | basic b => cases b <;> rfl
  | array n b => rfl

theorem program_table_noVoid (ctx : List (FunctionNode Stmt)) (f : FunctionNode Stmt) :
    ((SymTable.init.pushThisScope (globalScope ctx)).pushThisScope f.scope).noVoid := by
  intro sc hsc en hen
  simp only [SymTable.pushThisScope, SymTable.init, List.mem_cons, List.mem_singleton,
    List.not_mem_nil, or_false] at hsc
  rcases hsc with rfl | rfl
  · simp only [FunctionNode.scope, List.mem_append, List.mem_map, List.mem_flatten] at hen
    rcases hen with ⟨p, _, rfl⟩ | ⟨l, ⟨d, _, rfl⟩, hl⟩
    · exact TypeNode_toTy_not_void _
    · simp only [List.mem_map] at hl
      obtain ⟨v, _, rfl⟩ := hl
      exact TypeNode_toTy_not_void _
  · simp only [globalScope, List.mem_map] at hen
    obtain ⟨g, _, rfl⟩ := hen
    rfl

end CodeGen

/-- C4: in every subroutine produced by the code generator the instruction list
contains exactly as many `PUSH` instructions (with or without operand) as `POP`
instructions (with or without operand). -/
theorem C4_push_pop_balanced (ctx : List (FunctionNode CodeGen.Stmt)) (subs : List subroutine)
    (h : CodeGen.subroutines ctx = some subs) :
    ∀ s ∈ subs, s.instructions.countP Instr.isPUSH = s.instructions.countP Instr.isPOP := by
  intro s hs
  obtain ⟨f, _, r, hr, hi⟩ := CodeGen.subroutines_inv h s hs
  have hb : Balanced r.1 :=
    CodeGen.visitStatements_cases
      (CodeGen.stmtCases_balanced (CodeGen.program_table_noVoid ctx f)) _ _ r hr
  rw [hi]
  unfold Balanced at hb
  simp [List.countP_append, Instr.isPUSH, Instr.isPOP, hb]


/-! ### Numerals and names -/

theorem digitVal_digitChar (d : Nat) (h : d < 10) : digitVal (Nat.digitChar d) = d := by
  interval_cases d <;> rfl

theorem decodeNat_toDigitsCore : ∀ (fuel n : Nat) (ds : List Char), n < fuel →
    decodeNat 0 (Nat.toDigitsCore 10 fuel n ds) = decodeNat n ds
  | 0, n, ds, h => by omega
  | fuel + 1, n, ds, h => by
    simp only [Nat.toDigitsCore]
    split
    · rename_i h0
      have hn : n < 10 := by omega
      simp only [decodeNat, List.foldl_cons, Nat.zero_mul, Nat.zero_add]
      rw [digitVal_digitChar _ (Nat.mod_lt _ (by decide)), Nat.mod_eq_of_lt hn]
    · rename_i h0
      rw [decodeNat_toDigitsCore fuel (n / 10) _ (by omega)]
      simp only [decodeNat, List.foldl_cons]
      rw [digitVal_digitChar _ (Nat.mod_lt _ (by decide))]
      congr 1
      omega

theorem decodeNat_toString (n : Nat) : decodeNat 0 (toString n).data = n := by
  have h : (toString n).data = Nat.toDigits 10 n := rfl
  rw [h, Nat.toDigits, decodeNat_toDigitsCore _ _ _ (by omega)]
  rfl

theorem toString_nat_injective {a b : Nat} (h : toString a = toString b) : a = b := by
  have := congrArg (fun s => decodeNat 0 s.data) h
  simpa [decodeNat_toString] using this

theorem endif_inj {a b : Nat} (h : "end" ++ ("if" ++ toString a) = "end" ++ ("if" ++ toString b)) :
    a = b := by
  have := congrArg String.data h
  simp [String.data_append] at this
  exact toString_nat_injective (String.ext this)

theorem elseif_inj {a b : Nat}
    (h : "else" ++ ("if" ++ toString a) = "else" ++ ("if" ++ toString b)) : a = b := by
  have := congrArg String.data h
  simp [String.data_append] at this
  exact toString_nat_injective (String.ext this)

theorem while_inj {a b : Nat} (h : "while" ++ toString a = "while" ++ toString b) : a = b := by
  have := congrArg String.data h
  simp [String.data_append] at this
  exact toString_nat_injective (String.ext this)

theorem endwhile_inj {a b : Nat}
    (h : "end" ++ ("while" ++ toString a) = "end" ++ ("while" ++ toString b)) : a = b := by
  have := congrArg String.data h
  simp [String.data_append] at this
  exact toString_nat_injective (String.ext this)

theorem endif_ne_elseif (a b : String) : "end" ++ ("if" ++ a) ≠ "else" ++ ("if" ++ b) := by
  intro h
  have := congrArg String.data h
  simp [String.data_append] at this

theorem endif_ne_while (a b : String) : "end" ++ ("if" ++ a) ≠ "while" ++ b := by
  intro h
  have := congrArg String.data h
  simp [String.data_append] at this

theorem endif_ne_endwhile (a b : String) : "end" ++ ("if" ++ a) ≠ "end" ++ ("while" ++ b) := by
  intro h
  have := congrArg String.data h
  simp [String.data_append] at this

theorem elseif_ne_while (a b : String) : "else" ++ ("if" ++ a) ≠ "while" ++ b := by
  intro h
  have := congrArg String.data h
  simp [String.data_append] at this

theorem elseif_ne_endwhile (a b : String) : "else" ++ ("if" ++ a) ≠ "end" ++ ("while" ++ b) := by
  intro h
  have := congrArg String.data h
  simp [String.data_append] at this

theorem while_ne_endwhile (a b : String) : "while" ++ a ≠ "end" ++ ("while" ++ b) := by
  intro h
  have := congrArg String.data h
  simp [String.data_append] at this

/-! ### Labels -/

theorem LabelIn.endif {c c' : counters} {k : Nat}
    (h : LabelIn c c' ("end" ++ ("if" ++ toString k))) : c.IF ≤ k ∧ k < c'.IF := by
  rcases h with ⟨j, h1, h2, h3 | h3⟩ | ⟨j, h1, h2, h3 | h3⟩
  · rw [endif_inj h3]; exact ⟨h1, h2⟩
  · exact absurd h3 (endif_ne_elseif _ _)
  · exact absurd h3 (endif_ne_while _ _)
  · exact absurd h3 (endif_ne_endwhile _ _)

theorem LabelIn.elseif {c c' : counters} {k : Nat}
    (h : LabelIn c c' ("else" ++ ("if" ++ toString k))) : c.IF ≤ k ∧ k < c'.IF := by
  rcases h with ⟨j, h1, h2, h3 | h3⟩ | ⟨j, h1, h2, h3 | h3⟩
  · exact absurd h3.symm (endif_ne_elseif _ _)
  · rw [elseif_inj h3]; exact ⟨h1, h2⟩
  · exact absurd h3 (elseif_ne_while _ _)
  · exact absurd h3 (elseif_ne_endwhile _ _)

theorem LabelIn.while {c c' : counters} {k : Nat}
    (h : LabelIn c c' ("while" ++ toString k)) : c.WHILE ≤ k ∧ k < c'.WHILE := by
  rcases h with ⟨j, h1, h2, h3 | h3⟩ | ⟨j, h1, h2, h3 | h3⟩
  · exact absurd h3.symm (endif_ne_while _ _)
  · exact absurd h3.symm (elseif_ne_while _ _)
  · rw [while_inj h3]; exact ⟨h1, h2⟩
  · exact absurd h3 (while_ne_endwhile _ _)

theorem LabelIn.endwhile {c c' : counters} {k : Nat}
    (h : LabelIn c c' ("end" ++ ("while" ++ toString k))) : c.WHILE ≤ k ∧ k < c'.WHILE := by
  rcases h with ⟨j, h1, h2, h3 | h3⟩ | ⟨j, h1, h2, h3 | h3⟩
  · exact absurd h3.symm (endif_ne_endwhile _ _)
  · exact absurd h3.symm (elseif_ne_endwhile _ _)
  · exact absurd h3.symm (while_ne_endwhile _ _)
  · rw [endwhile_inj h3]; exact ⟨h1, h2⟩

theorem LabelIn.mono {a b a' b' : counters} {l : String} (h : LabelIn a b l)
    (ha : a'.labelsLe a) (hb : b.labelsLe b') : LabelIn a' b' l := by
  obtain ⟨ha1, ha2⟩ := ha
  obtain ⟨hb1, hb2⟩ := hb
  rcases h with ⟨j, h1, h2, h3⟩ | ⟨j, h1, h2, h3⟩
  · exact Or.inl ⟨j, by omega, by omega, h3⟩
  · exact Or.inr ⟨j, by omega, by omega, h3⟩

theorem LabelIn.disjoint {a b b' c : counters} {l : String} (h1 : LabelIn a b l)
    (h2 : LabelIn b' c l) (hb : b.labelsLe b') : False := by
  obtain ⟨hb1, hb2⟩ := hb
  rcases h1 with ⟨j, p1, p2, rfl | rfl⟩ | ⟨j, p1, p2, rfl | rfl⟩
  · have := h2.endif; omega
  · have := h2.elseif; omega
  · have := h2.while; omega
  · have := h2.endwhile; omega

theorem LabelInv.init (c : counters) : LabelInv c c [] [] :=
  ⟨by simp, List.nodup_nil, by simp⟩

theorem LabelInv.widen {a b a' b' : counters} {labs targs : List String}
    (h : LabelInv a b labs targs) (ha : a'.labelsLe a) (hb : b.labelsLe b') :
    LabelInv a' b' labs targs :=
  ⟨fun l hl => (h.1 l hl).mono ha hb, h.2.1, h.2.2⟩

theorem LabelInv.join {a b b' c : counters} {l1 t1 l2 t2 : List String}
    (h1 : LabelInv a b l1 t1) (h2 : LabelInv b' c l2 t2)
    (hab : a.labelsLe b) (hbb : b.labelsLe b') (hbc : b'.labelsLe c) :
    LabelInv a c (l1 ++ l2) (t1 ++ t2) := by
  have hac' : a.labelsLe b' := ⟨le_trans hab.1 hbb.1, le_trans hab.2 hbb.2⟩
  have hbc' : b.labelsLe c := ⟨le_trans hbb.1 hbc.1, le_trans hbb.2 hbc.2⟩
  refine ⟨?_, ?_, ?_⟩
  · intro l hl
    rcases List.mem_append.mp hl with hl | hl
    · exact (h1.1 l hl).mono ⟨le_refl _, le_refl _⟩ hbc'
    · exact (h2.1 l hl).mono hac' ⟨le_refl _, le_refl _⟩
  · rw [List.nodup_append]
    refine ⟨h1.2.1, h2.2.1, ?_⟩
    intro l hl1 hl2
    exact (h1.1 l hl1).disjoint (h2.1 l hl2) hbb
  · intro l hl
    rcases List.mem_append.mp hl with hl | hl
    · exact List.mem_append_left _ (h1.2.2 l hl)
    · exact List.mem_append_right _ (h2.2.2 l hl)

theorem LabelInv.perm {a b : counters} {l1 l2 t1 t2 : List String}
    (h : LabelInv a b l1 t1) (hl : l1.Perm l2) (ht : ∀ x ∈ t2, x ∈ t1) : LabelInv a b l2 t2 :=
  ⟨fun l hm => h.1 l (hl.mem_iff.mpr hm), hl.nodup_iff.mp h.2.1,
   fun l hm => hl.mem_iff.mp (h.2.2 l (ht l hm))⟩


/-! ### Labels of the generated code -/

theorem labels_append (a b : instructionList) : labels (a ++ b) = labels a ++ labels b := by
  simp [labels, List.filterMap_append]

theorem targets_append (a b : instructionList) : targets (a ++ b) = targets a ++ targets b := by
  simp [targets, List.filterMap_append]

theorem labels_replicate_POP (n : Nat) : labels (List.replicate n (Instr.POP none)) = [] :=
  filterMap_eq_nil_of_forall (fun i hi => by rw [List.eq_of_mem_replicate hi]; rfl)

theorem targets_replicate_POP (n : Nat) : targets (List.replicate n (Instr.POP none)) = [] :=
  filterMap_eq_nil_of_forall (fun i hi => by rw [List.eq_of_mem_replicate hi]; rfl)

theorem counters.labelsLe_refl (c : counters) : c.labelsLe c := ⟨le_refl _, le_refl _⟩

theorem counters.labelsLe_trans {a b c : counters} (h1 : a.labelsLe b) (h2 : b.labelsLe c) :
    a.labelsLe c := ⟨le_trans h1.1 h2.1, le_trans h1.2 h2.2⟩

theorem counters.labelsLe_of_eq {a b : counters} (h1 : b.IF = a.IF) (h2 : b.WHILE = a.WHILE) :
    a.labelsLe b := ⟨by rw [h1], by rw [h2]⟩

theorem counters.labelsLe_of_eq' {a b : counters} (h1 : b.IF = a.IF) (h2 : b.WHILE = a.WHILE) :
    b.labelsLe a := ⟨by rw [h1], by rw [h2]⟩

namespace CodeGen

theorem callCode_plain (name : String) (t : Ty) (n : Nat) (args : instructionList)
    (c : counters) (hl : labels args = []) (ht : targets args = []) :
    (callCode name t [] n args c).2.IF = c.IF ∧ (callCode name t [] n args c).2.WHILE = c.WHILE ∧
    c.TEMP ≤ (callCode name t [] n args c).2.TEMP ∧
    labels (callCode name t [] n args c).1.code = [] ∧
    targets (callCode name t [] n args c).1.code = [] := by
  obtain ⟨h1, h2, _⟩ := callCode_shape name t n args c
  rw [h1, h2]
  refine ⟨rfl, rfl, by simp [counters.newTEMP], ?_, ?_⟩
  · simp only [labels_append, hl, labels_replicate_POP]
    cases TypesMgr.isVoidTy t <;> simp [labels, Instr.label?]
  · simp only [targets_append, ht, targets_replicate_POP]
    cases TypesMgr.isVoidTy t <;> simp [targets, Instr.target?]

theorem exprCases_plain (S : SymTable) :
    ExprCases S
      (fun _ c r => r.2.IF = c.IF ∧ r.2.WHILE = c.WHILE ∧ c.TEMP ≤ r.2.TEMP ∧
        labels r.1.code = [] ∧ targets r.1.code = [])
      (fun _ _ _ c r => r.2.IF = c.IF ∧ r.2.WHILE = c.WHILE ∧ c.TEMP ≤ r.2.TEMP ∧
        labels r.1 = [] ∧ targets r.1 = []) where
  paren := fun _ _ _ h => h
  arr := by
    rintro ident index c r1 ⟨h1, h2, h3, h4, h5⟩
    have hx := array_extends S ident r1.1 r1.2
    obtain ⟨_, _, _, x1, x2, x3⟩ := id hx
    exact ⟨x1.trans h1, x2.trans h2, le_trans h3 x3, hx.labels.trans h4, hx.targets.trans h5⟩
  un := by
    rintro op e c r1 t1 _ ⟨h1, h2, h3, h4, h5⟩
    have hx := unary_extends op t1 r1.1 r1.2
    obtain ⟨_, _, _, x1, x2, x3⟩ := id hx
    exact ⟨x1.trans h1, x2.trans h2, le_trans h3 x3, hx.labels.trans h4, hx.targets.trans h5⟩
  val := by
    intro kind text c
    have hx := visitValue_extends kind text c
    obtain ⟨_, _, _, x1, x2, x3⟩ := id hx
    exact ⟨x1, x2, x3, hx.labels, hx.targets⟩
  call0 := fun ident c => callCode_plain ident _ 0 [] c rfl rfl
  call := by
    rintro ident args pts c rp _ _ _ ⟨h1, h2, h3, h4, h5⟩
    obtain ⟨x1, x2, x3, x4, x5⟩ := callCode_plain ident (TypeCheck.visitIdent S ident).ty
      args.length rp.1 rp.2 h4 h5
    exact ⟨x1.trans h1, x2.trans h2, le_trans h3 x3, x4, x5⟩
  idt := fun _ _ => ⟨rfl, rfl, le_refl _, rfl, rfl⟩
  arith := by
    rintro op e0 e1 c r1 r2 t1 t2 _ _ ⟨a1, a2, a3, a4, a5⟩ ⟨b1, b2, b3, b4, b5⟩
    have hx := arithmetic_extends op t1 t2 r1.1 r2.1 r2.2
    obtain ⟨_, _, _, x1, x2, x3⟩ := id hx
    exact ⟨x1.trans (b1.trans a1), x2.trans (b2.trans a2), le_trans a3 (le_trans b3 x3),
      hx.labels.trans (by rw [labels_append, a4, b4]; rfl),
      hx.targets.trans (by rw [targets_append, a5, b5]; rfl)⟩
  rel := by
    rintro op e0 e1 c r1 r2 t1 t2 _ _ ⟨a1, a2, a3, a4, a5⟩ ⟨b1, b2, b3, b4, b5⟩
    have hx := relational_extends op t1 t2 r1.1 r2.1 r2.2
    obtain ⟨_, _, _, x1, x2, x3⟩ := id hx
    exact ⟨x1.trans (b1.trans a1), x2.trans (b2.trans a2), le_trans a3 (le_trans b3 x3),
      hx.labels.trans (by rw [labels_append, a4, b4]; rfl),
      hx.targets.trans (by rw [targets_append, a5, b5]; rfl)⟩
  log := by
    rintro op e0 e1 c r1 r2 ⟨a1, a2, a3, a4, a5⟩ ⟨b1, b2, b3, b4, b5⟩
    have hx := logical_extends op r1.1 r2.1 r2.2
    obtain ⟨_, _, _, x1, x2, x3⟩ := id hx
    exact ⟨x1.trans (b1.trans a1), x2.trans (b2.trans a2), le_trans a3 (le_trans b3 x3),
      hx.labels.trans (by rw [labels_append, a4, b4]; rfl),
      hx.targets.trans (by rw [targets_append, a5, b5]; rfl)⟩
  nil := fun _ _ _ => ⟨rfl, rfl, le_refl _, rfl, rfl⟩
  cons := by
    rintro pts i e es c r p te rest ⟨a1, a2, a3, a4, a5⟩ _ _ ⟨b1, b2, b3, b4, b5⟩
    obtain ⟨tail, x, hc, hp, x1, x2, x3⟩ := pushParam_shape p te r.1 r.2
    refine ⟨b1.trans (x1.trans a1), b2.trans (x2.trans a2), le_trans a3 (le_trans x3 b3), ?_, ?_⟩
    · simp only [hc, labels_append, a4, b4]
      simp [labels, Instr.label?, filterMap_eq_nil_of_forall (fun i hi => Instr.plain_label (hp i hi))]
    · simp only [hc, targets_append, a5, b5]
      simp [targets, Instr.target?,
        filterMap_eq_nil_of_forall (fun i hi => Instr.plain_target (hp i hi))]

theorem visitLeft_expr_plain {S : SymTable} {c : counters} {l : LeftExpr}
    {r : CodeAttribs × counters} (h : visitLeft_expr S c l = some r) :
    r.2.IF = c.IF ∧ r.2.WHILE = c.WHILE ∧ c.TEMP ≤ r.2.TEMP ∧
      labels r.1.code = [] ∧ targets r.1.code = [] := by
  rcases visitLeft_expr_extends h with ⟨_, rfl⟩ | ⟨index, r1, _, h1, hx⟩
  · exact ⟨rfl, rfl, le_refl _, rfl, rfl⟩
  · obtain ⟨a1, a2, a3, a4, a5⟩ := visitExpr_cases (exprCases_plain S) index c r1 h1
    obtain ⟨_, _, _, x1, x2, x3⟩ := id hx
    exact ⟨x1.trans a1, x2.trans a2, le_trans a3 x3, hx.labels.trans a4, hx.targets.trans a5⟩

theorem LabelInv_while_pair (c c' : counters) (_h1 : c'.IF = c.IF) (h2 : c'.WHILE = c.WHILE + 1) :
    LabelInv c c' ["while" ++ toString c.WHILE, "end" ++ ("while" ++ toString c.WHILE)]
      ["end" ++ ("while" ++ toString c.WHILE), "while" ++ toString c.WHILE] := by
  refine ⟨?_, ?_, ?_⟩
  · intro l hl
    simp only [List.mem_cons, List.mem_singleton, List.not_mem_nil, or_false] at hl
    exact Or.inr ⟨c.WHILE, le_refl _, by omega, hl⟩
  · simp only [List.nodup_cons, List.mem_singleton, List.not_mem_nil, not_false_eq_true,
      List.nodup_nil, and_true]
    exact while_ne_endwhile _ _
  · intro l hl
    simp only [List.mem_cons, List.mem_singleton, List.not_mem_nil, or_false] at hl ⊢
    exact hl.symm

theorem LabelInv_if_pair (c c' : counters) (h1 : c'.IF = c.IF + 1) (_h2 : c'.WHILE = c.WHILE) :
    LabelInv c c' ["else" ++ ("if" ++ toString c.IF), "end" ++ ("if" ++ toString c.IF)]
      ["else" ++ ("if" ++ toString c.IF), "end" ++ ("if" ++ toString c.IF)] := by
  refine ⟨?_, ?_, fun l hl => hl⟩
  · intro l hl
    simp only [List.mem_cons, List.mem_singleton, List.not_mem_nil, or_false] at hl
    exact Or.inl ⟨c.IF, le_refl _, by omega, hl.symm⟩
  · simp only [List.nodup_cons, List.mem_singleton, List.not_mem_nil, not_false_eq_true,
      List.nodup_nil, and_true]
    exact fun h => endif_ne_elseif _ _ h.symm

theorem LabelInv_endif (c c' : counters) (h1 : c'.IF = c.IF + 1) (_h2 : c'.WHILE = c.WHILE) :
    LabelInv c c' ["end" ++ ("if" ++ toString c.IF)] ["end" ++ ("if" ++ toString c.IF)] := by
  refine ⟨?_, by simp, fun l hl => hl⟩
  intro l hl
  simp only [List.mem_singleton] at hl
  exact Or.inl ⟨c.IF, le_refl _, by omega, Or.inl hl⟩

theorem assign_labels {S : SymTable} {t1 t2 : Ty} {a1 a2 : CodeAttribs} {c : counters}
    {r : instructionList × counters} (h : assign S t1 t2 a1 a2 c = some r)
    (l1 : labels a1.code = []) (g1 : targets a1.code = [])
    (l2 : labels a2.code = []) (g2 : targets a2.code = []) :
    c.labelsLe r.2 ∧ c.TEMP ≤ r.2.TEMP ∧ LabelInv c r.2 (labels r.1) (targets r.1) := by
  cases hA1 : TypesMgr.isArrayTy t1 <;> cases hA2 : TypesMgr.isArrayTy t2 <;>
    simp only [assign, hA1, hA2, Bool.false_and, Bool.and_false, Bool.and_self, Bool.or_false,
      Bool.false_or, Bool.or_true, Bool.true_or, if_true, if_false, Bool.false_eq_true,
      Option.some.injEq] at h
  · subst h
    refine ⟨counters.labelsLe_refl _, le_refl _, ?_⟩
    simp only [labels_append, targets_append, l1, l2, g1, g2]
    exact LabelInv.init c
  · subst h
    refine ⟨⟨le_refl _, le_refl _⟩, by simp [counters.newTEMP], ?_⟩
    simp only [labels_append, targets_append, l1, l2, g1, g2]
    exact (LabelInv.init c).widen (counters.labelsLe_refl _) ⟨le_refl _, le_refl _⟩
  · subst h
    refine ⟨⟨le_refl _, le_refl _⟩, by simp [counters.newTEMP], ?_⟩
    simp only [labels_append, targets_append, l1, l2, g1, g2]
    exact (LabelInv.init c).widen (counters.labelsLe_refl _) ⟨le_refl _, le_refl _⟩
  · split at h
    · simp at h
    · simp only [Option.some.injEq] at h
      subst h
      refine ⟨⟨le_refl _, by simp [counters.newTEMP, counters.newLabelWHILE]⟩,
        by simp [counters.newTEMP, counters.newLabelWHILE]; omega, ?_⟩
      have hp := LabelInv_while_pair c
        (c.newTEMP.2.newTEMP.2.newTEMP.2.newTEMP.2.newTEMP.2.newTEMP.2.newTEMP.2.newTEMP.2.newTEMP.2.newLabelWHILE.2)
        rfl rfl
      cases S.isLocalVarClass a1.addr <;> cases S.isLocalVarClass a2.addr <;>
        simpa [labels, targets, Instr.label?, Instr.target?, counters.newTEMP,
          counters.newLabelWHILE] using hp

end CodeGen

theorem labels_nil : labels [] = [] := rfl

theorem targets_nil : targets [] = [] := rfl

theorem labels_LABEL (l : String) (rest : instructionList) :
    labels (Instr.LABEL l :: rest) = l :: labels rest := by
  simp [labels, Instr.label?]

theorem labels_FJUMP (a l : String) (rest : instructionList) :
    labels (Instr.FJUMP a l :: rest) = labels rest := by
  simp [labels, Instr.label?]

theorem labels_UJUMP (l : String) (rest : instructionList) :
    labels (Instr.UJUMP l :: rest) = labels rest := by
  simp [labels, Instr.label?]

theorem targets_LABEL (l : String) (rest : instructionList) :
    targets (Instr.LABEL l :: rest) = targets rest := by
  simp [targets, Instr.target?]

theorem targets_FJUMP (a l : String) (rest : instructionList) :
    targets (Instr.FJUMP a l :: rest) = l :: targets rest := by
  simp [targets, Instr.target?]

theorem targets_UJUMP (l : String) (rest : instructionList) :
    targets (Instr.UJUMP l :: rest) = l :: targets rest := by
  simp [targets, Instr.target?]

namespace CodeGen

theorem read_extends (tE : Ty) (indexed : Bool) (a : CodeAttribs) (c : counters) :
    Extends c a.code (read tE indexed a c).2 (read tE indexed a c).1 := by
  cases hx : indexed <;> cases hf : TypesMgr.isFloatTy tE <;>
    cases hc : TypesMgr.isCharacterTy tE <;>
    exact ⟨_, by simp only [read, hf, hc]; simp; rfl, by simp [Instr.plain],
      by simp [read, counters.newTEMP], by simp [read, counters.newTEMP],
      by simp [read, counters.newTEMP]⟩

theorem writeExpr_extends (tid1 : Ty) (a : CodeAttribs) (c : counters) :
    Extends c a.code c (writeExpr tid1 a) := by
  cases hf : TypesMgr.isFloatTy tid1 <;> cases hc : TypesMgr.isCharacterTy tid1 <;>
    exact ⟨_, by simp only [writeExpr, hf, hc]; simp; rfl, by simp [Instr.plain], rfl, rfl,
      le_refl _⟩

theorem stmtInv_of_plain {c c' : counters} {code : instructionList} (h1 : c'.IF = c.IF)
    (h2 : c'.WHILE = c.WHILE) (h3 : c.TEMP ≤ c'.TEMP) (hl : labels code = [])
    (ht : targets code = []) :
    c.labelsLe c' ∧ c.TEMP ≤ c'.TEMP ∧ LabelInv c c' (labels code) (targets code) := by
  rw [hl, ht]
  exact ⟨counters.labelsLe_of_eq h1 h2, h3,
    (LabelInv.init c).widen (counters.labelsLe_refl _) (counters.labelsLe_of_eq h1 h2)⟩

theorem stmtCases_labels (S : SymTable) :
    StmtCases S
      (fun _ c r => c.labelsLe r.2 ∧ c.TEMP ≤ r.2.TEMP ∧ LabelInv c r.2 (labels r.1) (targets r.1))
      (fun _ c r => c.labelsLe r.2 ∧ c.TEMP ≤ r.2.TEMP ∧
        LabelInv c r.2 (labels r.1) (targets r.1)) where
  assign := by
    intro l e c r1 r2 t2 r h1 h2 _ hr
    obtain ⟨a1, a2, a3, a4, a5⟩ := visitLeft_expr_plain h1
    obtain ⟨b1, b2, b3, b4, b5⟩ := visitExpr_cases (exprCases_plain S) e _ r2 h2
    obtain ⟨x1, x2, x3⟩ := assign_labels hr a4 a5 b4 b5
    have hc : c.labelsLe r2.2 := counters.labelsLe_of_eq (b1.trans a1) (b2.trans a2)
    exact ⟨counters.labelsLe_trans hc x1, le_trans a3 (le_trans b3 x2),
      x3.widen hc (counters.labelsLe_refl _)⟩
  ifElse := by
    rintro e s0 s1 c r1 r2 r3 h1 ⟨p1, p2, p3⟩ ⟨q1, q2, q3⟩
    obtain ⟨a1, a2, a3, a4, a5⟩ := visitExpr_cases (exprCases_plain S) e _ r1 h1
    have hc : c.labelsLe r1.2 := counters.labelsLe_of_eq a1 a2
    have hn : r2.2.labelsLe r2.2.newLabelIF.2 := ⟨by simp [counters.newLabelIF], le_refl _⟩
    have hpair := LabelInv_if_pair r2.2 r2.2.newLabelIF.2 rfl rfl
    have h12 := (p3.join hpair p1 (counters.labelsLe_refl _) hn).join q3
      (counters.labelsLe_trans p1 hn) (counters.labelsLe_refl _) q1
    refine ⟨counters.labelsLe_trans hc (counters.labelsLe_trans p1 (counters.labelsLe_trans hn q1)),
      le_trans a3 (le_trans p2 q2), ?_⟩
    refine (h12.perm ?_ ?_).widen hc (counters.labelsLe_refl _)
    · simp only [labels_append, a4, counters.newLabelIF, labels_LABEL, labels_FJUMP, labels_UJUMP, labels_nil,
        List.nil_append, List.append_nil, List.append_assoc, List.singleton_append,
        List.cons_append]
      exact List.Perm.append_left _ (List.Perm.cons _ (List.perm_append_singleton _ _).symm)
    · intro x hx
      simp only [targets_append, a5, counters.newLabelIF, targets_LABEL, targets_FJUMP, targets_UJUMP, targets_nil,
        List.nil_append, List.append_nil, List.append_assoc, List.singleton_append,
        List.cons_append, List.mem_cons, List.mem_append, List.not_mem_nil, or_false] at hx ⊢
      tauto
  ifThen := by
    rintro e s0 c r1 r2 h1 ⟨p1, p2, p3⟩
    obtain ⟨a1, a2, a3, a4, a5⟩ := visitExpr_cases (exprCases_plain S) e _ r1 h1
    have hc : c.labelsLe r1.2 := counters.labelsLe_of_eq a1 a2
    have hn : r2.2.labelsLe r2.2.newLabelIF.2 := ⟨by simp [counters.newLabelIF], le_refl _⟩
    have hpair := LabelInv_endif r2.2 r2.2.newLabelIF.2 rfl rfl
    have h12 := p3.join hpair p1 (counters.labelsLe_refl _) hn
    refine ⟨counters.labelsLe_trans hc (counters.labelsLe_trans p1 hn), le_trans a3 p2, ?_⟩
    refine (h12.perm ?_ ?_).widen hc (counters.labelsLe_refl _)
    · simp only [labels_append, a4, counters.newLabelIF, labels_LABEL, labels_FJUMP, labels_UJUMP, labels_nil,
        List.nil_append, List.append_nil, List.append_assoc, List.singleton_append,
        List.cons_append]
      exact List.Perm.refl _
    · intro x hx
      simp only [targets_append, a5, counters.newLabelIF, targets_LABEL, targets_FJUMP, targets_UJUMP, targets_nil,
        List.nil_append, List.append_nil, List.append_assoc, List.singleton_append,
        List.cons_append, List.mem_cons, List.mem_append, List.not_mem_nil, or_false] at hx ⊢
      tauto
  whileDo := by
    rintro e s c r1 r2 h1 ⟨p1, p2, p3⟩
    obtain ⟨a1, a2, a3, a4, a5⟩ := visitExpr_cases (exprCases_plain S) e _ r1 h1
    have hc : c.labelsLe r1.2 := counters.labelsLe_of_eq a1 a2
    have hn : r2.2.labelsLe r2.2.newLabelWHILE.2 := ⟨le_refl _, by simp [counters.newLabelWHILE]⟩
    have hpair := LabelInv_while_pair r2.2 r2.2.newLabelWHILE.2 rfl rfl
    have h12 := p3.join hpair p1 (counters.labelsLe_refl _) hn
    refine ⟨counters.labelsLe_trans hc (counters.labelsLe_trans p1 hn), le_trans a3 p2, ?_⟩
    refine (h12.perm ?_ ?_).widen hc (counters.labelsLe_refl _)
    · simp only [labels_append, a4, counters.newLabelWHILE, labels_LABEL, labels_FJUMP, labels_UJUMP, labels_nil,
        List.nil_append, List.append_nil, List.append_assoc, List.singleton_append,
        List.cons_append]
      exact (List.perm_middle).trans (List.Perm.refl _)
    · intro x hx
      simp only [targets_append, a5, counters.newLabelWHILE, targets_LABEL, targets_FJUMP, targets_UJUMP, targets_nil,
        List.nil_append, List.append_nil, List.append_assoc, List.singleton_append,
        List.cons_append, List.mem_cons, List.mem_append, List.not_mem_nil, or_false] at hx ⊢
      tauto
  proc0 := by
    intro ident c
    obtain ⟨x1, x2, x3, x4, x5⟩ := callCode_plain ident (TypeCheck.visitIdent S ident).ty 0 [] c
      rfl rfl
    exact stmtInv_of_plain x1 x2 x3 x4 x5
  proc := by
    intro ident args pts c rp _ _ hr
    obtain ⟨h1, h2, h3, h4, h5⟩ := visitParams_cases (exprCases_plain S) args pts 0 c rp hr
    obtain ⟨x1, x2, x3, x4, x5⟩ := callCode_plain ident (TypeCheck.visitIdent S ident).ty
      args.length rp.1 rp.2 h4 h5
    exact stmtInv_of_plain (x1.trans h1) (x2.trans h2) (le_trans h3 x3) x4 x5
  read := by
    intro l c r a h1 _
    obtain ⟨a1, a2, a3, a4, a5⟩ := visitLeft_expr_plain h1
    have hx := read_extends a.ty l.expr.isSome r.1 r.2
    obtain ⟨_, _, _, x1, x2, x3⟩ := id hx
    exact stmtInv_of_plain (x1.trans a1) (x2.trans a2) (le_trans a3 x3) (hx.labels.trans a4)
      (hx.targets.trans a5)
  writeE := by
    intro e c r tid1 h1 _
    obtain ⟨a1, a2, a3, a4, a5⟩ := visitExpr_cases (exprCases_plain S) e _ r h1
    have hx := writeExpr_extends tid1 r.1 r.2
    exact stmtInv_of_plain a1 a2 a3 (hx.labels.trans a4) (hx.targets.trans a5)
  writeS := by
    intro s c r h
    have hx := visitWriteString_extends h
    obtain ⟨_, _, _, x1, x2, x3⟩ := id hx
    exact stmtInv_of_plain x1 x2 x3 hx.labels hx.targets
  ret := by
    intro e c r h1
    obtain ⟨a1, a2, a3, a4, a5⟩ := visitExpr_cases (exprCases_plain S) e _ r h1
    refine stmtInv_of_plain a1 a2 a3 ?_ ?_
    · rw [labels_append, a4]; rfl
    · rw [targets_append, a5]; rfl
  ret0 := fun c => stmtInv_of_plain rfl rfl (le_refl _) rfl rfl
  nil := fun c => stmtInv_of_plain rfl rfl (le_refl _) rfl rfl
  cons := by
    rintro s ss c r rs ⟨p1, p2, p3⟩ ⟨q1, q2, q3⟩
    refine ⟨counters.labelsLe_trans p1 q1, le_trans p2 q2, ?_⟩
    rw [labels_append, targets_append]
    exact p3.join q3 p1 (counters.labelsLe_refl _) q1

end CodeGen

/-- C6: in every subroutine produced by the code generator, every label named by an
`FJUMP` or `UJUMP` instruction is placed by a `LABEL` instruction of the same
instruction list, and no two `LABEL` instructions of the list carry the same name. -/
theorem C6_jump_targets_are_unique_labels (ctx : List (FunctionNode CodeGen.Stmt))
    (subs : List subroutine) (h : CodeGen.subroutines ctx = some subs) :
    ∀ s ∈ subs, (∀ l ∈ targets s.instructions, l ∈ labels s.instructions) ∧
      (labels s.instructions).Nodup := by
  intro s hs
  obtain ⟨f, _, r, hr, hi⟩ := CodeGen.subroutines_inv h s hs
  obtain ⟨_, _, h1, h2, h3⟩ := CodeGen.visitStatements_cases (CodeGen.stmtCases_labels _) _ _ r hr
  rw [hi, labels_append, targets_append]
  have e1 : labels [Instr.RETURN] = [] := rfl
  have e2 : targets [Instr.RETURN] = [] := rfl
  rw [e1, e2, List.append_nil, List.append_nil]
  exact ⟨h3, h2⟩

/-- C4 at `exampleCalls`: the generator produces two subroutines for it, and each has
as many `PUSH` as `POP` instructions. -/
theorem C4_witness :
    ∃ subs, CodeGen.subroutines exampleCalls = some subs ∧ subs.length = 2 ∧
      ∀ s ∈ subs, s.instructions.countP Instr.isPUSH = s.instructions.countP Instr.isPOP :=
  ⟨_, rfl, rfl, C4_push_pop_balanced exampleCalls _ rfl⟩

/-- C6 at `exampleControl`: the generator produces `main` with the labels `while1`,
`while0`, `endwhile0`, `elseif0`, `endif0`, `endwhile1`, `endif1`, which are distinct
and include every jump target. -/
theorem C6_witness :
    (CodeGen.subroutines exampleControl).map (fun l => l.map (fun s => labels s.instructions)) =
      some [["while1", "while0", "endwhile0", "elseif0", "endif0", "endwhile1", "endif1"]] ∧
    ∃ subs, CodeGen.subroutines exampleControl = some subs ∧
      ∀ s ∈ subs, (∀ l ∈ targets s.instructions, l ∈ labels s.instructions) ∧
        (labels s.instructions).Nodup := by
  have h : (CodeGen.subroutines exampleControl).isSome = true := by decide!
  obtain ⟨subs, hs⟩ := Option.isSome_iff_exists.mp h
  exact ⟨by decide!, subs, hs, C6_jump_targets_are_unique_labels exampleControl subs hs⟩

/-! ### Error types in the analyzer -/

/-- C8, the claim refuted: in `u + 1` with `u` undeclared the operand `u` is decorated
with type Error and the arithmetic node is decorated with type Integer, not Error. -/
theorem C8_counterexample :
    ∃ a0 a, TypeCheck.visitExpr SymTable.init (Expr.exprIdent "u") = some a0 ∧
      a0.ty = Ty.error ∧
      TypeCheck.visitExpr SymTable.init
        (Expr.arithmetic ArithOp.PLUS (Expr.exprIdent "u") (Expr.value ValueKind.INTVAL "1"))
        = some a ∧
      a.ty = Ty.integer ∧ TypesMgr.isErrorTy a.ty = false :=
  ⟨_, _, rfl, rfl, rfl, rfl, rfl⟩

namespace TypeCheck

theorem visitExpr_unary {S : SymTable} {e : Expr} {a : Attr} (h : visitExpr S e = some a)
    (op : UnaryOp) : visitExpr S (Expr.unary op e) = some (unary (Expr.unary op e) op e a) := by
  simp [visitExpr, h]

theorem visitExpr_parenthesis {S : SymTable} {e : Expr} {a : Attr} (h : visitExpr S e = some a) :
    ∃ r, visitExpr S (Expr.parenthesis e) = some r ∧ r.ty = a.ty ∧ r.errors = a.errors := by
  simp [visitExpr, h]

theorem visitExpr_arithmetic {S : SymTable} {e0 e1 : Expr} {a0 a1 : Attr}
    (h0 : visitExpr S e0 = some a0) (h1 : visitExpr S e1 = some a1) (op : ArithOp) :
    visitExpr S (Expr.arithmetic op e0 e1) =
      some (arithmetic (Expr.arithmetic op e0 e1) op a0 a1) := by
  simp [visitExpr, h0, h1]

theorem visitExpr_relational {S : SymTable} {e0 e1 : Expr} {a0 a1 : Attr}
    (h0 : visitExpr S e0 = some a0) (h1 : visitExpr S e1 = some a1) (op : RelOp) :
    visitExpr S (Expr.relational op e0 e1) =
      some (relational (Expr.relational op e0 e1) op a0 a1) := by
  simp [visitExpr, h0, h1]

theorem visitExpr_logical {S : SymTable} {e0 e1 : Expr} {a0 a1 : Attr}
    (h0 : visitExpr S e0 = some a0) (h1 : visitExpr S e1 = some a1) (op : LogicalOp) :
    visitExpr S (Expr.logical op e0 e1) =
      some (logical (Expr.logical op e0 e1) op a0 a1) := by
  simp [visitExpr, h0, h1]

theorem visitExpr_array {S : SymTable} {index : Expr} {a1 : Attr}
    (h1 : visitExpr S index = some a1) (ident : String) :
    visitExpr S (Expr.array ident index) =
      array (Expr.array ident index) index (visitIdent S ident) a1 := by
  simp [visitExpr, h1]

theorem arithmetic_ty (ctx : Expr) (op : ArithOp) (a0 a1 : Attr) :
    (arithmetic ctx op a0 a1).ty = Ty.integer ∨ (arithmetic ctx op a0 a1).ty = Ty.float := by
  cases op <;> simp only [arithmetic] <;> first | (split <;> simp) | simp

end TypeCheck

/-- C8, amended: for operands `e`, `e'` whose visits return, a unary or parenthesis
node over `e` is decorated with the type of `e`, hence with Error when `e` is; an
array-indexing node whose base identifier has type Error is decorated with Error; an
arithmetic node is decorated with Integer or Float, and a relational or logical node
with Boolean, whatever the types of the operands. -/
theorem C8_error_propagation (S : SymTable) (e e' : Expr) (a a' : TypeCheck.Attr)
    (h : TypeCheck.visitExpr S e = some a) (h' : TypeCheck.visitExpr S e' = some a') :
    (a.ty = Ty.error →
      (∀ op, ∃ r, TypeCheck.visitExpr S (Expr.unary op e) = some r ∧ r.ty = Ty.error) ∧
      (∃ r, TypeCheck.visitExpr S (Expr.parenthesis e) = some r ∧ r.ty = Ty.error)) ∧
    (∀ ident, (TypeCheck.visitIdent S ident).ty = Ty.error →
      ∃ r, TypeCheck.visitExpr S (Expr.array ident e) = some r ∧ r.ty = Ty.error) ∧
    (∀ op, ∃ r, TypeCheck.visitExpr S (Expr.arithmetic op e e') = some r ∧
      (r.ty = Ty.integer ∨ r.ty = Ty.float)) ∧
    (∀ op, ∃ r, TypeCheck.visitExpr S (Expr.relational op e e') = some r ∧ r.ty = Ty.boolean) ∧
    (∀ op, ∃ r, TypeCheck.visitExpr S (Expr.logical op e e') = some r ∧ r.ty = Ty.boolean) := by
  refine ⟨fun he => ⟨fun op => ?_, ?_⟩, fun ident hi => ?_, fun op => ?_, fun op => ?_,
    fun op => ?_⟩
  · exact ⟨_, TypeCheck.visitExpr_unary h op, he⟩
  · obtain ⟨r, hr, ht, _⟩ := TypeCheck.visitExpr_parenthesis h
    exact ⟨r, hr, ht.trans he⟩
  · rw [TypeCheck.visitExpr_array h ident]
    simp [TypeCheck.array, hi, TypesMgr.isErrorTy]
  · exact ⟨_, TypeCheck.visitExpr_arithmetic h h' op, TypeCheck.arithmetic_ty _ _ _ _⟩
  · exact ⟨_, TypeCheck.visitExpr_relational h h' op, rfl⟩
  · exact ⟨_, TypeCheck.visitExpr_logical h h' op, rfl⟩

/-- C8 amended, at `u` undeclared and the literal `1` in the empty symbol table. -/
theorem C8_witness :
    ∃ a a', TypeCheck.visitExpr SymTable.init (Expr.exprIdent "u") = some a ∧
      TypeCheck.visitExpr SymTable.init (Expr.value ValueKind.INTVAL "1") = some a' ∧
      a.ty = Ty.error ∧
      ∃ r, TypeCheck.visitExpr SymTable.init (Expr.parenthesis (Expr.exprIdent "u")) = some r ∧
        r.ty = Ty.error :=
  ⟨_, _, rfl, rfl, rfl,
    ((C8_error_propagation SymTable.init (Expr.exprIdent "u") (Expr.value ValueKind.INTVAL "1")
      _ _ rfl rfl).1 rfl).2⟩

/-- C9, the claim refuted: in `u + true` with `u` undeclared the operand `u` has type
Error, and the arithmetic node still reports `incompatibleOperator` on top of the
diagnostics of its operands. -/
theorem C9_counterexample :
    ∃ a0 a1 r, TypeCheck.visitExpr SymTable.init (Expr.exprIdent "u") = some a0 ∧
      a0.ty = Ty.error ∧
      TypeCheck.visitExpr SymTable.init (Expr.value ValueKind.BOOLVAL "true") = some a1 ∧
      TypeCheck.visitExpr SymTable.init
        (Expr.arithmetic ArithOp.PLUS (Expr.exprIdent "u")
          (Expr.value ValueKind.BOOLVAL "true")) = some r ∧
      r.errors = a0.errors ++ a1.errors ++
        [TypeCheck.SemError.incompatibleOperator (TypeCheck.Node.token "+")] :=
  ⟨_, _, _, rfl, rfl, rfl, rfl, rfl⟩

theorem TypeCheck.arithmeticCheck_eq_nil (op : ArithOp) (t1 t2 : Ty) :
    TypeCheck.arithmeticCheck op t1 t2 = [] ↔
      ∀ t ∈ [t1, t2], TypesMgr.isErrorTy t = true ∨
        (if op = ArithOp.MOD then TypesMgr.isIntegerTy t else TypesMgr.isNumericTy t) = true := by
  cases op <;>
    cases h1 : TypesMgr.isErrorTy t1 <;> cases h2 : TypesMgr.isErrorTy t2 <;>
    cases h3 : TypesMgr.isIntegerTy t1 <;> cases h4 : TypesMgr.isIntegerTy t2 <;>
    cases h5 : TypesMgr.isFloatTy t1 <;> cases h6 : TypesMgr.isFloatTy t2 <;>
    simp [TypeCheck.arithmeticCheck, TypesMgr.isNumericTy, h1, h2, h3, h4, h5, h6]

/-- C9, amended: for operands `e0`, `e1` whose visits return and of which at least one
has type Error, a relational node and a logical node over them report nothing of
their own, and so does a unary node over an operand of type Error; an arithmetic
node (including `MOD`) reports nothing of its own exactly when every operand is of
type Error or Numeric (Integer for `MOD`), and `incompatibleOperator` otherwise. -/
theorem C9_diagnostics_with_error_operand (S : SymTable) (e0 e1 : Expr)
    (a0 a1 : TypeCheck.Attr) (h0 : TypeCheck.visitExpr S e0 = some a0)
    (h1 : TypeCheck.visitExpr S e1 = some a1) (herr : a0.ty = Ty.error ∨ a1.ty = Ty.error) :
    (a0.ty = Ty.error →
      ∀ op, ∃ r, TypeCheck.visitExpr S (Expr.unary op e0) = some r ∧ r.errors = a0.errors) ∧
    (∀ op, ∃ r, TypeCheck.visitExpr S (Expr.relational op e0 e1) = some r ∧
      r.errors = a0.errors ++ a1.errors) ∧
    (∀ op, ∃ r, TypeCheck.visitExpr S (Expr.logical op e0 e1) = some r ∧
      r.errors = a0.errors ++ a1.errors) ∧
    (∀ op, ∃ r, TypeCheck.visitExpr S (Expr.arithmetic op e0 e1) = some r ∧
      r.errors = a0.errors ++ a1.errors ++ TypeCheck.arithmeticCheck op a0.ty a1.ty ∧
      (TypeCheck.arithmeticCheck op a0.ty a1.ty = [] ∨
        TypeCheck.arithmeticCheck op a0.ty a1.ty =
          [TypeCheck.SemError.incompatibleOperator (TypeCheck.Node.token op.getText)]) ∧
      (TypeCheck.arithmeticCheck op a0.ty a1.ty = [] ↔
        ∀ t ∈ [a0.ty, a1.ty], TypesMgr.isErrorTy t = true ∨
          (if op = ArithOp.MOD then TypesMgr.isIntegerTy t else TypesMgr.isNumericTy t)
            = true)) := by
  refine ⟨fun he op => ?_, fun op => ?_, fun op => ?_, fun op => ?_⟩
  · refine ⟨_, TypeCheck.visitExpr_unary h0 op, ?_⟩
    cases op <;> simp [TypeCheck.unary, TypeCheck.unaryCheck, he, TypesMgr.isErrorTy]
  · refine ⟨_, TypeCheck.visitExpr_relational h0 h1 op, ?_⟩
    rcases herr with he | he <;>
      simp [TypeCheck.relational, TypeCheck.relationalCheck, he, TypesMgr.isErrorTy]
  · refine ⟨_, TypeCheck.visitExpr_logical h0 h1 op, ?_⟩
    rcases herr with he | he <;>
      simp [TypeCheck.logical, TypeCheck.logicalCheck, he, TypesMgr.isErrorTy]
  · refine ⟨_, TypeCheck.visitExpr_arithmetic h0 h1 op, rfl, ?_,
      TypeCheck.arithmeticCheck_eq_nil op a0.ty a1.ty⟩
    cases op <;> simp only [TypeCheck.arithmeticCheck] <;> split <;> simp

/-- C9 amended, at `u` undeclared and the literal `true` in the empty symbol table. -/
theorem C9_witness :
    ∃ a0 a1, TypeCheck.visitExpr SymTable.init (Expr.exprIdent "u") = some a0 ∧
      TypeCheck.visitExpr SymTable.init (Expr.value ValueKind.BOOLVAL "true") = some a1 ∧
      (a0.ty = Ty.error ∨ a1.ty = Ty.error) ∧
      ∀ op, ∃ r, TypeCheck.visitExpr SymTable.init
          (Expr.logical op (Expr.exprIdent "u") (Expr.value ValueKind.BOOLVAL "true")) = some r ∧
        r.errors = a0.errors ++ a1.errors :=
  ⟨_, _, rfl, rfl, Or.inl rfl,
    (C9_diagnostics_with_error_operand SymTable.init (Expr.exprIdent "u")
      (Expr.value ValueKind.BOOLVAL "true") _ _ rfl rfl (Or.inl rfl)).2.2.1⟩

/-! ### Decorations left by the analyzer -/

namespace TypeCheck

theorem Decorates.nil : Decorates [] [] := ⟨rfl, rfl⟩

theorem Decorates.append {d1 d2 : List Decor} {n1 n2 : List Node} (h1 : Decorates d1 n1)
    (h2 : Decorates d2 n2) : Decorates (d1 ++ d2) (n1 ++ n2) := by
  unfold Decorates typeKeys lvalKeys at *
  simp only [List.filterMap_append, h1.1, h1.2, h2.1, h2.2, and_self]

theorem Decorates.node (n : Node) (t : Ty) (b : Bool) :
    Decorates [Decor.putType n t, Decor.putIsLValue n b] [n] := ⟨rfl, rfl⟩

theorem Decorates.node' (n : Node) (t : Ty) (b : Bool) :
    Decorates [Decor.putIsLValue n b, Decor.putType n t] [n] := ⟨rfl, rfl⟩

theorem visitIdent_decorates (S : SymTable) (ident : String) :
    Decorates (visitIdent S ident).decor [Node.ident ident] := by
  unfold visitIdent
  split <;> exact Decorates.node _ _ _

theorem array_decorates {ctx index : Expr} {ai a1 r : Attr} {n0 n1 : List Node}
    (h : array ctx index ai a1 = some r) (h0 : Decorates ai.decor n0)
    (h1 : Decorates a1.decor n1) : Decorates r.decor (n0 ++ n1 ++ [Node.expr ctx]) := by
  unfold array at h
  simp only at h
  split at h
  · split at h
    · simp only [Option.some.injEq] at h
      subst h
      exact (h0.append h1).append (Decorates.node _ _ _)
    · simp only [Option.map_eq_some'] at h
      obtain ⟨t, _, rfl⟩ := h
      exact (h0.append h1).append (Decorates.node _ _ _)
  · simp only [Option.some.injEq] at h
    subst h
    exact (h0.append h1).append (Decorates.node _ _ _)

theorem array_errors {ctx index : Expr} {ai a1 r : Attr} (h : array ctx index ai a1 = some r)
    (he : r.errors = []) : ai.errors = [] ∧ a1.errors = [] := by
  unfold array at h
  simp only at h
  split at h
  · split at h
    · simp only [Option.some.injEq] at h
      subst h
      simp at he
    · simp only [Option.map_eq_some'] at h
      obtain ⟨t, _, rfl⟩ := h
      simp only [List.append_eq_nil] at he
      exact ⟨he.1.1.1, he.1.1.2⟩
  · simp only [Option.some.injEq] at h
    subst h
    simp only [List.append_eq_nil] at he
    exact ⟨he.1.1.1, he.1.1.2⟩

mutual
/-- A visit of an expression that reports nothing decorates every node of it. -/
theorem visitExpr_decorates (S : SymTable) :
    ∀ (e : Expr) (a : Attr), visitExpr S e = some a → a.errors = [] →
      Decorates a.decor (exprNodes e)
  | .parenthesis e, a, h, he => by
    simp only [visitExpr, Option.bind_eq_bind, Option.bind_eq_some, Option.pure_def,
      Option.some.injEq] at h
    obtain ⟨a0, h0, rfl⟩ := h
    simp only [exprNodes]
    exact (visitExpr_decorates S e a0 h0 he).append (Decorates.node _ _ _)
  | .array ident index, a, h, he => by
    simp only [visitExpr, Option.bind_eq_bind, Option.bind_eq_some] at h
    obtain ⟨a1, h1, hr⟩ := h
    simp only [exprNodes]
    exact array_decorates hr (visitIdent_decorates S ident)
      (visitExpr_decorates S index a1 h1 (array_errors hr he).2)
  | .unary op e, a, h, he => by
    simp only [visitExpr, Option.bind_eq_bind, Option.bind_eq_some, Option.pure_def,
      Option.some.injEq] at h
    obtain ⟨a0, h0, rfl⟩ := h
    simp only [unary, List.append_eq_nil] at he
    simp only [exprNodes, unary]
    exact (visitExpr_decorates S e a0 h0 he.1).append (Decorates.node _ _ _)
  | .value kind text, a, h, _ => by
    simp only [visitExpr, Option.some.injEq] at h
    subst h
    exact Decorates.node _ _ _
  | .callFunc ident args, a, h, he => by
    simp only [visitExpr] at h
    split at h
    · simp only [Option.some.injEq] at h
      subst h
      simp at he
    · simp only [Option.bind_eq_bind, Option.bind_eq_some] at h
      obtain ⟨tr, htr, sizePar, hsz, h⟩ := h
      split at h
      · simp only [Option.pure_def, Option.some.injEq] at h
        subst h
        simp at he
      · rename_i hlen
        simp only [Option.bind_eq_some, Option.pure_def, Option.some.injEq] at h
        obtain ⟨ps, hps, r, hr, rfl⟩ := h
        simp only [List.append_eq_nil] at he
        have hl : ps.length = args.length := by
          cases ht : (visitIdent S ident).ty <;>
            simp [ht, TypesMgr.getNumOfParameters, TypesMgr.getFuncParamsTypes] at hsz hps
          subst hps
          subst hsz
          simp only [ne_eq, Decidable.not_not] at hlen
          exact hlen.symm
        have hd := visitCallFuncArgs_decorates S args ps _ 0 r hr hl he.2.2
        simp only [exprNodes]
        exact ((visitIdent_decorates S ident).append hd).append (Decorates.node _ _ _)
  | .exprIdent ident, a, h, _ => by
    simp only [visitExpr, Option.some.injEq] at h
    subst h
    exact (visitIdent_decorates S ident).append (Decorates.node _ _ _)
  | .arithmetic op e0 e1, a, h, he => by
    simp only [visitExpr, Option.bind_eq_bind, Option.bind_eq_some, Option.pure_def,
      Option.some.injEq] at h
    obtain ⟨a0, h0, a1, h1, rfl⟩ := h
    simp only [arithmetic, List.append_eq_nil] at he
    simp only [exprNodes, arithmetic]
    exact ((visitExpr_decorates S e0 a0 h0 he.1.1).append
      (visitExpr_decorates S e1 a1 h1 he.1.2)).append (Decorates.node _ _ _)
  | .relational op e0 e1, a, h, he => by
    simp only [visitExpr, Option.bind_eq_bind, Option.bind_eq_some, Option.pure_def,
      Option.some.injEq] at h
    obtain ⟨a0, h0, a1, h1, rfl⟩ := h
    simp only [relational, List.append_eq_nil] at he
    simp only [exprNodes, relational]
    exact ((visitExpr_decorates S e0 a0 h0 he.1.1).append
      (visitExpr_decorates S e1 a1 h1 he.1.2)).append (Decorates.node _ _ _)
  | .logical op e0 e1, a, h, he => by
    simp only [visitExpr, Option.bind_eq_bind, Option.bind_eq_some, Option.pure_def,
      Option.some.injEq] at h
    obtain ⟨a0, h0, a1, h1, rfl⟩ := h
    simp only [logical, List.append_eq_nil] at he
    simp only [exprNodes, logical]
    exact ((visitExpr_decorates S e0 a0 h0 he.1.1).append
      (visitExpr_decorates S e1 a1 h1 he.1.2)).append (Decorates.node _ _ _)
/-- The parameter loop of a call expression that reports nothing decorates every node
of the arguments, when there are as many arguments as parameters. -/
theorem visitCallFuncArgs_decorates (S : SymTable) :
    ∀ (es : List Expr) (ps : List Ty) (call : Node) (i : Nat) (r : Effect),
      visitCallFuncArgs S call i ps es = some r → ps.length = es.length → r.errors = [] →
      Decorates r.decor (exprsNodes es)
  | [], [], call, i, r, h, _, _ => by
    simp only [visitCallFuncArgs, Option.some.injEq] at h
    subst h
    exact Decorates.nil
  | [], _ :: _, call, i, r, h, hl, _ => by simp at hl
  | _ :: _, [], call, i, r, h, hl, _ => by simp at hl
  | e :: es, p :: ps, call, i, r, h, hl, he => by
    simp only [visitCallFuncArgs, Option.bind_eq_bind, Option.bind_eq_some, Option.pure_def,
      Option.some.injEq] at h
    obtain ⟨a, ha, rest, hrest, rfl⟩ := h
    simp only [List.append_eq_nil] at he
    simp only [exprsNodes]
    exact (visitExpr_decorates S e a ha he.1.1).append
      (visitCallFuncArgs_decorates S es ps call (i + 1) rest hrest (by simpa using hl) he.2)
end

end TypeCheck

namespace TypeCheck

theorem visitIdent_not_error {S : SymTable} (hS : S.noError) {ident : String}
    (he : (visitIdent S ident).errors = []) :
    TypesMgr.isErrorTy (visitIdent S ident).ty = false := by
  unfold visitIdent at he ⊢
  split
  · rename_i h
    simp [h] at he
  · rename_i en h
    obtain ⟨sc, hm, hen⟩ := SymTable.findInScopes_mem h
    exact hS sc hm en hen

theorem visitLeft_expr_decorates {S : SymTable} (hS : S.noError) {l : LeftExpr} {a : Attr}
    (h : visitLeft_expr S l = some a) (he : a.errors = []) :
    Decorates a.decor (leftExprNodes l) := by
  unfold visitLeft_expr at h
  simp only at h
  unfold leftExprNodes
  split at h
  · cases hl : l.expr with
    | none =>
      simp only [hl, Option.some.injEq] at h
      subst h
      simpa using ((visitIdent_decorates S l.ident).append Decorates.nil).append
        (Decorates.node' _ _ _)
    | some index =>
      simp only [hl, Option.bind_eq_bind, Option.bind_eq_some] at h
      obtain ⟨a1, h1, h⟩ := h
      split at h
      · simp only [Option.pure_def, Option.some.injEq] at h
        subst h
        simp at he
      · simp only [Option.bind_eq_some, Option.pure_def, Option.some.injEq] at h
        obtain ⟨tElem, _, rfl⟩ := h
        simp only [List.append_eq_nil] at he
        exact ((visitIdent_decorates S l.ident).append
          (visitExpr_decorates S index a1 h1 he.2.1)).append (Decorates.node' _ _ _)
  · rename_i hne
    simp only [Option.some.injEq] at h
    subst h
    simp only [List.append_nil] at he
    have := visitIdent_not_error hS he
    simp [this] at hne

theorem visitArgs_decorates (S : SymTable) :
    ∀ (es : List Expr) (as : List Attr), visitArgs S es = some as →
      (as.map (fun a => a.errors)).flatten = [] →
      Decorates (as.map (fun a => a.decor)).flatten (exprsNodes es)
  | [], as, h, _ => by
    simp only [visitArgs, Option.some.injEq] at h
    subst h
    exact Decorates.nil
  | e :: es, as, h, he => by
    simp only [visitArgs, Option.bind_eq_bind, Option.bind_eq_some, Option.pure_def,
      Option.some.injEq] at h
    obtain ⟨a, ha, r, hr, rfl⟩ := h
    simp only [List.map_cons, List.flatten_cons, List.append_eq_nil] at he
    simp only [List.map_cons, List.flatten_cons, exprsNodes]
    exact (visitExpr_decorates S e a ha he.1).append (visitArgs_decorates S es r hr he.2)

mutual
/-- A visit of a statement that reports nothing decorates every node of it. -/
theorem visitStmt_decorates {S : SymTable} (hS : S.noError) :
    ∀ (s : Stmt) (r : Effect), visitStmt S s = some r → r.errors = [] →
      Decorates r.decor (stmtNodes s)
  | .assignStmt l e, r, h, he => by
    simp only [visitStmt, Option.bind_eq_bind, Option.bind_eq_some, Option.pure_def,
      Option.some.injEq] at h
    obtain ⟨a1, h1, a2, h2, rfl⟩ := h
    simp only [List.append_eq_nil] at he
    simp only [stmtNodes]
    exact (visitLeft_expr_decorates hS h1 he.1.1.1).append
      (visitExpr_decorates S e a2 h2 he.1.1.2)
  | .ifStmt e ss, r, h, he => by
    simp only [visitStmt, Option.bind_eq_bind, Option.bind_eq_some, Option.pure_def,
      Option.some.injEq] at h
    obtain ⟨a, ha, rs, hrs, rfl⟩ := h
    simp only [List.append_eq_nil] at he
    simp only [stmtNodes]
    exact (visitExpr_decorates S e a ha he.1.1).append
      (visitStatements_decorates hS ss rs hrs he.2)
  | .procCall ident args, r, h, he => by
    simp only [visitStmt] at h
    split at h
    · simp only [Option.some.injEq] at h
      subst h
      simp at he
    · split at h
      · simp only [Option.bind_eq_bind, Option.bind_eq_some] at h
        obtain ⟨as, has, sizePar, _, h⟩ := h
        simp only [stmtNodes]
        split at h
        · simp only [Option.pure_def, Option.some.injEq] at h
          subst h
          simp at he
        · simp only [Option.bind_eq_some, Option.pure_def, Option.some.injEq] at h
          obtain ⟨ps, _, rfl⟩ := h
          simp only [List.append_eq_nil] at he
          exact (visitIdent_decorates S ident).append (visitArgs_decorates S args as has he.1.2)
      · rename_i hne
        simp only [Option.some.injEq] at h
        subst h
        have := visitIdent_not_error hS he
        simp [this] at hne
  | .readStmt l, r, h, he => by
    simp only [visitStmt, Option.bind_eq_bind, Option.bind_eq_some, Option.pure_def,
      Option.some.injEq] at h
    obtain ⟨a, ha, rfl⟩ := h
    simp only [List.append_eq_nil] at he
    simp only [stmtNodes]
    exact visitLeft_expr_decorates hS ha he.1.1
  | .writeExpr e, r, h, he => by
    simp only [visitStmt, Option.bind_eq_bind, Option.bind_eq_some, Option.pure_def,
      Option.some.injEq] at h
    obtain ⟨a, ha, rfl⟩ := h
    simp only [List.append_eq_nil] at he
    simp only [stmtNodes]
    exact visitExpr_decorates S e a ha he.1
  | .writeString _, r, h, _ => by
    simp only [visitStmt, Option.some.injEq] at h
    subst h
    exact Decorates.nil
  | .whileStmt e ss, r, h, he => by
    simp only [visitStmt, Option.bind_eq_bind, Option.bind_eq_some, Option.pure_def,
      Option.some.injEq] at h
    obtain ⟨a, ha, rs, hrs, rfl⟩ := h
    simp only [List.append_eq_nil] at he
    simp only [stmtNodes]
    exact (visitExpr_decorates S e a ha he.1.1).append
      (visitStatements_decorates hS ss rs hrs he.2)
  | .returnStmt (some e), r, h, he => by
    simp only [visitStmt, Option.bind_eq_bind, Option.bind_eq_some, Option.pure_def,
      Option.some.injEq] at h
    obtain ⟨a, ha, rfl⟩ := h
    simp only [List.append_eq_nil] at he
    simp only [stmtNodes]
    exact visitExpr_decorates S e a ha he.1
  | .returnStmt none, r, h, _ => by
    simp only [visitStmt, Option.some.injEq] at h
    subst h
    exact Decorates.nil
/-- A visit of a list of statements that reports nothing decorates every node of it. -/
theorem visitStatements_decorates {S : SymTable} (hS : S.noError) :
    ∀ (ss : List Stmt) (r : Effect), visitStatements S ss = some r → r.errors = [] →
      Decorates r.decor (stmtsNodes ss)
  | [], r, h, _ => by
    simp only [visitStatements, Option.some.injEq] at h
    subst h
    exact Decorates.nil
  | s :: ss, r, h, he => by
    simp only [visitStatements, Option.bind_eq_bind, Option.bind_eq_some, Option.pure_def,
      Option.some.injEq] at h
    obtain ⟨r1, h1, rs, hrs, rfl⟩ := h
    simp only [List.append_eq_nil] at he
    simp only [stmtsNodes]
    exact (visitStmt_decorates hS s r1 h1 he.1).append
      (visitStatements_decorates hS ss rs hrs he.2)
end

theorem TypeNode_toTy_not_error (t : TypeNode) : TypesMgr.isErrorTy t.toTy = false := by
  cases t with
  | basic b => cases b <;> rfl
  | array n b => rfl

theorem function_table_noError {S : SymTable} (hS : S.noError) (f : FunctionNode Stmt) (t : Ty) :
    ((S.setCurrentFunctionTy t).pushThisScope f.scope).noError := by
  intro sc hsc en hen
  simp only [SymTable.pushThisScope, SymTable.setCurrentFunctionTy, List.mem_cons] at hsc
  rcases hsc with rfl | hsc
  · simp only [FunctionNode.scope, List.mem_append, List.mem_map, List.mem_flatten] at hen
    rcases hen with ⟨p, _, rfl⟩ | ⟨l, ⟨d, _, rfl⟩, hl⟩
    · exact TypeNode_toTy_not_error _
    · simp only [List.mem_map] at hl
      obtain ⟨v, _, rfl⟩ := hl
      exact TypeNode_toTy_not_error _
  · exact hS sc hsc en hen

theorem visitFunctions_decorates :
    ∀ (fs : List (FunctionNode Stmt)) (S : SymTable) (r : Effect) (S' : SymTable),
      S.noError → visitFunctions S fs = some (r, S') → r.errors = [] →
      Decorates r.decor (programNodes fs)
  | [], S, r, S', _, h, _ => by
    simp only [visitFunctions, Option.some.injEq, Prod.mk.injEq] at h
    obtain ⟨rfl, _⟩ := h
    exact Decorates.nil
  | f :: fs, S, r, S', hS, h, he => by
    simp only [visitFunctions] at h
    split at h
    · rename_i r1 S1 h1
      split at h
      · rename_i rs S2 h2
        simp only [Option.some.injEq, Prod.mk.injEq] at h
        obtain ⟨rfl, rfl⟩ := h
        simp only [List.append_eq_nil] at he
        unfold visitFunction at h1
        simp only at h1
        split at h1
        · rename_i q hq
          simp only [Option.some.injEq, Prod.mk.injEq] at h1
          obtain ⟨rfl, rfl⟩ := h1
          have hS1 : (SymTable.popScope
              ((S.setCurrentFunctionTy
                (match f.basic_type with
                 | some b => b.toTy
                 | none => Ty.void)).pushThisScope f.scope)).noError := hS
          have d1 := visitStatements_decorates (function_table_noError hS f _) _ _ hq he.1
          have d2 := visitFunctions_decorates fs _ rs S2 hS1 h2 he.2
          simpa [programNodes] using d1.append d2
        · simp at h1
      · simp at h
    · simp at h

end TypeCheck

/-- C10: for every program on which the analyzer runs to the end and reports no
diagnostic, the nodes that received a type decoration, and likewise the nodes that
received an is-l-value decoration, are exactly the identifier, expression and
left-expression nodes of the function bodies (call arguments and index expressions
included), each once. -/
theorem C10_error_free_programs_are_fully_decorated (ctx : List (FunctionNode TypeCheck.Stmt))
    (r : TypeCheck.Effect × SymTable) (h : TypeCheck.visitProgram SymTable.init ctx = some r)
    (he : r.1.errors = []) :
    TypeCheck.typeKeys r.1.decor = TypeCheck.programNodes ctx ∧
    TypeCheck.lvalKeys r.1.decor = TypeCheck.programNodes ctx := by
  unfold TypeCheck.visitProgram at h
  simp only at h
  split at h
  · rename_i q S2 hq
    simp only [Option.some.injEq] at h
    subst h
    simp only [List.append_eq_nil] at he
    refine TypeCheck.visitFunctions_decorates ctx _ q S2 ?_ hq he.1
    intro sc hsc en hen
    simp only [SymTable.pushThisScope, SymTable.init, List.mem_singleton] at hsc
    subst hsc
    simp only [globalScope, List.mem_map] at hen
    obtain ⟨g, _, rfl⟩ := hen
    rfl
  · simp at h

/-- C10 at `exampleCallsTC`: the analyzer reports nothing on it and decorates its 21
nodes. -/
theorem C10_witness :
    ∃ r, TypeCheck.visitProgram SymTable.init exampleCallsTC = some r ∧ r.1.errors = [] ∧
      (TypeCheck.programNodes exampleCallsTC).length = 21 ∧
      TypeCheck.typeKeys r.1.decor = TypeCheck.programNodes exampleCallsTC ∧
      TypeCheck.lvalKeys r.1.decor = TypeCheck.programNodes exampleCallsTC :=
  ⟨_, rfl, rfl, rfl, C10_error_free_programs_are_fully_decorated exampleCallsTC _ rfl rfl⟩

/-! ### Order of first definition of the temporaries -/

theorem tempName_injective {a b : Nat} (h : tempName a = tempName b) : a = b := by
  unfold tempName at h
  have := congrArg String.data h
  simp [String.data_append] at this
  exact toString_nat_injective (String.ext this)

theorem notTemp_ne_tempName {ident : String} (h : notTemp ident = true) (n : Nat) :
    ident ≠ tempName n := by
  intro he
  subst he
  simp [notTemp, tempName, String.data_append] at h

theorem Ascending.empty (lo hi : Nat) : Ascending lo hi [] := by
  refine ⟨by simp, ?_⟩
  intro pre post n h
  simp at h

theorem Ascending.weaken {lo hi lo' hi' : Nat} {ws : List (Option String)}
    (h : Ascending lo hi ws) (h1 : lo' ≤ lo) (h2 : hi ≤ hi') : Ascending lo' hi' ws :=
  ⟨fun n hn => ⟨le_trans h1 (h.1 n hn).1, lt_of_lt_of_le (h.1 n hn).2 h2⟩, h.2⟩

/-- Written operands that all are rewrites of temporaries of `ws` or writes of the one
new temporary `hi' - 1` can follow `ws`. -/
theorem Ascending.append_tail {lo hi hi' : Nat} {ws tail : List (Option String)}
    (h : Ascending lo hi ws) (h1 : lo ≤ hi) (h2 : hi ≤ hi')
    (ht : ∀ m, some (tempName m) ∈ tail → some (tempName m) ∈ ws ∨ (m + 1 = hi' ∧ hi ≤ m)) :
    Ascending lo hi' (ws ++ tail) := by
  refine ⟨?_, ?_⟩
  · intro n hn
    rcases List.mem_append.mp hn with hn | hn
    · exact ⟨(h.1 n hn).1, lt_of_lt_of_le (h.1 n hn).2 h2⟩
    · rcases ht n hn with hw | ⟨e1, e2⟩
      · exact ⟨(h.1 n hw).1, lt_of_lt_of_le (h.1 n hw).2 h2⟩
      · omega
  · intro pre post n hsplit
    rcases List.append_eq_append_iff.mp hsplit with ⟨a', rfl, hb⟩ | ⟨c', rfl, hd⟩
    · -- the written operand is in `tail`
      have hn : some (tempName n) ∈ tail := by rw [hb]; simp
      by_cases hex : some (tempName n) ∈ ws ++ a'
      · exact Or.inl hex
      · right
        intro m hm
        have hnw : some (tempName n) ∉ ws := fun hc => hex (List.mem_append_left _ hc)
        rcases ht n hn with hw | ⟨e1, e2⟩
        · exact absurd hw hnw
        · rcases List.mem_append.mp hm with hm | hm
          · have := (h.1 m hm).2
            omega
          · have hm' : some (tempName m) ∈ tail := by rw [hb]; simp [hm]
            rcases ht m hm' with hw | ⟨f1, f2⟩
            · have := (h.1 m hw).2
              omega
            · have : m = n := by omega
              subst this
              exact absurd (List.mem_append_right _ hm) hex
    · cases c' with
      | nil =>
        simp only [List.nil_append] at hd
        have hn : some (tempName n) ∈ tail := by rw [← hd]; simp
        rw [List.append_nil] at h ht
        by_cases hex : some (tempName n) ∈ pre
        · exact Or.inl hex
        · right
          intro m hm
          rcases ht n hn with hw | ⟨e1, e2⟩
          · exact absurd hw hex
          · have := (h.1 m hm).2
            omega
      | cons x c'' =>
        simp only [List.cons_append, List.cons.injEq] at hd
        obtain ⟨rfl, _⟩ := hd
        exact h.2 pre c'' n rfl

theorem Ascending.concat {a b b' c : Nat} {w1 w2 : List (Option String)}
    (h1 : Ascending a b w1) (h2 : Ascending b' c w2) (hab : a ≤ b') (hbb : b ≤ b')
    (hbc : b' ≤ c) : Ascending a c (w1 ++ w2) := by
  refine ⟨?_, ?_⟩
  · intro n hn
    rcases List.mem_append.mp hn with hn | hn
    · have := h1.1 n hn
      omega
    · have := h2.1 n hn
      omega
  · intro pre post n hsplit
    rcases List.append_eq_append_iff.mp hsplit with ⟨a', rfl, hb⟩ | ⟨c', rfl, hd⟩
    · rcases h2.2 a' post n hb with hin | hlt
      · exact Or.inl (List.mem_append_right _ hin)
      · right
        intro m hm
        rcases List.mem_append.mp hm with hm | hm
        · have := (h1.1 m hm).2
          have := (h2.1 n (by rw [hb]; simp)).1
          omega
        · exact hlt m hm
    · cases c' with
      | nil =>
        simp only [List.nil_append] at hd
        rw [List.append_nil] at h1
        right
        intro m hm
        have := (h1.1 m hm).2
        have := (h2.1 n (by rw [← hd]; simp)).1
        omega
      | cons x c'' =>
        simp only [List.cons_append, List.cons.injEq] at hd
        obtain ⟨rfl, _⟩ := hd
        exact h1.2 pre c'' n rfl

theorem writesOf_append (a b : instructionList) : writesOf (a ++ b) = writesOf a ++ writesOf b := by
  simp [writesOf]

theorem indexOf_split (a : Option String) :
    ∀ (l : List (Option String)), a ∈ l →
      ∃ pre post, l = pre ++ a :: post ∧ a ∉ pre ∧ l.indexOf a = pre.length
  | [], h => by simp at h
  | x :: l, h => by
    by_cases hx : x = a
    · subst hx
      exact ⟨[], l, rfl, by simp, by simp [List.indexOf_cons]⟩
    · have hl : a ∈ l := by
        rcases List.mem_cons.mp h with h | h
        · exact absurd h.symm hx
        · exact h
      obtain ⟨pre, post, rfl, hn, hi⟩ := indexOf_split a l hl
      refine ⟨x :: pre, post, rfl, ?_, ?_⟩
      · simp only [List.mem_cons, not_or]
        exact ⟨fun h => hx h.symm, hn⟩
      · have hb : (x == a) = false := by simp [hx]
        rw [List.indexOf_cons, hi, hb]
        rfl

/-- From the invariant to the order of first definitions. -/
theorem Ascending.firstDef_lt {lo hi : Nat} {code : instructionList}
    (h : Ascending lo hi (writesOf code)) {i j : Nat} (hi' : isDefined code (tempName i))
    (hj : isDefined code (tempName j))
    (hlt : firstDef code (tempName i) < firstDef code (tempName j)) : i < j := by
  unfold isDefined at hi' hj
  unfold firstDef at hlt
  unfold writesOf at h
  obtain ⟨pre, post, hsplit, hn, hidx⟩ := indexOf_split _ _ hj
  obtain ⟨pre', post', hsplit', hn', hidx'⟩ := indexOf_split _ _ hi'
  rw [hidx, hidx'] at hlt
  have hmem : some (tempName i) ∈ pre := by
    have e := hsplit.symm.trans hsplit'
    rcases List.append_eq_append_iff.mp e with ⟨a', rfl, _⟩ | ⟨c', rfl, hd⟩
    · simp at hlt
    · cases c' with
      | nil => simp at hlt
      | cons x c'' =>
        simp only [List.cons_append, List.cons.injEq] at hd
        obtain ⟨rfl, _⟩ := hd
        simp
  rcases h.2 pre post j hsplit with hin | hall
  · exact absurd hin hn
  · exact hall i hmem

theorem Ascending.code_tail {lo hi hi' : Nat} {code tail : instructionList}
    (h : Ascending lo hi (writesOf code)) (h1 : lo ≤ hi) (h2 : hi ≤ hi')
    (ht : ∀ i ∈ tail, ∀ m, i.writes = some (tempName m) →
      some (tempName m) ∈ writesOf code ∨ (m + 1 = hi' ∧ hi ≤ m)) :
    Ascending lo hi' (writesOf (code ++ tail)) := by
  rw [writesOf_append]
  apply h.append_tail h1 h2
  intro m hm
  simp only [writesOf, List.mem_map] at hm
  obtain ⟨i, hi, hw⟩ := hm
  exact ht i hi m hw

/-- Instructions that write nothing or the new temporary `k` can follow. -/
theorem Ascending.fresh_tail {lo hi : Nat} (k : Nat) {code tail : instructionList}
    (h : Ascending lo hi (writesOf code)) (h1 : lo ≤ hi) (h2 : hi ≤ k)
    (ht : ∀ i ∈ tail, i.writes = none ∨ i.writes = some (tempName k)) :
    Ascending lo (k + 1) (writesOf (code ++ tail)) := by
  apply h.code_tail h1 (by omega)
  intro i hi m hw
  rcases ht i hi with h0 | h0
  · rw [h0] at hw
    cases hw
  · rw [h0] at hw
    have := tempName_injective (Option.some.inj hw)
    right
    omega

/-- Instructions that write no temporary can follow. -/
theorem Ascending.plain_tail {lo hi : Nat} {code tail : instructionList}
    (h : Ascending lo hi (writesOf code)) (h1 : lo ≤ hi)
    (ht : ∀ i ∈ tail, ∀ m, i.writes ≠ some (tempName m)) :
    Ascending lo hi (writesOf (code ++ tail)) := by
  apply h.code_tail h1 (le_refl _)
  intro i hi m hw
  exact absurd hw (ht i hi m)

theorem Ascending.code_append {a b b' c : Nat} {x y : instructionList}
    (h1 : Ascending a b (writesOf x)) (h2 : Ascending b' c (writesOf y)) (hab : a ≤ b')
    (hbb : b ≤ b') (hbc : b' ≤ c) : Ascending a c (writesOf (x ++ y)) := by
  rw [writesOf_append]
  exact h1.concat h2 hab hbb hbc

theorem Ascending.code_nil (lo hi : Nat) : Ascending lo hi (writesOf []) := Ascending.empty lo hi

/-- Instructions that write no temporary can come first. -/
theorem Ascending.plain_head {lo hi : Nat} {head code : instructionList}
    (h : Ascending lo hi (writesOf code)) (h1 : lo ≤ hi)
    (ht : ∀ i ∈ head, ∀ m, i.writes ≠ some (tempName m)) :
    Ascending lo hi (writesOf (head ++ code)) := by
  have h0 : Ascending lo lo (writesOf ([] ++ head)) :=
    (Ascending.code_nil lo lo).plain_tail (le_refl _) ht
  rw [List.nil_append] at h0
  exact h0.code_append h (le_refl _) (le_refl _) h1

namespace CodeGen

theorem callCode_asc (name : String) (t : Ty) (n : Nat) (args : instructionList)
    (c c0 : counters) (h1 : c0.TEMP ≤ c.TEMP) (h : Ascending c0.TEMP c.TEMP (writesOf args)) :
    c0.TEMP ≤ (callCode name t [] n args c).2.TEMP ∧
    Ascending c0.TEMP (callCode name t [] n args c).2.TEMP
      (writesOf (callCode name t [] n args c).1.code) := by
  obtain ⟨e1, e2, _⟩ := callCode_shape name t n args c
  rw [e1, e2]
  refine ⟨by simp [counters.newTEMP]; omega, ?_⟩
  have hh : Ascending c0.TEMP c.TEMP
      (writesOf ((if TypesMgr.isVoidTy t then [] else [Instr.PUSH none]) ++ args)) := by
    apply h.plain_head h1
    intro i hi m
    split at hi
    · simp at hi
    · simp only [List.mem_singleton] at hi
      subst hi
      simp [Instr.writes]
  simp only [List.append_assoc]
  rw [← List.append_assoc]
  apply hh.fresh_tail c.TEMP h1 (le_refl _)
  intro i hi
  simp only [List.mem_append, List.mem_singleton, List.mem_cons, List.mem_replicate,
    List.not_mem_nil, or_false] at hi
  rcases hi with rfl | ⟨_, rfl⟩ | rfl
  · exact Or.inl rfl
  · exact Or.inl rfl
  · exact Or.inr rfl

theorem pushParam_asc (p te : Ty) (a : CodeAttribs) (c c0 : counters) (h1 : c0.TEMP ≤ c.TEMP)
    (h : Ascending c0.TEMP c.TEMP (writesOf a.code)) :
    c.TEMP ≤ (pushParam p te a c).2.TEMP ∧
    Ascending c0.TEMP (pushParam p te a c).2.TEMP (writesOf (pushParam p te a c).1) := by
  by_cases hf : (TypesMgr.isFloatTy p && TypesMgr.isIntegerTy te) = true
  · have e : pushParam p te a c =
        (a.code ++ ([Instr.FLOAT ("%" ++ c.newTEMP.1) a.addr] ++
          [Instr.PUSH (some ("%" ++ c.newTEMP.1))]), c.newTEMP.2) := by
      simp [pushParam, hf]
    rw [e]
    refine ⟨by simp [counters.newTEMP], ?_⟩
    apply h.fresh_tail c.TEMP h1 (le_refl _)
    intro i hi
    simp only [List.mem_append, List.mem_singleton] at hi
    rcases hi with rfl | rfl
    · exact Or.inr rfl
    · exact Or.inl rfl
  · by_cases ha : TypesMgr.isArrayTy te = true
    · have e : pushParam p te a c =
          (a.code ++ ([Instr.ALOAD ("%" ++ c.newTEMP.1) a.addr] ++
            [Instr.PUSH (some ("%" ++ c.newTEMP.1))]), c.newTEMP.2) := by
        simp [pushParam, hf, ha]
      rw [e]
      refine ⟨by simp [counters.newTEMP], ?_⟩
      apply h.fresh_tail c.TEMP h1 (le_refl _)
      intro i hi
      simp only [List.mem_append, List.mem_singleton] at hi
      rcases hi with rfl | rfl
      · exact Or.inr rfl
      · exact Or.inl rfl
    · have e : pushParam p te a c = (a.code ++ [Instr.PUSH (some a.addr)], c) := by
        simp [pushParam, hf, ha]
      rw [e]
      refine ⟨le_refl _, ?_⟩
      apply h.plain_tail h1
      intro i hi m
      simp only [List.mem_singleton] at hi
      subst hi
      simp [Instr.writes]

theorem arithmeticInt_writes (op : ArithOp) (k : Nat) (a1 a2 : String) :
    ∀ i ∈ arithmeticInt op (tempName k) a1 a2, i.writes = none ∨ i.writes = some (tempName k) := by
  cases op <;> simp [arithmeticInt, Instr.writes]

theorem arithmeticFloat_writes (op : ArithOp) (k : Nat) (a1 a2 : String) :
    ∀ i ∈ arithmeticFloat op (tempName k) a1 a2,
      i.writes = none ∨ i.writes = some (tempName k) := by
  cases op <;> simp [arithmeticFloat, Instr.writes]

theorem relationalInt_writes (op : RelOp) (k : Nat) (a1 a2 : String) :
    ∀ i ∈ relationalInt op (tempName k) a1 a2, i.writes = none ∨ i.writes = some (tempName k) := by
  cases op <;> simp [relationalInt, Instr.writes]

theorem relationalFloat_writes (op : RelOp) (k : Nat) (a1 a2 : String) :
    ∀ i ∈ relationalFloat op (tempName k) a1 a2,
      i.writes = none ∨ i.writes = some (tempName k) := by
  cases op <;> simp [relationalFloat, Instr.writes]

/-- Operands that are not `mixed` get no conversion in the float branch. -/
theorem floatOperands_not_mixed {t1 t2 : Ty} (hm : mixed (some t1) (some t2) = false)
    (hf : (!(TypesMgr.isFloatTy t1) && !(TypesMgr.isFloatTy t2)) = false)
    (a1 a2 : String) (c : counters) : floatOperands t1 t2 a1 a2 c = (a1, a2, [], c) := by
  have h1 : TypesMgr.isIntegerTy t1 = false := by
    cases hi : TypesMgr.isIntegerTy t1
    · rfl
    · cases h3 : TypesMgr.isFloatTy t1 <;> cases h4 : TypesMgr.isFloatTy t2 <;>
        simp [mixed, hi, h3, h4] at hm hf
  have h2 : TypesMgr.isIntegerTy t2 = false := by
    cases hi : TypesMgr.isIntegerTy t2
    · rfl
    · cases h3 : TypesMgr.isFloatTy t1 <;> cases h4 : TypesMgr.isFloatTy t2 <;>
        simp [mixed, hi, h3, h4] at hm hf
  simp [floatOperands, h1, h2]

theorem arithmetic_asc (op : ArithOp) {t1 t2 : Ty} (hm : mixed (some t1) (some t2) = false)
    (a1 a2 : CodeAttribs) (c c0 : counters) (h1 : c0.TEMP ≤ c.TEMP)
    (h : Ascending c0.TEMP c.TEMP (writesOf (a1.code ++ a2.code))) :
    c0.TEMP ≤ (arithmetic op t1 t2 a1 a2 c).2.TEMP ∧
    Ascending c0.TEMP (arithmetic op t1 t2 a1 a2 c).2.TEMP
      (writesOf (arithmetic op t1 t2 a1 a2 c).1.code) := by
  cases hf : (!(TypesMgr.isFloatTy t1) && !(TypesMgr.isFloatTy t2))
  · rw [arithmetic_float hf, floatOperands_not_mixed hm hf]
    refine ⟨by simp [counters.newTEMP]; omega, ?_⟩
    simp only [List.append_nil]
    exact h.fresh_tail c.TEMP h1 (le_refl _) (arithmeticFloat_writes op c.TEMP _ _)
  · rw [arithmetic_int hf]
    refine ⟨by simp [counters.newTEMP]; omega, ?_⟩
    exact h.fresh_tail c.TEMP h1 (le_refl _) (arithmeticInt_writes op c.TEMP _ _)

theorem relational_asc (op : RelOp) {t1 t2 : Ty} (hm : mixed (some t1) (some t2) = false)
    (a1 a2 : CodeAttribs) (c c0 : counters) (h1 : c0.TEMP ≤ c.TEMP)
    (h : Ascending c0.TEMP c.TEMP (writesOf (a1.code ++ a2.code))) :
    c0.TEMP ≤ (relational op t1 t2 a1 a2 c).2.TEMP ∧
    Ascending c0.TEMP (relational op t1 t2 a1 a2 c).2.TEMP
      (writesOf (relational op t1 t2 a1 a2 c).1.code) := by
  cases hf : (!(TypesMgr.isFloatTy t1) && !(TypesMgr.isFloatTy t2))
  · rw [relational_float hf, floatOperands_not_mixed hm hf]
    refine ⟨by simp [counters.newTEMP]; omega, ?_⟩
    simp only [List.append_nil]
    exact h.fresh_tail c.TEMP h1 (le_refl _) (relationalFloat_writes op c.TEMP _ _)
  · rw [relational_int hf]
    refine ⟨by simp [counters.newTEMP]; omega, ?_⟩
    exact h.fresh_tail c.TEMP h1 (le_refl _) (relationalInt_writes op c.TEMP _ _)

theorem unary_asc (op : UnaryOp) (t1 : Ty) (a1 : CodeAttribs) (c c0 : counters)
    (h1 : c0.TEMP ≤ c.TEMP) (h : Ascending c0.TEMP c.TEMP (writesOf a1.code)) :
    c0.TEMP ≤ (unary op t1 a1 c).2.TEMP ∧
    Ascending c0.TEMP (unary op t1 a1 c).2.TEMP (writesOf (unary op t1 a1 c).1.code) := by
  refine ⟨by simp [unary, counters.newTEMP]; omega, ?_⟩
  have e : ∃ tail, (unary op t1 a1 c).1.code = a1.code ++ tail ∧
      ∀ i ∈ tail, i.writes = none ∨ i.writes = some (tempName c.TEMP) := by
    cases op with
    | NOT => exact ⟨[Instr.NOT (tempName c.TEMP) a1.addr], rfl, by simp [Instr.writes]⟩
    | MIN =>
      cases hf : TypesMgr.isFloatTy t1
      · exact ⟨[Instr.NEG (tempName c.TEMP) a1.addr], by simp only [unary, hf]; rfl,
          by simp [Instr.writes]⟩
      · exact ⟨[Instr.FNEG (tempName c.TEMP) a1.addr], by simp only [unary, hf]; rfl,
          by simp [Instr.writes]⟩
    | PLUS => exact ⟨[Instr.LOAD (tempName c.TEMP) a1.addr], rfl, by simp [Instr.writes]⟩
  obtain ⟨tail, e1, e2⟩ := e
  rw [e1]
  exact h.fresh_tail c.TEMP h1 (le_refl _) e2

theorem logical_asc (op : LogicalOp) (a1 a2 : CodeAttribs) (c c0 : counters)
    (h1 : c0.TEMP ≤ c.TEMP) (h : Ascending c0.TEMP c.TEMP (writesOf (a1.code ++ a2.code))) :
    c0.TEMP ≤ (logical op a1 a2 c).2.TEMP ∧
    Ascending c0.TEMP (logical op a1 a2 c).2.TEMP (writesOf (logical op a1 a2 c).1.code) := by
  refine ⟨by simp [logical, counters.newTEMP]; omega, ?_⟩
  have e : ∃ tail, (logical op a1 a2 c).1.code = a1.code ++ a2.code ++ tail ∧
      ∀ i ∈ tail, i.writes = none ∨ i.writes = some (tempName c.TEMP) := by
    cases op
    · exact ⟨[Instr.AND (tempName c.TEMP) a1.addr a2.addr], rfl, by simp [Instr.writes]⟩
    · exact ⟨[Instr.OR (tempName c.TEMP) a1.addr a2.addr], rfl, by simp [Instr.writes]⟩
  obtain ⟨tail, e1, e2⟩ := e
  rw [e1]
  exact h.fresh_tail c.TEMP h1 (le_refl _) e2

theorem visitValue_asc (kind : ValueKind) (text : String) (c : counters) :
    c.TEMP ≤ (visitValue kind text c).2.TEMP ∧
    Ascending c.TEMP (visitValue kind text c).2.TEMP
      (writesOf (visitValue kind text c).1.code) := by
  refine ⟨by simp [visitValue, counters.newTEMP], ?_⟩
  have e : ∃ tail, (visitValue kind text c).1.code = [] ++ tail ∧
      ∀ i ∈ tail, i.writes = none ∨ i.writes = some (tempName c.TEMP) := by
    cases kind with
    | INTVAL => exact ⟨[Instr.ILOAD (tempName c.TEMP) _], rfl, by simp [Instr.writes]⟩
    | FLOATVAL => exact ⟨[Instr.FLOAD (tempName c.TEMP) _], rfl, by simp [Instr.writes]⟩
    | CHARVAL => exact ⟨[Instr.CHLOAD (tempName c.TEMP) _], rfl, by simp [Instr.writes]⟩
    | BOOLVAL => exact ⟨[Instr.LOAD (tempName c.TEMP) _], rfl, by simp [Instr.writes]⟩
  obtain ⟨tail, e1, e2⟩ := e
  rw [e1]
  exact (Ascending.code_nil c.TEMP c.TEMP).fresh_tail c.TEMP (le_refl _) (le_refl _) e2

theorem array_asc {S : SymTable} {ident : String} (hl : S.isLocalVarClass ident = true)
    (a1 : CodeAttribs) (c c0 : counters) (h1 : c0.TEMP ≤ c.TEMP)
    (h : Ascending c0.TEMP c.TEMP (writesOf a1.code)) :
    c0.TEMP ≤ (array S (visitIdent ident) a1 c).2.TEMP ∧
    Ascending c0.TEMP (array S (visitIdent ident) a1 c).2.TEMP
      (writesOf (array S (visitIdent ident) a1 c).1.code) := by
  have e : array S (visitIdent ident) a1 c =
      ({ addr := tempName c.TEMP, offs := "",
         code := a1.code ++ [Instr.LOADX (tempName c.TEMP) ident a1.addr] }, c.newTEMP.2) := by
    simp [array, visitIdent, hl, tempName, counters.newTEMP]
  rw [e]
  refine ⟨by simp [counters.newTEMP]; omega, ?_⟩
  exact h.fresh_tail c.TEMP h1 (le_refl _) (by simp [Instr.writes])

theorem exprCases_asc (S : SymTable) :
    ExprCases S (ExprAsc S) (fun _ _ es c r => ParamsAsc S es c r) where
  paren := by
    intro e c r ih ho
    simp only [exprOrdered] at ho
    exact ih ho
  arr := by
    intro ident index c r1 ih ho
    simp only [exprOrdered, Bool.and_eq_true] at ho
    obtain ⟨i1, i2⟩ := ih ho.2
    exact array_asc ho.1 r1.1 r1.2 c i1 i2
  un := by
    intro op e c r1 t1 _ ih ho
    simp only [exprOrdered] at ho
    obtain ⟨i1, i2⟩ := ih ho
    exact unary_asc op t1 r1.1 r1.2 c i1 i2
  val := by
    intro kind text c _
    exact visitValue_asc kind text c
  call0 := by
    intro ident c _
    exact callCode_asc ident _ 0 [] c c (le_refl _) (Ascending.code_nil _ _)
  call := by
    intro ident args pts c rp _ _ _ ih ho
    simp only [exprOrdered] at ho
    obtain ⟨i1, i2⟩ := ih ho
    exact callCode_asc ident _ args.length rp.1 rp.2 c i1 i2
  idt := by
    intro ident c _
    exact ⟨le_refl _, Ascending.code_nil _ _⟩
  arith := by
    intro op e0 e1 c r1 r2 t1 t2 ht1 ht2 ih1 ih2 ho
    simp only [exprOrdered, Bool.and_eq_true, ht1, ht2, Bool.not_eq_true'] at ho
    obtain ⟨i1, i2⟩ := ih1 ho.1.1
    obtain ⟨j1, j2⟩ := ih2 ho.1.2
    exact arithmetic_asc op ho.2 r1.1 r2.1 r2.2 c (le_trans i1 j1)
      (i2.code_append j2 i1 (le_refl _) j1)
  rel := by
    intro op e0 e1 c r1 r2 t1 t2 ht1 ht2 ih1 ih2 ho
    simp only [exprOrdered, Bool.and_eq_true, ht1, ht2, Bool.not_eq_true'] at ho
    obtain ⟨i1, i2⟩ := ih1 ho.1.1
    obtain ⟨j1, j2⟩ := ih2 ho.1.2
    exact relational_asc op ho.2 r1.1 r2.1 r2.2 c (le_trans i1 j1)
      (i2.code_append j2 i1 (le_refl _) j1)
  log := by
    intro op e0 e1 c r1 r2 ih1 ih2 ho
    simp only [exprOrdered, Bool.and_eq_true] at ho
    obtain ⟨i1, i2⟩ := ih1 ho.1
    obtain ⟨j1, j2⟩ := ih2 ho.2
    exact logical_asc op r1.1 r2.1 r2.2 c (le_trans i1 j1)
      (i2.code_append j2 i1 (le_refl _) j1)
  nil := by
    intro pts i c _
    exact ⟨le_refl _, Ascending.code_nil _ _⟩
  cons := by
    intro pts i e es c r p te rest ih _ _ ihr ho
    simp only [exprsOrdered, Bool.and_eq_true] at ho
    obtain ⟨i1, i2⟩ := ih ho.1
    obtain ⟨j1, j2⟩ := ihr ho.2
    obtain ⟨k1, k2⟩ := pushParam_asc p te r.1 r.2 c i1 i2
    exact ⟨le_trans i1 (le_trans k1 j1),
      k2.code_append j2 (le_trans i1 k1) (le_refl _) j1⟩

end CodeGen

namespace CodeGen

theorem visitLeft_expr_asc {S : SymTable} {c : counters} {l : LeftExpr}
    {r : CodeAttribs × counters} (h : visitLeft_expr S c l = some r)
    (ho : leftOrdered S l = true) :
    c.TEMP ≤ r.2.TEMP ∧ Ascending c.TEMP r.2.TEMP (writesOf r.1.code) ∧
    ∀ m, r.1.addr = tempName m → some (tempName m) ∈ writesOf r.1.code := by
  simp only [leftOrdered, Bool.and_eq_true] at ho
  obtain ⟨hn, hidx⟩ := ho
  rcases visitLeft_expr_inv h with ⟨_, rfl⟩ | ⟨index, r1, hl, hv, rfl⟩
  · refine ⟨le_refl _, Ascending.code_nil _ _, ?_⟩
    intro m hm
    exact absurd hm (notTemp_ne_tempName hn m)
  · rw [hl] at hidx
    obtain ⟨i1, i2⟩ := visitExpr_cases (exprCases_asc S) index c r1 hv hidx
    cases hloc : S.isLocalVarClass l.ident
    · simp only [Bool.false_eq_true, if_false]
      refine ⟨by simp [counters.newTEMP]; omega,
        i2.fresh_tail r1.2.TEMP i1 (le_refl _) (by simp [Instr.writes]; rfl), ?_⟩
      intro m hm
      rw [writesOf_append]
      apply List.mem_append_right
      simp only [writesOf, List.map_cons, List.map_nil, List.mem_singleton, Instr.writes]
      exact congrArg some hm.symm
    · simp only [if_true]
      refine ⟨i1, i2, ?_⟩
      intro m hm
      exact absurd hm (notTemp_ne_tempName hn m)

theorem assign_asc {S : SymTable} {t1 t2 : Ty} {a1 a2 : CodeAttribs} {c c0 : counters}
    {r : instructionList × counters}
    (hb : (TypesMgr.isArrayTy t1 && TypesMgr.isArrayTy t2) = false) (h1 : c0.TEMP ≤ c.TEMP)
    (h : Ascending c0.TEMP c.TEMP (writesOf (a1.code ++ a2.code)))
    (ha : ∀ m, a1.addr = tempName m → some (tempName m) ∈ writesOf (a1.code ++ a2.code))
    (hr : assign S t1 t2 a1 a2 c = some r) :
    c0.TEMP ≤ r.2.TEMP ∧ Ascending c0.TEMP r.2.TEMP (writesOf r.1) := by
  cases h1a : TypesMgr.isArrayTy t1
  · cases h2a : TypesMgr.isArrayTy t2
    · simp only [assign, h1a, h2a, Bool.and_self, Bool.or_self, Bool.false_eq_true, if_false,
        Option.some.injEq] at hr
      subst hr
      refine ⟨h1, ?_⟩
      apply h.code_tail h1 (le_refl _)
      intro i hi m hw
      simp only [List.mem_singleton] at hi
      subst hi
      simp only [Instr.writes, Option.some.injEq] at hw
      exact Or.inl (ha m hw)
    · simp only [assign, h1a, h2a, Bool.false_and, Bool.false_or, Bool.false_eq_true, if_false,
        if_true, Option.some.injEq] at hr
      subst hr
      refine ⟨by simp [counters.newTEMP]; omega, ?_⟩
      rw [List.append_assoc]
      apply h.code_tail h1 (by simp [counters.newTEMP])
      intro i hi m hw
      simp only [List.mem_append, List.mem_singleton] at hi
      rcases hi with rfl | rfl
      · simp only [Instr.writes, Option.some.injEq] at hw
        have := @tempName_injective c.TEMP m hw
        right
        simp [counters.newTEMP]
        omega
      · simp only [Instr.writes, Option.some.injEq] at hw
        exact Or.inl (ha m hw)
  · cases h2a : TypesMgr.isArrayTy t2
    · simp only [assign, h1a, h2a, Bool.and_false, Bool.or_false, Bool.false_eq_true, if_false,
        if_true, Option.some.injEq] at hr
      subst hr
      refine ⟨by simp [counters.newTEMP]; omega, ?_⟩
      apply h.fresh_tail c.TEMP h1 (le_refl _)
      simp [Instr.writes]
    · simp [h1a, h2a] at hb

theorem read_asc (tE : Ty) (indexed : Bool) (a : CodeAttribs) (c c0 : counters)
    (h1 : c0.TEMP ≤ c.TEMP) (h : Ascending c0.TEMP c.TEMP (writesOf a.code))
    (ha : ∀ m, a.addr = tempName m → some (tempName m) ∈ writesOf a.code) :
    c0.TEMP ≤ (read tE indexed a c).2.TEMP ∧
    Ascending c0.TEMP (read tE indexed a c).2.TEMP (writesOf (read tE indexed a c).1) := by
  cases indexed
  · have e : ∃ x, (read tE false a c) = (a.code ++ [x], c) ∧ x.writes = some a.addr := by
      cases hf : TypesMgr.isFloatTy tE
      · cases hc : TypesMgr.isCharacterTy tE
        · exact ⟨Instr.READI a.addr, by simp [read, hf, hc], rfl⟩
        · exact ⟨Instr.READC a.addr, by simp [read, hf, hc], rfl⟩
      · exact ⟨Instr.READF a.addr, by simp [read, hf], rfl⟩
    obtain ⟨x, e1, e2⟩ := e
    rw [e1]
    refine ⟨h1, ?_⟩
    apply h.code_tail h1 (le_refl _)
    intro i hi m hw
    simp only [List.mem_singleton] at hi
    subst hi
    rw [e2] at hw
    exact Or.inl (ha m (Option.some.inj hw))
  · have e : ∃ x, (read tE true a c) =
        (a.code ++ ([x] ++ [Instr.XLOAD a.addr a.offs (tempName c.TEMP)]), c.newTEMP.2) ∧
        x.writes = some (tempName c.TEMP) := by
      cases hf : TypesMgr.isFloatTy tE
      · cases hc : TypesMgr.isCharacterTy tE
        · exact ⟨Instr.READI (tempName c.TEMP), by simp [read, hf, hc, tempName, counters.newTEMP], rfl⟩
        · exact ⟨Instr.READC (tempName c.TEMP), by simp [read, hf, hc, tempName, counters.newTEMP], rfl⟩
      · exact ⟨Instr.READF (tempName c.TEMP), by simp [read, hf, tempName, counters.newTEMP], rfl⟩
    obtain ⟨x, e1, e2⟩ := e
    rw [e1]
    refine ⟨by simp [counters.newTEMP]; omega, ?_⟩
    apply h.fresh_tail c.TEMP h1 (le_refl _)
    intro i hi
    simp only [List.mem_append, List.mem_singleton] at hi
    rcases hi with rfl | rfl
    · exact Or.inr e2
    · exact Or.inl rfl

theorem writeExpr_asc (tid1 : Ty) (a : CodeAttribs) (c c0 : counters)
    (h1 : c0.TEMP ≤ c.TEMP) (h : Ascending c0.TEMP c.TEMP (writesOf a.code)) :
    Ascending c0.TEMP c.TEMP (writesOf (writeExpr tid1 a)) := by
  have e : ∃ x, writeExpr tid1 a = a.code ++ [x] ∧ x.writes = none := by
    cases hf : TypesMgr.isFloatTy tid1
    · cases hc : TypesMgr.isCharacterTy tid1
      · exact ⟨Instr.WRITEI a.addr, by simp [writeExpr, hf, hc], rfl⟩
      · exact ⟨Instr.WRITEC a.addr, by simp [writeExpr, hf, hc], rfl⟩
    · exact ⟨Instr.WRITEF a.addr, by simp [writeExpr, hf], rfl⟩
  obtain ⟨x, e1, e2⟩ := e
  rw [e1]
  apply h.plain_tail h1
  intro i hi m
  simp only [List.mem_singleton] at hi
  subst hi
  simp [e2]

theorem visitWriteString_asc {s : String} {c : counters} {r : instructionList × counters}
    (h : visitWriteString s c = some r) :
    c.TEMP ≤ r.2.TEMP ∧ Ascending c.TEMP r.2.TEMP (writesOf r.1) := by
  obtain ⟨e1, e2⟩ := visitWriteString_shape h
  rw [e1]
  refine ⟨by simp [counters.newTEMP], ?_⟩
  have e : Ascending c.TEMP (c.TEMP + 1) (writesOf ([] ++ r.1)) := by
    apply (Ascending.code_nil c.TEMP c.TEMP).fresh_tail c.TEMP (le_refl _) (le_refl _)
    intro i hi
    rcases e2 i hi with ⟨x, rfl⟩ | rfl | rfl
    · exact Or.inr rfl
    · exact Or.inl rfl
    · exact Or.inl rfl
  rw [List.nil_append] at e
  exact e

theorem jump_plain (a l : String) :
    ∀ i ∈ [Instr.FJUMP a l], ∀ m, i.writes ≠ some (tempName m) := by
  simp [Instr.writes]

theorem ujump_plain (l : String) :
    ∀ i ∈ [Instr.UJUMP l], ∀ m, i.writes ≠ some (tempName m) := by
  simp [Instr.writes]

theorem label_plain (l : String) :
    ∀ i ∈ [Instr.LABEL l], ∀ m, i.writes ≠ some (tempName m) := by
  simp [Instr.writes]

theorem stmtCases_asc (S : SymTable) : StmtCases S (StmtAsc S) (StmtsAsc S) where
  assign := by
    intro l e c r1 r2 t2 r h1 h2 ht2 hr ho
    simp only [stmtOrdered, Bool.and_eq_true, ht2, Bool.not_eq_true'] at ho
    obtain ⟨i1, i2, i3⟩ := visitLeft_expr_asc h1 ho.1.1
    obtain ⟨j1, j2⟩ := visitExpr_cases (exprCases_asc S) e r1.2 r2 h2 ho.1.2
    refine assign_asc ho.2 (le_trans i1 j1) (i2.code_append j2 i1 (le_refl _) j1) ?_ hr
    intro m hm
    rw [writesOf_append]
    exact List.mem_append_left _ (i3 m hm)
  ifElse := by
    intro e s0 s1 c r1 r2 r3 h1 ih2 ih3 ho
    simp only [stmtOrdered, Bool.and_eq_true] at ho
    obtain ⟨i1, i2⟩ := visitExpr_cases (exprCases_asc S) e c r1 h1 ho.1.1
    obtain ⟨j1, j2⟩ := ih2 ho.1.2
    obtain ⟨k1, k2⟩ := ih3 ho.2
    have k1' : r2.2.TEMP ≤ r3.2.TEMP := k1
    have k2' : Ascending r2.2.TEMP r3.2.TEMP (writesOf r3.1) := k2
    have A := i2.plain_tail i1 (jump_plain r1.1.addr ("else" ++ ("if" ++ r2.2.newLabelIF.1)))
    have B := A.code_append j2 i1 (le_refl _) j1
    have C := B.plain_tail (le_trans i1 j1)
      (ujump_plain ("end" ++ ("if" ++ r2.2.newLabelIF.1)))
    have D := C.plain_tail (le_trans i1 j1)
      (label_plain ("else" ++ ("if" ++ r2.2.newLabelIF.1)))
    have E := D.code_append k2' (le_trans i1 j1) (le_refl _) k1'
    exact ⟨le_trans i1 (le_trans j1 k1'),
      E.plain_tail (le_trans i1 (le_trans j1 k1'))
        (label_plain ("end" ++ ("if" ++ r2.2.newLabelIF.1)))⟩
  ifThen := by
    intro e s0 c r1 r2 h1 ih2 ho
    simp only [stmtOrdered, Bool.and_eq_true] at ho
    obtain ⟨i1, i2⟩ := visitExpr_cases (exprCases_asc S) e c r1 h1 ho.1
    obtain ⟨j1, j2⟩ := ih2 ho.2
    have A := i2.plain_tail i1 (jump_plain r1.1.addr ("end" ++ ("if" ++ r2.2.newLabelIF.1)))
    have B := A.code_append j2 i1 (le_refl _) j1
    exact ⟨le_trans i1 j1,
      B.plain_tail (le_trans i1 j1) (label_plain ("end" ++ ("if" ++ r2.2.newLabelIF.1)))⟩
  whileDo := by
    intro e s c r1 r2 h1 ih2 ho
    simp only [stmtOrdered, Bool.and_eq_true] at ho
    obtain ⟨i1, i2⟩ := visitExpr_cases (exprCases_asc S) e c r1 h1 ho.1
    obtain ⟨j1, j2⟩ := ih2 ho.2
    have Z := i2.plain_head i1 (label_plain ("while" ++ r2.2.newLabelWHILE.1))
    have A := Z.plain_tail i1
      (jump_plain r1.1.addr ("end" ++ ("while" ++ r2.2.newLabelWHILE.1)))
    have B := A.code_append j2 i1 (le_refl _) j1
    have C := B.plain_tail (le_trans i1 j1) (ujump_plain ("while" ++ r2.2.newLabelWHILE.1))
    exact ⟨le_trans i1 j1,
      C.plain_tail (le_trans i1 j1)
        (label_plain ("end" ++ ("while" ++ r2.2.newLabelWHILE.1)))⟩
  proc0 := by
    intro ident c _
    exact callCode_asc ident _ 0 [] c c (le_refl _) (Ascending.code_nil _ _)
  proc := by
    intro ident args pts c rp _ _ hp ho
    simp only [stmtOrdered] at ho
    obtain ⟨i1, i2⟩ := visitParams_cases (exprCases_asc S) args pts 0 c rp hp ho
    exact callCode_asc ident _ args.length rp.1 rp.2 c i1 i2
  read := by
    intro l c r a h1 _ ho
    simp only [stmtOrdered] at ho
    obtain ⟨i1, i2, i3⟩ := visitLeft_expr_asc h1 ho
    exact read_asc a.ty l.expr.isSome r.1 r.2 c i1 i2 i3
  writeE := by
    intro e c r tid1 h1 _ ho
    simp only [stmtOrdered] at ho
    obtain ⟨i1, i2⟩ := visitExpr_cases (exprCases_asc S) e c r h1 ho
    exact ⟨i1, writeExpr_asc tid1 r.1 r.2 c i1 i2⟩
  writeS := by
    intro s c r h _
    exact visitWriteString_asc h
  ret := by
    intro e c r h1 ho
    simp only [stmtOrdered] at ho
    obtain ⟨i1, i2⟩ := visitExpr_cases (exprCases_asc S) e c r h1 ho
    refine ⟨i1, i2.plain_tail i1 ?_⟩
    intro i hi m
    simp only [List.mem_singleton] at hi
    subst hi
    simp only [Instr.writes, ne_eq, Option.some.injEq]
    exact notTemp_ne_tempName (by decide) m
  ret0 := by
    intro c _
    exact ⟨le_refl _, Ascending.code_nil _ _⟩
  nil := by
    intro c _
    exact ⟨le_refl _, Ascending.code_nil _ _⟩
  cons := by
    intro s ss c r rs ih1 ih2 ho
    simp only [stmtsOrdered, Bool.and_eq_true] at ho
    obtain ⟨i1, i2⟩ := ih1 ho.1
    obtain ⟨j1, j2⟩ := ih2 ho.2
    exact ⟨le_trans i1 j1, i2.code_append j2 i1 (le_refl _) j1⟩

theorem visitFunctions_forall2 {S : SymTable} :
    ∀ {fs : List (FunctionNode Stmt)} {subs : List subroutine} {S' : SymTable},
      visitFunctions S fs = some (subs, S') →
      List.Forall₂ (fun f s => ∃ r,
        visitStatements (S.pushThisScope f.scope) counters.reset f.statements = some r ∧
        s.instructions = r.1 ++ [Instr.RETURN]) fs subs
  | [], subs, S', h => by
    simp only [visitFunctions, Option.some.injEq, Prod.mk.injEq] at h
    obtain ⟨rfl, _⟩ := h
    exact List.Forall₂.nil
  | f :: fs, subs, S', h => by
    simp only [visitFunctions] at h
    split at h
    · rename_i sub S1 h1
      split at h
      · rename_i rest S2 h2
        simp only [Option.some.injEq, Prod.mk.injEq] at h
        obtain ⟨rfl, rfl⟩ := h
        obtain ⟨rfl, r, hr, hi⟩ := visitFunction_inv h1
        exact List.Forall₂.cons ⟨r, hr, hi⟩ (visitFunctions_forall2 h2)
      · simp at h
    · simp at h

theorem subroutines_forall2 {ctx : List (FunctionNode Stmt)} {subs : List subroutine}
    (h : subroutines ctx = some subs) :
    List.Forall₂ (fun f s => ∃ r,
      visitStatements ((SymTable.init.pushThisScope (globalScope ctx)).pushThisScope f.scope)
        counters.reset f.statements = some r ∧
      s.instructions = r.1 ++ [Instr.RETURN]) ctx subs := by
  unfold subroutines visitProgram at h
  cases h1 : visitFunctions (SymTable.init.pushThisScope (globalScope ctx)) ctx with
  | none => simp [h1] at h
  | some q =>
    obtain ⟨my_code, S2⟩ := q
    simp only [h1, Option.map_some', Option.some.injEq] at h
    subst h
    exact visitFunctions_forall2 h1

end CodeGen

theorem forall₂_get? {α β : Type} {R : α → β → Prop} :
    ∀ {l1 : List α} {l2 : List β}, List.Forall₂ R l1 l2 →
      ∀ (k : Nat) (a : α) (b : β), l1.get? k = some a → l2.get? k = some b → R a b
  | _, _, .nil, k, a, b, h1, _ => by simp at h1
  | _, _, .cons h t, 0, a, b, h1, h2 => by
    simp only [List.get?_cons_zero, Option.some.injEq] at h1 h2
    subst h1 h2
    exact h
  | _, _, .cons _ t, k + 1, a, b, h1, h2 => by
    simp only [List.get?_cons_succ] at h1 h2
    exact forall₂_get? t k a b h1 h2

/-- C7, the claim refuted: for `func main() var a: int; var b: float; b = a + b; endfunc`
the generator produces `FLOAT %1,a ; FADD %0,%1,b ; LOAD b,%0 ; RETURN`: the first
instruction that writes `%1` comes before the first one that writes `%0`, and `1 < 0`
is false. -/
theorem C7_counterexample :
    (CodeGen.subroutines (exampleIntFloat [CodeGen.Stmt.assignStmt ⟨"b", none⟩ exprAPlusB])).map
      (fun l => l.map (fun s => s.instructions)) = some [exampleMixedCode] ∧
    isDefined exampleMixedCode (tempName 1) ∧ isDefined exampleMixedCode (tempName 0) ∧
    firstDef exampleMixedCode (tempName 1) < firstDef exampleMixedCode (tempName 0) ∧
    ¬ (1 < 0) :=
  ⟨rfl, by decide, by decide, by decide, by decide⟩

/-- C7, amended: in the subroutine generated from a function whose body has no arithmetic
or relational node that mixes an Integer and a Float operand, no array-indexing
expression whose base is not local-variable-class, no assignment of an array to an
array and no assigned or read identifier that starts with `%`, temporaries are in
ascending order of first definition: if the first instruction that writes `%i` occurs
earlier than the first instruction that writes `%j`, then `i < j`. -/
theorem C7_ordered_bodies_define_temporaries_ascending
    (ctx : List (FunctionNode CodeGen.Stmt)) (subs : List subroutine)
    (h : CodeGen.subroutines ctx = some subs) (k : Nat) (f : FunctionNode CodeGen.Stmt)
    (s : subroutine) (hf : ctx.get? k = some f) (hs : subs.get? k = some s)
    (ho : functionOrdered ctx f = true) (i j : Nat)
    (hi : isDefined s.instructions (tempName i)) (hj : isDefined s.instructions (tempName j))
    (hlt : firstDef s.instructions (tempName i) < firstDef s.instructions (tempName j)) :
    i < j := by
  obtain ⟨r, hr, hins⟩ := forall₂_get? (CodeGen.subroutines_forall2 h) k f s hf hs
  obtain ⟨_, h2⟩ := CodeGen.visitStatements_cases (CodeGen.stmtCases_asc _) _ _ r hr ho
  have h3 : Ascending 0 r.2.TEMP (writesOf s.instructions) := by
    rw [hins]
    apply Ascending.plain_tail h2 (Nat.zero_le _)
    intro x hx m
    simp only [List.mem_singleton] at hx
    subst hx
    simp [Instr.writes]
  exact h3.firstDef_lt hi hj hlt

/-- C7 at `main` of `exampleCalls`, generated as
`PUSH ; FLOAT %0,a ; PUSH %0 ; CALL g ; POP ; POP %1 ; LOAD a,%1 ; PUSH ; PUSH ;
FLOAT %2,a ; PUSH %2 ; CALL g ; POP ; POP %3 ; FLOAT %4,%3 ; PUSH %4 ; CALL g ; POP ;
POP %5 ; RETURN`: `%1` is first written before `%4`, and `1 < 4`. -/
theorem C7_witness :
    ∃ subs f s, CodeGen.subroutines exampleCalls = some subs ∧
      exampleCalls.get? 1 = some f ∧ subs.get? 1 = some s ∧
      functionOrdered exampleCalls f = true ∧
      s.instructions.length = 20 ∧
      isDefined s.instructions (tempName 1) ∧ isDefined s.instructions (tempName 4) ∧
      firstDef s.instructions (tempName 1) < firstDef s.instructions (tempName 4) ∧ 1 < 4 :=
  ⟨_, _, _, rfl, rfl, rfl, rfl, rfl, by decide, by decide, by decide,
    C7_ordered_bodies_define_temporaries_ascending exampleCalls _ rfl 1 _ _ rfl rfl rfl 1 4
      (by decide) (by decide) (by decide)⟩

/-! ### Assignments and functions of the generator -/

namespace CodeGen

theorem getTypeDecor_exprIdent (S : SymTable) (ident : String) :
    TypeCheck.getTypeDecor S (Expr.exprIdent ident) = some (TypeCheck.visitIdent S ident).ty := by
  simp [TypeCheck.getTypeDecor, TypeCheck.visitExpr]

theorem visitIdent_ty_of_getType {S : SymTable} {ident : String} {t : Ty}
    (h : S.getType ident = some t) : (TypeCheck.visitIdent S ident).ty = t := by
  unfold SymTable.getType at h
  unfold TypeCheck.visitIdent
  cases hf : S.findInStack ident with
  | none => simp [hf] at h
  | some en =>
    simp only [hf, Option.map_some', Option.some.injEq] at h
    simp [h]

/-- The whole-array branch of `visitAssignStmt` emits the code of `arrayCopyCode`. -/
theorem assign_arrayCopyCode (S : SymTable) (c : counters) (dst src : String) (e e' : Ty)
    (n n' : Nat) (a1 a2 : CodeAttribs) (hd : S.getType dst = some (Ty.array e n))
    (h1 : a1.addr = dst) (h2 : a2.addr = src) :
    assign S (Ty.array e n) (Ty.array e' n') a1 a2 c =
      some (arrayCopyCode (S.isLocalVarClass dst) (S.isLocalVarClass src) dst src c.TEMP
              c.WHILE n,
            { TEMP := c.TEMP + 9, IF := c.IF, WHILE := c.WHILE + 1 }) := by
  subst h1 h2
  cases hl1 : S.isLocalVarClass a1.addr <;> cases hl2 : S.isLocalVarClass a2.addr <;>
    simp [assign, TypesMgr.isArrayTy, hd, TypesMgr.getArraySize, hl1, hl2, arrayCopyCode,
      tempName, counters.newTEMP, counters.newLabelWHILE]

theorem visitStmt_arrayAssign (S : SymTable) (c : counters) (dst src : String) (e e' : Ty)
    (n n' : Nat) (hd : S.getType dst = some (Ty.array e n))
    (hs : S.getType src = some (Ty.array e' n')) :
    visitStmt S c (arrayAssign dst src) =
      some (arrayCopyCode (S.isLocalVarClass dst) (S.isLocalVarClass src) dst src c.TEMP
              c.WHILE n,
            { TEMP := c.TEMP + 9, IF := c.IF, WHILE := c.WHILE + 1 }) := by
  have e1 := visitIdent_ty_of_getType hd
  have e2 := visitIdent_ty_of_getType hs
  simp only [arrayAssign, visitStmt, visitLeft_expr, visitExpr, getTypeDecor_exprIdent,
    Option.bind_eq_bind, Option.some_bind, e1, e2]
  exact assign_arrayCopyCode S c dst src e e' n n' _ _ hd rfl rfl

end CodeGen

theorem labels_arrayCopyCode (b1 b2 : Bool) (dst src : String) (k w n : Nat) :
    labels (arrayCopyCode b1 b2 dst src k w n) =
      ["while" ++ toString w, "end" ++ ("while" ++ toString w)] := by
  cases b1 <;> cases b2 <;> rfl

/-- C12: the whole-array assignment `dst = src` between array identifiers, with `n` the
declared length of `dst`, is generated as the optional `LOAD`s of the base pointers
followed by `ILOAD idx,0 ; ILOAD inc,1 ; ILOAD size,n ; ILOAD stride,1 ; LABEL while<k> ;
LT c,idx,size ; FJUMP c,endwhile<k> ; MUL off,stride,idx ; LOADX v,S,off ;
XLOAD D,off,v ; ADD idx,idx,inc ; UJUMP while<k> ; LABEL endwhile<k>`; its labels are
`while<k>` and `endwhile<k>`, once each; and `main` of scenario S4 loads the literal
`3` into the temporary `%4` that `LT` compares the index with. -/
theorem C12_array_copy_is_the_canonical_loop (S : SymTable) (c : counters) (dst src : String)
    (e e' : Ty) (n n' : Nat) (hd : S.getType dst = some (Ty.array e n))
    (hs : S.getType src = some (Ty.array e' n')) :
    CodeGen.visitStmt S c (arrayAssign dst src) =
      some (arrayCopyCode (S.isLocalVarClass dst) (S.isLocalVarClass src) dst src c.TEMP
              c.WHILE n,
            { TEMP := c.TEMP + 9, IF := c.IF, WHILE := c.WHILE + 1 }) ∧
    labels (arrayCopyCode (S.isLocalVarClass dst) (S.isLocalVarClass src) dst src c.TEMP
        c.WHILE n) = ["while" ++ toString c.WHILE, "end" ++ ("while" ++ toString c.WHILE)] ∧
    (CodeGen.subroutines exampleS4).map (fun l => l.map (fun s => s.instructions)) =
      some [[Instr.ILOAD "%2" "0", Instr.ILOAD "%3" "1", Instr.ILOAD "%4" "3",
             Instr.ILOAD "%5" "1", Instr.LABEL "while0", Instr.LT "%7" "%2" "%4",
             Instr.FJUMP "%7" "endwhile0", Instr.MUL "%6" "%5" "%2",
             Instr.LOADX "%8" "w" "%6", Instr.XLOAD "v" "%6" "%8",
             Instr.ADD "%2" "%2" "%3", Instr.UJUMP "while0", Instr.LABEL "endwhile0",
             Instr.RETURN]] :=
  ⟨CodeGen.visitStmt_arrayAssign S c dst src e e' n n' hd hs,
   labels_arrayCopyCode _ _ _ _ _ _ _, by decide!⟩

/-- C12 at the assignment `v = w` of scenario S4, in the symbol table of `main`. -/
theorem C12_witness :
    CodeGen.visitStmt exampleS4Table counters.reset (arrayAssign "v" "w") =
      some (arrayCopyCode true true "v" "w" 0 0 3, { TEMP := 9, IF := 0, WHILE := 1 }) :=
  (C12_array_copy_is_the_canonical_loop exampleS4Table counters.reset "v" "w" Ty.integer
    Ty.integer 3 3 rfl rfl).1

theorem tempName_eq_iff (a b : Nat) : tempName a = tempName b ↔ a = b :=
  ⟨tempName_injective, fun h => by rw [h]⟩

theorem sizeLiteral_arrayCopyCode (b1 b2 : Bool) (dst src : String) (k w n : Nat) :
    sizeLiteral (arrayCopyCode b1 b2 dst src k w n) = some (toString n) := by
  cases b1 <;> cases b2 <;>
    simp [sizeLiteral, loopBound, loadedLiteral, arrayCopyCode, List.findSome?,
      tempName_eq_iff]

theorem copyable_arrays_length {e e' : Ty} {n n' : Nat}
    (h : TypesMgr.copyableTypes (Ty.array e n) (Ty.array e' n') = true) : n = n' := by
  simp only [TypesMgr.copyableTypes, TypesMgr.equalTypes, Ty.beq, TypesMgr.isFloatTy,
    Bool.false_and, Bool.or_false, Bool.or_eq_true, Bool.and_eq_true, beq_iff_eq] at h
  rcases h with h | h
  · exact h.2
  · exact h.1

/-- An assignment between two array identifiers on which the analyzer reports no
diagnostic has copyable types. -/
theorem TypeCheck.accepted_arrays_copyable (S : SymTable) (dst src : String) (e e' : Ty)
    (n n' : Nat) (hd : S.getType dst = some (Ty.array e n))
    (hs : S.getType src = some (Ty.array e' n')) (eff : TypeCheck.Effect)
    (h : TypeCheck.visitStmt S (TypeCheck.Stmt.assignStmt ⟨dst, none⟩ (Expr.exprIdent src)) =
      some eff) (he : eff.errors = []) :
    TypesMgr.copyableTypes (Ty.array e n) (Ty.array e' n') = true := by
  simp only [SymTable.getType, Option.map_eq_some'] at hd hs
  obtain ⟨en1, f1, t1⟩ := hd
  obtain ⟨en2, f2, t2⟩ := hs
  simp [TypeCheck.visitStmt, TypeCheck.visitLeft_expr, TypeCheck.visitExpr,
    TypeCheck.visitIdent, f1, f2, t1, t2, TypesMgr.isErrorTy] at h
  rw [← h] at he
  cases hc : TypesMgr.copyableTypes (Ty.array e n) (Ty.array e' n')
  · simp [hc] at he
  · rfl

/-- C13: in the code emitted for a whole-array assignment `dst = src`, for every pair of
array-typed identifiers `dst` and `src` whose assignment the analyzer accepts (it
reports no diagnostic on it, as on every statement of a program that reaches the
generator), the literal loaded into the loop-bound temporary is the array length `n'`
of the symbol-table type of the source `src`. -/
theorem C13_loop_bound_is_the_source_length (S : SymTable) (c : counters)
    (dst src : String) (e e' : Ty) (n n' : Nat)
    (hd : S.getType dst = some (Ty.array e n)) (hs : S.getType src = some (Ty.array e' n'))
    (hacc : ∃ eff,
      TypeCheck.visitStmt S (TypeCheck.Stmt.assignStmt ⟨dst, none⟩ (Expr.exprIdent src)) =
        some eff ∧ eff.errors = []) :
    ∃ r, CodeGen.visitStmt S c (arrayAssign dst src) = some r ∧
      sizeLiteral r.1 = some (toString n') := by
  obtain ⟨eff, h, he⟩ := hacc
  have hc := TypeCheck.accepted_arrays_copyable S dst src e e' n n' hd hs eff h he
  refine ⟨_, CodeGen.visitStmt_arrayAssign S c dst src e e' n n' hd hs, ?_⟩
  rw [← copyable_arrays_length hc]
  exact sizeLiteral_arrayCopyCode _ _ _ _ _ _ _

/-- C13 at `v = w` of scenario S4: the analyzer accepts the assignment, `w` has length
3 and the loop bound is loaded with `3`. -/
theorem C13_witness :
    ∃ r, CodeGen.visitStmt exampleS4Table counters.reset (arrayAssign "v" "w") = some r ∧
      sizeLiteral r.1 = some (toString 3) :=
  C13_loop_bound_is_the_source_length exampleS4Table counters.reset "v" "w" Ty.integer
    Ty.integer 3 3 rfl rfl ⟨_, rfl, rfl⟩

/-- C14: an assignment `L = E` in which neither the identifier of `L` nor `E` is decorated
with an Array type is generated as the code of `L`, the code of `E` and
`LOAD addrL, addrE`; and scenario S1 gives subroutine `main` with the local `x` of
size 1 and `ILOAD %0,3 ; ILOAD %1,4 ; ADD %2,%0,%1 ; LOAD x,%2 ; RETURN`. -/
theorem C14_scalar_assignment_code (S : SymTable) (c : counters) (l : LeftExpr) (e : Expr)
    (r1 r2 : CodeGen.CodeAttribs × counters) (t2 : Ty)
    (h1 : CodeGen.visitLeft_expr S c l = some r1) (h2 : CodeGen.visitExpr S r1.2 e = some r2)
    (ht : TypeCheck.getTypeDecor S e = some t2)
    (hn1 : TypesMgr.isArrayTy (TypeCheck.visitIdent S l.ident).ty = false)
    (hn2 : TypesMgr.isArrayTy t2 = false) :
    CodeGen.visitStmt S c (CodeGen.Stmt.assignStmt l e) =
      some (r1.1.code ++ r2.1.code ++ [Instr.LOAD r1.1.addr r2.1.addr], r2.2) ∧
    CodeGen.subroutines exampleS1 =
      some [{ name := "main", params := [], vars := [⟨"x", 1⟩],
              instructions := [Instr.ILOAD "%0" "3", Instr.ILOAD "%1" "4",
                Instr.ADD "%2" "%0" "%1", Instr.LOAD "x" "%2", Instr.RETURN] }] := by
  refine ⟨?_, by decide!⟩
  simp [CodeGen.visitStmt, h1, h2, ht, CodeGen.assign, hn1, hn2]

/-- C14 at the assignment `x = 3 + 4` of scenario S1, in the symbol table of `main`. -/
theorem C14_witness :
    CodeGen.visitStmt exampleS1Table counters.reset
        (CodeGen.Stmt.assignStmt ⟨"x", none⟩ expr3Plus4) =
      some ([] ++ [Instr.ILOAD "%0" "3", Instr.ILOAD "%1" "4", Instr.ADD "%2" "%0" "%1"] ++
            [Instr.LOAD "x" "%2"], { TEMP := 3, IF := 0, WHILE := 0 }) :=
  (C14_scalar_assignment_code exampleS1Table counters.reset ⟨"x", none⟩ expr3Plus4
    (CodeGen.visitIdent "x", counters.reset)
    ({ addr := "%2", offs := "",
       code := [Instr.ILOAD "%0" "3", Instr.ILOAD "%1" "4", Instr.ADD "%2" "%0" "%1"] },
     { TEMP := 3, IF := 0, WHILE := 0 })
    Ty.integer rfl rfl rfl rfl rfl).1

/-- C15: for an indexed left expression `id[E]` whose index is generated, the generator
returns `(id, addrE, codeE)` when `id` is local-variable-class and otherwise
`(tA, addrE, codeE ++ [LOAD tA, id])` with `tA` the next temporary; an assignment
`id[E] = V`, with `id` an array and `V` not an array, then ends with
`XLOAD addr, offs, addrV`; and scenario S5 gives `ILOAD %0,0 ; LOAD %1,a ; ILOAD %2,1 ;
XLOAD %1,%0,%2 ; RETURN`, with `LOAD %1,a` before the `XLOAD` into the same `%1`. -/
theorem C15_indexed_left_expression (S : SymTable) (c : counters) (ident : String)
    (index : Expr) (r1 : CodeGen.CodeAttribs × counters)
    (h : CodeGen.visitExpr S c index = some r1) :
    CodeGen.visitLeft_expr S c ⟨ident, some index⟩ =
      some (if S.isLocalVarClass ident then
              ({ addr := ident, offs := r1.1.addr, code := r1.1.code }, r1.2)
            else
              ({ addr := tempName r1.2.TEMP, offs := r1.1.addr,
                 code := r1.1.code ++ [Instr.LOAD (tempName r1.2.TEMP) ident] },
               { TEMP := r1.2.TEMP + 1, IF := r1.2.IF, WHILE := r1.2.WHILE })) ∧
    (∀ (V : Expr) (rL r2 : CodeGen.CodeAttribs × counters) (t2 : Ty),
      CodeGen.visitLeft_expr S c ⟨ident, some index⟩ = some rL →
      CodeGen.visitExpr S rL.2 V = some r2 →
      TypeCheck.getTypeDecor S V = some t2 →
      TypesMgr.isArrayTy (TypeCheck.visitIdent S ident).ty = true →
      TypesMgr.isArrayTy t2 = false →
      CodeGen.visitStmt S c (CodeGen.Stmt.assignStmt ⟨ident, some index⟩ V) =
        some (rL.1.code ++ r2.1.code ++ [Instr.XLOAD rL.1.addr rL.1.offs r2.1.addr],
              { TEMP := r2.2.TEMP + 1, IF := r2.2.IF, WHILE := r2.2.WHILE })) ∧
    CodeGen.subroutines exampleS5 =
      some [{ name := "g", params := ["a"], vars := [],
              instructions := [Instr.ILOAD "%0" "0", Instr.LOAD "%1" "a",
                Instr.ILOAD "%2" "1", Instr.XLOAD "%1" "%0" "%2", Instr.RETURN] }] := by
  refine ⟨?_, ?_, by decide!⟩
  · cases hl : S.isLocalVarClass ident <;>
      simp [CodeGen.visitLeft_expr, h, hl, CodeGen.visitIdent, tempName, counters.newTEMP]
  · intro V rL r2 t2 hL hV ht ha1 ha2
    simp [CodeGen.visitStmt, hL, hV, ht, CodeGen.assign, ha1, ha2, counters.newTEMP]

/-- C15 at the index `0` of `a[0]` of scenario S5, in the symbol table of `g`, where
`a` is a parameter. -/
theorem C15_witness :
    CodeGen.visitLeft_expr exampleS5Table counters.reset
        ⟨"a", some (Expr.value ValueKind.INTVAL "0")⟩ =
      some ({ addr := "%1", offs := "%0",
              code := [Instr.ILOAD "%0" "0"] ++ [Instr.LOAD "%1" "a"] },
            { TEMP := 2, IF := 0, WHILE := 0 }) :=
  (C15_indexed_left_expression exampleS5Table counters.reset "a"
    (Expr.value ValueKind.INTVAL "0")
    ({ addr := "%0", offs := "", code := [Instr.ILOAD "%0" "0"] },
     { TEMP := 1, IF := 0, WHILE := 0 }) rfl).1

/-- C16: for every function node whose body is generated, the subroutine has the name of
the function; its parameters are `_result`, present exactly when a result type is
declared, followed by the declared parameter names in order; its local variables are
the declared names in order, each with the size of its declared type; its instructions
are the code of the body followed by one `RETURN`, which is the last instruction; and
the symbol table is left as it was found. -/
theorem C16_subroutine_of_a_function (S : SymTable) (f : FunctionNode CodeGen.Stmt)
    (r : instructionList × counters)
    (h : CodeGen.visitStatements (S.pushThisScope f.scope) counters.reset f.statements
      = some r) :
    ∃ sub, CodeGen.visitFunction S f = some (sub, S) ∧
      sub.name = f.ID ∧
      sub.params = (if f.basic_type.isSome then ["_result"] else []) ++
        f.parameters.map (fun p => p.1) ∧
      sub.vars = (f.declarations.map (fun d =>
        d.1.map (fun v => ({ name := v, size := TypesMgr.getSizeOfType d.2.toTy } : var)))).flatten ∧
      sub.instructions = r.1 ++ [Instr.RETURN] ∧
      sub.instructions.getLast? = some Instr.RETURN := by
  refine ⟨{ name := f.ID,
             params := (if f.basic_type.isSome then ["_result"] else []) ++
               (CodeGen.visitParameters f.parameters).map (fun par => par.name),
             vars := CodeGen.visitDeclarations f.declarations,
             instructions := r.1 ++ [Instr.RETURN] }, ?_, rfl, ?_, ?_, rfl, ?_⟩
  · simp only [CodeGen.visitFunction, h]
    rfl
  · simp [CodeGen.visitParameters, List.map_map, Function.comp_def]
  · rfl
  · simp

/-- C16 at function `g` of `exampleCalls`, `func g(x: float): int return 1; endfunc`. -/
theorem C16_witness :
    ∃ sub, CodeGen.visitFunction (SymTable.init.pushThisScope (globalScope exampleCalls))
        { ID := "g", parameters := [("x", TypeNode.basic BasicType.FLOAT)],
          basic_type := some BasicType.INT, declarations := [],
          statements := [CodeGen.Stmt.retStmt (some (Expr.value ValueKind.INTVAL "1"))] } =
        some (sub, SymTable.init.pushThisScope (globalScope exampleCalls)) ∧
      sub.name = "g" ∧ sub.params = ["_result", "x"] ∧ sub.vars = [] ∧
      sub.instructions = [Instr.ILOAD "%0" "1", Instr.LOAD "_result" "%0", Instr.RETURN] := by
  obtain ⟨sub, h1, h2, h3, h4, h5, _⟩ :=
    C16_subroutine_of_a_function (SymTable.init.pushThisScope (globalScope exampleCalls))
      { ID := "g", parameters := [("x", TypeNode.basic BasicType.FLOAT)],
        basic_type := some BasicType.INT, declarations := [],
        statements := [CodeGen.Stmt.retStmt (some (Expr.value ValueKind.INTVAL "1"))] }
      ([Instr.ILOAD "%0" "1", Instr.LOAD "_result" "%0"], { TEMP := 1, IF := 0, WHILE := 0 })
      rfl
  exact ⟨sub, h1, h2, h3, h4, h5⟩

/-! ### Diagnostics of the statements -/

/-- C17: for an assignment `L = E` whose two sides are analysed, the diagnostics of the
statement are those of `L`, those of `E`, then `incompatibleAssignment` at the assign
token exactly when neither type is Error and the types are not copyable, then
`nonReferenceableLeftExpr` exactly when the type of `L` is not Error and `L` is not an
l-value; and scenario S2 has exactly one diagnostic, an `incompatibleAssignment`. -/
theorem C17_assignment_diagnostics (S : SymTable) (l : LeftExpr) (e : Expr)
    (a1 a2 : TypeCheck.Attr) (h1 : TypeCheck.visitLeft_expr S l = some a1)
    (h2 : TypeCheck.visitExpr S e = some a2) :
    (∃ eff, TypeCheck.visitStmt S (TypeCheck.Stmt.assignStmt l e) = some eff ∧
      eff.errors = a1.errors ++ a2.errors ++
        (if TypesMgr.isErrorTy a1.ty = false ∧ TypesMgr.isErrorTy a2.ty = false ∧
            TypesMgr.copyableTypes a1.ty a2.ty = false then
          [TypeCheck.SemError.incompatibleAssignment (TypeCheck.Node.token "=")] else []) ++
        (if TypesMgr.isErrorTy a1.ty = false ∧ a1.isLValue = false then
          [TypeCheck.SemError.nonReferenceableLeftExpr (TypeCheck.Node.left_expr l)]
         else [])) ∧
    TypeCheck.diagnostics (exampleIntVar [stmtS2]) =
      some [TypeCheck.SemError.incompatibleAssignment (TypeCheck.Node.token "=")] := by
  refine ⟨⟨_, by simp only [TypeCheck.visitStmt, h1, h2]; rfl, ?_⟩, rfl⟩
  cases h3 : TypesMgr.isErrorTy a1.ty <;> cases h4 : TypesMgr.isErrorTy a2.ty <;>
    cases h5 : TypesMgr.copyableTypes a1.ty a2.ty <;> cases h6 : a1.isLValue <;> simp

/-- C17 at `x = true` of scenario S2, in the symbol table of `main`. -/
theorem C17_witness :
    ∃ eff, TypeCheck.visitStmt exampleIntVarTable stmtS2 = some eff ∧
      eff.errors.length = 1 := by
  obtain ⟨⟨eff, h, he⟩, _⟩ :=
    C17_assignment_diagnostics exampleIntVarTable ⟨"x", none⟩
      (Expr.value ValueKind.BOOLVAL "true")
      { ty := Ty.integer, isLValue := true, errors := [],
        decor := [TypeCheck.Decor.putType (TypeCheck.Node.ident "x") Ty.integer,
                  TypeCheck.Decor.putIsLValue (TypeCheck.Node.ident "x") true,
                  TypeCheck.Decor.putIsLValue (TypeCheck.Node.left_expr ⟨"x", none⟩) true,
                  TypeCheck.Decor.putType (TypeCheck.Node.left_expr ⟨"x", none⟩) Ty.integer] }
      (TypeCheck.visitValue (Expr.value ValueKind.BOOLVAL "true") ValueKind.BOOLVAL) rfl rfl
  exact ⟨eff, h, by rw [he]; rfl⟩

theorem TypeCheck.visitIdent_of_find {S : SymTable} {ident : String} {en : SymEntry}
    (h : S.findInStack ident = some en) :
    (TypeCheck.visitIdent S ident).ty = en.ty ∧ (TypeCheck.visitIdent S ident).errors = [] := by
  simp [TypeCheck.visitIdent, h]

/-- C18: for an assignment `id[E] = V` in which `id` is declared with a type that is
neither Array nor Error and `E` and `V` are analysed without diagnostics, `E` with
type Integer, the left expression is decorated with type Error and l-value false and
the statement has exactly one diagnostic, `nonArrayInArrayAccess` on the left
expression; and scenario S8 has exactly that diagnostic. -/
theorem C18_index_of_a_non_array (S : SymTable) (ident : String) (E V : Expr)
    (en : SymEntry) (aE aV : TypeCheck.Attr) (hid : S.findInStack ident = some en)
    (hna : TypesMgr.isArrayTy en.ty = false) (hne : TypesMgr.isErrorTy en.ty = false)
    (hE : TypeCheck.visitExpr S E = some aE) (hEe : aE.errors = [])
    (hEt : aE.ty = Ty.integer) (hV : TypeCheck.visitExpr S V = some aV)
    (hVe : aV.errors = []) :
    (∃ aL eff, TypeCheck.visitLeft_expr S ⟨ident, some E⟩ = some aL ∧
      aL.ty = Ty.error ∧ aL.isLValue = false ∧
      TypeCheck.visitStmt S (TypeCheck.Stmt.assignStmt ⟨ident, some E⟩ V) = some eff ∧
      eff.errors = [TypeCheck.SemError.nonArrayInArrayAccess
        (TypeCheck.Node.left_expr ⟨ident, some E⟩)]) ∧
    TypeCheck.diagnostics (exampleIntVar [stmtS8]) =
      some [TypeCheck.SemError.nonArrayInArrayAccess
        (TypeCheck.Node.left_expr ⟨"x", some (Expr.value ValueKind.INTVAL "0")⟩)] := by
  refine ⟨?_, rfl⟩
  obtain ⟨i1, i2⟩ := TypeCheck.visitIdent_of_find hid
  have hEi : TypesMgr.isErrorTy aE.ty = false := by rw [hEt]; rfl
  have hEn : TypesMgr.isIntegerTy aE.ty = true := by rw [hEt]; rfl
  have hL : TypeCheck.visitLeft_expr S ⟨ident, some E⟩ =
      some { ty := Ty.error, isLValue := false,
             errors := [TypeCheck.SemError.nonArrayInArrayAccess
               (TypeCheck.Node.left_expr ⟨ident, some E⟩)],
             decor := (TypeCheck.visitIdent S ident).decor ++ aE.decor ++
               [TypeCheck.Decor.putIsLValue (TypeCheck.Node.left_expr ⟨ident, some E⟩) false,
                TypeCheck.Decor.putType (TypeCheck.Node.left_expr ⟨ident, some E⟩)
                  Ty.error] } := by
    simp [TypeCheck.visitLeft_expr, i1, i2, hne, hna, hE, hEe, hEi, hEn]
  refine ⟨_, _, hL, rfl, rfl, by simp only [TypeCheck.visitStmt, hL, hV]; rfl, ?_⟩
  simp [hVe, TypesMgr.isErrorTy]

/-- C18 at `x[0] = 1` of scenario S8, in the symbol table of `main`. -/
theorem C18_witness :
    ∃ aL eff, TypeCheck.visitLeft_expr exampleIntVarTable
        ⟨"x", some (Expr.value ValueKind.INTVAL "0")⟩ = some aL ∧
      aL.ty = Ty.error ∧ aL.isLValue = false ∧
      TypeCheck.visitStmt exampleIntVarTable stmtS8 = some eff ∧
      eff.errors = [TypeCheck.SemError.nonArrayInArrayAccess
        (TypeCheck.Node.left_expr ⟨"x", some (Expr.value ValueKind.INTVAL "0")⟩)] :=
  (C18_index_of_a_non_array exampleIntVarTable "x" (Expr.value ValueKind.INTVAL "0")
    (Expr.value ValueKind.INTVAL "1") ⟨"x", SymClass.variable, Ty.integer⟩
    (TypeCheck.visitValue (Expr.value ValueKind.INTVAL "0") ValueKind.INTVAL)
    (TypeCheck.visitValue (Expr.value ValueKind.INTVAL "1") ValueKind.INTVAL)
    rfl rfl rfl rfl rfl rfl rfl rfl).1

/-- C19: for an if statement and for a while statement whose condition and body are
analysed, the diagnostics are those of the condition, then one `booleanRequired` on
the statement node exactly when the type of the condition is neither Error nor
Boolean, then those of the body, whatever the type of the condition; and scenario S7
has exactly one diagnostic, a `booleanRequired` on the `if` node. -/
theorem C19_condition_diagnostics (S : SymTable) (e : Expr) (ss : List TypeCheck.Stmt)
    (a : TypeCheck.Attr) (r : TypeCheck.Effect) (h1 : TypeCheck.visitExpr S e = some a)
    (h2 : TypeCheck.visitStatements S ss = some r) :
    (∃ eff, TypeCheck.visitStmt S (TypeCheck.Stmt.ifStmt e ss) = some eff ∧
      eff.errors = a.errors ++
        (if TypesMgr.isErrorTy a.ty = false ∧ TypesMgr.isBooleanTy a.ty = false then
          [TypeCheck.SemError.booleanRequired
            (TypeCheck.Node.statement (TypeCheck.Stmt.ifStmt e ss))] else []) ++
        r.errors) ∧
    (∃ eff, TypeCheck.visitStmt S (TypeCheck.Stmt.whileStmt e ss) = some eff ∧
      eff.errors = a.errors ++
        (if TypesMgr.isErrorTy a.ty = false ∧ TypesMgr.isBooleanTy a.ty = false then
          [TypeCheck.SemError.booleanRequired
            (TypeCheck.Node.statement (TypeCheck.Stmt.whileStmt e ss))] else []) ++
        r.errors) ∧
    TypeCheck.diagnostics exampleS7 =
      some [TypeCheck.SemError.booleanRequired (TypeCheck.Node.statement stmtS7)] := by
  refine ⟨⟨_, by simp only [TypeCheck.visitStmt, h1, h2]; rfl, ?_⟩,
    ⟨_, by simp only [TypeCheck.visitStmt, h1, h2]; rfl, ?_⟩, rfl⟩
  · cases h3 : TypesMgr.isErrorTy a.ty <;> cases h4 : TypesMgr.isBooleanTy a.ty <;> simp
  · cases h3 : TypesMgr.isErrorTy a.ty <;> cases h4 : TypesMgr.isBooleanTy a.ty <;> simp

/-- C19 at `if 1 then endif` of scenario S7, in the empty symbol table. -/
theorem C19_witness :
    ∃ eff, TypeCheck.visitStmt SymTable.init stmtS7 = some eff ∧ eff.errors.length = 1 := by
  obtain ⟨⟨eff, h, he⟩, _⟩ :=
    C19_condition_diagnostics SymTable.init (Expr.value ValueKind.INTVAL "1") []
      (TypeCheck.visitValue (Expr.value ValueKind.INTVAL "1") ValueKind.INTVAL)
      { errors := [], decor := [] } rfl rfl
  exact ⟨eff, h, by rw [he]; rfl⟩

mutual
theorem Ty.beq_iff_eq : ∀ (a b : Ty), Ty.beq a b = true ↔ a = b
  | .error, b => by cases b <;> simp [Ty.beq]
  | .void, b => by cases b <;> simp [Ty.beq]
  | .integer, b => by cases b <;> simp [Ty.beq]
  | .float, b => by cases b <;> simp [Ty.beq]
  | .boolean, b => by cases b <;> simp [Ty.beq]
  | .character, b => by cases b <;> simp [Ty.beq]
  | .array e n, b => by cases b <;> simp [Ty.beq, Ty.beq_iff_eq e]
  | .function ps r, b => by cases b <;> simp [Ty.beq, Ty.beqList_iff_eq ps, Ty.beq_iff_eq r]
theorem Ty.beqList_iff_eq : ∀ (as bs : List Ty), Ty.beqList as bs = true ↔ as = bs
  | [], bs => by cases bs <;> simp [Ty.beqList]
  | a :: as, bs => by cases bs <;> simp [Ty.beqList, Ty.beq_iff_eq a, Ty.beqList_iff_eq as]
end

theorem TypesMgr.equalTypes_iff (a b : Ty) : TypesMgr.equalTypes a b = true ↔ a = b :=
  Ty.beq_iff_eq a b

theorem TypesMgr.equalTypes_false_iff (a b : Ty) : TypesMgr.equalTypes a b = false ↔ a ≠ b := by
  rw [Ne, ← TypesMgr.equalTypes_iff a b]
  simp

theorem TypesMgr.isErrorTy_iff (t : Ty) : TypesMgr.isErrorTy t = true ↔ t = Ty.error := by
  cases t <;> simp [TypesMgr.isErrorTy]

theorem TypesMgr.isErrorTy_false_iff (t : Ty) : TypesMgr.isErrorTy t = false ↔ t ≠ Ty.error := by
  cases t <;> simp [TypesMgr.isErrorTy]

theorem TypeCheck.returnChecks_cases (tFunc tRet : Ty) :
    (TypeCheck.returnChecks tFunc tRet = [] ∨
      TypeCheck.returnChecks tFunc tRet =
        [TypeCheck.SemError.incompatibleReturn (TypeCheck.Node.token "return")]) ∧
    (TypeCheck.returnChecks tFunc tRet =
        [TypeCheck.SemError.incompatibleReturn (TypeCheck.Node.token "return")] ↔
      tRet ≠ Ty.error ∧
        (tFunc = Ty.void ∨ TypesMgr.isPrimitiveTy tRet = false ∨
          (tRet ≠ tFunc ∧ ¬ (tFunc = Ty.float ∧ tRet = Ty.integer)))) := by
  rw [@eq_comm _ tFunc Ty.void, @eq_comm _ tFunc Ty.float, @eq_comm _ tRet Ty.integer]
  simp only [Ne, ← TypesMgr.isErrorTy_iff tRet, ← TypesMgr.equalTypes_iff Ty.void tFunc,
    ← TypesMgr.equalTypes_iff tRet tFunc, ← TypesMgr.equalTypes_iff Ty.float tFunc,
    ← TypesMgr.equalTypes_iff Ty.integer tRet]
  unfold TypeCheck.returnChecks TypesMgr.isPrimitiveNonVoidTy
  generalize TypesMgr.isErrorTy tRet = b1
  generalize TypesMgr.equalTypes Ty.void tFunc = b2
  generalize TypesMgr.isPrimitiveTy tRet = b3
  generalize TypesMgr.equalTypes tRet tFunc = b4
  generalize TypesMgr.equalTypes Ty.float tFunc = b5
  generalize TypesMgr.equalTypes Ty.integer tRet = b6
  cases b1 <;> cases b2 <;> cases b3 <;> cases b4 <;> cases b5 <;> cases b6 <;> simp

/-- C20: for a return statement in a function with result type `F`: with an expression of
type `T`, analysed, the statement reports at most one `incompatibleReturn` after the
diagnostics of the expression, and reports it exactly when `T` is not Error and `F` is
Void, or `T` is not primitive, or `T` differs from `F` and not (`F` = Float and
`T` = Integer); with no expression it reports at most one `incompatibleReturn`, and
reports it exactly when `F` is not Void. -/
theorem C20_return_diagnostics (S : SymTable) (e : Expr) (a : TypeCheck.Attr)
    (h : TypeCheck.visitExpr S e = some a) :
    (∃ eff own, TypeCheck.visitStmt S (TypeCheck.Stmt.returnStmt (some e)) = some eff ∧
      eff.errors = a.errors ++ own ∧
      (own = [] ∨
        own = [TypeCheck.SemError.incompatibleReturn (TypeCheck.Node.token "return")]) ∧
      (own = [TypeCheck.SemError.incompatibleReturn (TypeCheck.Node.token "return")] ↔
        a.ty ≠ Ty.error ∧
          (S.getCurrentFunctionTy = Ty.void ∨ TypesMgr.isPrimitiveTy a.ty = false ∨
            (a.ty ≠ S.getCurrentFunctionTy ∧
              ¬ (S.getCurrentFunctionTy = Ty.float ∧ a.ty = Ty.integer))))) ∧
    (∃ eff, TypeCheck.visitStmt S (TypeCheck.Stmt.returnStmt none) = some eff ∧
      (eff.errors = [] ∨
        eff.errors =
          [TypeCheck.SemError.incompatibleReturn (TypeCheck.Node.token "return")]) ∧
      (eff.errors = [TypeCheck.SemError.incompatibleReturn (TypeCheck.Node.token "return")] ↔
        S.getCurrentFunctionTy ≠ Ty.void)) := by
  refine ⟨⟨_, TypeCheck.returnChecks S.getCurrentFunctionTy a.ty,
    by simp only [TypeCheck.visitStmt, h]; rfl, rfl,
    (TypeCheck.returnChecks_cases _ _).1, (TypeCheck.returnChecks_cases _ _).2⟩,
    ⟨_, rfl, ?_, ?_⟩⟩
  · by_cases p : Ty.void = S.getCurrentFunctionTy <;>
      simp [TypesMgr.equalTypes_iff, TypesMgr.equalTypes_false_iff, p]
  · rw [Ne, @eq_comm _ S.getCurrentFunctionTy Ty.void]
    by_cases p : Ty.void = S.getCurrentFunctionTy <;>
      simp [TypesMgr.equalTypes_iff, TypesMgr.equalTypes_false_iff, p]

/-- C20 at `return a` with `a` Integer in a function of result type Float: nothing is
reported. -/
theorem C20_witness :
    ∃ eff, TypeCheck.visitStmt exampleFloatResultTable
        (TypeCheck.Stmt.returnStmt (some (Expr.exprIdent "a"))) = some eff ∧
      eff.errors = [] := by
  obtain ⟨⟨eff, own, h, he, ho, hiff⟩, _⟩ :=
    C20_return_diagnostics exampleFloatResultTable (Expr.exprIdent "a")
      { ty := Ty.integer, isLValue := true, errors := [],
        decor := [TypeCheck.Decor.putType (TypeCheck.Node.ident "a") Ty.integer,
                  TypeCheck.Decor.putIsLValue (TypeCheck.Node.ident "a") true,
                  TypeCheck.Decor.putType (TypeCheck.Node.expr (Expr.exprIdent "a")) Ty.integer,
                  TypeCheck.Decor.putIsLValue (TypeCheck.Node.expr (Expr.exprIdent "a"))
                    true] } rfl
  refine ⟨eff, h, ?_⟩
  rcases ho with ho | ho
  · rw [he, ho]
    rfl
  · have := hiff.mp ho
    simp [exampleFloatResultTable, SymTable.getCurrentFunctionTy, TypesMgr.isPrimitiveTy,
      TypesMgr.isIntegerTy] at this

/-! ### Execution of the array copy -/

theorem arrayCopyCode_parts (dl sl : Bool) (dst src : String) (k w n : Nat) :
    arrayCopyCode dl sl dst src k w n =
      arrayCopyInit dl sl dst src k n ++ arrayCopyTest k w ++ arrayCopyBody dl sl dst src k w ++
        [Instr.LABEL ("end" ++ ("while" ++ toString w))] := by
  cases dl <;> cases sl <;> rfl

theorem tempName_add_ne (k : Nat) {a b : Nat} (h : a ≠ b) :
    tempName (k + a) ≠ tempName (k + b) := by
  intro he
  have := tempName_injective he
  omega

theorem setVal_same (val : String → Int) (d : String) (v : Int) : setVal val d v d = v := by
  simp [setVal]

theorem setVal_other (val : String → Int) {d x : String} (v : Int) (h : x ≠ d) :
    setVal val d v x = val x := by
  simp [setVal, h]

theorem Machine.base_congr (frame : Frame) {st st' : Machine} {b : String}
    (h : st'.val b = st.val b) : st'.base frame b = st.base frame b := by
  unfold Machine.base
  rw [h]

theorem exec_step {frame : Frame} {code : instructionList} {st st' : Machine}
    (h : step frame code st = some st') (k : Nat) :
    exec frame code (k + 1) st = exec frame code k st' := by
  simp [exec, h]

theorem exec_add (frame : Frame) (code : instructionList) :
    ∀ (a b : Nat) (st : Machine),
      exec frame code (a + b) st = (exec frame code a st).bind (exec frame code b)
  | 0, b, st => by simp [exec]
  | a + 1, b, st => by
    rw [Nat.add_right_comm]
    simp only [exec]
    cases step frame code st with
    | none => rfl
    | some st' => exact exec_add frame code a b st'

theorem step_LOAD (frame : Frame) {code : instructionList} {st : Machine} {d s : String}
    (h : code.get? st.pc = some (Instr.LOAD d s)) :
    ∃ st', step frame code st = some st' ∧ st'.pc = st.pc + 1 ∧
      st'.val = setVal st.val d (st.val s) ∧ st'.mem = st.mem ∧
      st'.trace = st.trace ++ [Instr.LOAD d s] ∧ st'.writes = st.writes := by
  unfold step
  rw [h]
  exact ⟨_, rfl, rfl, rfl, rfl, rfl, rfl⟩

theorem step_ILOAD (frame : Frame) {code : instructionList} {st : Machine} {d lit : String}
    (h : code.get? st.pc = some (Instr.ILOAD d lit)) :
    ∃ st', step frame code st = some st' ∧ st'.pc = st.pc + 1 ∧
      st'.val = setVal st.val d (literal lit) ∧ st'.mem = st.mem ∧
      st'.trace = st.trace ++ [Instr.ILOAD d lit] ∧ st'.writes = st.writes := by
  unfold step
  rw [h]
  exact ⟨_, rfl, rfl, rfl, rfl, rfl, rfl⟩

theorem step_LOADX (frame : Frame) {code : instructionList} {st : Machine} {d b o : String}
    (h : code.get? st.pc = some (Instr.LOADX d b o)) :
    ∃ st', step frame code st = some st' ∧ st'.pc = st.pc + 1 ∧
      st'.val = setVal st.val d (st.mem (st.base frame b) (st.val o)) ∧ st'.mem = st.mem ∧
      st'.trace = st.trace ++ [Instr.LOADX d b o] ∧ st'.writes = st.writes := by
  unfold step
  rw [h]
  exact ⟨_, rfl, rfl, rfl, rfl, rfl, rfl⟩

theorem step_XLOAD (frame : Frame) {code : instructionList} {st : Machine} {b o s : String}
    (h : code.get? st.pc = some (Instr.XLOAD b o s)) :
    ∃ st', step frame code st = some st' ∧ st'.pc = st.pc + 1 ∧ st'.val = st.val ∧
      st'.mem = setMem st.mem (st.base frame b) (st.val o) (st.val s) ∧
      st'.trace = st.trace ++ [Instr.XLOAD b o s] ∧
      st'.writes = st.writes ++ [(st.base frame b, st.val o, st.val s)] := by
  unfold step
  rw [h]
  exact ⟨_, rfl, rfl, rfl, rfl, rfl, rfl⟩

theorem step_ADD (frame : Frame) {code : instructionList} {st : Machine} {d a b : String}
    (h : code.get? st.pc = some (Instr.ADD d a b)) :
    ∃ st', step frame code st = some st' ∧ st'.pc = st.pc + 1 ∧
      st'.val = setVal st.val d (st.val a + st.val b) ∧ st'.mem = st.mem ∧
      st'.trace = st.trace ++ [Instr.ADD d a b] ∧ st'.writes = st.writes := by
  unfold step
  rw [h]
  exact ⟨_, rfl, rfl, rfl, rfl, rfl, rfl⟩

theorem step_MUL (frame : Frame) {code : instructionList} {st : Machine} {d a b : String}
    (h : code.get? st.pc = some (Instr.MUL d a b)) :
    ∃ st', step frame code st = some st' ∧ st'.pc = st.pc + 1 ∧
      st'.val = setVal st.val d (st.val a * st.val b) ∧ st'.mem = st.mem ∧
      st'.trace = st.trace ++ [Instr.MUL d a b] ∧ st'.writes = st.writes := by
  unfold step
  rw [h]
  exact ⟨_, rfl, rfl, rfl, rfl, rfl, rfl⟩

theorem step_LT (frame : Frame) {code : instructionList} {st : Machine} {d a b : String}
    (h : code.get? st.pc = some (Instr.LT d a b)) :
    ∃ st', step frame code st = some st' ∧ st'.pc = st.pc + 1 ∧
      st'.val = setVal st.val d (if st.val a < st.val b then 1 else 0) ∧ st'.mem = st.mem ∧
      st'.trace = st.trace ++ [Instr.LT d a b] ∧ st'.writes = st.writes := by
  unfold step
  rw [h]
  exact ⟨_, rfl, rfl, rfl, rfl, rfl, rfl⟩

theorem step_LABEL (frame : Frame) {code : instructionList} {st : Machine} {l : String}
    (h : code.get? st.pc = some (Instr.LABEL l)) :
    ∃ st', step frame code st = some st' ∧ st'.pc = st.pc + 1 ∧ st'.val = st.val ∧
      st'.mem = st.mem ∧ st'.trace = st.trace ++ [Instr.LABEL l] ∧ st'.writes = st.writes := by
  unfold step
  rw [h]
  exact ⟨_, rfl, rfl, rfl, rfl, rfl, rfl⟩

theorem step_UJUMP (frame : Frame) {code : instructionList} {st : Machine} {l : String}
    {q : Nat} (h : code.get? st.pc = some (Instr.UJUMP l)) (hl : labelIndex code l = some q) :
    ∃ st', step frame code st = some st' ∧ st'.pc = q ∧ st'.val = st.val ∧
      st'.mem = st.mem ∧ st'.trace = st.trace ++ [Instr.UJUMP l] ∧ st'.writes = st.writes := by
  unfold step
  rw [h]
  simp only [hl, Option.map_some']
  exact ⟨_, rfl, rfl, rfl, rfl, rfl, rfl⟩

theorem step_FJUMP_taken (frame : Frame) {code : instructionList} {st : Machine}
    {c l : String} {q : Nat} (h : code.get? st.pc = some (Instr.FJUMP c l))
    (hc : st.val c = 0) (hl : labelIndex code l = some q) :
    ∃ st', step frame code st = some st' ∧ st'.pc = q ∧ st'.val = st.val ∧
      st'.mem = st.mem ∧ st'.trace = st.trace ++ [Instr.FJUMP c l] ∧ st'.writes = st.writes := by
  unfold step
  rw [h]
  simp only [hc, hl, ↓reduceIte, Option.map_some']
  exact ⟨_, rfl, rfl, rfl, rfl, rfl, rfl⟩

theorem step_FJUMP_fall (frame : Frame) {code : instructionList} {st : Machine}
    {c l : String} (h : code.get? st.pc = some (Instr.FJUMP c l)) (hc : st.val c ≠ 0) :
    ∃ st', step frame code st = some st' ∧ st'.pc = st.pc + 1 ∧ st'.val = st.val ∧
      st'.mem = st.mem ∧ st'.trace = st.trace ++ [Instr.FJUMP c l] ∧ st'.writes = st.writes := by
  unfold step
  rw [h]
  simp only [hc, ↓reduceIte]
  exact ⟨_, rfl, rfl, rfl, rfl, rfl, rfl⟩

theorem step_halted (frame : Frame) {code : instructionList} {st : Machine}
    (h : st.pc = code.length) : step frame code st = none := by
  unfold step
  rw [h, List.get?_eq_none.mpr (le_refl _)]

theorem literal_zero : literal "0" = 0 := by decide

theorem literal_one : literal "1" = 1 := by decide

theorem literal_toString (n : Nat) : literal (toString n) = n := by
  simp [literal, decodeNat_toString]

theorem copy_init {frame : Frame} {code : instructionList} {p : Nat} {bD bS : String}
    {k w n : Nat} (L : CopyLoop code p bD bS k w n) {D A : Int} {mem0 : Int → Int → Int}
    (hD : ∀ j, 2 ≤ j → bD ≠ tempName (k + j)) (hS : ∀ j, 2 ≤ j → bS ≠ tempName (k + j))
    (iter : List Instr) {st : Machine} (hpc : st.pc = p) (hbD : st.base frame bD = D)
    (hbS : st.base frame bS = A) (hmem : st.mem = mem0) (hw : st.writes = []) :
    ∃ st', exec frame code 4 st = some st' ∧
      CopyInv frame p bD bS k n D A mem0
        (st.trace ++ [Instr.ILOAD (tempName (k + 2)) "0", Instr.ILOAD (tempName (k + 3)) "1",
          Instr.ILOAD (tempName (k + 4)) (toString n), Instr.ILOAD (tempName (k + 5)) "1"])
        iter 0 st' := by
  obtain ⟨s1, e1, p1, v1, m1, t1, w1⟩ := step_ILOAD frame (by rw [hpc]; exact L.i0)
  obtain ⟨s2, e2, p2, v2, m2, t2, w2⟩ := step_ILOAD frame (by rw [p1, hpc]; exact L.i1)
  obtain ⟨s3, e3, p3, v3, m3, t3, w3⟩ := step_ILOAD frame (by rw [p2, p1, hpc]; exact L.i2)
  obtain ⟨s4, e4, p4, v4, m4, t4, w4⟩ := step_ILOAD frame (by rw [p3, p2, p1, hpc]; exact L.i3)
  have hv : s4.val = setVal (setVal (setVal (setVal st.val (tempName (k + 2)) 0)
      (tempName (k + 3)) 1) (tempName (k + 4)) n) (tempName (k + 5)) 1 := by
    rw [v4, v3, v2, v1, literal_zero, literal_one, literal_toString]
  refine ⟨s4, by rw [exec_step e1, exec_step e2, exec_step e3, exec_step e4]; rfl, ?_⟩
  refine ⟨by rw [p4, p3, p2, p1, hpc], ?_, ?_, ?_, ?_, ?_, ?_, ?_, ?_, ?_, ?_⟩
  · rw [hv]; simp [setVal, tempName_eq_iff]
  · rw [hv]; simp [setVal, tempName_eq_iff]
  · rw [hv]; simp [setVal, tempName_eq_iff]
  · rw [hv]; simp [setVal, tempName_eq_iff]
  · rw [← hbD]
    apply Machine.base_congr
    rw [hv]
    simp [setVal, hD 2 (by omega), hD 3 (by omega), hD 4 (by omega), hD 5 (by omega)]
  · rw [← hbS]
    apply Machine.base_congr
    rw [hv]
    simp [setVal, hS 2 (by omega), hS 3 (by omega), hS 4 (by omega), hS 5 (by omega)]
  · intro o
    rw [m4, m3, m2, m1, hmem]
  · intro j hj
    omega
  · rw [t4, t3, t2, t1]
    simp
  · rw [w4, w3, w2, w1, hw]
    rfl

theorem copy_iteration {frame : Frame} {code : instructionList} {p : Nat} {bD bS : String}
    {k w n : Nat} (L : CopyLoop code p bD bS k w n) {D A : Int} {mem0 : Int → Int → Int}
    (hD : ∀ j, 2 ≤ j → bD ≠ tempName (k + j)) (hS : ∀ j, 2 ≤ j → bS ≠ tempName (k + j))
    (tr0 : List Instr) {i : Nat} {st : Machine} (hi : i < n)
    (I : CopyInv frame p bD bS k n D A mem0 tr0
      [Instr.LABEL ("while" ++ toString w),
       Instr.LT (tempName (k + 7)) (tempName (k + 2)) (tempName (k + 4)),
       Instr.FJUMP (tempName (k + 7)) ("end" ++ ("while" ++ toString w)),
       Instr.MUL (tempName (k + 6)) (tempName (k + 5)) (tempName (k + 2)),
       Instr.LOADX (tempName (k + 8)) bS (tempName (k + 6)),
       Instr.XLOAD bD (tempName (k + 6)) (tempName (k + 8)),
       Instr.ADD (tempName (k + 2)) (tempName (k + 2)) (tempName (k + 3)),
       Instr.UJUMP ("while" ++ toString w)] i st) :
    ∃ st', exec frame code 8 st = some st' ∧
      CopyInv frame p bD bS k n D A mem0 tr0
        [Instr.LABEL ("while" ++ toString w),
         Instr.LT (tempName (k + 7)) (tempName (k + 2)) (tempName (k + 4)),
         Instr.FJUMP (tempName (k + 7)) ("end" ++ ("while" ++ toString w)),
         Instr.MUL (tempName (k + 6)) (tempName (k + 5)) (tempName (k + 2)),
         Instr.LOADX (tempName (k + 8)) bS (tempName (k + 6)),
         Instr.XLOAD bD (tempName (k + 6)) (tempName (k + 8)),
         Instr.ADD (tempName (k + 2)) (tempName (k + 2)) (tempName (k + 3)),
         Instr.UJUMP ("while" ++ toString w)] (i + 1) st' := by
  obtain ⟨s1, e1, p1, v1, m1, t1, w1⟩ := step_LABEL frame (by rw [I.pc]; exact L.g0)
  obtain ⟨s2, e2, p2, v2, m2, t2, w2⟩ := step_LT frame (by rw [p1, I.pc]; exact L.g1)
  have c2 : s2.val (tempName (k + 7)) ≠ 0 := by
    rw [v2, setVal_same, v1, I.idx, I.size, if_pos (by exact_mod_cast hi)]
    decide
  obtain ⟨s3, e3, p3, v3, m3, t3, w3⟩ :=
    step_FJUMP_fall frame (by rw [p2, p1, I.pc]; exact L.g2) c2
  obtain ⟨s4, e4, p4, v4, m4, t4, w4⟩ := step_MUL frame (by rw [p3, p2, p1, I.pc]; exact L.g3)
  obtain ⟨s5, e5, p5, v5, m5, t5, w5⟩ :=
    step_LOADX frame (by rw [p4, p3, p2, p1, I.pc]; exact L.g4)
  obtain ⟨s6, e6, p6, v6, m6, t6, w6⟩ :=
    step_XLOAD frame (by rw [p5, p4, p3, p2, p1, I.pc]; exact L.g5)
  obtain ⟨s7, e7, p7, v7, m7, t7, w7⟩ :=
    step_ADD frame (by rw [p6, p5, p4, p3, p2, p1, I.pc]; exact L.g6)
  obtain ⟨s8, e8, p8, v8, m8, t8, w8⟩ :=
    step_UJUMP frame (by rw [p7, p6, p5, p4, p3, p2, p1, I.pc]; exact L.g7) L.lw
  have hv3 : s3.val = setVal st.val (tempName (k + 7)) 1 := by
    rw [v3, v2, v1, I.idx, I.size, if_pos (by exact_mod_cast hi)]
  have hv4 : s4.val = setVal s3.val (tempName (k + 6)) i := by
    rw [v4, hv3, setVal_other _ _ (tempName_add_ne k (by decide)),
      setVal_other _ _ (tempName_add_ne k (by decide)), I.stride, I.idx, one_mul]
  have b4S : s4.base frame bS = A := by
    rw [← I.baseS]
    apply Machine.base_congr
    rw [hv4, hv3, setVal_other _ _ (hS 6 (by omega)), setVal_other _ _ (hS 7 (by omega))]
  have hv5 : s5.val = setVal s4.val (tempName (k + 8)) (mem0 A i) := by
    rw [v5, b4S, hv4, setVal_same, m4, m3, m2, m1, I.src]
  have b5D : s5.base frame bD = D := by
    rw [← I.baseD]
    apply Machine.base_congr
    rw [hv5, hv4, hv3, setVal_other _ _ (hD 8 (by omega)), setVal_other _ _ (hD 6 (by omega)),
      setVal_other _ _ (hD 7 (by omega))]
  have o5 : s5.val (tempName (k + 6)) = i := by
    rw [hv5, setVal_other _ _ (tempName_add_ne k (by decide)), hv4, setVal_same]
  have x5 : s5.val (tempName (k + 8)) = mem0 A i := by
    rw [hv5, setVal_same]
  have hm : s8.mem = setMem st.mem D i (mem0 A i) := by
    rw [m8, m7, m6, b5D, o5, x5, m5, m4, m3, m2, m1]
  have hv8 : s8.val = setVal s5.val (tempName (k + 2)) ((i : Int) + 1) := by
    rw [v8, v7, v6]
    rw [hv5, hv4, hv3]
    simp only [setVal, tempName_eq_iff]
    simp [I.idx, I.inc]
  have hval : ∀ x, (∀ j, 2 ≤ j → x ≠ tempName (k + j)) → s8.val x = st.val x := by
    intro x hx
    rw [hv8, hv5, hv4, hv3, setVal_other _ _ (hx 2 (by omega)),
      setVal_other _ _ (hx 8 (by omega)), setVal_other _ _ (hx 6 (by omega)),
      setVal_other _ _ (hx 7 (by omega))]
  have hkeep : ∀ a, a = 3 ∨ a = 4 ∨ a = 5 →
      s8.val (tempName (k + a)) = st.val (tempName (k + a)) := by
    intro a ha
    rw [hv8, hv5, hv4, hv3, setVal_other _ _ (tempName_add_ne k (by omega)),
      setVal_other _ _ (tempName_add_ne k (by omega)),
      setVal_other _ _ (tempName_add_ne k (by omega)),
      setVal_other _ _ (tempName_add_ne k (by omega))]
  refine ⟨s8, by
    rw [exec_step e1, exec_step e2, exec_step e3, exec_step e4, exec_step e5, exec_step e6,
      exec_step e7, exec_step e8]; rfl, ?_⟩
  refine ⟨p8, ?_, ?_, ?_, ?_, ?_, ?_, ?_, ?_, ?_, ?_⟩
  · rw [hv8, setVal_same]
    push_cast
    rfl
  · rw [hkeep 3 (by omega), I.inc]
  · rw [hkeep 4 (by omega), I.size]
  · rw [hkeep 5 (by omega), I.stride]
  · rw [← I.baseD]
    exact Machine.base_congr frame (hval bD hD)
  · rw [← I.baseS]
    exact Machine.base_congr frame (hval bS hS)
  · intro o
    rw [hm]
    unfold setMem
    split
    · rename_i h
      rw [h.2]
    · exact I.src o
  · intro j hj
    rw [hm]
    unfold setMem
    split
    · rename_i h
      have : (j : Int) = i := h.2
      rw [this]
    · rename_i h
      have hne : j ≠ i := by
        intro hji
        exact h ⟨rfl, by rw [hji]⟩
      exact I.dst j (by omega)
  · rw [t8, t7, t6, t5, t4, t3, t2, t1, I.trace, List.replicate_succ']
    simp
  · rw [w8, w7, w6, b5D, o5, x5, w5, w4, w3, w2, w1, I.writes, List.range_succ]
    simp

theorem copy_loop {frame : Frame} {code : instructionList} {p : Nat} {bD bS : String}
    {k w n : Nat} (L : CopyLoop code p bD bS k w n) {D A : Int} {mem0 : Int → Int → Int}
    (hD : ∀ j, 2 ≤ j → bD ≠ tempName (k + j)) (hS : ∀ j, 2 ≤ j → bS ≠ tempName (k + j))
    (tr0 : List Instr) :
    ∀ (m i : Nat) (st : Machine), i + m = n →
      CopyInv frame p bD bS k n D A mem0 tr0
        [Instr.LABEL ("while" ++ toString w),
         Instr.LT (tempName (k + 7)) (tempName (k + 2)) (tempName (k + 4)),
         Instr.FJUMP (tempName (k + 7)) ("end" ++ ("while" ++ toString w)),
         Instr.MUL (tempName (k + 6)) (tempName (k + 5)) (tempName (k + 2)),
         Instr.LOADX (tempName (k + 8)) bS (tempName (k + 6)),
         Instr.XLOAD bD (tempName (k + 6)) (tempName (k + 8)),
         Instr.ADD (tempName (k + 2)) (tempName (k + 2)) (tempName (k + 3)),
         Instr.UJUMP ("while" ++ toString w)] i st →
      ∃ st', exec frame code (8 * m) st = some st' ∧
        CopyInv frame p bD bS k n D A mem0 tr0
          [Instr.LABEL ("while" ++ toString w),
           Instr.LT (tempName (k + 7)) (tempName (k + 2)) (tempName (k + 4)),
           Instr.FJUMP (tempName (k + 7)) ("end" ++ ("while" ++ toString w)),
           Instr.MUL (tempName (k + 6)) (tempName (k + 5)) (tempName (k + 2)),
           Instr.LOADX (tempName (k + 8)) bS (tempName (k + 6)),
           Instr.XLOAD bD (tempName (k + 6)) (tempName (k + 8)),
           Instr.ADD (tempName (k + 2)) (tempName (k + 2)) (tempName (k + 3)),
           Instr.UJUMP ("while" ++ toString w)] n st'
  | 0, i, st, h, I => by
    have : i = n := by omega
    subst this
    exact ⟨st, rfl, I⟩
  | m + 1, i, st, h, I => by
    obtain ⟨s1, e1, I1⟩ := copy_iteration L hD hS tr0 (by omega) I
    obtain ⟨s2, e2, I2⟩ := copy_loop L hD hS tr0 m (i + 1) s1 (by omega) I1
    refine ⟨s2, ?_, I2⟩
    rw [show 8 * (m + 1) = 8 + 8 * m by ring, exec_add, e1]
    exact e2

theorem copy_exit {frame : Frame} {code : instructionList} {p : Nat} {bD bS : String}
    {k w n : Nat} (L : CopyLoop code p bD bS k w n) {D A : Int} {mem0 : Int → Int → Int}
    {tr0 iter : List Instr} {st : Machine}
    (I : CopyInv frame p bD bS k n D A mem0 tr0 iter n st) :
    ∃ fin, exec frame code 4 st = some fin ∧ fin.pc = code.length ∧ fin.mem = st.mem ∧
      fin.writes = st.writes ∧
      fin.trace = st.trace ++
        [Instr.LABEL ("while" ++ toString w),
         Instr.LT (tempName (k + 7)) (tempName (k + 2)) (tempName (k + 4)),
         Instr.FJUMP (tempName (k + 7)) ("end" ++ ("while" ++ toString w)),
         Instr.LABEL ("end" ++ ("while" ++ toString w))] := by
  obtain ⟨s1, e1, p1, v1, m1, t1, w1⟩ := step_LABEL frame (by rw [I.pc]; exact L.g0)
  obtain ⟨s2, e2, p2, v2, m2, t2, w2⟩ := step_LT frame (by rw [p1, I.pc]; exact L.g1)
  have c2 : s2.val (tempName (k + 7)) = 0 := by
    rw [v2, setVal_same, v1, I.idx, I.size, if_neg (lt_irrefl _)]
  obtain ⟨s3, e3, p3, v3, m3, t3, w3⟩ :=
    step_FJUMP_taken frame (by rw [p2, p1, I.pc]; exact L.g2) c2 L.le
  obtain ⟨s4, e4, p4, v4, m4, t4, w4⟩ := step_LABEL frame (by rw [p3]; exact L.g8)
  refine ⟨s4, by rw [exec_step e1, exec_step e2, exec_step e3, exec_step e4]; rfl, ?_, ?_, ?_, ?_⟩
  · rw [p4, p3, L.len]
  · rw [m4, m3, m2, m1]
  · rw [w4, w3, w2, w1]
  · rw [t4, t3, t2, t1]
    simp

theorem copyLoop_arrayCopyCode (dl sl : Bool) (dst src : String) (k w n : Nat) :
    CopyLoop (arrayCopyCode dl sl dst src k w n)
      ((if dl then 0 else 1) + (if sl then 0 else 1))
      (if dl then dst else tempName k) (if sl then src else tempName (k + 1)) k w n := by
  have hne := while_ne_endwhile (toString w) (toString w)
  cases dl <;> cases sl <;>
    exact ⟨rfl, rfl, rfl, rfl, rfl, rfl, rfl, rfl, rfl, rfl, rfl, rfl, rfl,
      by simp [arrayCopyCode, labelIndex], by simp [arrayCopyCode, labelIndex, hne], rfl⟩

theorem copy_prelude (S : SymTable) (frame : Frame) (val0 : String → Int)
    (mem0 : Int → Int → Int) (dst src : String) (k w n : Nat) (D A : Int)
    (hns : notTemp src = true) (hft : ∀ m, frame (tempName m) = none)
    (hD : arrayOf S frame val0 dst = some D) (hA : arrayOf S frame val0 src = some A) :
    ∃ st, exec frame
        (arrayCopyCode (S.isLocalVarClass dst) (S.isLocalVarClass src) dst src k w n)
        ((if S.isLocalVarClass dst then 0 else 1) + (if S.isLocalVarClass src then 0 else 1))
        (Machine.start val0 mem0) = some st ∧
      st.pc = (if S.isLocalVarClass dst then 0 else 1) +
        (if S.isLocalVarClass src then 0 else 1) ∧
      st.base frame (if S.isLocalVarClass dst then dst else tempName k) = D ∧
      st.base frame (if S.isLocalVarClass src then src else tempName (k + 1)) = A ∧
      st.mem = mem0 ∧ st.writes = [] ∧
      st.trace = (if S.isLocalVarClass dst then [] else [Instr.LOAD (tempName k) dst]) ++
        (if S.isLocalVarClass src then [] else [Instr.LOAD (tempName (k + 1)) src]) := by
  unfold arrayOf at hD hA
  have hsk : src ≠ tempName k := notTemp_ne_tempName hns k
  have h01 : tempName k ≠ tempName (k + 1) := by
    intro h
    have := tempName_injective h
    omega
  cases hl1 : S.isLocalVarClass dst <;> cases hl2 : S.isLocalVarClass src <;>
    simp only [hl1, hl2, if_true, if_false, Bool.false_eq_true, Option.some.injEq] at hD hA ⊢
  · obtain ⟨s1, e1, p1, v1, m1, t1, w1⟩ :=
      @step_LOAD frame (arrayCopyCode false false dst src k w n)
        (Machine.start val0 mem0) (tempName k) dst rfl
    obtain ⟨s2, e2, p2, v2, m2, t2, w2⟩ :=
      @step_LOAD frame (arrayCopyCode false false dst src k w n)
        s1 (tempName (k + 1)) src (by rw [p1]; rfl)
    refine ⟨s2, by rw [exec_step e1, exec_step e2]; rfl, by rw [p2, p1]; rfl, ?_, ?_,
      by rw [m2, m1]; rfl, by rw [w2, w1]; rfl, by rw [t2, t1]; rfl⟩
    · unfold Machine.base
      rw [hft k, v2, v1, setVal_other _ _ h01, setVal_same]
      exact hD
    · unfold Machine.base
      rw [hft (k + 1), v2, v1, setVal_same, setVal_other _ _ hsk]
      exact hA
  · obtain ⟨s1, e1, p1, v1, m1, t1, w1⟩ :=
      @step_LOAD frame (arrayCopyCode false true dst src k w n)
        (Machine.start val0 mem0) (tempName k) dst rfl
    refine ⟨s1, by rw [exec_step e1]; rfl, by rw [p1]; rfl, ?_, ?_,
      by rw [m1]; rfl, by rw [w1]; rfl, by rw [t1]; rfl⟩
    · unfold Machine.base
      rw [hft k, v1, setVal_same]
      exact hD
    · unfold Machine.base
      rw [hA]
  · obtain ⟨s1, e1, p1, v1, m1, t1, w1⟩ :=
      @step_LOAD frame (arrayCopyCode true false dst src k w n)
        (Machine.start val0 mem0) (tempName (k + 1)) src rfl
    refine ⟨s1, by rw [exec_step e1]; rfl, by rw [p1]; rfl, ?_, ?_,
      by rw [m1]; rfl, by rw [w1]; rfl, by rw [t1]; rfl⟩
    · unfold Machine.base
      rw [hD]
    · unfold Machine.base
      rw [hft (k + 1), v1, setVal_same]
      exact hA
  · refine ⟨Machine.start val0 mem0, rfl, rfl, ?_, ?_, rfl, rfl, rfl⟩
    · unfold Machine.base
      rw [hD]
    · unfold Machine.base
      rw [hA]

/-- C11: for a whole-array assignment `dst = src` between array identifiers of declared
length `n`, the emitted instruction list, run by the t-code machine from its first
instruction, halts at the end of the list after the prelude, `n` rounds of loop test and
loop body and one last loop test; it performs exactly the writes of `src[i]` to offset
`i` of the destination for `i` from 0 to `n - 1`, in this order, and leaves
`dst[i] = src[i]` for every `i < n`, with the source unchanged. -/
theorem C11_array_copy_loop_runs (S : SymTable) (c : counters) (dst src : String)
    (e e' : Ty) (n : Nat) (frame : Frame) (val0 : String → Int) (mem0 : Int → Int → Int)
    (D A : Int) (hd : S.getType dst = some (Ty.array e n))
    (hs : S.getType src = some (Ty.array e' n))
    (hnd : notTemp dst = true) (hns : notTemp src = true)
    (hft : ∀ m, frame (tempName m) = none)
    (hD : arrayOf S frame val0 dst = some D) (hA : arrayOf S frame val0 src = some A) :
    ∃ code c' steps fin,
      CodeGen.visitStmt S c (arrayAssign dst src) = some (code, c') ∧
      exec frame code steps (Machine.start val0 mem0) = some fin ∧
      fin.pc = code.length ∧ step frame code fin = none ∧
      fin.trace =
        arrayCopyInit (S.isLocalVarClass dst) (S.isLocalVarClass src) dst src c.TEMP n ++
        (List.replicate n (arrayCopyTest c.TEMP c.WHILE ++
          arrayCopyBody (S.isLocalVarClass dst) (S.isLocalVarClass src) dst src c.TEMP
            c.WHILE)).flatten ++
        arrayCopyTest c.TEMP c.WHILE ++ [Instr.LABEL ("end" ++ ("while" ++ toString c.WHILE))] ∧
      fin.writes = (List.range n).map (fun i => (D, (i : Int), mem0 A i)) ∧
      ∀ i : Nat, i < n → fin.mem D i = mem0 A i ∧ fin.mem A i = mem0 A i := by
  have L := copyLoop_arrayCopyCode (S.isLocalVarClass dst) (S.isLocalVarClass src) dst src
    c.TEMP c.WHILE n
  have hbD : ∀ j, 2 ≤ j →
      (if S.isLocalVarClass dst = true then dst else tempName c.TEMP) ≠ tempName (c.TEMP + j) := by
    intro j hj
    split
    · exact notTemp_ne_tempName hnd _
    · intro h
      have := tempName_injective h
      omega
  have hbS : ∀ j, 2 ≤ j →
      (if S.isLocalVarClass src = true then src else tempName (c.TEMP + 1)) ≠
        tempName (c.TEMP + j) := by
    intro j hj
    split
    · exact notTemp_ne_tempName hns _
    · intro h
      have := tempName_injective h
      omega
  obtain ⟨s0, e0, p0, bD0, bS0, m0, w0, t0⟩ :=
    copy_prelude S frame val0 mem0 dst src c.TEMP c.WHILE n D A hns hft hD hA
  obtain ⟨s1, e1, I1⟩ := copy_init L hbD hbS _ p0 bD0 bS0 m0 w0
  obtain ⟨s2, e2, I2⟩ := copy_loop L hbD hbS _ n 0 s1 (by omega) I1
  obtain ⟨fin, e3, p3, m3, w3, t3⟩ := copy_exit L I2
  refine ⟨_, _,
    (if S.isLocalVarClass dst then 0 else 1) + (if S.isLocalVarClass src then 0 else 1) + 4 +
      8 * n + 4,
    fin, CodeGen.visitStmt_arrayAssign S c dst src e e' n n hd hs, ?_, p3,
    step_halted frame p3, ?_, ?_, ?_⟩
  · rw [exec_add, exec_add, exec_add, e0]
    simp only [Option.some_bind]
    rw [e1]
    simp only [Option.some_bind]
    rw [e2]
    exact e3
  · rw [t3, I2.trace, t0]
    cases S.isLocalVarClass dst <;> cases S.isLocalVarClass src <;>
      simp [arrayCopyInit, arrayCopyTest, arrayCopyBody]
  · rw [w3, I2.writes]
  · intro i hi
    rw [m3]
    exact ⟨I2.dst i hi, I2.src i⟩

/-- C11 at `v = w` of scenario S4, with `v` array 0 and `w` array 1 of the frame: the
code halts, writes `w[0]`, `w[1]`, `w[2]` to the offsets 0, 1, 2 of `v` and leaves
`v[i] = w[i]` for `i < 3`. -/
theorem C11_witness :
    ∃ code c' steps fin,
      CodeGen.visitStmt exampleS4Table counters.reset (arrayAssign "v" "w") = some (code, c') ∧
      exec exampleS4Frame code steps (Machine.start (fun _ => 0) exampleS4Mem) = some fin ∧
      fin.pc = code.length ∧ step exampleS4Frame code fin = none ∧
      fin.trace =
        arrayCopyInit (exampleS4Table.isLocalVarClass "v") (exampleS4Table.isLocalVarClass "w")
          "v" "w" counters.reset.TEMP 3 ++
        (List.replicate 3 (arrayCopyTest counters.reset.TEMP counters.reset.WHILE ++
          arrayCopyBody (exampleS4Table.isLocalVarClass "v")
            (exampleS4Table.isLocalVarClass "w") "v" "w" counters.reset.TEMP
            counters.reset.WHILE)).flatten ++
        arrayCopyTest counters.reset.TEMP counters.reset.WHILE ++
        [Instr.LABEL ("end" ++ ("while" ++ toString counters.reset.WHILE))] ∧
      fin.writes = (List.range 3).map (fun i => ((0 : Int), (i : Int), exampleS4Mem 1 i)) ∧
      ∀ i : Nat, i < 3 → fin.mem 0 i = exampleS4Mem 1 i ∧ fin.mem 1 i = exampleS4Mem 1 i :=
  C11_array_copy_loop_runs exampleS4Table counters.reset "v" "w" Ty.integer Ty.integer 3
    exampleS4Frame (fun _ => 0) exampleS4Mem 0 1 rfl rfl (by decide) (by decide)
    (fun m => by
      have h1 := notTemp_ne_tempName (show notTemp "v" = true by decide) m
      have h2 := notTemp_ne_tempName (show notTemp "w" = true by decide) m
      simp [exampleS4Frame, Ne.symm h1, Ne.symm h2])
    rfl rfl


/-! ### Calls, scopes, operators and control flow -/

theorem TypesMgr.isFloatTy_iff (t : Ty) : TypesMgr.isFloatTy t = true ↔ t = Ty.float := by
  cases t <;> simp [TypesMgr.isFloatTy]

theorem TypesMgr.isIntegerTy_iff (t : Ty) : TypesMgr.isIntegerTy t = true ↔ t = Ty.integer := by
  cases t <;> simp [TypesMgr.isIntegerTy]

theorem TypesMgr.isBooleanTy_iff (t : Ty) : TypesMgr.isBooleanTy t = true ↔ t = Ty.boolean := by
  cases t <;> simp [TypesMgr.isBooleanTy]

namespace TypeCheck

theorem visitIdent_errors_of_ty {S : SymTable} {ident : String}
    (h : (visitIdent S ident).ty ≠ Ty.error) : (visitIdent S ident).errors = [] := by
  unfold visitIdent at h ⊢
  split
  · rename_i h1
    simp [h1] at h
  · rfl

theorem visitArgs_length {S : SymTable} :
    ∀ {es : List Expr} {as : List Attr}, visitArgs S es = some as → as.length = es.length
  | [], as, h => by
    simp only [visitArgs, Option.some.injEq] at h
    subst h
    rfl
  | e :: es, as, h => by
    simp only [visitArgs, Option.bind_eq_bind, Option.bind_eq_some, Option.pure_def,
      Option.some.injEq] at h
    obtain ⟨a, _, r, hr, rfl⟩ := h
    simp [visitArgs_length hr]

theorem procCallChecks_eq (call : Node) :
    ∀ (i : Nat) (ps : List Ty) (es : List Expr) (as : List Attr),
      procCallChecks call i ps es as = (paramChecks call i ps es as).flatten
  | _, [], _, _ => by simp [procCallChecks, paramChecks]
  | _, _ :: _, [], _ => by simp [procCallChecks, paramChecks]
  | _, _ :: _, _ :: _, [] => by simp [procCallChecks, paramChecks]
  | i, p :: ps, e :: es, a :: r => by
    simp [procCallChecks, paramChecks, procCallChecks_eq call (i + 1) ps es r]

theorem visitCallFuncArgs_of_visitArgs {S : SymTable} (call : Node) :
    ∀ (i : Nat) (ps : List Ty) (es : List Expr) (as : List Attr),
      visitArgs S es = some as → es.length = ps.length →
      (visitCallFuncArgs S call i ps es).map (fun r => r.errors) =
        some (List.zipWith (· ++ ·) (as.map (fun a => a.errors))
          (paramChecks call i ps es as)).flatten
  | _, [], [], as, h, _ => by
    simp only [visitArgs, Option.some.injEq] at h
    subst h
    simp [visitCallFuncArgs, paramChecks]
  | _, [], _ :: _, _, _, hl => by simp at hl
  | _, _ :: _, [], _, _, hl => by simp at hl
  | i, p :: ps, e :: es, as, h, hl => by
    simp only [visitArgs, Option.bind_eq_bind, Option.bind_eq_some, Option.pure_def,
      Option.some.injEq] at h
    obtain ⟨a, ha, r, hr, rfl⟩ := h
    have ih := visitCallFuncArgs_of_visitArgs call (i + 1) ps es r hr (by simpa using hl)
    rw [Option.map_eq_some'] at ih
    obtain ⟨q, hq, he⟩ := ih
    simp [visitCallFuncArgs, ha, hq, he, paramChecks]

theorem paramChecks_length (call : Node) :
    ∀ (i : Nat) (ps : List Ty) (es : List Expr) (as : List Attr),
      es.length = ps.length → as.length = es.length →
      (paramChecks call i ps es as).length = es.length
  | _, [], [], _, _, _ => by simp [paramChecks]
  | _, [], _ :: _, _, h, _ => by simp at h
  | _, _ :: _, [], _, h, _ => by simp at h
  | _, _ :: _, _ :: _, [], _, h => by simp at h
  | i, p :: ps, e :: es, a :: r, h1, h2 => by
    simp [paramChecks, paramChecks_length call (i + 1) ps es r (by simpa using h1)
      (by simpa using h2)]

theorem paramChecks_get? (call : Node) :
    ∀ (i : Nat) (ps : List Ty) (es : List Expr) (as : List Attr) (j : Nat) (e : Expr)
      (a : Attr) (p : Ty), es.get? j = some e → as.get? j = some a → ps.get? j = some p →
      (paramChecks call i ps es as).get? j = some (paramCheck call e (i + j) p a.ty)
  | _, [], _, _, _, _, _, _, _, _, h => by simp at h
  | _, _ :: _, [], _, _, _, _, _, h, _, _ => by simp at h
  | _, _ :: _, _ :: _, [], _, _, _, _, _, h, _ => by simp at h
  | i, p :: ps, e :: es, a :: r, 0, e', a', p', h1, h2, h3 => by
    simp only [List.get?_cons_zero, Option.some.injEq] at h1 h2 h3
    subst h1 h2 h3
    simp [paramChecks]
  | i, p :: ps, e :: es, a :: r, j + 1, e', a', p', h1, h2, h3 => by
    simp only [List.get?_cons_succ] at h1 h2 h3
    have := paramChecks_get? call (i + 1) ps es r j e' a' p' h1 h2 h3
    simp only [paramChecks, List.get?_cons_succ, this]
    congr 2
    omega

theorem paramCheck_mem {call : Node} {arg : Expr} {i : Nat} {p t : Ty} {x : SemError}
    (h : x ∈ paramCheck call arg i p t) :
    x = SemError.incompatibleParameter (Node.expr arg) (i + 1) call := by
  unfold paramCheck at h
  split at h
  · split at h
    · simpa using h
    · simp at h
  · simp at h

theorem paramChecks_mem (call : Node) :
    ∀ (i : Nat) (ps : List Ty) (es : List Expr) (as : List Attr),
      ∀ l ∈ paramChecks call i ps es as, ∀ x ∈ l,
        ∃ e k, x = SemError.incompatibleParameter (Node.expr e) k call
  | _, [], _, _, l, h => by simp [paramChecks] at h
  | _, _ :: _, [], _, l, h => by simp [paramChecks] at h
  | _, _ :: _, _ :: _, [], l, h => by simp [paramChecks] at h
  | i, p :: ps, e :: es, a :: r, l, h => by
    simp only [paramChecks, List.mem_cons] at h
    rcases h with rfl | h
    · exact fun x hx => ⟨_, _, paramCheck_mem hx⟩
    · exact paramChecks_mem call (i + 1) ps es r l h

theorem paramCheck_reported {call : Node} {arg : Expr} {i : Nat} {p t : Ty}
    (h : t ≠ Ty.error ∧ t ≠ p ∧ ¬(p = Ty.float ∧ t = Ty.integer)) :
    paramCheck call arg i p t = [SemError.incompatibleParameter (Node.expr arg) (i + 1) call] := by
  obtain ⟨h1, h2, h3⟩ := h
  rw [← TypesMgr.isErrorTy_false_iff] at h1
  rw [← TypesMgr.equalTypes_false_iff] at h2
  rw [← TypesMgr.isFloatTy_iff, ← TypesMgr.isIntegerTy_iff] at h3
  unfold paramCheck
  simp only [h1, h2]
  revert h3
  generalize TypesMgr.isFloatTy p = x
  generalize TypesMgr.isIntegerTy t = y
  cases x <;> cases y <;> simp

theorem paramCheck_silent {call : Node} {arg : Expr} {i : Nat} {p t : Ty}
    (h : ¬(t ≠ Ty.error ∧ t ≠ p ∧ ¬(p = Ty.float ∧ t = Ty.integer))) :
    paramCheck call arg i p t = [] := by
  rw [← TypesMgr.isErrorTy_false_iff, ← TypesMgr.equalTypes_false_iff,
    ← TypesMgr.isFloatTy_iff, ← TypesMgr.isIntegerTy_iff] at h
  unfold paramCheck
  revert h
  generalize TypesMgr.isErrorTy t = w
  generalize TypesMgr.equalTypes t p = z
  generalize TypesMgr.isFloatTy p = x
  generalize TypesMgr.isIntegerTy t = y
  cases w <;> cases z <;> cases x <;> cases y <;> simp

end TypeCheck

theorem TypesMgr.isVoidTy_iff (t : Ty) : TypesMgr.isVoidTy t = true ↔ t = Ty.void := by
  cases t <;> simp [TypesMgr.isVoidTy]

theorem TypesMgr.isFunctionTy_false_iff (t : Ty) :
    TypesMgr.isFunctionTy t = false ↔ ∀ ps R, t ≠ Ty.function ps R := by
  cases t <;> simp [TypesMgr.isFunctionTy]

namespace TypeCheck

theorem visitStmt_procCall_function {S : SymTable} {f : String} {args : List Expr}
    {ps : List Ty} {R : Ty} {as : List Attr}
    (hf : (visitIdent S f).ty = Ty.function ps R) (ha : visitArgs S args = some as) :
    ∃ eff, visitStmt S (Stmt.procCall f args) = some eff ∧
      eff.errors = (as.map (fun a => a.errors)).flatten ++
        (if args.length ≠ ps.length then [SemError.numberOfParameters (Node.ident f)]
         else (paramChecks (Node.statement (Stmt.procCall f args)) 0 ps args as).flatten) := by
  have hE : (visitIdent S f).errors = [] :=
    visitIdent_errors_of_ty (by rw [hf]; exact fun h => Ty.noConfusion h)
  by_cases hl : args.length = ps.length
  · simp [visitStmt, hf, TypesMgr.isErrorTy, TypesMgr.isFunctionTy, ha,
      TypesMgr.getNumOfParameters, TypesMgr.getFuncParamsTypes, hl, hE, procCallChecks_eq]
  · simp [visitStmt, hf, TypesMgr.isErrorTy, TypesMgr.isFunctionTy, ha,
      TypesMgr.getNumOfParameters, hl, hE]

theorem visitExpr_callFunc_function {S : SymTable} {f : String} {args : List Expr}
    {ps : List Ty} {R : Ty} {as : List Attr}
    (hf : (visitIdent S f).ty = Ty.function ps R) (ha : visitArgs S args = some as) :
    ∃ r, visitExpr S (Expr.callFunc f args) = some r ∧
      r.ty = (if TypesMgr.isVoidTy R = true then Ty.error else R) ∧ r.isLValue = false ∧
      r.errors =
        (if TypesMgr.isVoidTy R = true then [SemError.isNotFunction (Node.ident f)] else []) ++
        (if args.length ≠ ps.length then [SemError.numberOfParameters (Node.ident f)]
         else (List.zipWith (· ++ ·) (as.map (fun a => a.errors))
           (paramChecks (Node.expr (Expr.callFunc f args)) 0 ps args as)).flatten) := by
  have hE : (visitIdent S f).errors = [] :=
    visitIdent_errors_of_ty (by rw [hf]; exact fun h => Ty.noConfusion h)
  by_cases hl : args.length = ps.length
  · have hcf := visitCallFuncArgs_of_visitArgs (Node.expr (Expr.callFunc f args)) 0 ps args as
      ha hl
    rw [Option.map_eq_some'] at hcf
    obtain ⟨q, hq, he⟩ := hcf
    simp [visitExpr, hf, TypesMgr.isErrorTy, TypesMgr.isFunctionTy,
      TypesMgr.getFuncReturnType, TypesMgr.isVoidFunction,
      TypesMgr.getNumOfParameters, TypesMgr.getFuncParamsTypes, hl, hE, hq, he]
  · simp [visitExpr, hf, TypesMgr.isErrorTy, TypesMgr.isFunctionTy,
      TypesMgr.getFuncReturnType, TypesMgr.isVoidFunction,
      TypesMgr.getNumOfParameters, hl, hE]

end TypeCheck

/-- C21: for every call `f(args)` whose callee has a Function type and whose arguments
are analysed (statement form and expression form): if the number of arguments differs
from the number of parameters, the call reports exactly one number-of-parameters
diagnostic and no incompatible-parameter diagnostic (the statement form after the
diagnostics of the arguments, the expression form without visiting them); if the
counts agree, the call reports for argument `i` (from 0) the diagnostic
incompatible-parameter `i + 1` exactly when its type `T` is not Error, differs from
the parameter type `P`, and not (`P` = Float and `T` = Integer), the statement form
after the diagnostics of all arguments and the expression form right after those of
argument `i`. -/
theorem C21_parameter_diagnostics (S : SymTable) (f : String) (args : List Expr)
    (ps : List Ty) (R : Ty) (as : List TypeCheck.Attr)
    (hf : (TypeCheck.visitIdent S f).ty = Ty.function ps R)
    (ha : TypeCheck.visitArgs S args = some as) :
    ∃ eff r, TypeCheck.visitStmt S (TypeCheck.Stmt.procCall f args) = some eff ∧
      TypeCheck.visitExpr S (Expr.callFunc f args) = some r ∧
      (args.length ≠ ps.length →
        eff.errors = (as.map (fun a => a.errors)).flatten ++
          [TypeCheck.SemError.numberOfParameters (TypeCheck.Node.ident f)] ∧
        r.errors =
          (if TypesMgr.isVoidTy R = true
            then [TypeCheck.SemError.isNotFunction (TypeCheck.Node.ident f)] else []) ++
          [TypeCheck.SemError.numberOfParameters (TypeCheck.Node.ident f)]) ∧
      (args.length = ps.length →
        ∃ ownS ownE : List (List TypeCheck.SemError),
          eff.errors = (as.map (fun a => a.errors)).flatten ++ ownS.flatten ∧
          r.errors =
            (if TypesMgr.isVoidTy R = true
              then [TypeCheck.SemError.isNotFunction (TypeCheck.Node.ident f)] else []) ++
            (List.zipWith (· ++ ·) (as.map (fun a => a.errors)) ownE).flatten ∧
          ownS.length = args.length ∧ ownE.length = args.length ∧
          ∀ (i : Nat) (e : Expr) (a : TypeCheck.Attr) (p : Ty),
            args.get? i = some e → as.get? i = some a → ps.get? i = some p →
            ((a.ty ≠ Ty.error ∧ a.ty ≠ p ∧ ¬(p = Ty.float ∧ a.ty = Ty.integer)) →
              ownS.get? i = some [TypeCheck.SemError.incompatibleParameter (TypeCheck.Node.expr e)
                (i + 1) (TypeCheck.Node.statement (TypeCheck.Stmt.procCall f args))] ∧
              ownE.get? i = some [TypeCheck.SemError.incompatibleParameter (TypeCheck.Node.expr e)
                (i + 1) (TypeCheck.Node.expr (Expr.callFunc f args))]) ∧
            (¬(a.ty ≠ Ty.error ∧ a.ty ≠ p ∧ ¬(p = Ty.float ∧ a.ty = Ty.integer)) →
              ownS.get? i = some [] ∧ ownE.get? i = some [])) := by
  have hlen := TypeCheck.visitArgs_length ha
  obtain ⟨eff, hs, hse⟩ := TypeCheck.visitStmt_procCall_function hf ha
  obtain ⟨r, hr, _, _, hre⟩ := TypeCheck.visitExpr_callFunc_function hf ha
  refine ⟨eff, r, hs, hr, fun hl => ?_, fun hl => ?_⟩
  · rw [if_pos hl] at hse hre
    exact ⟨hse, hre⟩
  · rw [if_neg (not_not.mpr hl)] at hse hre
    refine ⟨_, _, hse, hre, TypeCheck.paramChecks_length _ 0 ps args as hl hlen,
      TypeCheck.paramChecks_length _ 0 ps args as hl hlen, ?_⟩
    intro i e a p h1 h2 h3
    have g1 := TypeCheck.paramChecks_get?
      (TypeCheck.Node.statement (TypeCheck.Stmt.procCall f args)) 0 ps args as i e a p h1 h2 h3
    have g2 := TypeCheck.paramChecks_get?
      (TypeCheck.Node.expr (Expr.callFunc f args)) 0 ps args as i e a p h1 h2 h3
    rw [Nat.zero_add] at g1 g2
    constructor
    · intro hc
      rw [g1, g2, TypeCheck.paramCheck_reported hc, TypeCheck.paramCheck_reported hc]
      exact ⟨rfl, rfl⟩
    · intro hc
      rw [g1, g2, TypeCheck.paramCheck_silent hc, TypeCheck.paramCheck_silent hc]
      exact ⟨rfl, rfl⟩

/-- C22: for every call expression `f(args)`: if the type of `f` is neither Error nor a
Function, the expression reports is-not-callable and has type Error; if `f` is a
Function with Void result it reports is-not-function and has type Error; if `f` is a
Function with a non-Void result `R` it has type `R` and reports no is-not-function,
whatever the arguments report; and it is never an l-value.  The statement form
reports is-not-callable under the same condition, not when the type of `f` is Error
or a Function, and never is-not-function: for a Function callee its diagnostics are
those of the arguments followed by number-of-parameters or incompatible-parameter
diagnostics only. -/
theorem C22_call_typing (S : SymTable) (f : String) (args : List Expr) :
    ((TypeCheck.visitIdent S f).ty ≠ Ty.error →
      (∀ ps R, (TypeCheck.visitIdent S f).ty ≠ Ty.function ps R) →
      ∃ r eff, TypeCheck.visitExpr S (Expr.callFunc f args) = some r ∧
        r.ty = Ty.error ∧ r.isLValue = false ∧
        r.errors = [TypeCheck.SemError.isNotCallable (TypeCheck.Node.ident f)] ∧
        TypeCheck.visitStmt S (TypeCheck.Stmt.procCall f args) = some eff ∧
        eff.errors = [TypeCheck.SemError.isNotCallable (TypeCheck.Node.ident f)]) ∧
    (∀ (ps : List Ty) (R : Ty) (as : List TypeCheck.Attr),
      (TypeCheck.visitIdent S f).ty = Ty.function ps R →
      TypeCheck.visitArgs S args = some as →
      ∃ r eff, ∃ (rest : List TypeCheck.SemError) (own : List (List TypeCheck.SemError)),
        TypeCheck.visitExpr S (Expr.callFunc f args) = some r ∧ r.isLValue = false ∧
        (R = Ty.void → r.ty = Ty.error ∧
          r.errors = TypeCheck.SemError.isNotFunction (TypeCheck.Node.ident f) :: rest) ∧
        (R ≠ Ty.void → r.ty = R ∧ r.errors = rest) ∧
        (rest = [TypeCheck.SemError.numberOfParameters (TypeCheck.Node.ident f)] ∨
         ∃ ownE : List (List TypeCheck.SemError),
           rest = (List.zipWith (· ++ ·) (as.map (fun a => a.errors)) ownE).flatten ∧
           ∀ l ∈ ownE, ∀ x ∈ l, ∃ e k c, x = TypeCheck.SemError.incompatibleParameter e k c) ∧
        TypeCheck.visitStmt S (TypeCheck.Stmt.procCall f args) = some eff ∧
        eff.errors = (as.map (fun a => a.errors)).flatten ++ own.flatten ∧
        ∀ l ∈ own, ∀ x ∈ l,
          x = TypeCheck.SemError.numberOfParameters (TypeCheck.Node.ident f) ∨
          ∃ e k c, x = TypeCheck.SemError.incompatibleParameter e k c) ∧
    ((TypeCheck.visitIdent S f).ty = Ty.error →
      TypeCheck.visitStmt S (TypeCheck.Stmt.procCall f args) =
        some { errors := (TypeCheck.visitIdent S f).errors,
               decor := (TypeCheck.visitIdent S f).decor }) := by
  refine ⟨?_, ?_, ?_⟩
  · intro h1 h2
    have hE := TypeCheck.visitIdent_errors_of_ty h1
    rw [← TypesMgr.isErrorTy_false_iff] at h1
    rw [← TypesMgr.isFunctionTy_false_iff] at h2
    exact ⟨_, _, by simp [TypeCheck.visitExpr, h1, h2]; rfl, rfl, rfl, by simp [hE],
      by simp [TypeCheck.visitStmt, h1, h2]; rfl, by simp [hE]⟩
  · intro ps R as hf ha
    obtain ⟨eff, hs, hse⟩ := TypeCheck.visitStmt_procCall_function hf ha
    obtain ⟨r, hr, hrt, hrl, hre⟩ := TypeCheck.visitExpr_callFunc_function hf ha
    refine ⟨r, eff,
      (if args.length ≠ ps.length
        then [TypeCheck.SemError.numberOfParameters (TypeCheck.Node.ident f)]
        else (List.zipWith (· ++ ·) (as.map (fun a => a.errors))
          (TypeCheck.paramChecks (TypeCheck.Node.expr (Expr.callFunc f args)) 0 ps args
            as)).flatten),
      (if args.length ≠ ps.length
        then [[TypeCheck.SemError.numberOfParameters (TypeCheck.Node.ident f)]]
        else TypeCheck.paramChecks (TypeCheck.Node.statement (TypeCheck.Stmt.procCall f args))
          0 ps args as),
      hr, hrl, ?_, ?_, ?_, hs, ?_, ?_⟩
    · intro hR
      rw [if_pos ((TypesMgr.isVoidTy_iff R).mpr hR)] at hrt hre
      exact ⟨hrt, hre⟩
    · intro hR
      rw [if_neg (fun h => hR ((TypesMgr.isVoidTy_iff R).mp h))] at hrt hre
      exact ⟨hrt, hre⟩
    · by_cases hl : args.length = ps.length
      · right
        refine ⟨TypeCheck.paramChecks (TypeCheck.Node.expr (Expr.callFunc f args)) 0 ps args as,
          ?_, fun l hl x hx => ?_⟩
        · rw [if_neg (not_not.mpr hl)]
        · obtain ⟨e, k, h⟩ := TypeCheck.paramChecks_mem _ 0 ps args as l hl x hx
          exact ⟨_, _, _, h⟩
      · left
        rw [if_pos hl]
    · rw [hse]
      split <;> simp
    · intro l hl x hx
      split at hl
      · simp only [List.mem_singleton] at hl
        subst hl
        left
        simpa using hx
      · right
        obtain ⟨e, k, h⟩ := TypeCheck.paramChecks_mem _ 0 ps args as l hl x hx
        exact ⟨_, _, _, h⟩
  · intro h
    rw [← TypesMgr.isErrorTy_iff] at h
    simp [TypeCheck.visitStmt, h]

theorem callCode_last (name : String) (t : Ty) (code : instructionList) (n : Nat)
    (args : instructionList) (c : counters) :
    (CodeGen.callCode name t code n args c).1.offs = "" ∧
    (CodeGen.callCode name t code n args c).1.code.getLast? =
      some (Instr.POP (some (CodeGen.callCode name t code n args c).1.addr)) := by
  refine ⟨rfl, ?_⟩
  show (_ ++ [_]).getLast? = _
  exact List.getLast?_concat _

/-- C23: for every callee `f`, argument list and starting counters, the procedure-call
statement `f(args)` generates exactly the instruction list (and leaves exactly the
counters) of the call expression `f(args)`, and is undefined exactly when the
expression is; the expression form returns `(t, "", code)` where the last instruction
of `code` is `POP t`. -/
theorem C23_call_statement_and_expression_agree (S : SymTable) (c : counters) (f : String)
    (args : List Expr) :
    CodeGen.visitStmt S c (CodeGen.Stmt.procCall f args) =
      (CodeGen.visitExpr S c (Expr.callFunc f args)).map (fun r => (r.1.code, r.2)) ∧
    ∀ r, CodeGen.visitExpr S c (Expr.callFunc f args) = some r →
      r.1.offs = "" ∧ r.1.code.getLast? = some (Instr.POP (some r.1.addr)) := by
  cases args with
  | nil =>
    refine ⟨by simp [CodeGen.visitStmt, CodeGen.visitExpr, CodeGen.visitIdent], ?_⟩
    intro r h
    simp only [CodeGen.visitExpr, CodeGen.visitIdent, Option.pure_def, Option.bind_eq_bind,
      Option.some.injEq] at h
    subst h
    exact callCode_last _ _ _ _ _ _
  | cons e es =>
    refine ⟨?_, ?_⟩
    · simp only [CodeGen.visitStmt, CodeGen.visitExpr, CodeGen.visitIdent, Option.pure_def,
        Option.bind_eq_bind]
      cases TypesMgr.getFuncParamsTypes (TypeCheck.visitIdent S f).ty with
      | none => rfl
      | some pts =>
        simp only [Option.some_bind]
        cases CodeGen.visitParams S pts 0 c (e :: es) with
        | none => rfl
        | some rp => rfl
    · intro r h
      simp only [CodeGen.visitExpr, CodeGen.visitIdent, Option.pure_def, Option.bind_eq_bind,
        Option.bind_eq_some] at h
      obtain ⟨pts, _, rp, _, h⟩ := h
      simp only [Option.some.injEq] at h
      subst h
      exact callCode_last _ _ _ _ _ _

theorem TypeCheck.visitFunction_eq (S : SymTable) (f : FunctionNode TypeCheck.Stmt) :
    ∃ T : SymTable, T.stack = f.scope :: S.stack ∧
      TypeCheck.visitFunction S f =
        (TypeCheck.visitStatements T f.statements).map (fun r => (r, T.popScope)) := by
  cases hb : f.basic_type with
  | none =>
    refine ⟨(S.setCurrentFunctionTy Ty.void).pushThisScope f.scope, rfl, ?_⟩
    simp only [TypeCheck.visitFunction, hb]
    split <;> rename_i h <;> rw [h] <;> rfl
  | some b =>
    refine ⟨(S.setCurrentFunctionTy b.toTy).pushThisScope f.scope, rfl, ?_⟩
    simp only [TypeCheck.visitFunction, hb]
    split <;> rename_i h <;> rw [h] <;> rfl

theorem TypeCheck.visitFunction_stack {S : SymTable} {f : FunctionNode TypeCheck.Stmt}
    {r : TypeCheck.Effect} {S' : SymTable} (h : TypeCheck.visitFunction S f = some (r, S')) :
    S'.stack = S.stack := by
  obtain ⟨T, hT, e⟩ := TypeCheck.visitFunction_eq S f
  rw [e, Option.map_eq_some'] at h
  obtain ⟨q, _, h⟩ := h
  simp only [Prod.mk.injEq] at h
  rw [← h.2, SymTable.popScope, hT]
  rfl

theorem CodeGen.visitFunction_leaves_stack (S : SymTable) (f : FunctionNode CodeGen.Stmt) :
    (CodeGen.visitFunction S f).map (fun p => p.2.stack) =
      (CodeGen.visitStatements (S.pushThisScope f.scope)
        counters.reset f.statements).map (fun _ => S.stack) := by
  simp only [CodeGen.visitFunction]
  split <;> rename_i h <;> rw [h] <;> rfl

theorem TypeCheck.visitFunctions_stack {S : SymTable} :
    ∀ {fs : List (FunctionNode TypeCheck.Stmt)} {r : TypeCheck.Effect} {S' : SymTable},
      TypeCheck.visitFunctions S fs = some (r, S') → S'.stack = S.stack
  | [], r, S', h => by
    simp only [TypeCheck.visitFunctions, Option.some.injEq, Prod.mk.injEq] at h
    rw [← h.2]
  | f :: fs, r, S', h => by
    simp only [TypeCheck.visitFunctions] at h
    split at h
    · rename_i r1 S1 h1
      split at h
      · rename_i rs S2 h2
        simp only [Option.some.injEq, Prod.mk.injEq] at h
        rw [← h.2, TypeCheck.visitFunctions_stack h2, TypeCheck.visitFunction_stack h1]
      · simp at h
    · simp at h

theorem CodeGen.visitFunctions_table {S : SymTable} :
    ∀ {fs : List (FunctionNode CodeGen.Stmt)} {subs : List subroutine} {S' : SymTable},
      CodeGen.visitFunctions S fs = some (subs, S') → S' = S
  | [], subs, S', h => by
    simp only [CodeGen.visitFunctions, Option.some.injEq, Prod.mk.injEq] at h
    exact h.2.symm
  | f :: fs, subs, S', h => by
    simp only [CodeGen.visitFunctions] at h
    split at h
    · rename_i sub S1 h1
      split at h
      · rename_i rest S2 h2
        simp only [Option.some.injEq, Prod.mk.injEq] at h
        rw [← h.2, CodeGen.visitFunctions_table h2, (CodeGen.visitFunction_inv h1).1]
      · simp at h
    · simp at h

/-- C24: scope-stack balance.  The analyzer's and the generator's `visitFunction` visit
the body with the function's scope pushed on the entry stack, return exactly when
that visit returns, and then leave the scope stack as it was on entry; and
`visitProgram` of either visitor, whenever it returns, leaves the scope stack as it
found it.  The diagnostics emitted while visiting the body play no part. -/
theorem C24_scope_stack_balance (S : SymTable) :
    (∀ f : FunctionNode TypeCheck.Stmt, ∃ T : SymTable, T.stack = f.scope :: S.stack ∧
      (TypeCheck.visitFunction S f).map (fun p => p.2.stack) =
        (TypeCheck.visitStatements T f.statements).map (fun _ => S.stack)) ∧
    (∀ f : FunctionNode CodeGen.Stmt, ∃ T : SymTable, T.stack = f.scope :: S.stack ∧
      (CodeGen.visitFunction S f).map (fun p => p.2.stack) =
        (CodeGen.visitStatements T counters.reset f.statements).map (fun _ => S.stack)) ∧
    (∀ ctx r S', TypeCheck.visitProgram S ctx = some (r, S') → S'.stack = S.stack) ∧
    (∀ ctx subs S', CodeGen.visitProgram S ctx = some (subs, S') → S'.stack = S.stack) := by
  refine ⟨?_, ?_, ?_, ?_⟩
  · intro f
    obtain ⟨T, hT, e⟩ := TypeCheck.visitFunction_eq S f
    refine ⟨T, hT, ?_⟩
    rw [e, Option.map_map]
    have : T.popScope.stack = S.stack := by rw [SymTable.popScope, hT]; rfl
    cases TypeCheck.visitStatements T f.statements with
    | none => rfl
    | some q => simp [this]
  · exact fun f => ⟨_, rfl, CodeGen.visitFunction_leaves_stack S f⟩
  · intro ctx r S' h
    simp only [TypeCheck.visitProgram] at h
    cases h1 : TypeCheck.visitFunctions (S.pushThisScope (globalScope ctx)) ctx with
    | none => simp [h1] at h
    | some q =>
      obtain ⟨r1, S2⟩ := q
      simp only [h1, Option.some.injEq, Prod.mk.injEq] at h
      rw [← h.2]
      simp only [SymTable.popScope, TypeCheck.visitFunctions_stack h1, SymTable.pushThisScope,
        List.tail_cons]
  · intro ctx subs S' h
    simp only [CodeGen.visitProgram] at h
    cases h1 : CodeGen.visitFunctions (S.pushThisScope (globalScope ctx)) ctx with
    | none => simp [h1] at h
    | some q =>
      obtain ⟨r1, S2⟩ := q
      simp only [h1, Option.some.injEq, Prod.mk.injEq] at h
      rw [← h.2, CodeGen.visitFunctions_table h1]
      rfl

/-- C25: for every arithmetic node `a op b` whose operands are analysed with non-Error
types: for `*`, `/`, `+`, `-` the node reports incompatible-operator exactly when not
both operands are Numeric, and is decorated Float if either operand is Float and
Integer otherwise; for `%` it reports incompatible-operator exactly when not both
operands are Integer, and is decorated Integer; the node is never an l-value. -/
theorem C25_arithmetic_node (S : SymTable) (op : ArithOp) (e0 e1 : Expr)
    (a0 a1 : TypeCheck.Attr)
    (h0 : TypeCheck.visitExpr S e0 = some a0) (h1 : TypeCheck.visitExpr S e1 = some a1)
    (n0 : a0.ty ≠ Ty.error) (n1 : a1.ty ≠ Ty.error) :
    ∃ r, TypeCheck.visitExpr S (Expr.arithmetic op e0 e1) = some r ∧
      r.isLValue = false ∧
      (op ≠ ArithOp.MOD →
        r.errors = a0.errors ++ a1.errors ++
          (if TypesMgr.isNumericTy a0.ty = true ∧ TypesMgr.isNumericTy a1.ty = true then []
           else [TypeCheck.SemError.incompatibleOperator (TypeCheck.Node.token op.getText)]) ∧
        (a0.ty = Ty.float ∨ a1.ty = Ty.float → r.ty = Ty.float) ∧
        (a0.ty ≠ Ty.float → a1.ty ≠ Ty.float → r.ty = Ty.integer)) ∧
      (op = ArithOp.MOD →
        r.errors = a0.errors ++ a1.errors ++
          (if TypesMgr.isIntegerTy a0.ty = true ∧ TypesMgr.isIntegerTy a1.ty = true then []
           else [TypeCheck.SemError.incompatibleOperator (TypeCheck.Node.token op.getText)]) ∧
        r.ty = Ty.integer) := by
  refine ⟨_, TypeCheck.visitExpr_arithmetic h0 h1 op, rfl, ?_, ?_⟩
  · intro hop
    rw [← TypesMgr.isErrorTy_false_iff] at n0 n1
    simp only [← TypesMgr.isFloatTy_iff, Ne]
    cases op <;> first | exact absurd rfl hop | skip
    all_goals
      simp only [TypeCheck.arithmetic, TypeCheck.arithmeticCheck, n0, n1]
      generalize TypesMgr.isNumericTy a0.ty = x0
      generalize TypesMgr.isNumericTy a1.ty = x1
      generalize TypesMgr.isFloatTy a0.ty = f0
      generalize TypesMgr.isFloatTy a1.ty = f1
      cases x0 <;> cases x1 <;> cases f0 <;> cases f1 <;> simp <;> rfl
  · intro hop
    subst hop
    rw [← TypesMgr.isErrorTy_false_iff] at n0 n1
    simp only [TypeCheck.arithmetic, TypeCheck.arithmeticCheck, n0, n1]
    generalize TypesMgr.isIntegerTy a0.ty = x0
    generalize TypesMgr.isIntegerTy a1.ty = x1
    cases x0 <;> cases x1 <;> simp

/-- C26, the claim refuted: in `not 1` the operand is decorated with type Integer, which
is not Error, and the node `not 1` is decorated with type Integer, not Boolean. -/
theorem C26_counterexample :
    (TypeCheck.visitExpr SymTable.init (Expr.value ValueKind.INTVAL "1")).map (fun a => a.ty) =
      some Ty.integer ∧
    (TypeCheck.visitExpr SymTable.init
      (Expr.unary UnaryOp.NOT (Expr.value ValueKind.INTVAL "1"))).map (fun a => a.ty) =
      some Ty.integer ∧
    Ty.integer ≠ Ty.error ∧ Ty.integer ≠ Ty.boolean :=
  ⟨rfl, rfl, fun h => Ty.noConfusion h, fun h => Ty.noConfusion h⟩

/-- C26, amended: for every unary node whose operand is analysed, `not e`, `+e` and
`-e` are all decorated with the type of `e`, so `not e` is decorated with type Boolean
exactly when `e` has type Boolean; the node is never an l-value. -/
theorem C26_unary_node_has_the_operand_type (S : SymTable) (op : UnaryOp) (e : Expr)
    (a : TypeCheck.Attr) (h : TypeCheck.visitExpr S e = some a) :
    ∃ r, TypeCheck.visitExpr S (Expr.unary op e) = some r ∧ r.ty = a.ty ∧
      r.isLValue = false ∧
      (TypeCheck.visitExpr S (Expr.unary UnaryOp.NOT e)).map (fun x => TypesMgr.isBooleanTy x.ty) =
        some (TypesMgr.isBooleanTy a.ty) :=
  ⟨_, TypeCheck.visitExpr_unary h op, rfl, rfl, by
    rw [TypeCheck.visitExpr_unary h UnaryOp.NOT]; rfl⟩

/-- C27: for every indexed left expression `id[E]` whose identifier has an Array type
and whose index is analysed, the left expression is decorated with the element type
of the array; if the type of `E` is neither Error nor Integer,
non-integer-index is reported and the l-value flag is false; otherwise nothing is
reported by the node and the l-value flag is that of `id`.  For a non-indexed left
expression both the type and the l-value flag are those of `id`. -/
theorem C27_left_expression_decorations (S : SymTable) (ident : String) :
    (∀ (E : Expr) (elem : Ty) (n : Nat) (a1 : TypeCheck.Attr),
      (TypeCheck.visitIdent S ident).ty = Ty.array elem n →
      TypeCheck.visitExpr S E = some a1 →
      ∃ r, TypeCheck.visitLeft_expr S ⟨ident, some E⟩ = some r ∧ r.ty = elem ∧
        (a1.ty ≠ Ty.error ∧ a1.ty ≠ Ty.integer →
          r.errors = (TypeCheck.visitIdent S ident).errors ++ a1.errors ++
            [TypeCheck.SemError.nonIntegerIndexInArrayAccess (TypeCheck.Node.expr E)] ∧
          r.isLValue = false) ∧
        (a1.ty = Ty.error ∨ a1.ty = Ty.integer →
          r.errors = (TypeCheck.visitIdent S ident).errors ++ a1.errors ∧
          r.isLValue = (TypeCheck.visitIdent S ident).isLValue)) ∧
    ∃ r, TypeCheck.visitLeft_expr S ⟨ident, none⟩ = some r ∧
      r.ty = (TypeCheck.visitIdent S ident).ty ∧
      r.isLValue = (TypeCheck.visitIdent S ident).isLValue := by
  refine ⟨?_, ?_⟩
  · intro E elem n a1 ht h1
    have he : TypesMgr.isErrorTy (TypeCheck.visitIdent S ident).ty = false := by rw [ht]; rfl
    have ha : TypesMgr.isArrayTy (TypeCheck.visitIdent S ident).ty = true := by rw [ht]; rfl
    have hg : TypesMgr.getArrayElemType (TypeCheck.visitIdent S ident).ty = some elem := by
      rw [ht]; rfl
    refine ⟨_, by simp [TypeCheck.visitLeft_expr, he, ha, hg, h1]; rfl, rfl, ?_, ?_⟩
    · rintro ⟨x1, x2⟩
      rw [← TypesMgr.isErrorTy_false_iff] at x1
      have x3 : TypesMgr.isIntegerTy a1.ty = false := by
        rw [← Bool.not_eq_true, TypesMgr.isIntegerTy_iff]; exact x2
      simp [x1, x3]
    · intro x
      rcases x with x | x <;> simp [x, TypesMgr.isErrorTy, TypesMgr.isIntegerTy]
  · simp only [TypeCheck.visitLeft_expr]
    split <;> exact ⟨_, rfl, rfl, rfl⟩

theorem endif_eq (s : String) : "end" ++ ("if" ++ s) = "endif" ++ s := by
  rw [← String.append_assoc]; rfl

theorem elseif_eq (s : String) : "else" ++ ("if" ++ s) = "elseif" ++ s := by
  rw [← String.append_assoc]; rfl

theorem endwhile_eq (s : String) : "end" ++ ("while" ++ s) = "endwhile" ++ s := by
  rw [← String.append_assoc]; rfl

/-- C28: for every if statement whose condition generates `(addrC, codeC)` and whose
then-branch generates `T`, with `k` the if-label numeral minted for the statement
(after both have been generated): without else the code is
`codeC ++ [FJUMP addrC, L_end] ++ T ++ [LABEL L_end]`; with an else-branch generating
`E` it is `codeC ++ [FJUMP addrC, L_else] ++ T ++ [UJUMP L_end, LABEL L_else] ++ E ++
[LABEL L_end]`; and `L_end`, `L_else` are distinct labels. -/
theorem C28_if_statement_code (S : SymTable) (c : counters) (e : Expr)
    (s0 : List CodeGen.Stmt) (rC : CodeGen.CodeAttribs × counters)
    (rT : instructionList × counters)
    (hC : CodeGen.visitExpr S c e = some rC)
    (hT : CodeGen.visitStatements S rC.2 s0 = some rT) :
    let k := rT.2.newLabelIF.1
    let L_end := "end" ++ ("if" ++ k)
    let L_else := "else" ++ ("if" ++ k)
    CodeGen.visitStmt S c (CodeGen.Stmt.ifStmt e s0 none) =
      some (rC.1.code ++ [Instr.FJUMP rC.1.addr L_end] ++ rT.1 ++ [Instr.LABEL L_end],
            rT.2.newLabelIF.2) ∧
    (∀ (s1 : List CodeGen.Stmt) (rE : instructionList × counters),
      CodeGen.visitStatements S rT.2.newLabelIF.2 s1 = some rE →
      CodeGen.visitStmt S c (CodeGen.Stmt.ifStmt e s0 (some s1)) =
        some (rC.1.code ++ [Instr.FJUMP rC.1.addr L_else] ++ rT.1 ++
              [Instr.UJUMP L_end, Instr.LABEL L_else] ++ rE.1 ++ [Instr.LABEL L_end], rE.2)) ∧
    L_end ≠ L_else := by
  refine ⟨?_, ?_, endif_ne_elseif _ _⟩
  · simp [CodeGen.visitStmt, hC, hT]
  · intro s1 rE hE
    simp [CodeGen.visitStmt, hC, hT, hE]

theorem LabelIn.forms {c c' : counters} {l : String} (h : LabelIn c c' l) :
    (∃ k, c.IF ≤ k ∧ k < c'.IF ∧ (l = "endif" ++ toString k ∨ l = "elseif" ++ toString k)) ∨
    (∃ k, c.WHILE ≤ k ∧ k < c'.WHILE ∧
      (l = "while" ++ toString k ∨ l = "endwhile" ++ toString k)) := by
  rcases h with ⟨k, h1, h2, h3⟩ | ⟨k, h1, h2, h3⟩
  · left
    refine ⟨k, h1, h2, ?_⟩
    rw [← endif_eq, ← elseif_eq]
    exact h3
  · right
    refine ⟨k, h1, h2, ?_⟩
    rw [← endwhile_eq]
    exact h3

theorem elseif0_not_else (k : Nat) : "elseif0" ≠ "else" ++ toString k := by
  intro h
  have h1 := congrArg String.data h
  rw [String.data_append] at h1
  have h2 : (toString k).data = ['i', 'f', '0'] :=
    (@List.append_cancel_left _ "else".data _ _ h1).symm
  have h3 := decodeNat_toString k
  rw [h2] at h3
  have h4 : (toString (decodeNat 0 ['i', 'f', '0'])).data ≠ ['i', 'f', '0'] := by decide
  rw [h3] at h4
  exact h4 h2

/-- C29, the claim refuted: the statement `if true then else endif`, the first if
statement of a function, is given the number 0 and the labels `elseif0` and `endif0`;
the label of its else-branch is `elseif0`, which is not `else0` and has none of the
forms `endif<k>`, `else<k>`, `while<k>`, `endwhile<k>`. -/
theorem C29_counterexample :
    CodeGen.visitStmt SymTable.init counters.reset
        (CodeGen.Stmt.ifStmt (Expr.value ValueKind.BOOLVAL "true") [] (some [])) =
      some ([Instr.LOAD "%0" "1", Instr.FJUMP "%0" "elseif0", Instr.UJUMP "endif0",
             Instr.LABEL "elseif0", Instr.LABEL "endif0"],
            { TEMP := 1, IF := 1, WHILE := 0 }) ∧
    ∀ k : Nat, "elseif0" ≠ "endif" ++ toString k ∧ "elseif0" ≠ "else" ++ toString k ∧
      "elseif0" ≠ "while" ++ toString k ∧ "elseif0" ≠ "endwhile" ++ toString k := by
  refine ⟨by decide, fun k => ⟨?_, elseif0_not_else k, ?_, ?_⟩⟩ <;>
  · intro h
    have := congrArg String.data h
    simp [String.data_append] at this

/-- C29, amended: every label placed in a subroutine produced by the generator has one
of the forms `endif<k>`, `elseif<k>`, `while<k>`, `endwhile<k>`, with `k` below the
value that the if-label counter, respectively the while-label counter, has reached
from 0 at the end of the function; and the else-branch of the if statement that mints
the number `k` is labelled exactly `elseif<k>`. -/
theorem C29_labels_have_the_generator_forms (ctx : List (FunctionNode CodeGen.Stmt))
    (subs : List subroutine) (h : CodeGen.subroutines ctx = some subs) :
    (∀ s ∈ subs, ∃ f ∈ ctx, ∃ r,
      CodeGen.visitStatements ((SymTable.init.pushThisScope (globalScope ctx)).pushThisScope f.scope)
        counters.reset f.statements = some r ∧
      s.instructions = r.1 ++ [Instr.RETURN] ∧
      ∀ l ∈ labels s.instructions,
        (∃ k, k < r.2.IF ∧ (l = "endif" ++ toString k ∨ l = "elseif" ++ toString k)) ∨
        (∃ k, k < r.2.WHILE ∧ (l = "while" ++ toString k ∨ l = "endwhile" ++ toString k))) ∧
    (∀ (S : SymTable) (c : counters) (e : Expr) (s0 s1 : List CodeGen.Stmt)
       (rC : CodeGen.CodeAttribs × counters) (rT rE : instructionList × counters),
      CodeGen.visitExpr S c e = some rC →
      CodeGen.visitStatements S rC.2 s0 = some rT →
      CodeGen.visitStatements S rT.2.newLabelIF.2 s1 = some rE →
      rT.2.newLabelIF.1 = toString rT.2.IF ∧
      CodeGen.visitStmt S c (CodeGen.Stmt.ifStmt e s0 (some s1)) =
        some (rC.1.code ++ [Instr.FJUMP rC.1.addr ("elseif" ++ toString rT.2.IF)] ++ rT.1 ++
              [Instr.UJUMP ("endif" ++ toString rT.2.IF),
               Instr.LABEL ("elseif" ++ toString rT.2.IF)] ++ rE.1 ++
              [Instr.LABEL ("endif" ++ toString rT.2.IF)], rE.2)) := by
  refine ⟨?_, ?_⟩
  · intro s hs
    obtain ⟨f, hf, r, hr, hi⟩ := CodeGen.subroutines_inv h s hs
    obtain ⟨_, _, h1, _, _⟩ :=
      CodeGen.visitStatements_cases (CodeGen.stmtCases_labels _) _ _ r hr
    refine ⟨f, hf, r, hr, hi, ?_⟩
    intro l hl
    rw [hi, labels_append] at hl
    have e1 : labels [Instr.RETURN] = [] := rfl
    rw [e1, List.append_nil] at hl
    rcases (h1 l hl).forms with ⟨k, _, h2, h3⟩ | ⟨k, _, h2, h3⟩
    · exact Or.inl ⟨k, h2, h3⟩
    · exact Or.inr ⟨k, h2, h3⟩
  · intro S c e s0 s1 rC rT rE hC hT hE
    refine ⟨rfl, ?_⟩
    have hE' : CodeGen.visitStatements S
        { TEMP := rT.2.TEMP, IF := rT.2.IF + 1, WHILE := rT.2.WHILE } s1 = some rE := hE
    simp [CodeGen.visitStmt, hC, hT, hE', counters.newLabelIF, endif_eq, elseif_eq]

/-- C30: for every while statement whose condition generates `(addrC, codeC)` and whose
body generates `B`, with `k` the while-label numeral minted for the statement, the
code is exactly `[LABEL while<k>] ++ codeC ++ [FJUMP addrC, endwhile<k>] ++ B ++
[UJUMP while<k>, LABEL endwhile<k>]`; the label that the back-jump names is placed at
position 0, before the condition code, which therefore lies between the target of
the back-jump and the exit test. -/
theorem C30_while_statement_code (S : SymTable) (c : counters) (e : Expr)
    (s : List CodeGen.Stmt) (rC : CodeGen.CodeAttribs × counters)
    (rB : instructionList × counters)
    (hC : CodeGen.visitExpr S c e = some rC)
    (hB : CodeGen.visitStatements S rC.2 s = some rB) :
    ∃ code, CodeGen.visitStmt S c (CodeGen.Stmt.whileStmt e s) =
        some (code, rB.2.newLabelWHILE.2) ∧
      code = [Instr.LABEL ("while" ++ toString rB.2.WHILE)] ++ rC.1.code ++
        [Instr.FJUMP rC.1.addr ("endwhile" ++ toString rB.2.WHILE)] ++ rB.1 ++
        [Instr.UJUMP ("while" ++ toString rB.2.WHILE),
         Instr.LABEL ("endwhile" ++ toString rB.2.WHILE)] ∧
      labelIndex code ("while" ++ toString rB.2.WHILE) = some 0 ∧
      code.drop 1 = rC.1.code ++
        [Instr.FJUMP rC.1.addr ("endwhile" ++ toString rB.2.WHILE)] ++ rB.1 ++
        [Instr.UJUMP ("while" ++ toString rB.2.WHILE),
         Instr.LABEL ("endwhile" ++ toString rB.2.WHILE)] := by
  refine ⟨_, ?_, rfl, ?_, ?_⟩
  · simp [CodeGen.visitStmt, hC, hB, counters.newLabelWHILE, endwhile_eq]
  · simp [labelIndex]
  · simp

theorem eq_singleton_of_get? {α : Type} {l : List α} {x : α} (h1 : l.length = 1)
    (h2 : l.get? 0 = some x) : l = [x] := by
  match l, h1, h2 with
  | [y], _, h => simpa using h

/-- C21 at `g(c)` in `exampleCallTable`, where `g` takes one Float and `c` is Boolean:
the counts agree and both forms report incompatible-parameter 1 on `c`. -/
theorem C21_witness :
    ∃ eff r, TypeCheck.visitStmt exampleCallTable
        (TypeCheck.Stmt.procCall "g" [Expr.exprIdent "c"]) = some eff ∧
      TypeCheck.visitExpr exampleCallTable (Expr.callFunc "g" [Expr.exprIdent "c"]) = some r ∧
      eff.errors = [TypeCheck.SemError.incompatibleParameter
        (TypeCheck.Node.expr (Expr.exprIdent "c")) 1
        (TypeCheck.Node.statement (TypeCheck.Stmt.procCall "g" [Expr.exprIdent "c"]))] ∧
      r.errors = [TypeCheck.SemError.incompatibleParameter
        (TypeCheck.Node.expr (Expr.exprIdent "c")) 1
        (TypeCheck.Node.expr (Expr.callFunc "g" [Expr.exprIdent "c"]))] := by
  obtain ⟨eff, r, hs, hr, _, h⟩ :=
    C21_parameter_diagnostics exampleCallTable "g" [Expr.exprIdent "c"] [Ty.float] Ty.integer
      [{ ty := Ty.boolean, isLValue := true, errors := [],
         decor := [TypeCheck.Decor.putType (TypeCheck.Node.ident "c") Ty.boolean,
                   TypeCheck.Decor.putIsLValue (TypeCheck.Node.ident "c") true,
                   TypeCheck.Decor.putType (TypeCheck.Node.expr (Expr.exprIdent "c")) Ty.boolean,
                   TypeCheck.Decor.putIsLValue (TypeCheck.Node.expr (Expr.exprIdent "c"))
                     true] }] rfl rfl
  obtain ⟨ownS, ownE, e1, e2, l1, l2, hi⟩ := h rfl
  obtain ⟨g1, g2⟩ := (hi 0 _ _ _ rfl rfl rfl).1
    ⟨fun h => Ty.noConfusion h, fun h => Ty.noConfusion h, fun h => Ty.noConfusion h.2⟩
  rw [eq_singleton_of_get? l1 g1] at e1
  rw [eq_singleton_of_get? l2 g2] at e2
  exact ⟨eff, r, hs, hr, e1, e2⟩

/-- C22 at `p()` in `exampleCallTable`, where `p` is a function without result: the
expression has type Error, is not an l-value and reports is-not-function on `p`, and
the statement reports nothing. -/
theorem C22_witness :
    ∃ r eff, TypeCheck.visitExpr exampleCallTable (Expr.callFunc "p" []) = some r ∧
      r.ty = Ty.error ∧ r.isLValue = false ∧
      r.errors = [TypeCheck.SemError.isNotFunction (TypeCheck.Node.ident "p")] ∧
      TypeCheck.visitStmt exampleCallTable (TypeCheck.Stmt.procCall "p" []) = some eff ∧
      eff.errors = [] := by
  obtain ⟨r, eff, rest, own, hr, hl, h1, _, h3, hs, h4, h5⟩ :=
    (C22_call_typing exampleCallTable "p" []).2.1 [] Ty.void [] rfl rfl
  have e1 : TypeCheck.visitExpr exampleCallTable (Expr.callFunc "p" []) =
      some { ty := Ty.error, isLValue := false,
             errors := [TypeCheck.SemError.isNotFunction (TypeCheck.Node.ident "p")],
             decor := [TypeCheck.Decor.putType (TypeCheck.Node.ident "p") (Ty.function [] Ty.void),
                       TypeCheck.Decor.putIsLValue (TypeCheck.Node.ident "p") false,
                       TypeCheck.Decor.putType (TypeCheck.Node.expr (Expr.callFunc "p" [])) Ty.error,
                       TypeCheck.Decor.putIsLValue (TypeCheck.Node.expr (Expr.callFunc "p" []))
                         false] } := rfl
  have e2 : TypeCheck.visitStmt exampleCallTable (TypeCheck.Stmt.procCall "p" []) =
      some { errors := [],
             decor := [TypeCheck.Decor.putType (TypeCheck.Node.ident "p") (Ty.function [] Ty.void),
                       TypeCheck.Decor.putIsLValue (TypeCheck.Node.ident "p") false] } := rfl
  rw [e1] at hr
  rw [e2] at hs
  simp only [Option.some.injEq] at hr hs
  subst hr hs
  exact ⟨_, _, e1, (h1 rfl).1, hl, rfl, e2, rfl⟩

/-- C23 at `g(a)` in `exampleCallTable` from the initial counters: both forms generate
`PUSH ; FLOAT %0, a ; PUSH %0 ; CALL g ; POP ; POP %1`, and the expression form
returns `%1`. -/
theorem C23_witness :
    CodeGen.visitStmt exampleCallTable counters.reset
        (CodeGen.Stmt.procCall "g" [Expr.exprIdent "a"]) =
      some ([Instr.PUSH none, Instr.FLOAT "%0" "a", Instr.PUSH (some "%0"), Instr.CALL "g",
             Instr.POP none, Instr.POP (some "%1")], { TEMP := 2, IF := 0, WHILE := 0 }) ∧
    (CodeGen.visitExpr exampleCallTable counters.reset
        (Expr.callFunc "g" [Expr.exprIdent "a"])).map (fun r => (r.1.addr, r.1.offs)) =
      some ("%1", "") := by
  have h := (C23_call_statement_and_expression_agree exampleCallTable counters.reset "g"
    [Expr.exprIdent "a"]).1
  have e : CodeGen.visitExpr exampleCallTable counters.reset
      (Expr.callFunc "g" [Expr.exprIdent "a"]) =
      some ({ addr := "%1", offs := "",
              code := [Instr.PUSH none, Instr.FLOAT "%0" "a", Instr.PUSH (some "%0"),
                       Instr.CALL "g", Instr.POP none, Instr.POP (some "%1")] },
            { TEMP := 2, IF := 0, WHILE := 0 }) := by decide
  rw [e] at h
  exact ⟨h, by rw [e]; rfl⟩

/-- C24 at scenario S7, whose body reports boolean-required, and at scenario S1: both
visits return and leave the empty scope stack of the start. -/
theorem C24_witness :
    (∃ r S', TypeCheck.visitProgram SymTable.init exampleS7 = some (r, S') ∧
      r.errors = [TypeCheck.SemError.booleanRequired (TypeCheck.Node.statement stmtS7)] ∧
      S'.stack = []) ∧
    (∃ subs S', CodeGen.visitProgram SymTable.init exampleS1 = some (subs, S') ∧
      S'.stack = []) :=
  ⟨⟨_, _, rfl, rfl, (C24_scope_stack_balance SymTable.init).2.2.1 exampleS7 _ _ rfl⟩,
   ⟨_, _, rfl, (C24_scope_stack_balance SymTable.init).2.2.2 exampleS1 _ _ rfl⟩⟩

/-- C25 at `a + b` in `exampleIntFloatTable`, with `a` Integer and `b` Float: the node
is decorated Float, reports nothing and is not an l-value. -/
theorem C25_witness :
    ∃ r, TypeCheck.visitExpr exampleIntFloatTable
        (Expr.arithmetic ArithOp.PLUS (Expr.exprIdent "a") (Expr.exprIdent "b")) = some r ∧
      r.ty = Ty.float ∧ r.errors = [] ∧ r.isLValue = false := by
  obtain ⟨r, hr, hl, h1, _⟩ :=
    C25_arithmetic_node exampleIntFloatTable ArithOp.PLUS (Expr.exprIdent "a")
      (Expr.exprIdent "b")
      { ty := Ty.integer, isLValue := true, errors := [],
        decor := [TypeCheck.Decor.putType (TypeCheck.Node.ident "a") Ty.integer,
                  TypeCheck.Decor.putIsLValue (TypeCheck.Node.ident "a") true,
                  TypeCheck.Decor.putType (TypeCheck.Node.expr (Expr.exprIdent "a")) Ty.integer,
                  TypeCheck.Decor.putIsLValue (TypeCheck.Node.expr (Expr.exprIdent "a")) true] }
      { ty := Ty.float, isLValue := true, errors := [],
        decor := [TypeCheck.Decor.putType (TypeCheck.Node.ident "b") Ty.float,
                  TypeCheck.Decor.putIsLValue (TypeCheck.Node.ident "b") true,
                  TypeCheck.Decor.putType (TypeCheck.Node.expr (Expr.exprIdent "b")) Ty.float,
                  TypeCheck.Decor.putIsLValue (TypeCheck.Node.expr (Expr.exprIdent "b")) true] }
      rfl rfl (fun h => Ty.noConfusion h) (fun h => Ty.noConfusion h)
  obtain ⟨he, ht, _⟩ := h1 (fun h => ArithOp.noConfusion h)
  exact ⟨r, hr, ht (Or.inr rfl), by rw [he]; rfl, hl⟩

/-- C26 at `not 1` in the empty symbol table: the node is decorated Integer, the type
of its operand. -/
theorem C26_witness :
    ∃ r, TypeCheck.visitExpr SymTable.init
        (Expr.unary UnaryOp.NOT (Expr.value ValueKind.INTVAL "1")) = some r ∧
      r.ty = Ty.integer ∧ r.isLValue = false := by
  obtain ⟨r, hr, ht, hl, _⟩ :=
    C26_unary_node_has_the_operand_type SymTable.init UnaryOp.NOT
      (Expr.value ValueKind.INTVAL "1")
      (TypeCheck.visitValue (Expr.value ValueKind.INTVAL "1") ValueKind.INTVAL) rfl
  exact ⟨r, hr, ht, hl⟩

/-- C27 at `v[true]` in `exampleS4Table`, with `v` an array of Integer: the left
expression is decorated Integer, reports non-integer-index on `true` and is not an
l-value. -/
theorem C27_witness :
    ∃ r, TypeCheck.visitLeft_expr exampleS4Table
        ⟨"v", some (Expr.value ValueKind.BOOLVAL "true")⟩ = some r ∧
      r.ty = Ty.integer ∧ r.isLValue = false ∧
      r.errors = [TypeCheck.SemError.nonIntegerIndexInArrayAccess
        (TypeCheck.Node.expr (Expr.value ValueKind.BOOLVAL "true"))] := by
  obtain ⟨r, hr, ht, h1, _⟩ :=
    (C27_left_expression_decorations exampleS4Table "v").1 (Expr.value ValueKind.BOOLVAL "true")
      Ty.integer 3
      (TypeCheck.visitValue (Expr.value ValueKind.BOOLVAL "true") ValueKind.BOOLVAL) rfl rfl
  obtain ⟨he, hl⟩ := h1 ⟨fun h => Ty.noConfusion h, fun h => Ty.noConfusion h⟩
  exact ⟨r, hr, ht, hl, by rw [he]; rfl⟩

/-- C28 at `if true then endif` and `if true then else endif` from the initial
counters. -/
theorem C28_witness :
    CodeGen.visitStmt SymTable.init counters.reset
        (CodeGen.Stmt.ifStmt (Expr.value ValueKind.BOOLVAL "true") [] none) =
      some ([Instr.LOAD "%0" "1", Instr.FJUMP "%0" "endif0", Instr.LABEL "endif0"],
            { TEMP := 1, IF := 1, WHILE := 0 }) ∧
    CodeGen.visitStmt SymTable.init counters.reset
        (CodeGen.Stmt.ifStmt (Expr.value ValueKind.BOOLVAL "true") [] (some [])) =
      some ([Instr.LOAD "%0" "1", Instr.FJUMP "%0" "elseif0", Instr.UJUMP "endif0",
             Instr.LABEL "elseif0", Instr.LABEL "endif0"],
            { TEMP := 1, IF := 1, WHILE := 0 }) := by
  have h := C28_if_statement_code SymTable.init counters.reset
    (Expr.value ValueKind.BOOLVAL "true") []
    ({ addr := "%0", offs := "", code := [Instr.LOAD "%0" "1"] },
     { TEMP := 1, IF := 0, WHILE := 0 })
    ([], { TEMP := 1, IF := 0, WHILE := 0 }) (by decide) rfl
  exact ⟨h.1.trans (by decide),
    (h.2.1 [] ([], { TEMP := 1, IF := 1, WHILE := 0 }) rfl).trans (by decide)⟩

/-- C29 at `exampleControl`: every label of its subroutine has one of the four forms. -/
theorem C29_witness :
    ∃ subs, CodeGen.subroutines exampleControl = some subs ∧
      ∀ s ∈ subs, ∀ l ∈ labels s.instructions,
        (∃ k : Nat, l = "endif" ++ toString k ∨ l = "elseif" ++ toString k) ∨
        (∃ k : Nat, l = "while" ++ toString k ∨ l = "endwhile" ++ toString k) := by
  have h : (CodeGen.subroutines exampleControl).isSome = true := by decide!
  obtain ⟨subs, hs⟩ := Option.isSome_iff_exists.mp h
  refine ⟨subs, hs, fun s hm l hl => ?_⟩
  obtain ⟨f, _, r, _, _, hf⟩ :=
    (C29_labels_have_the_generator_forms exampleControl subs hs).1 s hm
  rcases hf l hl with ⟨k, _, h⟩ | ⟨k, _, h⟩
  · exact Or.inl ⟨k, h⟩
  · exact Or.inr ⟨k, h⟩

/-- C30 at `while true do endwhile` from the initial counters. -/
theorem C30_witness :
    CodeGen.visitStmt SymTable.init counters.reset
        (CodeGen.Stmt.whileStmt (Expr.value ValueKind.BOOLVAL "true") []) =
      some ([Instr.LABEL "while0", Instr.LOAD "%0" "1", Instr.FJUMP "%0" "endwhile0",
             Instr.UJUMP "while0", Instr.LABEL "endwhile0"],
            { TEMP := 1, IF := 0, WHILE := 1 }) := by
  obtain ⟨code, h, hc, _⟩ := C30_while_statement_code SymTable.init counters.reset
    (Expr.value ValueKind.BOOLVAL "true") []
    ({ addr := "%0", offs := "", code := [Instr.LOAD "%0" "1"] },
     { TEMP := 1, IF := 0, WHILE := 0 })
    ([], { TEMP := 1, IF := 0, WHILE := 0 }) (by decide) rfl
  rw [h, hc]
  decide


/-! ### Code of calls, operators and string literals; reads and call safety -/

namespace CodeGen

theorem visitParams_segments {S : SymTable} :
    ∀ (es : List Expr) (ps : List Ty) (i0 : Nat) (c : counters) (rp : instructionList × counters),
      visitParams S ps i0 c es = some rp →
      ∃ segs : List instructionList, rp.1 = segs.flatten ∧ segs.length = es.length ∧
        ∀ (j : Nat) (e : Expr), es.get? j = some e →
          ∃ (cj : counters) (re : CodeAttribs × counters) (p te : Ty),
            visitExpr S cj e = some re ∧ ps.get? (i0 + j) = some p ∧
            TypeCheck.getTypeDecor S e = some te ∧
            segs.get? j = some (pushParam p te re.1 re.2).1
  | [], ps, i0, c, rp, h => by
    simp only [visitParams, Option.some.injEq] at h
    subst h
    exact ⟨[], rfl, rfl, by simp⟩
  | e :: es, ps, i0, c, rp, h => by
    simp only [visitParams, Option.bind_eq_bind, Option.bind_eq_some, Option.pure_def,
      Option.some.injEq] at h
    obtain ⟨r1, h1, p, hp, te, hte, rest, hrest, rfl⟩ := h
    obtain ⟨segs, e1, e2, e3⟩ := visitParams_segments es ps (i0 + 1) _ rest hrest
    refine ⟨(pushParam p te r1.1 r1.2).1 :: segs, by simp [e1], by simp [e2], ?_⟩
    intro j x hx
    cases j with
    | zero =>
      simp only [List.get?_cons_zero, Option.some.injEq] at hx
      subst hx
      exact ⟨c, r1, p, te, h1, hp, hte, rfl⟩
    | succ j =>
      simp only [List.get?_cons_succ] at hx
      obtain ⟨cj, re, p', te', a1, a2, a3, a4⟩ := e3 j x hx
      refine ⟨cj, re, p', te', a1, ?_, a3, by simpa using a4⟩
      rw [← a2]
      congr 1
      omega

end CodeGen

/-- C31: for every call `f(args)` (statement form and expression form) whose callee has
a Function type with parameter types `ps`, the emitted code is the return-slot `PUSH`
followed by the code of the argument loop, `CALL f`, exactly one operand-less `POP`
per argument and one `POP` into a fresh temporary; with no argument it is
`PUSH ; CALL f ; POP t`.  The code of the argument loop is, for each argument `e` in
source order, the code of `e` followed by `FLOAT tF, addr ; PUSH tF` when the
parameter type is Float and the type of `e` is Integer, else by
`ALOAD tA, addr ; PUSH tA` when the type of `e` is an Array, else by `PUSH addr`. -/
theorem C31_call_argument_code (S : SymTable) (c : counters) (f : String) (ps : List Ty)
    (R : Ty) (args : List Expr) (hf : (TypeCheck.visitIdent S f).ty = Ty.function ps R) :
    CodeGen.visitStmt S c (CodeGen.Stmt.procCall f args) =
      (CodeGen.visitParams S ps 0 c args).map (fun rp =>
        ([Instr.PUSH none] ++ rp.1 ++ [Instr.CALL f] ++
          List.replicate args.length (Instr.POP none) ++
          [Instr.POP (some (tempName rp.2.TEMP))], rp.2.newTEMP.2)) ∧
    CodeGen.visitExpr S c (Expr.callFunc f args) =
      (CodeGen.visitParams S ps 0 c args).map (fun rp =>
        ({ addr := tempName rp.2.TEMP, offs := "",
           code := [Instr.PUSH none] ++ rp.1 ++ [Instr.CALL f] ++
             List.replicate args.length (Instr.POP none) ++
             [Instr.POP (some (tempName rp.2.TEMP))] }, rp.2.newTEMP.2)) ∧
    CodeGen.visitStmt S c (CodeGen.Stmt.procCall f []) =
      some ([Instr.PUSH none, Instr.CALL f, Instr.POP (some (tempName c.TEMP))],
            c.newTEMP.2) ∧
    ∀ rp, CodeGen.visitParams S ps 0 c args = some rp →
      ∃ segs : List instructionList, rp.1 = segs.flatten ∧ segs.length = args.length ∧
        ∀ (i : Nat) (e : Expr), args.get? i = some e →
          ∃ (ci : counters) (re : CodeGen.CodeAttribs × counters) (p te : Ty),
            CodeGen.visitExpr S ci e = some re ∧ ps.get? i = some p ∧
            TypeCheck.getTypeDecor S e = some te ∧
            (TypesMgr.isFloatTy p = true ∧ TypesMgr.isIntegerTy te = true →
              segs.get? i = some (re.1.code ++
                [Instr.FLOAT (tempName re.2.TEMP) re.1.addr,
                 Instr.PUSH (some (tempName re.2.TEMP))])) ∧
            (¬(TypesMgr.isFloatTy p = true ∧ TypesMgr.isIntegerTy te = true) →
              TypesMgr.isArrayTy te = true →
              segs.get? i = some (re.1.code ++
                [Instr.ALOAD (tempName re.2.TEMP) re.1.addr,
                 Instr.PUSH (some (tempName re.2.TEMP))])) ∧
            (¬(TypesMgr.isFloatTy p = true ∧ TypesMgr.isIntegerTy te = true) →
              TypesMgr.isArrayTy te = false →
              segs.get? i = some (re.1.code ++ [Instr.PUSH (some re.1.addr)])) := by
  have hv : TypesMgr.isVoidTy (TypeCheck.visitIdent S f).ty = false := by rw [hf]; rfl
  have hp : TypesMgr.getFuncParamsTypes (TypeCheck.visitIdent S f).ty = some ps := by
    rw [hf]; rfl
  refine ⟨?_, ?_, ?_, ?_⟩
  · cases args with
    | nil => simp [CodeGen.visitStmt, CodeGen.visitParams, CodeGen.callCode, hv, tempName,
        counters.newTEMP]
    | cons e es =>
      simp only [CodeGen.visitStmt, hp, Option.pure_def, Option.bind_eq_bind, Option.some_bind]
      cases CodeGen.visitParams S ps 0 c (e :: es) with
      | none => rfl
      | some rp => simp [CodeGen.callCode, hv, tempName, counters.newTEMP]
  · cases args with
    | nil => simp [CodeGen.visitExpr, CodeGen.visitParams, CodeGen.callCode, hv, tempName,
        counters.newTEMP, CodeGen.visitIdent]
    | cons e es =>
      simp only [CodeGen.visitExpr, hp, Option.pure_def, Option.bind_eq_bind, Option.some_bind]
      cases CodeGen.visitParams S ps 0 c (e :: es) with
      | none => rfl
      | some rp => simp [CodeGen.callCode, hv, tempName, counters.newTEMP, CodeGen.visitIdent]
  · simp [CodeGen.visitStmt, CodeGen.callCode, hv, tempName, counters.newTEMP]
  · intro rp h
    obtain ⟨segs, e1, e2, e3⟩ := CodeGen.visitParams_segments args ps 0 c rp h
    refine ⟨segs, e1, e2, ?_⟩
    intro i e he
    obtain ⟨ci, re, p, te, a1, a2, a3, a4⟩ := e3 i e he
    rw [Nat.zero_add] at a2
    refine ⟨ci, re, p, te, a1, a2, a3, ?_, ?_, ?_⟩
    · rintro ⟨x1, x2⟩
      rw [a4]
      simp [CodeGen.pushParam, x1, x2, tempName, counters.newTEMP]
    · intro x1 x2
      have x3 : (TypesMgr.isFloatTy p && TypesMgr.isIntegerTy te) = false := by
        rw [Bool.and_eq_false_iff]
        by_contra hh
        simp only [not_or, Bool.not_eq_false] at hh
        exact x1 hh
      rw [a4]
      simp [CodeGen.pushParam, x3, x2, tempName, counters.newTEMP]
    · intro x1 x2
      have x3 : (TypesMgr.isFloatTy p && TypesMgr.isIntegerTy te) = false := by
        rw [Bool.and_eq_false_iff]
        by_contra hh
        simp only [not_or, Bool.not_eq_false] at hh
        exact x1 hh
      rw [a4]
      simp [CodeGen.pushParam, x3, x2]

/-- C32: for every arithmetic node `a op b` with `op` one of `+`, `-`, `*`, `/` whose
operands are generated as `(addrA, codeA)` and `(addrB, codeB)` and are decorated with
Numeric types, with `t` the temporary minted for the result: if both operands are
Integer the code is `codeA ++ codeB ++ [ADD/SUB/MUL/DIV t, addrA, addrB]`, with no
`FLOAT`; if `a` is Integer and `b` Float it is `codeA ++ codeB ++ [FLOAT tF, addrA,
FADD/FSUB/FMUL/FDIV t, tF, addrB]`; if `a` is Float and `b` Integer it is `codeA ++
codeB ++ [FLOAT tF, addrB, F.. t, addrA, tF]`; if both are Float it is `codeA ++ codeB
++ [F.. t, addrA, addrB]`, with no `FLOAT`. -/
theorem C32_arithmetic_code (S : SymTable) (c : counters) (e0 e1 : Expr)
    (rA rB : CodeGen.CodeAttribs × counters) (t1 t2 : Ty)
    (hA : CodeGen.visitExpr S c e0 = some rA) (hB : CodeGen.visitExpr S rA.2 e1 = some rB)
    (d1 : TypeCheck.getTypeDecor S e0 = some t1) (d2 : TypeCheck.getTypeDecor S e1 = some t2) :
    ∀ q ∈ [(ArithOp.PLUS, Instr.ADD, Instr.FADD), (ArithOp.MIN, Instr.SUB, Instr.FSUB),
           (ArithOp.MUL, Instr.MUL, Instr.FMUL), (ArithOp.DIV, Instr.DIV, Instr.FDIV)],
      (t1 = Ty.integer → t2 = Ty.integer →
        CodeGen.visitExpr S c (Expr.arithmetic q.1 e0 e1) =
          some ({ addr := tempName rB.2.TEMP, offs := "",
                  code := rA.1.code ++ rB.1.code ++
                    [q.2.1 (tempName rB.2.TEMP) rA.1.addr rB.1.addr] },
                { rB.2 with TEMP := rB.2.TEMP + 1 })) ∧
      (t1 = Ty.integer → t2 = Ty.float →
        CodeGen.visitExpr S c (Expr.arithmetic q.1 e0 e1) =
          some ({ addr := tempName rB.2.TEMP, offs := "",
                  code := rA.1.code ++ rB.1.code ++
                    [Instr.FLOAT (tempName (rB.2.TEMP + 1)) rA.1.addr,
                     q.2.2 (tempName rB.2.TEMP) (tempName (rB.2.TEMP + 1)) rB.1.addr] },
                { rB.2 with TEMP := rB.2.TEMP + 2 })) ∧
      (t1 = Ty.float → t2 = Ty.integer →
        CodeGen.visitExpr S c (Expr.arithmetic q.1 e0 e1) =
          some ({ addr := tempName rB.2.TEMP, offs := "",
                  code := rA.1.code ++ rB.1.code ++
                    [Instr.FLOAT (tempName (rB.2.TEMP + 1)) rB.1.addr,
                     q.2.2 (tempName rB.2.TEMP) rA.1.addr (tempName (rB.2.TEMP + 1))] },
                { rB.2 with TEMP := rB.2.TEMP + 2 })) ∧
      (t1 = Ty.float → t2 = Ty.float →
        CodeGen.visitExpr S c (Expr.arithmetic q.1 e0 e1) =
          some ({ addr := tempName rB.2.TEMP, offs := "",
                  code := rA.1.code ++ rB.1.code ++
                    [q.2.2 (tempName rB.2.TEMP) rA.1.addr rB.1.addr] },
                { rB.2 with TEMP := rB.2.TEMP + 1 })) := by
  intro q hq
  simp only [List.mem_cons, List.mem_singleton, List.not_mem_nil, or_false] at hq
  rcases hq with rfl | rfl | rfl | rfl <;>
    refine ⟨?_, ?_, ?_, ?_⟩ <;> rintro rfl rfl <;>
    simp [CodeGen.visitExpr, hA, hB, d1, d2, CodeGen.arithmetic, CodeGen.arithmeticInt,
      CodeGen.arithmeticFloat, CodeGen.floatOperands, TypesMgr.isFloatTy, TypesMgr.isIntegerTy,
      tempName, counters.newTEMP]

/-- C33: for every relational node `a op b` whose operands are generated as
`(A, codeA)` and `(B, codeB)`, with `t` the temporary minted for the result.  If
neither operand is decorated Float: `<` and `<=` emit `LT/LE t,A,B`, `>` and `>=` emit
`LT/LE t,B,A`, `==` emits `EQ t,A,B` and `!=` emits `EQ t,A,B ; NOT t,t`, after
`codeA ++ codeB`.  If an operand is decorated Float the same holds with `FLT`, `FLE`,
`FEQ` and with an Integer operand replaced by the target `tF` of a conversion
`FLOAT tF, addr` emitted after `codeA ++ codeB`. -/
theorem C33_relational_code (S : SymTable) (c : counters) (e0 e1 : Expr)
    (rA rB : CodeGen.CodeAttribs × counters) (t1 t2 : Ty)
    (hA : CodeGen.visitExpr S c e0 = some rA) (hB : CodeGen.visitExpr S rA.2 e1 = some rB)
    (d1 : TypeCheck.getTypeDecor S e0 = some t1) (d2 : TypeCheck.getTypeDecor S e1 = some t2) :
    ∀ q ∈ [(RelOp.LT, fun t a b => [Instr.LT t a b], fun t a b => [Instr.FLT t a b]),
           (RelOp.LTE, fun t a b => [Instr.LE t a b], fun t a b => [Instr.FLE t a b]),
           (RelOp.GT, fun t a b => [Instr.LT t b a], fun t a b => [Instr.FLT t b a]),
           (RelOp.GTE, fun t a b => [Instr.LE t b a], fun t a b => [Instr.FLE t b a]),
           (RelOp.EQUAL, fun t a b => [Instr.EQ t a b], fun t a b => [Instr.FEQ t a b]),
           (RelOp.NEQ, fun t a b => [Instr.EQ t a b, Instr.NOT t t],
                       fun t a b => [Instr.FEQ t a b, Instr.NOT t t])],
      (t1 ≠ Ty.float → t2 ≠ Ty.float →
        CodeGen.visitExpr S c (Expr.relational q.1 e0 e1) =
          some ({ addr := tempName rB.2.TEMP, offs := "",
                  code := rA.1.code ++ rB.1.code ++
                    q.2.1 (tempName rB.2.TEMP) rA.1.addr rB.1.addr },
                { rB.2 with TEMP := rB.2.TEMP + 1 })) ∧
      (t1 = Ty.integer → t2 = Ty.float →
        CodeGen.visitExpr S c (Expr.relational q.1 e0 e1) =
          some ({ addr := tempName rB.2.TEMP, offs := "",
                  code := rA.1.code ++ rB.1.code ++
                    [Instr.FLOAT (tempName (rB.2.TEMP + 1)) rA.1.addr] ++
                    q.2.2 (tempName rB.2.TEMP) (tempName (rB.2.TEMP + 1)) rB.1.addr },
                { rB.2 with TEMP := rB.2.TEMP + 2 })) ∧
      (t1 = Ty.float → t2 = Ty.integer →
        CodeGen.visitExpr S c (Expr.relational q.1 e0 e1) =
          some ({ addr := tempName rB.2.TEMP, offs := "",
                  code := rA.1.code ++ rB.1.code ++
                    [Instr.FLOAT (tempName (rB.2.TEMP + 1)) rB.1.addr] ++
                    q.2.2 (tempName rB.2.TEMP) rA.1.addr (tempName (rB.2.TEMP + 1)) },
                { rB.2 with TEMP := rB.2.TEMP + 2 })) ∧
      ((t1 = Ty.float ∨ t2 = Ty.float) → t1 ≠ Ty.integer → t2 ≠ Ty.integer →
        CodeGen.visitExpr S c (Expr.relational q.1 e0 e1) =
          some ({ addr := tempName rB.2.TEMP, offs := "",
                  code := rA.1.code ++ rB.1.code ++
                    q.2.2 (tempName rB.2.TEMP) rA.1.addr rB.1.addr },
                { rB.2 with TEMP := rB.2.TEMP + 1 })) := by
  intro q hq
  simp only [List.mem_cons, List.mem_singleton, List.not_mem_nil, or_false] at hq
  have key : ∀ op : RelOp, CodeGen.visitExpr S c (Expr.relational op e0 e1) =
      some (CodeGen.relational op t1 t2 rA.1 rB.1 rB.2) := by
    intro op
    simp [CodeGen.visitExpr, hA, hB, d1, d2]
  rcases hq with rfl | rfl | rfl | rfl | rfl | rfl <;>
    refine ⟨?_, ?_, ?_, ?_⟩
  all_goals first
    | (intro x1 x2
       rw [Ne, ← TypesMgr.isFloatTy_iff, Bool.not_eq_true] at x1 x2
       simp [key, CodeGen.relational, CodeGen.relationalInt, x1, x2, tempName,
         counters.newTEMP])
    | (rintro rfl rfl
       simp [key, CodeGen.relational, CodeGen.relationalFloat, CodeGen.floatOperands,
         TypesMgr.isFloatTy, TypesMgr.isIntegerTy, tempName, counters.newTEMP])
    | (intro x0 x1 x2
       rw [Ne, ← TypesMgr.isIntegerTy_iff, Bool.not_eq_true] at x1 x2
       have x3 : (!(TypesMgr.isFloatTy t1) && !(TypesMgr.isFloatTy t2)) = false := by
         rcases x0 with rfl | rfl <;> simp [TypesMgr.isFloatTy]
       simp [key, CodeGen.relational, CodeGen.relationalFloat, CodeGen.floatOperands,
         x1, x2, x3, tempName, counters.newTEMP])

namespace CodeGen

theorem charBytes_ascii (ch : Char) (h : ch.toNat < 128) : charBytes ch = [ch.toNat] := by
  simp only [charBytes]
  rw [if_pos h]

theorem charBytes_length_pos (ch : Char) : 0 < (charBytes ch).length := by
  simp only [charBytes]
  split_ifs <;> simp

/-- A byte below 128 in the encoding of a character is the whole encoding, and is the
code of the character. -/
theorem charBytes_low (ch : Char) (j x : Nat) (h : (charBytes ch).get? j = some x)
    (hx : x < 128) : j = 0 ∧ charBytes ch = [x] ∧ ch = Char.ofNat x := by
  simp only [charBytes] at h ⊢
  split_ifs at h ⊢ with c1 c2 c3
  · match j, h with
    | 0, h =>
      simp only [List.get?_cons_zero, Option.some.injEq] at h
      exact ⟨rfl, by rw [h], by rw [← h, Char.ofNat_toNat]⟩
    | j + 1, h => simp at h
  · match j, h with
    | 0, h => simp at h; omega
    | 1, h => simp at h; omega
    | j + 2, h => simp at h
  · match j, h with
    | 0, h => simp at h; omega
    | 1, h => simp at h; omega
    | 2, h => simp at h; omega
    | j + 3, h => simp at h
  · match j, h with
    | 0, h => simp at h; omega
    | 1, h => simp at h; omega
    | 2, h => simp at h; omega
    | 3, h => simp at h; omega
    | j + 4, h => simp at h

theorem flatMap_charBytes_ascii :
    ∀ (cs : List Char), (∀ ch ∈ cs, ch.toNat < 128) →
      cs.flatMap charBytes = cs.map Char.toNat
  | [], _ => rfl
  | ch :: cs, h => by
    rw [List.flatMap_cons, List.map_cons, charBytes_ascii ch (h ch (List.mem_cons_self _ _)),
      flatMap_charBytes_ascii cs (fun x hx => h x (List.mem_cons_of_mem _ hx))]
    rfl

/-- The bytes of an ASCII text are the codes of its characters, one byte each. -/
theorem textBytes_ascii (s : String) (h : ∀ ch ∈ s.data, ch.toNat < 128) :
    textBytes s = s.data.map Char.toNat :=
  flatMap_charBytes_ascii s.data h

theorem bytesText_toNat (ch : Char) : bytesText [ch.toNat] = String.mk [ch] := by
  simp only [bytesText, List.map_cons, List.map_nil, Char.ofNat_toNat]

theorem flatMap_charBytes_length (cs : List Char) :
    cs.length ≤ (cs.flatMap charBytes).length := by
  induction cs with
  | nil => simp
  | cons ch cs ih =>
    have := charBytes_length_pos ch
    simp only [List.flatMap_cons, List.length_append, List.length_cons]
    omega

/-- A byte below 128 at index `j` of the bytes of a text is the single byte of one
character of the text: the characters before it fill the `j` bytes before it. -/
theorem flatMap_charBytes_low (x : Nat) (hx : x < 128) :
    ∀ (cs : List Char) (j : Nat), (cs.flatMap charBytes).get? j = some x →
      ∃ pre post, cs = pre ++ Char.ofNat x :: post ∧ (pre.flatMap charBytes).length = j
  | [], j, h => by simp at h
  | ch :: cs, j, h => by
    rw [List.flatMap_cons, List.get?_eq_getElem?] at h
    by_cases hj : j < (charBytes ch).length
    · rw [List.getElem?_append_left hj, ← List.get?_eq_getElem?] at h
      obtain ⟨h1, _, h3⟩ := charBytes_low ch j x h hx
      exact ⟨[], cs, by rw [h3]; rfl, by rw [h1]; rfl⟩
    · rw [List.getElem?_append_right (by omega), ← List.get?_eq_getElem?] at h
      obtain ⟨pre, post, e, hl⟩ := flatMap_charBytes_low x hx cs _ h
      refine ⟨ch :: pre, post, by rw [e]; rfl, ?_⟩
      rw [List.flatMap_cons, List.length_append, hl]
      omega

end CodeGen

theorem get?_append_add {α : Type} (pre tail : List α) (k : Nat) :
    (pre ++ tail).get? (pre.length + k) = tail.get? k := by
  rw [List.get?_eq_getElem?, List.get?_eq_getElem?,
    List.getElem?_append_right (Nat.le_add_right _ _)]
  simp

namespace CodeGen

/-- When every backslash strictly inside a text of at least two characters is followed
by one more character before the last one, the same holds of the bytes of the text. -/
theorem textBytes_backslash_followed (s : String) (hlen : 2 ≤ s.length)
    (H : ∀ i, 1 ≤ i → i + 1 < s.length → s.data.get? i = some '\\' → i + 2 < s.length) :
    2 ≤ (textBytes s).length ∧
    ∀ j, 1 ≤ j → j + 1 < (textBytes s).length → (textBytes s).get? j = some '\\'.toNat →
      j + 2 < (textBytes s).length := by
  have hl : s.length = s.data.length := rfl
  refine ⟨le_trans (hl ▸ hlen) (flatMap_charBytes_length s.data), ?_⟩
  intro j h1 h2 h3
  obtain ⟨pre, post, e, hj⟩ := flatMap_charBytes_low 92 (by decide) s.data j h3
  have e92 : Char.ofNat 92 = '\\' := rfl
  rw [e92] at e
  have hb : textBytes s = pre.flatMap charBytes ++ (92 :: post.flatMap charBytes) := by
    simp only [textBytes, e, List.flatMap_append, List.flatMap_cons]
    rfl
  rw [hb, List.length_append, List.length_cons, hj] at h2 ⊢
  have p1 : 1 ≤ pre.length := by
    cases pre with
    | nil => simp at hj; omega
    | cons a l => simp
  have p2 : 1 ≤ post.length := by
    cases post with
    | nil => simp at h2
    | cons a l => simp
  have g : s.data.get? pre.length = some '\\' := by
    rw [e, ← Nat.add_zero pre.length, get?_append_add]; rfl
  have h4 := H pre.length p1 (by rw [hl, e]; simp; omega) g
  rw [hl, e] at h4
  simp only [List.length_append, List.length_cons] at h4
  have := flatMap_charBytes_length post
  omega

theorem writeStringLoop_exit (s : List Nat) (temp : String) (fuel i : Nat)
    (code : instructionList) (h : s.length ≤ i + 1) :
    writeStringLoop s temp (fuel + 1) i code = some code := by
  unfold writeStringLoop
  rw [if_neg (by omega)]

theorem writeStringLoop_plain (s : List Nat) (temp : String) (fuel i : Nat)
    (code : instructionList) (ch : Nat) (h1 : i + 1 < s.length) (h2 : s.get? i = some ch)
    (h3 : ch ≠ '\\'.toNat) :
    writeStringLoop s temp (fuel + 1) i code =
      writeStringLoop s temp fuel (i + 1) (code ++ writeChar temp ch) := by
  rw [writeStringLoop, if_pos h1]
  simp only [h2, h3, ne_eq, not_false_eq_true, ↓reduceIte, writeChar, List.append_assoc,
    List.singleton_append]

theorem writeStringLoop_run (temp : String) (tail : List Nat) (ht : tail ≠ []) :
    ∀ (body pre : List Nat) (fuel : Nat) (code : instructionList),
      (∀ ch ∈ body, ch ≠ '\\'.toNat) →
      writeStringLoop (pre ++ body ++ tail) temp (fuel + body.length) pre.length code =
        writeStringLoop (pre ++ body ++ tail) temp fuel (pre.length + body.length)
          (code ++ body.flatMap (writeChar temp))
  | [], pre, fuel, code, _ => by simp
  | ch :: rest, pre, fuel, code, hb => by
    have hl : 0 < tail.length := List.length_pos.mpr ht
    have e : pre ++ ch :: rest ++ tail = (pre ++ [ch]) ++ rest ++ tail := by simp
    have h1 : pre.length + 1 < (pre ++ ch :: rest ++ tail).length := by
      simp only [List.length_append, List.length_cons]; omega
    have h2 : (pre ++ ch :: rest ++ tail).get? pre.length = some ch := by
      rw [List.append_assoc, List.get?_eq_getElem?, List.getElem?_append_right (le_refl _)]
      simp
    have hl2 : (pre ++ [ch]).length = pre.length + 1 := by simp
    have ih := writeStringLoop_run temp tail ht rest (pre ++ [ch]) fuel
      (code ++ writeChar temp ch) (fun x hx => hb x (List.mem_cons_of_mem _ hx))
    rw [hl2] at ih
    rw [List.length_cons, ← Nat.add_assoc,
      writeStringLoop_plain _ temp _ _ code ch h1 h2 (hb ch (List.mem_cons_self _ _)), e, ih]
    simp [Nat.add_assoc, Nat.add_comm 1]

/-- The scan of a text does not depend on the fuel once the fuel exceeds the number of
bytes from the index to the end: the fuel given by `visitWriteString` never runs out. -/
theorem writeStringLoop_fuel (s : List Nat) (temp : String) :
    ∀ (n i : Nat) (code : instructionList), s.length ≤ i + n →
      ∀ f1 f2, n + 1 ≤ f1 → n + 1 ≤ f2 →
        writeStringLoop s temp f1 i code = writeStringLoop s temp f2 i code
  | 0, i, code, h, f1, f2, h1, h2 => by
    obtain ⟨g1, rfl⟩ : ∃ g, f1 = g + 1 := ⟨f1 - 1, by omega⟩
    obtain ⟨g2, rfl⟩ : ∃ g, f2 = g + 1 := ⟨f2 - 1, by omega⟩
    rw [writeStringLoop_exit s temp g1 i code (by omega),
      writeStringLoop_exit s temp g2 i code (by omega)]
  | n + 1, i, code, h, f1, f2, h1, h2 => by
    obtain ⟨g1, rfl⟩ : ∃ g, f1 = g + 1 := ⟨f1 - 1, by omega⟩
    obtain ⟨g2, rfl⟩ : ∃ g, f2 = g + 1 := ⟨f2 - 1, by omega⟩
    have ih := fun (i' : Nat) (code' : instructionList) (h' : s.length ≤ i' + n) =>
      writeStringLoop_fuel s temp n i' code' h' g1 g2 (by omega) (by omega)
    by_cases hi : i + 1 < s.length
    · unfold writeStringLoop
      simp only [if_pos hi]
      cases s.get? i with
      | none => rfl
      | some ch =>
        simp only
        by_cases c1 : ch ≠ '\\'.toNat
        · simp only [if_pos c1]
          exact ih _ _ (by omega)
        · simp only [if_neg c1]
          by_cases c2 : i + 2 < s.length
          · simp only [if_pos c2]
            cases s.get? (i + 1) with
            | none => rfl
            | some nx =>
              simp only
              split_ifs <;> exact ih _ _ (by omega)
          · simp only [if_neg c2]
    · rw [writeStringLoop_exit s temp g1 i code (by omega),
        writeStringLoop_exit s temp g2 i code (by omega)]

/-- Whatever the token text, `visitWriteString` returns what the scan returns with any
larger fuel: a missing result is a failed assertion, never a lack of fuel. -/
theorem visitWriteString_fuel (STRING : String) (c : counters) (fuel : Nat)
    (h : (textBytes STRING).length ≤ fuel) :
    visitWriteString STRING c =
      (writeStringLoop (textBytes STRING) (tempName c.TEMP) (fuel + 1) 1 []).map
        (fun code => (code, { c with TEMP := c.TEMP + 1 })) := by
  simp only [visitWriteString]
  rw [writeStringLoop_fuel (textBytes STRING) _ (textBytes STRING).length 1 []
    (by omega) ((textBytes STRING).length + 1) (fuel + 1) (by omega) (by omega)]
  rfl

theorem flatMap_writeChar_length (temp : String) (body : List Nat) :
    (body.flatMap (writeChar temp)).length = 2 * body.length := by
  induction body with
  | nil => rfl
  | cons x xs ih =>
    simp only [List.flatMap_cons, List.length_append, List.length_cons, ih, writeChar,
      List.length_nil]
    omega

/-- On the codes of characters the byte pairs are the character pairs. -/
theorem flatMap_writeChar_toNat (temp : String) (cs : List Char) :
    (cs.map Char.toNat).flatMap (writeChar temp) =
      cs.flatMap (fun ch => [Instr.CHLOAD temp (String.mk [ch]), Instr.WRITEC temp]) := by
  induction cs with
  | nil => rfl
  | cons x xs ih =>
    simp only [List.map_cons, List.flatMap_cons, ih, writeChar, bytesText_toNat]

end CodeGen

theorem map_eq_quoted {α β : Type} (f : α → β) :
    ∀ (l : List α) (a b : β) (body : List β), l.map f = a :: body ++ [b] →
      ∃ q1 q2 chars, l = q1 :: chars ++ [q2] ∧ f q1 = a ∧ chars.map f = body ∧ f q2 = b := by
  intro l a b body h
  rw [List.cons_append, List.map_eq_cons_iff] at h
  obtain ⟨q1, l1, rfl, h1, h2⟩ := h
  rw [List.map_eq_append_iff] at h2
  obtain ⟨chars, l2, rfl, h3, h4⟩ := h2
  rw [List.map_eq_cons_iff] at h4
  obtain ⟨q2, l3, rfl, h5, h6⟩ := h4
  rw [List.map_eq_nil_iff] at h6
  subst h6
  exact ⟨q1, q2, chars, rfl, h1, h3, h5⟩

/-- C34, the claim refuted: the text between the quotes of the literal `"é"` is one
character, which is not a backslash, and its bytes are `195` and `169`; the generator
emits a `CHLOAD`/`WRITEC` pair for each of the two bytes, four instructions and not the
two of the claim. -/
theorem C34_counterexample :
    ("\"é\"" : String).data = ['"', 'é', '"'] ∧ 'é' ≠ '\\' ∧
    CodeGen.textBytes "\"é\"" = [34, 195, 169, 34] ∧
    CodeGen.visitWriteString "\"é\"" counters.reset =
      some ([Instr.CHLOAD "%0" (CodeGen.bytesText [195]), Instr.WRITEC "%0",
             Instr.CHLOAD "%0" (CodeGen.bytesText [169]), Instr.WRITEC "%0"],
            { TEMP := 1, IF := 0, WHILE := 0 }) ∧
    [Instr.CHLOAD "%0" (CodeGen.bytesText [195]), Instr.WRITEC "%0",
     Instr.CHLOAD "%0" (CodeGen.bytesText [169]), Instr.WRITEC "%0"].length ≠
      2 * ['é'].length := by
  decide

/-- C34, amended: for every string literal whose text between the enclosing quotes
consists of the bytes `body`, none of which is a backslash, `visitWriteString` returns
exactly, for each byte `x` of `body` in order, `CHLOAD t, x ; WRITEC t` on the one
temporary `t` minted for the statement: `2 * body.length` instructions, none for the
empty literal.  When the text is ASCII the bytes are its characters: the text between
the quotes has `body.length` characters, none a backslash, and the code is
`CHLOAD t, ch ; WRITEC t` for each character `ch` in order. -/
theorem C34_one_pair_for_each_byte (STRING : String) (c : counters) (a b : Nat)
    (body : List Nat) (hs : CodeGen.textBytes STRING = a :: body ++ [b])
    (hb : ∀ x ∈ body, x ≠ '\\'.toNat) :
    CodeGen.visitWriteString STRING c =
      some (body.flatMap (fun x =>
              [Instr.CHLOAD (tempName c.TEMP) (CodeGen.bytesText [x]),
               Instr.WRITEC (tempName c.TEMP)]),
            { c with TEMP := c.TEMP + 1 }) ∧
    (body.flatMap (fun x =>
      [Instr.CHLOAD (tempName c.TEMP) (CodeGen.bytesText [x]),
       Instr.WRITEC (tempName c.TEMP)])).length = 2 * body.length ∧
    ((∀ ch ∈ STRING.data, ch.toNat < 128) →
      ∃ (q1 q2 : Char) (chars : List Char),
        STRING.data = q1 :: chars ++ [q2] ∧ chars.length = body.length ∧
        (∀ ch ∈ chars, ch ≠ '\\') ∧
        CodeGen.visitWriteString STRING c =
          some (chars.flatMap (fun ch =>
                  [Instr.CHLOAD (tempName c.TEMP) (String.mk [ch]),
                   Instr.WRITEC (tempName c.TEMP)]),
                { c with TEMP := c.TEMP + 1 })) := by
  have e : CodeGen.textBytes STRING = [a] ++ body ++ [b] := by rw [hs]; rfl
  have h := CodeGen.writeStringLoop_run (tempName c.TEMP) [b] (by simp) body [a] 3 [] hb
  rw [← e] at h
  have hx := CodeGen.writeStringLoop_exit (CodeGen.textBytes STRING) (tempName c.TEMP) 2
    ([a].length + body.length)
    ([] ++ body.flatMap (writeChar (tempName c.TEMP))) (by rw [hs]; simp; omega)
  have f : 2 + body.length + 1 = 3 + body.length := by omega
  have main : CodeGen.visitWriteString STRING c =
      some (body.flatMap (writeChar (tempName c.TEMP)), { c with TEMP := c.TEMP + 1 }) := by
    rw [CodeGen.visitWriteString_fuel STRING c (2 + body.length) (by rw [hs]; simp; omega), f]
    show Option.map _
      (CodeGen.writeStringLoop (CodeGen.textBytes STRING) (tempName c.TEMP) _ [a].length []) = _
    rw [h, hx]
    rfl
  refine ⟨main, CodeGen.flatMap_writeChar_length (tempName c.TEMP) body, fun hA => ?_⟩
  rw [CodeGen.textBytes_ascii STRING hA] at hs
  obtain ⟨q1, q2, chars, h1, _, h3, _⟩ := map_eq_quoted Char.toNat STRING.data a b body hs
  refine ⟨q1, q2, chars, h1, by rw [← h3, List.length_map], ?_, ?_⟩
  · intro ch hch hc
    exact hb ch.toNat (by rw [← h3]; exact List.mem_map_of_mem _ hch) (by rw [hc])
  · rw [main, ← h3, CodeGen.flatMap_writeChar_toNat]

/-- C36: for every read statement whose left expression `L` is analysed, the statement
reports, after the diagnostics of `L`: read-write-requires-basic exactly when the type
of `L` is not Error, not primitive and not a Function type; then, independently,
non-referenceable-expression exactly when the type of `L` is not Error and `L` is not
an l-value.  Consequently a target of type Error reports nothing of its own, and a
read whose target is a function identifier reports exactly one diagnostic,
non-referenceable-expression. -/
theorem C36_read_diagnostics (S : SymTable) (l : LeftExpr) (a : TypeCheck.Attr)
    (h : TypeCheck.visitLeft_expr S l = some a) :
    (∃ eff, TypeCheck.visitStmt S (TypeCheck.Stmt.readStmt l) = some eff ∧
      eff.errors = a.errors ++
        (if TypesMgr.isErrorTy a.ty = false ∧ TypesMgr.isPrimitiveTy a.ty = false ∧
            TypesMgr.isFunctionTy a.ty = false then
          [TypeCheck.SemError.readWriteRequireBasic
            (TypeCheck.Node.statement (TypeCheck.Stmt.readStmt l))] else []) ++
        (if TypesMgr.isErrorTy a.ty = false ∧ a.isLValue = false then
          [TypeCheck.SemError.nonReferenceableExpression
            (TypeCheck.Node.statement (TypeCheck.Stmt.readStmt l))] else []) ∧
      (a.ty = Ty.error → eff.errors = a.errors)) ∧
    (∀ (f : String) (en : SymEntry) (ps : List Ty) (R : Ty),
      S.findInStack f = some en → en.cls = SymClass.function → en.ty = Ty.function ps R →
      ∃ eff, TypeCheck.visitStmt S (TypeCheck.Stmt.readStmt ⟨f, none⟩) = some eff ∧
        eff.errors = [TypeCheck.SemError.nonReferenceableExpression
          (TypeCheck.Node.statement (TypeCheck.Stmt.readStmt ⟨f, none⟩))]) := by
  refine ⟨⟨_, by simp only [TypeCheck.visitStmt, h]; rfl, ?_, ?_⟩, ?_⟩
  · cases h1 : TypesMgr.isErrorTy a.ty <;> cases h2 : TypesMgr.isPrimitiveTy a.ty <;>
      cases h3 : TypesMgr.isFunctionTy a.ty <;> cases h4 : a.isLValue <;> simp
  · intro he
    rw [← TypesMgr.isErrorTy_iff] at he
    simp [he]
  · intro f en ps R h1 h2 h3
    have hc : S.isFunctionClass f = true := by simp [SymTable.isFunctionClass, h1, h2]
    have hl : TypeCheck.visitLeft_expr S ⟨f, none⟩ =
        some { ty := Ty.function ps R, isLValue := false, errors := [],
               decor := [TypeCheck.Decor.putType (TypeCheck.Node.ident f) (Ty.function ps R),
                         TypeCheck.Decor.putIsLValue (TypeCheck.Node.ident f) false,
                         TypeCheck.Decor.putIsLValue (TypeCheck.Node.left_expr ⟨f, none⟩) false,
                         TypeCheck.Decor.putType (TypeCheck.Node.left_expr ⟨f, none⟩)
                           (Ty.function ps R)] } := by
      simp [TypeCheck.visitLeft_expr, TypeCheck.visitIdent, h1, h3, hc, TypesMgr.isErrorTy]
    exact ⟨_, by simp only [TypeCheck.visitStmt, hl]; rfl,
      by simp [TypesMgr.isErrorTy, TypesMgr.isPrimitiveTy, TypesMgr.isFunctionTy,
        TypesMgr.isIntegerTy, TypesMgr.isFloatTy, TypesMgr.isBooleanTy,
        TypesMgr.isCharacterTy]⟩

/-- C37, the divergence: for the call expression `u()` with `u` undeclared the callee has
type Error, which is no Function type and on which `getFuncReturnType` is not given;
`visitCallFunc` takes its `else` branch, whose first step applies `getFuncReturnType`
to that type, so the visit has no result.  The statement form `u();` guards the same
queries with `not isErrorTy(t1)` and reports the undeclared identifier only. -/
theorem C37_function_queries_on_an_error_callee :
    (TypeCheck.visitIdent SymTable.init "u").ty = Ty.error ∧
    TypesMgr.isFunctionTy (TypeCheck.visitIdent SymTable.init "u").ty = false ∧
    TypesMgr.getFuncReturnType (TypeCheck.visitIdent SymTable.init "u").ty = none ∧
    TypeCheck.visitExpr SymTable.init (Expr.callFunc "u" []) = none ∧
    (TypeCheck.visitStmt SymTable.init (TypeCheck.Stmt.procCall "u" [])).map
        (fun eff => eff.errors) =
      some [TypeCheck.SemError.undeclaredIdent (TypeCheck.Node.token "u")] :=
  ⟨rfl, rfl, rfl, rfl, rfl⟩

namespace CodeGen

theorem exprCases_offs (S : SymTable) :
    ExprCases S (fun _ _ r => r.1.offs = "") (fun _ _ _ _ _ => True) where
  paren := fun _ _ _ h => h
  arr := by
    intro ident index c r1 _
    simp only [array]
    split <;> rfl
  un := fun _ _ _ _ _ _ _ => rfl
  val := fun _ _ _ => rfl
  call0 := fun _ _ => rfl
  call := fun _ _ _ _ _ _ _ _ _ => rfl
  idt := fun _ _ => rfl
  arith := by
    intro op e0 e1 c r1 r2 t1 t2 _ _ _ _
    simp only [arithmetic]
    split <;> rfl
  rel := by
    intro op e0 e1 c r1 r2 t1 t2 _ _ _ _
    simp only [relational]
    split <;> rfl
  log := fun _ _ _ _ _ _ _ _ => rfl
  nil := fun _ _ _ => trivial
  cons := fun _ _ _ _ _ _ _ _ _ _ _ _ _ => trivial

end CodeGen

/-- C38: the triple that the generator returns for an expression node of any kind has
an empty `offs`; so has the triple of a non-indexed left expression, while an indexed
left expression returns as `offs` the address of its index; and in every assignment
that is generated, the right-hand side handed to the assignment code has `offs2`
equal to the empty string. -/
theorem C38_offs_is_empty_for_expressions (S : SymTable) :
    (∀ (e : Expr) (c : counters) (r : CodeGen.CodeAttribs × counters),
      CodeGen.visitExpr S c e = some r → r.1.offs = "") ∧
    (∀ (ident : String) (c : counters),
      CodeGen.visitLeft_expr S c ⟨ident, none⟩ = some ({ addr := ident, offs := "", code := [] }, c)) ∧
    (∀ (ident : String) (E : Expr) (c : counters) (r : CodeGen.CodeAttribs × counters),
      CodeGen.visitLeft_expr S c ⟨ident, some E⟩ = some r →
      ∃ rE, CodeGen.visitExpr S c E = some rE ∧ r.1.offs = rE.1.addr) ∧
    (∀ (l : LeftExpr) (e : Expr) (c : counters) (r : instructionList × counters),
      CodeGen.visitStmt S c (CodeGen.Stmt.assignStmt l e) = some r →
      ∃ r1 r2 t2, CodeGen.visitLeft_expr S c l = some r1 ∧
        CodeGen.visitExpr S r1.2 e = some r2 ∧ TypeCheck.getTypeDecor S e = some t2 ∧
        r2.1.offs = "" ∧
        CodeGen.assign S (TypeCheck.visitIdent S l.ident).ty t2 r1.1 r2.1 r2.2 = some r) := by
  refine ⟨CodeGen.visitExpr_cases (CodeGen.exprCases_offs S), ?_, ?_, ?_⟩
  · intro ident c
    rfl
  · intro ident E c r h
    simp only [CodeGen.visitLeft_expr, Option.bind_eq_bind, Option.bind_eq_some,
      Option.pure_def] at h
    obtain ⟨rE, hE, h⟩ := h
    refine ⟨rE, hE, ?_⟩
    split at h <;> simp only [Option.some.injEq] at h <;> rw [← h]
  · intro l e c r h
    simp only [CodeGen.visitStmt, Option.bind_eq_bind, Option.bind_eq_some] at h
    obtain ⟨r1, h1, r2, h2, t2, h3, h4⟩ := h
    exact ⟨r1, r2, t2, h1, h2, h3,
      CodeGen.visitExpr_cases (CodeGen.exprCases_offs S) e _ r2 h2, h4⟩

/-- C39: for every string literal text `s` of at least 2 bytes in which every backslash
strictly inside the quotes (at an index `i` with `1 ≤ i` and `i + 1 < s.size()`) is
followed by one more byte before the closing quote (`i + 2 < s.size()`), the scanning
loop of `visitWriteString` returns a code list: its assertion never fails, it never
reads the text out of bounds, and it ends within `s.size() - 1` iterations, whatever
larger number of iterations it is allowed.  The condition is on the bytes of the text,
which `s.size()` counts and `s[i]` reads; by `CodeGen.textBytes_backslash_followed` it
holds whenever the same condition holds of the characters of the text. -/
theorem C39_string_scan_terminates (STRING : String) (c : counters)
    (hlen : 2 ≤ (CodeGen.textBytes STRING).length)
    (H : ∀ i, 1 ≤ i → i + 1 < (CodeGen.textBytes STRING).length →
      (CodeGen.textBytes STRING).get? i = some '\\'.toNat →
      i + 2 < (CodeGen.textBytes STRING).length) :
    ∃ code,
      (∀ fuel, (CodeGen.textBytes STRING).length - 1 ≤ fuel →
        CodeGen.writeStringLoop (CodeGen.textBytes STRING) (tempName c.TEMP) fuel 1 [] =
          some code) ∧
      CodeGen.visitWriteString STRING c = some (code, { c with TEMP := c.TEMP + 1 }) := by
  have key : ∀ (n i : Nat) (code : instructionList), 1 ≤ i →
      i + 1 ≤ (CodeGen.textBytes STRING).length →
      (CodeGen.textBytes STRING).length - i ≤ n →
      ∃ r, ∀ fuel, n ≤ fuel →
        CodeGen.writeStringLoop (CodeGen.textBytes STRING) (tempName c.TEMP) fuel i code =
          some r := by
    intro n
    induction n with
    | zero => intro i code _ h1 h2; omega
    | succ n ih =>
      intro i code h0 h1 h2
      by_cases hi : i + 1 < (CodeGen.textBytes STRING).length
      · obtain ⟨ch, hch⟩ : ∃ ch, (CodeGen.textBytes STRING).get? i = some ch := by
          rw [List.get?_eq_getElem?, List.getElem?_eq_getElem (by omega)]
          exact ⟨_, rfl⟩
        by_cases hb : ch = '\\'.toNat
        · subst hb
          have h3 : i + 2 < (CodeGen.textBytes STRING).length := H i h0 hi hch
          obtain ⟨nx, hnx⟩ : ∃ nx, (CodeGen.textBytes STRING).get? (i + 1) = some nx := by
            rw [List.get?_eq_getElem?, List.getElem?_eq_getElem (by omega)]
            exact ⟨_, rfl⟩
          by_cases c1 : nx = 'n'.toNat
          · obtain ⟨r, hr⟩ := ih (i + 2) (code ++ [Instr.WRITELN]) (by omega) (by omega)
              (by omega)
            refine ⟨r, fun fuel hf => ?_⟩
            obtain ⟨f, rfl⟩ : ∃ f, fuel = f + 1 := ⟨fuel - 1, by omega⟩
            rw [CodeGen.writeStringLoop, if_pos hi]
            simp only [hch, hnx, c1, ne_eq, not_true_eq_false, ↓reduceIte, h3]
            exact hr f (by omega)
          · by_cases c2 : nx = 't'.toNat ∨ nx = '"'.toNat ∨ nx = '\\'.toNat
            · obtain ⟨r, hr⟩ := ih (i + 2)
                (code ++ [Instr.CHLOAD (tempName c.TEMP) (CodeGen.bytesText ['\\'.toNat, nx])] ++
                  [Instr.WRITEC (tempName c.TEMP)]) (by omega) (by omega) (by omega)
              refine ⟨r, fun fuel hf => ?_⟩
              obtain ⟨f, rfl⟩ : ∃ f, fuel = f + 1 := ⟨fuel - 1, by omega⟩
              rw [CodeGen.writeStringLoop, if_pos hi]
              simp only [hch, hnx, c1, c2, ne_eq, not_true_eq_false, ↓reduceIte, h3]
              exact hr f (by omega)
            · obtain ⟨r, hr⟩ := ih (i + 1)
                (code ++ [Instr.CHLOAD (tempName c.TEMP) (CodeGen.bytesText ['\\'.toNat])] ++
                  [Instr.WRITEC (tempName c.TEMP)]) (by omega) (by omega) (by omega)
              refine ⟨r, fun fuel hf => ?_⟩
              obtain ⟨f, rfl⟩ : ∃ f, fuel = f + 1 := ⟨fuel - 1, by omega⟩
              rw [CodeGen.writeStringLoop, if_pos hi]
              simp only [hch, hnx, c1, c2, ne_eq, not_true_eq_false, ↓reduceIte, h3]
              exact hr f (by omega)
        · obtain ⟨r, hr⟩ := ih (i + 1)
            (code ++ [Instr.CHLOAD (tempName c.TEMP) (CodeGen.bytesText [ch])] ++
              [Instr.WRITEC (tempName c.TEMP)]) (by omega) (by omega) (by omega)
          refine ⟨r, fun fuel hf => ?_⟩
          obtain ⟨f, rfl⟩ : ∃ f, fuel = f + 1 := ⟨fuel - 1, by omega⟩
          rw [CodeGen.writeStringLoop, if_pos hi]
          simp only [hch, hb, ne_eq, not_false_eq_true, ↓reduceIte]
          exact hr f (by omega)
      · refine ⟨code, fun fuel hf => ?_⟩
        obtain ⟨f, rfl⟩ : ∃ f, fuel = f + 1 := ⟨fuel - 1, by omega⟩
        exact CodeGen.writeStringLoop_exit _ _ _ _ _ (by omega)
  obtain ⟨r, hr⟩ := key ((CodeGen.textBytes STRING).length - 1) 1 [] (le_refl 1) hlen (le_refl _)
  refine ⟨r, hr, ?_⟩
  simp only [CodeGen.visitWriteString]
  show Option.map _
    (CodeGen.writeStringLoop (CodeGen.textBytes STRING) (tempName c.TEMP) _ 1 []) = _
  rw [hr ((CodeGen.textBytes STRING).length + 1) (by omega)]
  rfl

/-- C31 at `g(a)` in `exampleCallTable`, where `g` takes one Float and `a` is Integer:
the statement is `PUSH ; FLOAT %0, a ; PUSH %0 ; CALL g ; POP ; POP %1`. -/
theorem C31_witness :
    CodeGen.visitStmt exampleCallTable counters.reset
        (CodeGen.Stmt.procCall "g" [Expr.exprIdent "a"]) =
      some ([Instr.PUSH none, Instr.FLOAT "%0" "a", Instr.PUSH (some "%0"), Instr.CALL "g",
             Instr.POP none, Instr.POP (some "%1")], { TEMP := 2, IF := 0, WHILE := 0 }) ∧
    CodeGen.visitStmt exampleCallTable counters.reset (CodeGen.Stmt.procCall "g" []) =
      some ([Instr.PUSH none, Instr.CALL "g", Instr.POP (some "%0")],
            { TEMP := 1, IF := 0, WHILE := 0 }) := by
  have h := C31_call_argument_code exampleCallTable counters.reset "g" [Ty.float] Ty.integer
    [Expr.exprIdent "a"] rfl
  exact ⟨h.1.trans (by decide), h.2.2.1.trans (by decide)⟩

/-- C32 at `a + b` in `exampleIntFloatTable`, with `a` Integer and `b` Float:
`FLOAT %1, a ; FADD %0, %1, b`. -/
theorem C32_witness :
    CodeGen.visitExpr exampleIntFloatTable counters.reset
        (Expr.arithmetic ArithOp.PLUS (Expr.exprIdent "a") (Expr.exprIdent "b")) =
      some ({ addr := "%0", offs := "",
              code := [Instr.FLOAT "%1" "a", Instr.FADD "%0" "%1" "b"] },
            { TEMP := 2, IF := 0, WHILE := 0 }) := by
  have h := (C32_arithmetic_code exampleIntFloatTable counters.reset (Expr.exprIdent "a")
    (Expr.exprIdent "b") (CodeGen.visitIdent "a", counters.reset)
    (CodeGen.visitIdent "b", counters.reset) Ty.integer Ty.float rfl rfl rfl rfl
    (ArithOp.PLUS, Instr.ADD, Instr.FADD) (by simp)).2.1 rfl rfl
  exact h.trans (by decide)

/-- C33 at `a > b` in `exampleIntFloatTable`, with `a` Integer and `b` Float:
`FLOAT %1, a ; FLT %0, b, %1`. -/
theorem C33_witness :
    CodeGen.visitExpr exampleIntFloatTable counters.reset
        (Expr.relational RelOp.GT (Expr.exprIdent "a") (Expr.exprIdent "b")) =
      some ({ addr := "%0", offs := "",
              code := [Instr.FLOAT "%1" "a", Instr.FLT "%0" "b" "%1"] },
            { TEMP := 2, IF := 0, WHILE := 0 }) := by
  have h := (C33_relational_code exampleIntFloatTable counters.reset (Expr.exprIdent "a")
    (Expr.exprIdent "b") (CodeGen.visitIdent "a", counters.reset)
    (CodeGen.visitIdent "b", counters.reset) Ty.integer Ty.float rfl rfl rfl rfl
    (RelOp.GT, fun t a b => [Instr.LT t b a], fun t a b => [Instr.FLT t b a])
    (by simp)).2.1 rfl rfl
  exact h.trans (by decide)

/-- C34 amended, at the literal `"hi"` from the initial counters. -/
theorem C34_witness :
    CodeGen.visitWriteString "\"hi\"" counters.reset =
      some ([Instr.CHLOAD "%0" "h", Instr.WRITEC "%0", Instr.CHLOAD "%0" "i",
             Instr.WRITEC "%0"], { TEMP := 1, IF := 0, WHILE := 0 }) :=
  (C34_one_pair_for_each_byte "\"hi\"" counters.reset 34 34 [104, 105] (by decide)
    (by decide)).1.trans (by decide)

/-- C36 at `read p` in `exampleCallTable`, where `p` is a function: exactly one
diagnostic, non-referenceable-expression. -/
theorem C36_witness :
    ∃ eff, TypeCheck.visitStmt exampleCallTable (TypeCheck.Stmt.readStmt ⟨"p", none⟩) =
        some eff ∧
      eff.errors = [TypeCheck.SemError.nonReferenceableExpression
        (TypeCheck.Node.statement (TypeCheck.Stmt.readStmt ⟨"p", none⟩))] :=
  (C36_read_diagnostics exampleCallTable ⟨"p", none⟩
    { ty := Ty.function [] Ty.void, isLValue := false, errors := [],
      decor := [TypeCheck.Decor.putType (TypeCheck.Node.ident "p") (Ty.function [] Ty.void),
                TypeCheck.Decor.putIsLValue (TypeCheck.Node.ident "p") false,
                TypeCheck.Decor.putIsLValue (TypeCheck.Node.left_expr ⟨"p", none⟩) false,
                TypeCheck.Decor.putType (TypeCheck.Node.left_expr ⟨"p", none⟩)
                  (Ty.function [] Ty.void)] } rfl).2
    "p" ⟨"p", SymClass.function, Ty.function [] Ty.void⟩ [] Ty.void rfl rfl rfl

/-- C38 at `a[0]` in `exampleS5Table`: as an expression it returns an empty `offs`, as a
left expression the `offs` `%0`, the address of the index. -/
theorem C38_witness :
    (CodeGen.visitExpr exampleS5Table counters.reset
        (Expr.array "a" (Expr.value ValueKind.INTVAL "0"))).map (fun r => r.1.offs) =
      some "" ∧
    (CodeGen.visitLeft_expr exampleS5Table counters.reset
        ⟨"a", some (Expr.value ValueKind.INTVAL "0")⟩).map (fun r => r.1.offs) =
      some "%0" := by
  have h : (CodeGen.visitExpr exampleS5Table counters.reset
      (Expr.array "a" (Expr.value ValueKind.INTVAL "0"))).isSome = true := by decide
  obtain ⟨r, hr⟩ := Option.isSome_iff_exists.mp h
  have ho := (C38_offs_is_empty_for_expressions exampleS5Table).1 _ _ r hr
  exact ⟨by rw [hr]; exact congrArg some ho, by decide⟩

/-- C39 at the literal `"a\n"`, whose only backslash is followed by `n` before the
closing quote: the scan returns `CHLOAD %0, a ; WRITEC %0 ; WRITELN`. -/
theorem C39_witness :
    CodeGen.visitWriteString "\"a\\n\"" counters.reset =
      some ([Instr.CHLOAD "%0" "a", Instr.WRITEC "%0", Instr.WRITELN],
            { TEMP := 1, IF := 0, WHILE := 0 }) := by
  have hl : CodeGen.textBytes "\"a\\n\"" = [34, 97, 92, 110, 34] := by decide
  obtain ⟨code, _, h⟩ := C39_string_scan_terminates "\"a\\n\"" counters.reset
    (by rw [hl]; decide)
    (by
      intro i h1 h2 h3
      rw [hl] at h2 h3 ⊢
      simp only [List.length_cons, List.length_nil] at h2 ⊢
      have h4 : i < 4 := by omega
      interval_cases i
      · exact absurd h3 (by decide)
      · decide
      · exact absurd h3 (by decide))
  rw [h]
  have e : CodeGen.visitWriteString "\"a\\n\"" counters.reset =
      some ([Instr.CHLOAD "%0" "a", Instr.WRITEC "%0", Instr.WRITELN],
            { TEMP := 1, IF := 0, WHILE := 0 }) := by decide
  rw [h] at e
  exact e

end Asl
